import Mathlib

/-!
# The dual-stack undo/redo engine of xfig (`src/u_undo.c`)

A shallow embedding of `u_undo.c` and the properties of its specification.

Memory model.
* A C pointer is `Ptr = Option Nat`: `none` is `NULL`, `some a` an address.
* History records (`F_history`) live in a heap `State.hist`, a list indexed by
  address; `create_history` allocates at the end of the list.  The two stack
  roots `undo_stack` and `redo_stack` are pointers into that heap and the
  records are chained through their `next` field, as in the C code.
* The compound a record owns (`(*stack)->saved_objects`, allocated by
  `create_compound` in `undo_update_history` and never re-pointed) is stored
  inside the record.
* Drawing objects live in typed heaps inside `Scene`; reading through a null or
  dangling pointer is a fault, and every function that dereferences returns
  `Option`, `none` being the fault.
* `int` subtraction wraps to 32 bits (`int_sub`).

External collaborators (everything declared in the headers `u_undo.c`
includes) are not part of the file.  Every call to one is recorded, with its
arguments, in `State.trace`; its effect on the scene is the parameter
`Ext.effect`.  The editing commands of `e_addpt.h`, `e_deletept.h`,
`e_arrow.h` and `e_convert.h` may in addition call back into the staging
interface of this file (the setters and `undo_update_history`): that is the
parameter `Ext.command`.  The diagnostic `fprintf(stdout, ...)` lines are left
out, and the scratch globals `new_l`, `old_l`, ... are local values.
-/

namespace XfigUndo

/-- A C pointer: `none` is `NULL`. -/
abbrev Ptr := Option Nat

/-- The action codes of `mode.h` that `u_undo.c` names; `other` stands for
every remaining `int` value. -/
inductive Action where
  | F_NULL | F_ADD | F_DELETE | F_MOVE | F_EDIT | F_GLUE | F_BREAK | F_LOAD
  | F_SCALE | F_ADD_POINT | F_DELETE_POINT | F_ADD_ARROW_HEAD
  | F_DELETE_ARROW_HEAD | F_CONVERT | F_OPEN_CLOSE | F_JOIN | F_SPLIT
  | other (code : Nat)
  deriving DecidableEq, Repr

/-- The object codes of `object.h` that `u_undo.c` names; `other` stands for
every remaining `int` value. -/
inductive ObjKind where
  | O_POLYLINE | O_ELLIPSE | O_TXT | O_SPLINE | O_ARC | O_COMPOUND | O_FIGURE
  | O_ALL_OBJECT
  | other (code : Nat)
  deriving DecidableEq, Repr

open Action ObjKind

/-- A position (`F_pos`), also used for the points of a line or spline. -/
structure F_pos where
  x : Int
  y : Int
  deriving DecidableEq, Repr

/-- A spline shape factor (`F_sfactor`); the `double` is only copied. -/
structure F_sfactor where
  s : Int
  deriving DecidableEq, Repr

/-- A polyline (`F_line`): the fields `u_undo.c` reads or writes, the point
list, and `rest` for all remaining fields. -/
structure F_line where
  next : Ptr
  type : Int
  depth : Int
  for_arrow : Ptr
  back_arrow : Ptr
  points : List F_pos
  rest : Int
  deriving DecidableEq, Repr

/-- A spline (`F_spline`); `sfactors` is the null-terminated list of shape
factors, `[]` being `NULL`. -/
structure F_spline where
  next : Ptr
  type : Int
  depth : Int
  for_arrow : Ptr
  back_arrow : Ptr
  points : List F_pos
  sfactors : List F_sfactor
  rest : Int
  deriving DecidableEq, Repr

/-- An ellipse (`F_ellipse`). -/
structure F_ellipse where
  next : Ptr
  depth : Int
  rest : Int
  deriving DecidableEq, Repr

/-- A text (`F_text`). -/
structure F_text where
  next : Ptr
  depth : Int
  rest : Int
  deriving DecidableEq, Repr

/-- An arc (`F_arc`). -/
structure F_arc where
  next : Ptr
  depth : Int
  for_arrow : Ptr
  back_arrow : Ptr
  rest : Int
  deriving DecidableEq, Repr

/-- A compound (`F_compound`): the heads of its typed object lists, its
comments, its `next` link, and `rest` for all remaining fields. -/
structure F_compound where
  lines : Ptr
  splines : Ptr
  ellipses : Ptr
  texts : Ptr
  arcs : Ptr
  comments : Ptr
  compounds : Ptr
  next : Ptr
  rest : Int
  deriving DecidableEq, Repr

/-- A history record (`F_history`): every field `u_undo.c` reads or writes
through `undo_stack->`, `redo_stack->` or `(*stack)->`. -/
structure F_history where
  last_action : Action
  last_object : ObjKind
  saved_objects : F_compound
  latest_line : Ptr
  latest_spline : Ptr
  last_prev_point : Ptr
  last_selected_point : Ptr
  last_next_point : Ptr
  last_selected_sfactor : Ptr
  saved_for_arrow : Ptr
  saved_back_arrow : Ptr
  last_for_arrow : Ptr
  last_back_arrow : Ptr
  last_arcpointnum : Int
  last_origin_tension : Int
  last_extremity_tension : Int
  new_x : Int
  new_y : Int
  last_x : Int
  last_y : Int
  next : Ptr
  deriving DecidableEq, Repr

/-- The Staging Area: the exported globals `saved_objects`, `saved_for_arrow`,
`saved_back_arrow`, `latest_line`, `latest_spline`, `last_action` and the
file-static `last_*` variables (lines 71-92). -/
structure Staging where
  saved_objects : F_compound
  saved_for_arrow : Ptr
  saved_back_arrow : Ptr
  latest_line : Ptr
  latest_spline : Ptr
  last_action : Action
  last_object : ObjKind
  last_position : F_pos
  new_position : F_pos
  last_arcpointnum : Int
  last_prev_point : Ptr
  last_selected_point : Ptr
  last_next_point : Ptr
  last_selected_sfactor : Ptr
  last_links : Ptr
  last_for_arrow : Ptr
  last_back_arrow : Ptr
  last_linkmode : Int
  last_origin_tension : Int
  last_extremity_tension : Int
  deriving DecidableEq, Repr

/-- The Scene Graph and the other globals owned by the collaborators: the
live compound `objects`, `object_tails`, the typed object heaps, the
shape-factor nodes that `last_selected_sfactor` can point to, the editor mode,
the two file names and the colour flags `undo_load` assigns. -/
structure Scene where
  objects : F_compound
  object_tails : F_compound
  lines : List F_line
  splines : List F_spline
  ellipses : List F_ellipse
  texts : List F_text
  arcs : List F_arc
  compounds : List F_compound
  sfactors : List F_sfactor
  cur_mode : Action
  cur_filename : String
  save_filename : String
  colors_are_swapped : Bool
  current_memory : Int
  deriving DecidableEq, Repr

/-- The names of the external functions `u_undo.c` calls. -/
inductive Fn where
  | list_add_line | list_add_ellipse | list_add_text | list_add_spline
  | list_add_arc | list_add_compound
  | list_delete_line | list_delete_ellipse | list_delete_text
  | list_delete_spline | list_delete_arc | list_delete_compound
  | list_delete_objects | tail | append_objects | cut_objects
  | add_depth | remove_depth | add_compound_depth | remove_compound_depth
  | redisplay_line | redisplay_ellipse | redisplay_text | redisplay_spline
  | redisplay_arc | redisplay_compound
  | redisplay_lines | redisplay_ellipses | redisplay_texts | redisplay_splines
  | redisplay_arcs | redisplay_compounds
  | redisplay_zoomed_region | redisplay_regions | redisplay_canvas
  | line_bound | ellipse_bound | text_bound | spline_bound | arc_bound
  | compound_bound
  | translate_line | translate_ellipse | translate_text | translate_spline
  | translate_arc | translate_compound
  | adjust_links
  | toggle_markers_in_compound | mask_toggle_compoundmarker | update_markers
  | set_tags | set_modifiedflag | draw_spline
  | update_cur_filename | swap_depths | swap_counts | swap_colors
  | show_pencolor | show_fillcolor
  | linepoint_deleting | splinepoint_deleting | linepoint_adding
  | splinepoint_adding
  | delete_linearrow | delete_splinearrow | delete_arcarrow
  | box_2_box | spline_line | line_spline
  | toggle_polyline_polygon | toggle_open_closed_spline
  deriving DecidableEq, Repr

/-- An argument passed to an external function.  `objects` and `staged` are
the addresses `&objects` and `&saved_objects`; `saved c` is the address of a
record's own compound, whose contents are `c` at the call. -/
inductive Arg where
  | ptr (p : Ptr)
  | int (n : Int)
  | kind (k : ObjKind)
  | str (s : String)
  | objects
  | staged
  | saved (c : F_compound)
  deriving DecidableEq, Repr

/-- One call of an external function.  Output parameters (the bounds) and
values computed from them are not listed. -/
structure Call where
  fn : Fn
  args : List Arg
  deriving DecidableEq, Repr

/-- The global state of `u_undo.c` and of what it acts on. -/
structure State where
  hist : List F_history
  undo_stack : Ptr
  redo_stack : Ptr
  freeze_redo_cleanup : Bool
  freeze_undo_additions : Bool
  staging : Staging
  scene : Scene
  msgs : List String
  compLED : Int
  trace : List Call
  deriving DecidableEq, Repr

/-- What an editing command may do to this file: write staging variables
(the setters, or the exported globals directly), commit, or set the
suppress-additions guard. -/
inductive ApiCall where
  | stage (f : Staging → Staging)
  | undo_update_history
  | set_freeze_undo_additions (val : Bool)

/-- The parts of the program that are not in `u_undo.c`. -/
structure Ext where
  /-- What a call does to the scene. -/
  effect : Call → Scene → Scene
  /-- The staging calls an editing command issues, in order. -/
  command : Call → Scene → List ApiCall
  /-- The record `create_history()` returns, before it is filled in. -/
  create_history : F_history
  /-- The compound `create_compound()` returns, before it is filled in. -/
  create_compound : F_compound
  T_BOX : Int
  T_ARCBOX : Int
  T_POLYGON : Int
  T_OPEN_XSPLINE : Int
  T_CLOSED_XSPLINE : Int
  /-- The `closed_spline` test of `object.h`. -/
  closed_spline : F_spline → Bool

/-- Which of the two stacks a handler was handed: `&undo_stack` or
`&redo_stack`. -/
inductive StackRef where
  | undo | redo
  deriving DecidableEq, Repr

/-- The value of `*stack`. -/
def State.stk (s : State) : StackRef → Ptr
  | .undo => s.undo_stack
  | .redo => s.redo_stack

/-- The assignment `*stack = p`. -/
def State.setStk (s : State) (w : StackRef) (p : Ptr) : State :=
  match w with
  | .undo => { s with undo_stack := p }
  | .redo => { s with redo_stack := p }

/-- The record `*stack` points to; `none` when `*stack` is null or dangling. -/
def State.top (s : State) (w : StackRef) : Option F_history :=
  match s.stk w with
  | none => none
  | some a => s.hist[a]?

/-- An assignment to fields of `**stack`. -/
def State.setTop (s : State) (w : StackRef) (f : F_history → F_history) : Option State :=
  match s.stk w with
  | none => none
  | some a =>
    match s.hist[a]? with
    | none => none
    | some r => some { s with hist := s.hist.set a (f r) }

/-- An assignment to a global owned by the collaborators. -/
def State.mapScene (s : State) (f : Scene → Scene) : State := { s with scene := f s.scene }

/-- An assignment to a staging variable. -/
def State.mapStaging (s : State) (f : Staging → Staging) : State :=
  { s with staging := f s.staging }

/-- The assignment `freeze_redo_cleanup = val`. -/
def State.setFreezeRedo (s : State) (val : Bool) : State := { s with freeze_redo_cleanup := val }

/-- C `int` subtraction, wrapped to 32 bits. -/
def int_sub (a b : Int) : Int := (a - b + 2147483648) % 4294967296 - 2147483648

/-- A call of an external function that is not an editing command. -/
def ext (E : Ext) (fn : Fn) (args : List Arg) (s : State) : State :=
  { s with scene := E.effect ⟨fn, args⟩ s.scene, trace := s.trace ++ [⟨fn, args⟩] }

/-- The call `put_msg(m)`: the status line. -/
def put_msg (m : String) (s : State) : State := { s with msgs := s.msgs ++ [m] }

/-- The call `setCompLED(v)`. -/
def setCompLED (v : Int) (s : State) : State := { s with compLED := v }

/-- Modelled from the spec: `free_history` (`u_free.c`) is not among the
sources; by section 4.1 it discards every record of the stack it is handed,
which leaves that stack empty.  The records stay in the heap, unreachable. -/
def free_history (w : StackRef) (s : State) : State := s.setStk w none

/-- Lines 1160-1214: the new record is linked on top of the undo stack, the
staged values are copied into it and the staged pointers cleared. -/
def push_history (E : Ext) (s : State) : State :=
  let st := s.staging
  let so := st.saved_objects
  let r : F_history :=
    { E.create_history with
      next := s.undo_stack
      saved_objects :=
        { E.create_compound with
          arcs := so.arcs, ellipses := so.ellipses, lines := so.lines,
          splines := so.splines, comments := so.comments, texts := so.texts,
          compounds := so.compounds }
      last_action := st.last_action
      last_object := st.last_object
      last_prev_point := st.last_prev_point
      last_next_point := st.last_next_point
      last_selected_point := st.last_selected_point
      saved_for_arrow := st.saved_for_arrow
      saved_back_arrow := st.saved_back_arrow
      latest_line := st.latest_line
      latest_spline := st.latest_spline
      last_selected_sfactor := st.last_selected_sfactor
      new_x := st.new_position.x
      new_y := st.new_position.y
      last_x := st.last_position.x
      last_y := st.last_position.y }
  { s with
    undo_stack := some s.hist.length
    hist := s.hist ++ [r]
    staging :=
      { st with
        saved_objects :=
          { so with
            arcs := none, ellipses := none, lines := none, splines := none,
            comments := none, texts := none, compounds := none }
        saved_for_arrow := none
        saved_back_arrow := none
        latest_line := none
        latest_spline := none
        last_selected_sfactor := none } }

/-- Lines 1151-1214. -/
def undo_update_history (E : Ext) (s : State) : State :=
  if s.freeze_undo_additions then s
  else if !s.freeze_redo_cleanup then push_history E (free_history .redo s)
  else push_history E s

/-- The staging calls of an editing command, run in order. -/
def runApi (E : Ext) : List ApiCall → State → State
  | [], s => s
  | .stage f :: cs, s => runApi E cs { s with staging := f s.staging }
  | .undo_update_history :: cs, s => runApi E cs (undo_update_history E s)
  | .set_freeze_undo_additions val :: cs, s =>
    runApi E cs { s with freeze_undo_additions := val }

/-- A call of an editing command: its effect on the scene, then the staging
calls it issues. -/
def cmd (E : Ext) (fn : Fn) (args : List Arg) (s : State) : State :=
  runApi E (E.command ⟨fn, args⟩ s.scene)
    { s with scene := E.effect ⟨fn, args⟩ s.scene, trace := s.trace ++ [⟨fn, args⟩] }

/-- Lines 1216-1221. -/
def pop_stack (w : StackRef) (s : State) : Option State :=
  match s.stk w with
  | none => some s
  | some a =>
    match s.hist[a]? with
    | none => none
    | some r => some (s.setStk w r.next)

/-- The choice of `other_stack` in `swap_stack` (lines 1228-1233): the
comparisons are between the pointer `*stack` and the two roots. -/
def other_stack (w : StackRef) (s : State) : Option StackRef :=
  if s.stk w = s.undo_stack then some .redo
  else if s.stk w = s.redo_stack then some .undo
  else none

/-- Lines 1223-1245. -/
def swap_stack (w : StackRef) (s : State) : Option State :=
  match s.stk w with
  | none => some s
  | some element =>
    match other_stack w s with
    | none => some s
    | some o =>
      match pop_stack w s with
      | none => none
      | some s1 =>
        match s1.hist[element]? with
        | none => none
        | some r =>
          some ({ s1 with hist := s1.hist.set element { r with next := s1.stk o } }.setStk o
            (some element))

/-- The objects of a typed heap are chained through `next`. -/
class Linked (α : Type) where
  next : α → Ptr
  setNext : α → Ptr → α

instance : Linked F_line := ⟨F_line.next, fun o p => { o with next := p }⟩
instance : Linked F_spline := ⟨F_spline.next, fun o p => { o with next := p }⟩
instance : Linked F_ellipse := ⟨F_ellipse.next, fun o p => { o with next := p }⟩
instance : Linked F_text := ⟨F_text.next, fun o p => { o with next := p }⟩
instance : Linked F_arc := ⟨F_arc.next, fun o p => { o with next := p }⟩
instance : Linked F_compound := ⟨F_compound.next, fun o p => { o with next := p }⟩

/-- The three `memcpy` calls that exchange `*old` and `*new` through a local
copy (lines 260-262, 520-522, ...). -/
def memswap {α : Type} (h : List α) (old new : Nat) : Option (List α) :=
  match h[old]? with
  | none => none
  | some swp =>
    match h[new]? with
    | none => none
    | some n => some ((h.set old n).set new swp)

/-- The three assignments after the exchange that put the `next` pointers
back (lines 524-526, ...): `swp.next = old->next; old->next = new->next;
new->next = swp.next`. -/
def restore_next {α : Type} [Linked α] (h : List α) (old new : Nat) : Option (List α) :=
  match h[old]? with
  | none => none
  | some o =>
    match h[new]? with
    | none => none
    | some n =>
      let h1 := h.set old (Linked.setNext o (Linked.next n))
      match h1[new]? with
      | none => none
      | some n1 => some (h1.set new (Linked.setNext n1 (Linked.next o)))

/-- The exchange of two objects that keeps each one's `next` link. -/
def swap_payload {α : Type} [Linked α] (h : List α) (old new : Nat) : Option (List α) :=
  match memswap h old new with
  | none => none
  | some h1 => restore_next h1 old new

/-- The assignment `sfactors->s = v`. -/
def set_head_s (v : Int) : List F_sfactor → Option (List F_sfactor)
  | [] => none
  | _ :: t => some (⟨v⟩ :: t)

/-- The walk to the last shape factor and the assignment `c_tmp->s = v`
(lines 996-999). -/
def set_last_s (v : Int) : List F_sfactor → Option (List F_sfactor)
  | [] => none
  | [_] => some [⟨v⟩]
  | a :: b :: t => (set_last_s v (b :: t)).map (fun l => a :: l)

/-- Lines 1016-1026. -/
def swap_newp_lastp (w : StackRef) (s : State) : Option State :=
  s.setTop w fun r =>
    { r with new_x := r.last_x, last_x := r.new_x, new_y := r.last_y, last_y := r.new_y }

/-- The depth correction of `undo_join_split` (lines 263-270 and 282-289),
after the exchange: a join is undone when only the changed object has a
successor, a split when only the original has one. -/
def join_split_depth {α : Type} [Linked α] (E : Ext) (k : ObjKind) (depth : α → Int)
    (heap : Scene → List α) (new_o old_o : Nat) (s : State) : Option State := do
  let n ← (heap s.scene)[new_o]?
  let o ← (heap s.scene)[old_o]?
  if Linked.next n = none ∧ Linked.next o ≠ none then do
    let nx ← Linked.next o
    let x ← (heap s.scene)[nx]?
    pure (ext E .add_depth [.kind k, .int (depth x)] s)
  else if Linked.next n ≠ none ∧ Linked.next o = none then do
    let nx ← Linked.next n
    let x ← (heap s.scene)[nx]?
    pure (ext E .remove_depth [.kind k, .int (depth x)] s)
  else pure s

/-- Lines 252-296.  The branch is chosen by the file-static `last_object`. -/
def undo_join_split (E : Ext) (w : StackRef) (s : State) : Option State := do
  let r ← s.top w
  if s.staging.last_object = O_POLYLINE then do
    let new_l ← r.saved_objects.lines
    let old_l ← r.latest_line
    let lines ← memswap s.scene.lines old_l new_l
    let s := s.mapScene fun sc => { sc with lines := lines }
    let s ← join_split_depth E O_POLYLINE F_line.depth Scene.lines new_l old_l s
    let s ← s.setTop w fun r => { r with last_action := F_JOIN, last_object := O_POLYLINE }
    let s := ext E .redisplay_lines [.ptr (some new_l), .ptr (some old_l)] s
    swap_stack w s
  else do
    let new_s ← r.saved_objects.splines
    let old_s ← r.latest_spline
    let splines ← memswap s.scene.splines old_s new_s
    let s := s.mapScene fun sc => { sc with splines := splines }
    let s ← join_split_depth E O_SPLINE F_spline.depth Scene.splines new_s old_s s
    let s ← s.setTop w fun r => { r with last_action := F_JOIN, last_object := O_SPLINE }
    let s := ext E .redisplay_splines [.ptr (some new_s), .ptr (some old_s)] s
    swap_stack w s

/-- The manual stack moves that end `undo_addpoint` and `undo_deletepoint`
(lines 314-324 and 349-359). -/
def point_stack_fix (w : StackRef) (s : State) : Option State :=
  if s.stk w = s.undo_stack then do
    let s ← swap_stack w s
    pop_stack w s
  else do
    let s ← swap_stack w s
    pop_stack .undo s

/-- Lines 298-327. -/
def undo_addpoint (E : Ext) (w : StackRef) (s : State) : Option State := do
  let s := s.setFreezeRedo true
  let r ← s.top w
  let s :=
    if r.last_object = O_POLYLINE then
      cmd E .linepoint_deleting
        [.ptr r.saved_objects.lines, .ptr r.last_prev_point, .ptr r.last_selected_point] s
    else
      cmd E .splinepoint_deleting
        [.ptr r.saved_objects.splines, .ptr r.last_prev_point, .ptr r.last_selected_point] s
  let s ← point_stack_fix w s
  pure (s.setFreezeRedo false)

/-- The point insertion of `undo_deletepoint` (lines 334-344).  The record holds
a pointer to the shape factor; `->s` is read through it here (line 343). -/
def deletepoint_switch (E : Ext) (r : F_history) (s : State) : Option State :=
  if r.last_object = O_POLYLINE then
    pure (ext E .update_markers []
      (cmd E .linepoint_adding
        [.ptr r.saved_objects.lines, .ptr r.last_prev_point, .ptr r.last_selected_point] s))
  else do
    let p ← r.last_selected_sfactor
    let sf ← s.scene.sfactors[p]?
    pure (cmd E .splinepoint_adding
      [.ptr r.saved_objects.splines, .ptr r.last_prev_point, .ptr r.last_selected_point,
        .ptr r.last_next_point, .int sf.s] s)

/-- Lines 330-362. -/
def undo_deletepoint (E : Ext) (w : StackRef) (s : State) : Option State := do
  let s := s.setFreezeRedo true
  let r ← s.top w
  let s ← deletepoint_switch E r s
  let s ← s.setTop w fun r => { r with last_next_point := none }
  let s ← point_stack_fix w s
  pure (s.setFreezeRedo false)

/-- Lines 366-376. -/
def undo_break (E : Ext) (w : StackRef) (s : State) : Option State := do
  let r ← s.top w
  let c := r.saved_objects.compounds
  let s := ext E .list_delete_objects [.objects, .ptr c] s
  let s := ext E .list_add_compound [.ptr c] s
  let s ← s.setTop w fun r => { r with last_action := F_GLUE }
  let s := ext E .toggle_markers_in_compound [.ptr c] s
  let s := ext E .mask_toggle_compoundmarker [.ptr c] s
  swap_stack w s

/-- Lines 378-397. -/
def undo_glue (E : Ext) (w : StackRef) (s : State) : Option State := do
  let r ← s.top w
  let c := r.saved_objects.compounds
  let s := ext E .list_delete_compound [.ptr c] s
  let s := ext E .tail [.objects] s
  let s := ext E .append_objects [.objects, .ptr c] s
  let s := ext E .add_compound_depth [.ptr c] s
  let s ← s.setTop w fun r => { r with last_action := F_BREAK }
  let s := ext E .mask_toggle_compoundmarker [.ptr c] s
  let s := ext E .toggle_markers_in_compound [.ptr c] s
  let s :=
    if s.scene.cur_mode ≠ F_GLUE ∧ s.scene.cur_mode ≠ F_BREAK then
      ext E .set_tags [.ptr c, .int 0] s
    else s
  swap_stack w s

/-- The assignment `redo_stack->saved_objects->lines =
undo_stack->saved_objects->lines` (lines 424 and 430). -/
def relink_saved_line (s : State) : Option State := do
  let u ← s.top .undo
  s.setTop .redo fun r =>
    { r with saved_objects := { r.saved_objects with lines := u.saved_objects.lines } }

/-- The `switch` of `undo_convert` (lines 401-416). -/
def convert_switch (E : Ext) (r : F_history) (s : State) : Option State :=
  match r.last_object with
  | O_POLYLINE => do
    let l ← r.saved_objects.lines
    let ln ← s.scene.lines[l]?
    if ln.type = E.T_BOX ∨ ln.type = E.T_ARCBOX then
      pure (cmd E .box_2_box [.ptr r.latest_line] s)
    else
      pure (cmd E .spline_line [.ptr r.saved_objects.splines] s)
  | O_SPLINE => do
    let nx ← r.next
    let r2 ← s.hist[nx]?
    let sp ← r2.saved_objects.splines
    let spl ← s.scene.splines[sp]?
    pure (cmd E .line_spline [.ptr r.saved_objects.lines, .int spl.type] s)
  | _ => pure s

/-- The stack moves that end `undo_convert` (lines 419-433). -/
def convert_stack_fix (w : StackRef) (s : State) : Option State :=
  if s.stk w = s.undo_stack then do
    let s ← swap_stack w s
    let s ← pop_stack .undo s
    let s ← pop_stack .undo s
    relink_saved_line s
  else do
    let s ← pop_stack .undo s
    let s ← pop_stack .undo s
    relink_saved_line s

/-- Lines 398-434. -/
def undo_convert (E : Ext) (w : StackRef) (s : State) : Option State := do
  let r ← s.top w
  let s ← convert_switch E r s
  convert_stack_fix w s

/-- Lines 456-468 of `undo_add_arrowhead`: what follows the `switch`. -/
def add_arrowhead_tail (w : StackRef) (s : State) : Option State := do
  let s := s.setFreezeRedo false
  let t ← s.top w
  let tmp_for_arrow := t.saved_for_arrow
  let tmp_back_arrow := t.saved_back_arrow
  let s ← pop_stack w s
  let s ← s.setTop w fun r =>
    { r with
      last_action := F_DELETE_ARROW_HEAD
      saved_for_arrow := tmp_for_arrow
      saved_back_arrow := tmp_back_arrow }
  swap_stack w s

/-- Lines 436-469.  The `default: return` leaves with the guard still set. -/
def undo_add_arrowhead (E : Ext) (w : StackRef) (s : State) : Option State := do
  let s := s.setFreezeRedo true
  let r ← s.top w
  match r.last_object with
  | O_POLYLINE =>
    add_arrowhead_tail w (cmd E .delete_linearrow
      [.ptr r.saved_objects.lines, .ptr r.last_prev_point, .ptr r.last_selected_point] s)
  | O_SPLINE =>
    add_arrowhead_tail w (cmd E .delete_splinearrow
      [.ptr r.saved_objects.splines, .ptr r.last_prev_point, .ptr r.last_selected_point] s)
  | O_ARC =>
    add_arrowhead_tail w
      (cmd E .delete_arcarrow [.ptr r.saved_objects.arcs, .int r.last_arcpointnum] s)
  | _ => pure s

/-- The two guarded assignments of `undo_delete_arrowhead` to the object `p`
points to: `if (saved_for_arrow) p->for_arrow = saved_for_arrow;` and the same
for the backward arrow. -/
def restore_arrows {α : Type} (setFor setBack : α → Ptr → α) (h : List α) (p : Ptr)
    (saved_for_arrow saved_back_arrow : Ptr) : Option (List α) := do
  let h ←
    if saved_for_arrow ≠ none then do
      let l ← p
      let o ← h[l]?
      pure (h.set l (setFor o saved_for_arrow))
    else pure h
  if saved_back_arrow ≠ none then do
    let l ← p
    let o ← h[l]?
    pure (h.set l (setBack o saved_back_arrow))
  else pure h

/-- Lines 498-499 of `undo_delete_arrowhead`: what follows the `switch`. -/
def delete_arrowhead_tail (w : StackRef) (s : State) : Option State := do
  let s ← s.setTop w fun r => { r with last_action := F_ADD_ARROW_HEAD }
  swap_stack w s

/-- Lines 471-500. -/
def undo_delete_arrowhead (E : Ext) (w : StackRef) (s : State) : Option State := do
  let r ← s.top w
  match r.last_object with
  | O_POLYLINE => do
    let h ← restore_arrows (fun o p => { o with for_arrow := p })
      (fun o p => { o with back_arrow := p }) s.scene.lines r.saved_objects.lines
      r.saved_for_arrow r.saved_back_arrow
    let s := s.mapScene fun sc => { sc with lines := h }
    delete_arrowhead_tail w (ext E .redisplay_line [.ptr r.saved_objects.lines] s)
  | O_SPLINE => do
    let h ← restore_arrows (fun o p => { o with for_arrow := p })
      (fun o p => { o with back_arrow := p }) s.scene.splines r.saved_objects.splines
      r.saved_for_arrow r.saved_back_arrow
    let s := s.mapScene fun sc => { sc with splines := h }
    delete_arrowhead_tail w (ext E .redisplay_spline [.ptr r.saved_objects.splines] s)
  | O_ARC => do
    let h ← restore_arrows (fun o p => { o with for_arrow := p })
      (fun o p => { o with back_arrow := p }) s.scene.arcs r.saved_objects.arcs
      r.saved_for_arrow r.saved_back_arrow
    let s := s.mapScene fun sc => { sc with arcs := h }
    delete_arrowhead_tail w (ext E .redisplay_arc [.ptr r.saved_objects.arcs] s)
  | _ => pure s

/-- The single-object cases of `undo_change` (lines 513-614), for the heap
`h` of one object type: the depth accounting, then the exchange.  It returns
the state after the depth calls, the new heap, and the two addresses. -/
def change_objects {α : Type} [Linked α] (E : Ext) (k : ObjKind) (depth : α → Int)
    (heap : Scene → List α) (head : Ptr) (s : State) :
    Option (State × List α × Nat × Nat) := do
  let new_o ← head
  let n ← (heap s.scene)[new_o]?
  let old_o ← Linked.next n
  let o ← (heap s.scene)[old_o]?
  let s := ext E .remove_depth [.kind k, .int (depth o)] s
  let n ← (heap s.scene)[new_o]?
  let s := ext E .add_depth [.kind k, .int (depth n)] s
  let h ← swap_payload (heap s.scene) old_o new_o
  pure (s, h, new_o, old_o)

/-- Lines 502-637. -/
def undo_change (E : Ext) (w : StackRef) (s : State) : Option State := do
  let r ← s.top w
  let s ←
    match r.last_object with
    | O_POLYLINE => do
      let (s, h, new_l, old_l) ←
        change_objects E O_POLYLINE F_line.depth Scene.lines r.saved_objects.lines s
      let s := s.mapScene fun sc => { sc with lines := h }
      pure (ext E .redisplay_lines [.ptr (some new_l), .ptr (some old_l)] s)
    | O_ELLIPSE => do
      let (s, h, new_e, old_e) ←
        change_objects E O_ELLIPSE F_ellipse.depth Scene.ellipses r.saved_objects.ellipses s
      let s := s.mapScene fun sc => { sc with ellipses := h }
      pure (ext E .redisplay_ellipses [.ptr (some new_e), .ptr (some old_e)] s)
    | O_TXT => do
      let (s, h, new_t, old_t) ←
        change_objects E O_TXT F_text.depth Scene.texts r.saved_objects.texts s
      let s := s.mapScene fun sc => { sc with texts := h }
      pure (ext E .redisplay_texts [.ptr (some new_t), .ptr (some old_t)] s)
    | O_SPLINE => do
      let (s, h, new_s, old_s) ←
        change_objects E O_SPLINE F_spline.depth Scene.splines r.saved_objects.splines s
      let s := s.mapScene fun sc => { sc with splines := h }
      pure (ext E .redisplay_splines [.ptr (some new_s), .ptr (some old_s)] s)
    | O_ARC => do
      let (s, h, new_a, old_a) ←
        change_objects E O_ARC F_arc.depth Scene.arcs r.saved_objects.arcs s
      let s := s.mapScene fun sc => { sc with arcs := h }
      pure (ext E .redisplay_arcs [.ptr (some new_a), .ptr (some old_a)] s)
    | O_COMPOUND => do
      let new_c ← r.saved_objects.compounds
      let n ← s.scene.compounds[new_c]?
      let old_c ← n.next
      let _ ← s.scene.compounds[old_c]?
      let s := ext E .remove_compound_depth [.ptr (some old_c)] s
      let s := ext E .add_compound_depth [.ptr (some new_c)] s
      let h ← swap_payload s.scene.compounds old_c new_c
      let s := s.mapScene fun sc => { sc with compounds := h }
      pure (ext E .redisplay_compounds [.ptr (some new_c), .ptr (some old_c)] s)
    | O_FIGURE => do
      let swp_comm := s.scene.objects.comments
      let s := s.mapScene fun sc => { sc with
        objects := { sc.objects with comments := r.saved_objects.comments } }
      s.setTop w fun r => { r with saved_objects := { r.saved_objects with comments := swp_comm } }
    | O_ALL_OBJECT => do
      let swp_c := s.scene.objects
      let s := s.mapScene fun sc => { sc with objects := r.saved_objects }
      let s ← s.setTop w fun r => { r with saved_objects := swp_c }
      let s := ext E .remove_compound_depth [.saved swp_c] s
      let s := ext E .add_compound_depth [.objects] s
      let s := ext E .set_modifiedflag [] s
      pure (ext E .redisplay_zoomed_region [.int 0, .int 0] s)
    | _ => pure s
  swap_stack w s

/-- Lines 653-690. -/
def undo_add (E : Ext) (w : StackRef) (s : State) : Option State := do
  let r ← s.top w
  let so := r.saved_objects
  let s :=
    match r.last_object with
    | O_POLYLINE =>
      ext E .redisplay_line [.ptr so.lines] (ext E .list_delete_line [.ptr so.lines] s)
    | O_ELLIPSE =>
      ext E .redisplay_ellipse [.ptr so.ellipses] (ext E .list_delete_ellipse [.ptr so.ellipses] s)
    | O_TXT =>
      ext E .redisplay_text [.ptr so.texts] (ext E .list_delete_text [.ptr so.texts] s)
    | O_SPLINE =>
      ext E .redisplay_spline [.ptr so.splines] (ext E .list_delete_spline [.ptr so.splines] s)
    | O_ARC =>
      ext E .redisplay_arc [.ptr so.arcs] (ext E .list_delete_arc [.ptr so.arcs] s)
    | O_COMPOUND =>
      ext E .redisplay_compound [.ptr so.compounds]
        (ext E .list_delete_compound [.ptr so.compounds] s)
    | O_ALL_OBJECT =>
      ext E .redisplay_zoomed_region []
        (ext E .compound_bound [.saved so] (ext E .cut_objects [.objects] s))
    | _ => s
  let s ← s.setTop w fun r => { r with last_action := F_DELETE }
  swap_stack w s

/-- Lines 693-746. -/
def undo_delete (E : Ext) (w : StackRef) (s : State) : Option State := do
  let r ← s.top w
  let so := r.saved_objects
  let s ←
    match r.last_object with
    | O_POLYLINE =>
      pure (ext E .redisplay_line [.ptr so.lines] (ext E .list_add_line [.ptr so.lines] s))
    | O_ELLIPSE =>
      pure (ext E .redisplay_ellipse [.ptr so.ellipses]
        (ext E .list_add_ellipse [.ptr so.ellipses] s))
    | O_TXT =>
      pure (ext E .redisplay_text [.ptr so.texts] (ext E .list_add_text [.ptr so.texts] s))
    | O_SPLINE =>
      pure (ext E .redisplay_spline [.ptr so.splines]
        (ext E .list_add_spline [.ptr so.splines] s))
    | O_ARC =>
      pure (ext E .redisplay_arc [.ptr so.arcs] (ext E .list_add_arc [.ptr so.arcs] s))
    | O_COMPOUND =>
      pure (ext E .redisplay_compound [.ptr so.compounds]
        (ext E .list_add_compound [.ptr so.compounds] s))
    | O_FIGURE => do
      let swp_comm := s.scene.objects.comments
      let s := s.mapScene fun sc => { sc with
        objects := { sc.objects with comments := so.comments } }
      let s ← s.setTop w fun r =>
        { r with saved_objects := { r.saved_objects with comments := swp_comm } }
      let s := ext E .swap_colors [] s
      let s := s.mapStaging fun st => { st with
        saved_objects := { st.saved_objects with next := none } }
      let s := ext E .compound_bound [.staged] s
      let s := ext E .tail [.objects] s
      let s := ext E .append_objects [.objects, .saved { so with comments := swp_comm }] s
      pure (ext E .redisplay_zoomed_region [] s)
    | O_ALL_OBJECT => do
      let s ← s.setTop w fun r => { r with saved_objects := { r.saved_objects with next := none } }
      let s := ext E .compound_bound [.saved { so with next := none }] s
      let s := ext E .tail [.objects] s
      let s := ext E .append_objects [.objects, .saved { so with next := none }] s
      pure (ext E .redisplay_zoomed_region [] s)
    | _ => pure s
  let s ← s.setTop w fun r => { r with last_action := F_ADD }
  swap_stack w s

/-- The `switch` of `undo_move` (lines 758-807).  `adjust_links` is handed the
file-static `last_linkmode` and `last_links`, and the second `text_bound` the
staged `saved_objects.texts`. -/
def move_switch (E : Ext) (r : F_history) (dx dy : Int) (s : State) : State :=
  let so := r.saved_objects
  match r.last_object with
  | O_POLYLINE =>
    let s := ext E .line_bound [.ptr so.lines] s
    let s := ext E .translate_line [.ptr so.lines, .int dx, .int dy] s
    let s := ext E .line_bound [.ptr so.lines] s
    let s := ext E .adjust_links
      [.int s.staging.last_linkmode, .ptr s.staging.last_links, .int dx, .int dy] s
    ext E .redisplay_regions [] s
  | O_ELLIPSE =>
    let s := ext E .ellipse_bound [.ptr so.ellipses] s
    let s := ext E .translate_ellipse [.ptr so.ellipses, .int dx, .int dy] s
    let s := ext E .ellipse_bound [.ptr so.ellipses] s
    ext E .redisplay_regions [] s
  | O_TXT =>
    let s := ext E .text_bound [.ptr so.texts] s
    let s := ext E .translate_text [.ptr so.texts, .int dx, .int dy] s
    let s := ext E .text_bound [.ptr s.staging.saved_objects.texts] s
    ext E .redisplay_regions [] s
  | O_SPLINE =>
    let s := ext E .spline_bound [.ptr so.splines] s
    let s := ext E .translate_spline [.ptr so.splines, .int dx, .int dy] s
    let s := ext E .spline_bound [.ptr so.splines] s
    let s := ext E .list_delete_spline [.ptr so.splines] s
    let s := ext E .list_add_spline [.ptr so.splines] s
    ext E .redisplay_regions [] s
  | O_ARC =>
    let s := ext E .arc_bound [.ptr so.arcs] s
    let s := ext E .translate_arc [.ptr so.arcs, .int dx, .int dy] s
    let s := ext E .arc_bound [.ptr so.arcs] s
    ext E .redisplay_regions [] s
  | O_COMPOUND =>
    let s := ext E .compound_bound [.ptr so.compounds] s
    let s := ext E .translate_compound [.ptr so.compounds, .int dx, .int dy] s
    let s := ext E .compound_bound [.ptr so.compounds] s
    let s := ext E .adjust_links
      [.int s.staging.last_linkmode, .ptr s.staging.last_links, .int dx, .int dy] s
    ext E .redisplay_regions [] s
  | _ => s

/-- Lines 749-810. -/
def undo_move (E : Ext) (w : StackRef) (s : State) : Option State := do
  let r ← s.top w
  let dx := int_sub r.last_x r.new_x
  let dy := int_sub r.last_y r.new_y
  let s := move_switch E r dx dy s
  let s ← swap_newp_lastp w s
  swap_stack w s

/-- Lines 812-838. -/
def undo_load (E : Ext) (w : StackRef) (s : State) : Option State := do
  let r ← s.top w
  let temp := s.scene.objects
  let s := s.mapScene fun sc => { sc with objects := r.saved_objects }
  let s ← s.setTop w fun r => { r with saved_objects := temp }
  let ctemp := s.scene.cur_filename
  let s := ext E .update_cur_filename [.str s.scene.save_filename] s
  let s := s.mapScene fun sc => { sc with save_filename := ctemp }
  let s := ext E .swap_depths [] s
  let s := ext E .swap_counts [] s
  let s := ext E .swap_colors [] s
  let s := s.mapScene fun sc => { sc with colors_are_swapped := false }
  let s := s.mapScene fun sc => { sc with current_memory := -1 }
  let s := ext E .show_pencolor [] s
  let s := ext E .show_fillcolor [] s
  let s := ext E .redisplay_canvas [] s
  let s ← s.setTop w fun r => { r with last_action := F_LOAD }
  swap_stack w s

/-- The single-object cases of `undo_scale` (lines 851-955) up to the list
calls, for the heap of one object type: it returns the state after them and
the two addresses. -/
def scale_objects {α : Type} [Linked α] (E : Ext) (k : ObjKind) (depth : α → Int)
    (heap : Scene → List α) (del add : Fn) (head : Ptr) (s : State) :
    Option (State × Nat × Nat) := do
  let new_o ← head
  let n ← (heap s.scene)[new_o]?
  let old_o ← Linked.next n
  let o ← (heap s.scene)[old_o]?
  let s := ext E .remove_depth [.kind k, .int (depth o)] s
  let n ← (heap s.scene)[new_o]?
  let s := ext E .add_depth [.kind k, .int (depth n)] s
  let s := ext E del [.ptr (some old_o)] s
  let s := ext E add [.ptr (some new_o)] s
  pure (s, new_o, old_o)

/-- The two `next` assignments that follow the list calls in `undo_scale`:
`new->next = old->next; old->next = new`. -/
def relink_scaled {α : Type} [Linked α] (h : List α) (old new : Nat) : Option (List α) := do
  let o ← h[old]?
  let n ← h[new]?
  let h1 := h.set new (Linked.setNext n (Linked.next o))
  let o1 ← h1[old]?
  pure (h1.set old (Linked.setNext o1 (some new)))

/-- Lines 840-976. -/
def undo_scale (E : Ext) (w : StackRef) (s : State) : Option State := do
  let r ← s.top w
  let s ←
    match r.last_object with
    | O_POLYLINE => do
      let (s, new_l, old_l) ← scale_objects E O_POLYLINE F_line.depth Scene.lines
        .list_delete_line .list_add_line r.saved_objects.lines s
      let s ← s.setTop w fun r =>
        { r with saved_objects := { r.saved_objects with lines := some old_l } }
      let h ← relink_scaled s.scene.lines old_l new_l
      let s := s.mapScene fun sc => { sc with lines := h }
      pure (ext E .redisplay_lines [.ptr (some new_l), .ptr (some old_l)] s)
    | O_ELLIPSE => do
      let (s, new_e, old_e) ← scale_objects E O_ELLIPSE F_ellipse.depth Scene.ellipses
        .list_delete_ellipse .list_add_ellipse r.saved_objects.ellipses s
      let s ← s.setTop w fun r =>
        { r with saved_objects := { r.saved_objects with ellipses := some old_e } }
      let h ← relink_scaled s.scene.ellipses old_e new_e
      let s := s.mapScene fun sc => { sc with ellipses := h }
      pure (ext E .redisplay_ellipses [.ptr (some new_e), .ptr (some old_e)] s)
    | O_TXT => do
      let (s, new_t, old_t) ← scale_objects E O_TXT F_text.depth Scene.texts
        .list_delete_text .list_add_text r.saved_objects.texts s
      let s ← s.setTop w fun r =>
        { r with saved_objects := { r.saved_objects with texts := some old_t } }
      let h ← relink_scaled s.scene.texts old_t new_t
      let s := s.mapScene fun sc => { sc with texts := h }
      pure (ext E .redisplay_texts [.ptr (some new_t), .ptr (some old_t)] s)
    | O_SPLINE => do
      let (s, new_s, old_s) ← scale_objects E O_SPLINE F_spline.depth Scene.splines
        .list_delete_spline .list_add_spline r.saved_objects.splines s
      let s ← s.setTop w fun r =>
        { r with saved_objects := { r.saved_objects with splines := some old_s } }
      let h ← relink_scaled s.scene.splines old_s new_s
      let s := s.mapScene fun sc => { sc with splines := h }
      pure (ext E .redisplay_splines [.ptr (some new_s), .ptr (some old_s)] s)
    | O_ARC => do
      let (s, new_a, old_a) ← scale_objects E O_ARC F_arc.depth Scene.arcs
        .list_delete_arc .list_add_arc r.saved_objects.arcs s
      let s ← s.setTop w fun r =>
        { r with saved_objects := { r.saved_objects with arcs := some old_a } }
      let h ← relink_scaled s.scene.arcs old_a new_a
      let s := s.mapScene fun sc => { sc with arcs := h }
      pure (ext E .redisplay_arcs [.ptr (some new_a), .ptr (some old_a)] s)
    | O_COMPOUND => do
      let new_c ← r.saved_objects.compounds
      let n ← s.scene.compounds[new_c]?
      let old_c ← n.next
      let _ ← s.scene.compounds[old_c]?
      let s := ext E .remove_compound_depth [.ptr (some old_c)] s
      let s := ext E .add_compound_depth [.ptr (some new_c)] s
      let s := ext E .list_delete_compound [.ptr (some old_c)] s
      let s := ext E .list_add_compound [.ptr (some new_c)] s
      let s ← s.setTop w fun r =>
        { r with saved_objects := { r.saved_objects with compounds := some old_c } }
      let h ← relink_scaled s.scene.compounds old_c new_c
      let s := s.mapScene fun sc => { sc with compounds := h }
      pure (ext E .redisplay_compounds [.ptr (some new_c), .ptr (some old_c)] s)
    | O_FIGURE => do
      let swp_comm := s.scene.objects.comments
      let s := s.mapScene fun sc => { sc with
        objects := { sc.objects with comments := r.saved_objects.comments } }
      s.setTop w fun r => { r with saved_objects := { r.saved_objects with comments := swp_comm } }
    | O_ALL_OBJECT => do
      let swp_c := s.scene.objects
      let s := s.mapScene fun sc => { sc with objects := r.saved_objects }
      let s ← s.setTop w fun r => { r with saved_objects := swp_c }
      let s := ext E .remove_compound_depth [.saved swp_c] s
      let s := ext E .add_compound_depth [.objects] s
      let s := ext E .set_modifiedflag [] s
      pure (ext E .redisplay_zoomed_region [.int 0, .int 0] s)
    | _ => pure s
  swap_stack w s

/-- The polyline case of `undo_open_close` (lines 982-988). -/
def open_close_line (E : Ext) (w : StackRef) (r : F_history) (s : State) : Option State := do
  let l ← r.saved_objects.lines
  let ln ← s.scene.lines[l]?
  let s ←
    if ln.type = E.T_POLYGON then do
      let ln1 : F_line :=
        { ln with for_arrow := r.last_for_arrow, back_arrow := r.last_back_arrow }
      let s := s.mapScene fun sc => { sc with lines := sc.lines.set l ln1 }
      s.setTop w fun r => { r with last_for_arrow := none, last_back_arrow := none }
    else pure s
  pure (cmd E .toggle_polyline_polygon
    [.ptr (some l), .ptr r.last_prev_point, .ptr r.last_selected_point] s)

/-- The spline case of `undo_open_close` (lines 991-1010). -/
def open_close_spline (E : Ext) (w : StackRef) (r : F_history) (s : State) : Option State := do
  let p ← r.saved_objects.splines
  let sp ← s.scene.splines[p]?
  if sp.type = E.T_OPEN_XSPLINE then do
    let s := ext E .draw_spline [.ptr (some p), .str "ERASE"] s
    let sp ← s.scene.splines[p]?
    let sf ← set_head_s r.last_origin_tension sp.sfactors
    let sf ← set_last_s r.last_extremity_tension sf
    let sp1 : F_spline := { sp with sfactors := sf, type := E.T_CLOSED_XSPLINE }
    let s := s.mapScene fun sc => { sc with splines := sc.splines.set p sp1 }
    pure (ext E .draw_spline [.ptr (some p), .str "PAINT"] s)
  else do
    let s ←
      if E.closed_spline sp then do
        let sp1 : F_spline :=
          { sp with for_arrow := r.last_for_arrow, back_arrow := r.last_back_arrow }
        let s := s.mapScene fun sc => { sc with splines := sc.splines.set p sp1 }
        s.setTop w fun r => { r with last_for_arrow := none, last_back_arrow := none }
      else pure s
    pure (cmd E .toggle_open_closed_spline
      [.ptr (some p), .ptr r.last_prev_point, .ptr r.last_selected_point] s)

/-- Lines 978-1014. -/
def undo_open_close (E : Ext) (w : StackRef) (s : State) : Option State := do
  let r ← s.top w
  let s ←
    match r.last_object with
    | O_POLYLINE => open_close_line E w r s
    | O_SPLINE => open_close_spline E w r s
    | _ => pure s
  swap_stack w s

/-- The `switch` on the action code in `undo` and `redo` (lines 130-181 and
197-248): the handler of a code, `none` for the `default` branch. -/
def dispatch (E : Ext) (w : StackRef) : Action → Option (State → Option State)
  | F_ADD => some (undo_add E w)
  | F_DELETE => some (undo_delete E w)
  | F_MOVE => some (undo_move E w)
  | F_EDIT => some (undo_change E w)
  | F_GLUE => some (undo_glue E w)
  | F_BREAK => some (undo_break E w)
  | F_LOAD => some (undo_load E w)
  | F_SCALE => some (undo_scale E w)
  | F_ADD_POINT => some (undo_addpoint E w)
  | F_DELETE_POINT => some (undo_deletepoint E w)
  | F_ADD_ARROW_HEAD => some (undo_add_arrowhead E w)
  | F_DELETE_ARROW_HEAD => some (undo_delete_arrowhead E w)
  | F_CONVERT => some (undo_convert E w)
  | F_OPEN_CLOSE => some (undo_open_close E w)
  | F_JOIN => some (undo_join_split E w)
  | F_SPLIT => some (undo_join_split E w)
  | _ => none

/-- Lines 119-183. -/
def undo (E : Ext) (s : State) : Option State :=
  let s := setCompLED 0 s
  match s.undo_stack with
  | none => some (put_msg "nothing to undo" s)
  | some a =>
    match s.hist[a]? with
    | none => none
    | some r =>
      match dispatch E .undo r.last_action with
      | none => some (put_msg "Nothing to UNDO" s)
      | some handler =>
        match handler s with
        | none => none
        | some s1 => some (put_msg "Undo complete" s1)

/-- Lines 185-250. -/
def redo (E : Ext) (s : State) : Option State :=
  let s := setCompLED 0 s
  match s.redo_stack with
  | none => some (put_msg "Nothing to REDO" s)
  | some a =>
    match s.hist[a]? with
    | none => none
    | some r =>
      match dispatch E .redo r.last_action with
      | none => some (put_msg "Nothing to REDO" s)
      | some handler =>
        match handler s with
        | none => none
        | some s1 => some (put_msg "Redo complete" s1)

/-- Lines 1034-1037. -/
def set_freeze_undo_additions (val : Bool) (s : State) : State :=
  { s with freeze_undo_additions := val }

/-- Lines 1039-1042. -/
def set_latest_line_var (line : Ptr) (st : Staging) : Staging := { st with latest_line := line }

/-- Lines 1044-1047. -/
def set_latest_spline_var (spline : Ptr) (st : Staging) : Staging :=
  { st with latest_spline := spline }

/-- Lines 1049-1052. -/
def set_latestarc (arc : Ptr) (st : Staging) : Staging :=
  { st with saved_objects := { st.saved_objects with arcs := arc } }

/-- Lines 1054-1057: `saved_objects = *objects`. -/
def set_latestobjects (objects : F_compound) (st : Staging) : Staging :=
  { st with saved_objects := objects }

/-- Lines 1059-1062. -/
def set_latestcompound (compound : Ptr) (st : Staging) : Staging :=
  { st with saved_objects := { st.saved_objects with compounds := compound } }

/-- Lines 1064-1067. -/
def set_latestellipse (ellipse : Ptr) (st : Staging) : Staging :=
  { st with saved_objects := { st.saved_objects with ellipses := ellipse } }

/-- Lines 1069-1072. -/
def set_latestline (line : Ptr) (st : Staging) : Staging :=
  { st with saved_objects := { st.saved_objects with lines := line } }

/-- Lines 1074-1077. -/
def set_latestspline (spline : Ptr) (st : Staging) : Staging :=
  { st with saved_objects := { st.saved_objects with splines := spline } }

/-- Lines 1079-1082. -/
def set_latesttext (text : Ptr) (st : Staging) : Staging :=
  { st with saved_objects := { st.saved_objects with texts := text } }

/-- Lines 1084-1087. -/
def set_last_prevpoint (prev_point : Ptr) (st : Staging) : Staging :=
  { st with last_prev_point := prev_point }

/-- Lines 1089-1092. -/
def set_last_selectedpoint (selected_point : Ptr) (st : Staging) : Staging :=
  { st with last_selected_point := selected_point }

/-- Lines 1094-1097. -/
def set_last_selectedsfactor (selected_sfactor : Ptr) (st : Staging) : Staging :=
  { st with last_selected_sfactor := selected_sfactor }

/-- Lines 1099-1102. -/
def set_last_nextpoint (next_point : Ptr) (st : Staging) : Staging :=
  { st with last_next_point := next_point }

/-- Lines 1104-1107. -/
def set_last_arcpointnum (num : Int) (st : Staging) : Staging :=
  { st with last_arcpointnum := num }

/-- Lines 1109-1113. -/
def set_lastposition (x y : Int) (st : Staging) : Staging :=
  { st with last_position := ⟨x, y⟩ }

/-- Lines 1115-1119. -/
def set_newposition (x y : Int) (st : Staging) : Staging :=
  { st with new_position := ⟨x, y⟩ }

/-- Lines 1121-1124. -/
def set_action (action : Action) (st : Staging) : Staging := { st with last_action := action }

/-- Lines 1126-1130. -/
def set_action_object (action : Action) (object : ObjKind) (st : Staging) : Staging :=
  { st with last_action := action, last_object := object }

/-- Lines 1132-1136. -/
def set_lastlinkinfo (mode : Int) (links : Ptr) (st : Staging) : Staging :=
  { st with last_linkmode := mode, last_links := links }

/-- Lines 1138-1142. -/
def set_last_tension (origin extremity : Int) (st : Staging) : Staging :=
  { st with last_origin_tension := origin, last_extremity_tension := extremity }

/-- Lines 1144-1148. -/
def set_last_arrows (forward backward : Ptr) (st : Staging) : Staging :=
  { st with last_for_arrow := forward, last_back_arrow := backward }

/-! ## Vocabulary of the specification -/

/-- `IsStack h l p`: following `next` from the root `p` through the heap `h`
visits exactly the addresses `l`, in order, and then reaches `NULL`. -/
def IsStack (h : List F_history) : List Nat → Ptr → Prop
  | [], p => p = none
  | a :: l, p => p = some a ∧ ∃ r, h[a]? = some r ∧ IsStack h l r.next

/-- Both roots are null-terminated chains and no record is on both. -/
def StacksDisjoint (s : State) : Prop :=
  ∃ us rs, IsStack s.hist us s.undo_stack ∧ IsStack s.hist rs s.redo_stack ∧
    ∀ a, a ∈ us → a ∉ rs

/-- The link structure of a state: the `next` field of every record and the
two roots. -/
def lk (s : State) : List Ptr × Ptr × Ptr :=
  (s.hist.map F_history.next, s.undo_stack, s.redo_stack)

/-- `TopOnly w s s1 a r r1`: from `s` to `s1` the roots and the status line are
unchanged and the record heap differs only at the address `a` on top of the
stack `w`, where `r` became `r1` with the same `next`. -/
def TopOnly (w : StackRef) (s s1 : State) (a : Nat) (r r1 : F_history) : Prop :=
  s.stk w = some a ∧ s.hist[a]? = some r ∧ s1.hist = s.hist.set a r1 ∧ r1.next = r.next ∧
    s1.undo_stack = s.undo_stack ∧ s1.redo_stack = s.redo_stack ∧ s1.msgs = s.msgs

/-- The record heap, the two roots and the status line agree. -/
def SameHist (s s1 : State) : Prop :=
  s1.hist = s.hist ∧ s1.undo_stack = s.undo_stack ∧ s1.redo_stack = s.redo_stack ∧
    s1.msgs = s.msgs

/-- The call that translates the saved object of kind `k` in the compound
`so` by `(dx, dy)`; `none` for a kind that has no translation. -/
def translate_call (k : ObjKind) (so : F_compound) (dx dy : Int) : Option Call :=
  match k with
  | O_POLYLINE => some ⟨.translate_line, [.ptr so.lines, .int dx, .int dy]⟩
  | O_ELLIPSE => some ⟨.translate_ellipse, [.ptr so.ellipses, .int dx, .int dy]⟩
  | O_TXT => some ⟨.translate_text, [.ptr so.texts, .int dx, .int dy]⟩
  | O_SPLINE => some ⟨.translate_spline, [.ptr so.splines, .int dx, .int dy]⟩
  | O_ARC => some ⟨.translate_arc, [.ptr so.arcs, .int dx, .int dy]⟩
  | O_COMPOUND => some ⟨.translate_compound, [.ptr so.compounds, .int dx, .int dy]⟩
  | _ => none

/-- The record `r` with its last and new positions exchanged. -/
def swapped_pair (r : F_history) : F_history :=
  { r with new_x := r.last_x, last_x := r.new_x, new_y := r.last_y, last_y := r.new_y }

/-- The record `r` with its `next` link set to `p`. -/
def F_history.withNext (r : F_history) (p : Ptr) : F_history := { r with next := p }

/-- Whether a call is one of the six translations of `u_translate.h`. -/
def is_translate (c : Call) : Bool :=
  c.fn = .translate_line || c.fn = .translate_ellipse || c.fn = .translate_text ||
    c.fn = .translate_spline || c.fn = .translate_arc || c.fn = .translate_compound

/-- The translations among the calls of a trace, in order. -/
def translations (t : List Call) : List Call := t.filter is_translate

/-- `undo()` for `&undo_stack`, `redo()` for `&redo_stack`. -/
def run (E : Ext) : StackRef → State → Option State
  | .undo => undo E
  | .redo => redo E

/-- The records whose handler only rewrites the record on top and ends in
`swap_stack`: the kinds ADD, DELETE, MOVE, EDIT, GLUE, BREAK, LOAD, SCALE,
JOIN and SPLIT, and DELETE_ARROW_HEAD on a line, a spline or an arc. -/
def plain_swap (r : F_history) : Bool :=
  match r.last_action with
  | F_ADD | F_DELETE | F_MOVE | F_EDIT | F_GLUE | F_BREAK | F_LOAD | F_SCALE | F_JOIN
  | F_SPLIT => true
  | F_DELETE_ARROW_HEAD =>
    match r.last_object with
    | O_POLYLINE | O_SPLINE | O_ARC => true
    | _ => false
  | _ => false

/-- The action kind a record carries after its handler has run. -/
def relabelled : Action → Action
  | F_ADD => F_DELETE
  | F_DELETE => F_ADD
  | F_GLUE => F_BREAK
  | F_BREAK => F_GLUE
  | F_DELETE_ARROW_HEAD => F_ADD_ARROW_HEAD
  | F_SPLIT => F_JOIN
  | k => k

/-- Every record of `s` is still there in `s2`, with the action kind it had. -/
def Labels (s s2 : State) : Prop :=
  ∀ (b : Nat) (rb : F_history), s.hist[b]? = some rb →
    ∃ rb2 : F_history, s2.hist[b]? = some rb2 ∧ rb2.last_action = rb.last_action

/-- The zero-initialised compound of lines 71-74. -/
def null_compound : F_compound :=
  { lines := none, splines := none, ellipses := none, texts := none, arcs := none,
    comments := none, compounds := none, next := none, rest := 0 }

/-- The Staging Area as the static initialisers of lines 71-92 leave it. -/
def null_staging : Staging :=
  { saved_objects := null_compound, saved_for_arrow := none, saved_back_arrow := none,
    latest_line := none, latest_spline := none, last_action := F_NULL,
    last_object := .other 0, last_position := ⟨0, 0⟩, new_position := ⟨0, 0⟩,
    last_arcpointnum := 0, last_prev_point := none, last_selected_point := none,
    last_next_point := none, last_selected_sfactor := none, last_links := none,
    last_for_arrow := none, last_back_arrow := none, last_linkmode := 0,
    last_origin_tension := 0, last_extremity_tension := 0 }

/-- A record with every field zero. -/
def null_history : F_history :=
  { last_action := F_NULL, last_object := .other 0, saved_objects := null_compound,
    latest_line := none, latest_spline := none, last_prev_point := none,
    last_selected_point := none, last_next_point := none, last_selected_sfactor := none,
    saved_for_arrow := none, saved_back_arrow := none, last_for_arrow := none,
    last_back_arrow := none, last_arcpointnum := 0, last_origin_tension := 0,
    last_extremity_tension := 0, new_x := 0, new_y := 0, last_x := 0, last_y := 0,
    next := none }

/-- An empty figure. -/
def null_scene : Scene :=
  { objects := null_compound, object_tails := null_compound, lines := [], splines := [],
    ellipses := [], texts := [], arcs := [], compounds := [], sfactors := [],
    cur_mode := F_NULL,
    cur_filename := "", save_filename := "", colors_are_swapped := false,
    current_memory := 0 }

/-- The state at program start: both stacks empty, both guards clear
(lines 93-96). -/
def init_state : State :=
  { hist := [], undo_stack := none, redo_stack := none, freeze_redo_cleanup := false,
    freeze_undo_additions := false, staging := null_staging, scene := null_scene,
    msgs := [], compLED := 0, trace := [] }

/-- Modelled from the spec: `translate_line` (`u_translate.c`) is not among
the sources; by section 6 it translates an object by a delta, here every point
of the line at address `l`. -/
def translate_line (l : Nat) (dx dy : Int) (sc : Scene) : Scene :=
  match sc.lines[l]? with
  | none => sc
  | some o =>
    let moved : F_line := { o with points := o.points.map fun p => ⟨p.x + dx, p.y + dy⟩ }
    { sc with lines := sc.lines.set l moved }

/-- A sample of collaborators: `translate_line` moves the points, every other
function leaves the scene alone, no editing command calls back, and
`create_history` and `create_compound` return zeroed structures. -/
def sampleExt : Ext :=
  { effect := fun c sc =>
      match c.fn, c.args with
      | .translate_line, [.ptr (some l), .int dx, .int dy] => translate_line l dx dy sc
      | _, _ => sc
    command := fun _ _ => []
    create_history := null_history
    create_compound := null_compound
    T_BOX := 2
    T_ARCBOX := 4
    T_POLYGON := 3
    T_OPEN_XSPLINE := 4
    T_CLOSED_XSPLINE := 5
    closed_spline := fun sp => sp.type % 2 = 1 }

/-- An editing command as the engine sees it: the staging it leaves behind,
then the commit. -/
def commit_edit (E : Ext) (st : Staging) (s : State) : State :=
  undo_update_history E { s with staging := st }

/-- A state in which additions are suppressed while an edit is staged. -/
def frozen_state : State :=
  { init_state with
    freeze_undo_additions := true
    staging := set_latestline (some 0) (set_action_object F_ADD O_POLYLINE null_staging) }

/-- A MOVE of a line is staged with its points and link information. -/
def staged_move : Staging :=
  set_lastlinkinfo 1 (some 9)
    (set_last_prevpoint (some 7)
      (set_newposition 5 (-3)
        (set_lastposition 0 0
          (set_latestline (some 0) (set_action_object F_MOVE O_POLYLINE null_staging)))))

/-- A polyline of three points, where the user has just moved it by `(5, -3)`
from `(0,0) (10,0) (10,10)`. -/
def moved_line : F_line :=
  { next := none, type := 1, depth := 50, for_arrow := none, back_arrow := none,
    points := [⟨5, -3⟩, ⟨15, -3⟩, ⟨15, 7⟩], rest := 0 }

/-- The figure holding `moved_line` at address 0. -/
def moved_scene : Scene :=
  { null_scene with lines := [moved_line], objects := { null_compound with lines := some 0 } }

/-- The state after the MOVE of the polyline by `(5, -3)` has been committed
on an empty history. -/
def moved_state : State :=
  commit_edit sampleExt staged_move { init_state with scene := moved_scene }

/-- The state after a second edit, an ADD of the same line, has been
committed on top of the MOVE. -/
def two_edits : State :=
  commit_edit sampleExt
    (set_latestline (some 0) (set_action_object F_ADD O_POLYLINE null_staging)) moved_state

/-- The state after `undo()` has taken the ADD back: the MOVE record is on the
undo stack and the ADD record, relabelled, on the redo stack. -/
def one_undone : State := (undo sampleExt two_edits).getD init_state

/-- The figure of the JOIN and SPLIT scenarios: the original polyline at
address 0 and the changed one at address 1, each the last of its list. -/
def joined_scene : Scene :=
  { null_scene with
    lines := [moved_line, { moved_line with points := [⟨5, -3⟩, ⟨15, 7⟩] }]
    objects := { null_compound with lines := some 1 } }

/-- What a join or a split of polylines stages: the action kind `k`, the
original line and the changed line. -/
def staged_join (k : Action) : Staging :=
  set_latest_line_var (some 1)
    (set_latestline (some 0) (set_action_object k O_POLYLINE null_staging))

/-- The state after a JOIN of two polylines has been committed on an empty
history. -/
def joined_state : State :=
  commit_edit sampleExt (staged_join F_JOIN) { init_state with scene := joined_scene }

/-- The state after a SPLIT of a polyline has been committed on an empty
history. -/
def split_state : State :=
  commit_edit sampleExt (staged_join F_SPLIT) { init_state with scene := joined_scene }

/-- The edits whose record `plain_swap` accepts, told from what they stage. -/
def plain_staged (st : Staging) : Bool :=
  match st.last_action with
  | F_ADD | F_DELETE | F_MOVE | F_EDIT | F_GLUE | F_BREAK | F_LOAD | F_SCALE | F_JOIN
  | F_SPLIT => true
  | F_DELETE_ARROW_HEAD =>
    match st.last_object with
    | O_POLYLINE | O_SPLINE | O_ARC => true
    | _ => false
  | _ => false

/-- The kinds whose handler follows no object pointer itself: it hands the
saved pointers to its collaborators and rewrites the record. -/
def no_deref : Action → Bool
  | F_ADD | F_DELETE | F_MOVE | F_GLUE | F_BREAK | F_LOAD => true
  | _ => false

/-- A sequence of committed edits, each given by what it stages. -/
def do_edits (E : Ext) (edits : List Staging) (s : State) : State :=
  edits.foldl (fun s st => commit_edit E st s) s

/-- The number `n` of successive calls of `undo()`; `none` as soon as one of
them faults. -/
def undo_n (E : Ext) : Nat → State → Option State
  | 0, s => some s
  | n + 1, s => (undo E s).bind (undo_n E n)

/-- A conversion of a spline into a line is staged. -/
def staged_convert : Staging :=
  set_latestline (some 0) (set_action_object F_CONVERT O_SPLINE null_staging)

/-- An ADD_ARROW_HEAD is staged for an object that is neither a line, a spline
nor an arc. -/
def staged_arrow : Staging :=
  set_latestellipse (some 0) (set_action_object F_ADD_ARROW_HEAD O_ELLIPSE null_staging)

/-- The state before the two edits of `two_edits`: empty stacks, the polyline
in the figure. -/
def moved_start : State := { init_state with scene := moved_scene }

/-- What the two edits of `two_edits` stage: the MOVE, then the ADD. -/
def two_staged : List Staging :=
  [staged_move, set_latestline (some 0) (set_action_object F_ADD O_POLYLINE null_staging)]

/-- The removal of an arrowhead from the polyline at address 0 is staged. -/
def staged_delarrow : Staging :=
  set_latestline (some 0) (set_action_object F_DELETE_ARROW_HEAD O_POLYLINE null_staging)

/-- The functions of the collaborators that only keep the depth counters or
redraw. -/
def bookkeeping : Fn → Bool
  | .add_depth | .remove_depth | .add_compound_depth | .remove_compound_depth
  | .redisplay_line | .redisplay_ellipse | .redisplay_text | .redisplay_spline
  | .redisplay_arc | .redisplay_compound
  | .redisplay_lines | .redisplay_ellipses | .redisplay_texts | .redisplay_splines
  | .redisplay_arcs | .redisplay_compounds => true
  | _ => false

/-- The six typed heaps of objects. -/
def Scene.heaps (sc : Scene) :
    List F_line × List F_spline × List F_ellipse × List F_text × List F_arc ×
      List F_compound :=
  (sc.lines, sc.splines, sc.ellipses, sc.texts, sc.arcs, sc.compounds)

/-- The depth and display functions of `E` write to no object. -/
def KeepsObjects (E : Ext) : Prop :=
  ∀ (c : Call) (sc : Scene), bookkeeping c.fn = true → (E.effect c sc).heaps = sc.heaps

/-- Modelled from the spec: `add_depth` and `remove_depth` (`u_list.c`) are not
among the sources; by section 6 they increment and decrement the per-type
depth counter, and by section 8 a list insertion or deletion is a pure list
move that changes no counter.  This is the change the calls of a trace make to
the counter of kind `k` at depth `d`. -/
def depth_count (k : ObjKind) (d : Int) (t : List Call) : Int :=
  (t.count ⟨.add_depth, [.kind k, .int d]⟩ : Int) -
    (t.count ⟨.remove_depth, [.kind k, .int d]⟩ : Int)

/-- The heap `h` after the objects at `new_o` and `old_o`, which held `n` and
`o`, have exchanged every field but `next`. -/
def exchanged {α : Type} [Linked α] (h : List α) (new_o old_o : Nat) (n o : α) : List α :=
  (h.set old_o (Linked.setNext n (Linked.next o))).set new_o (Linked.setNext o (Linked.next n))

/-- What `undo_change` leaves of a pair of objects of one type: the two have
exchanged every field but `next`, the calls made are `remove_depth` for the
changed object `o`, `add_depth` for the original `n` and the redisplay, and
the depth counters have moved accordingly. -/
def EditOutcome {α : Type} [Linked α] (k : ObjKind) (depth : α → Int) (heap : Scene → List α)
    (redisplay : Fn) (s s2 : State) (new_o old_o : Nat) (n o : α) : Prop :=
  heap s2.scene = exchanged (heap s.scene) new_o old_o n o ∧
  (heap s2.scene)[old_o]? = some (Linked.setNext n (Linked.next o)) ∧
  (heap s2.scene)[new_o]? = some (Linked.setNext o (Linked.next n)) ∧
  s2.trace = s.trace ++
    [⟨.remove_depth, [.kind k, .int (depth o)]⟩, ⟨.add_depth, [.kind k, .int (depth n)]⟩,
      ⟨redisplay, [.ptr (some new_o), .ptr (some old_o)]⟩] ∧
  ∀ d : Int, depth_count k d s2.trace =
    depth_count k d s.trace + (if d = depth n then 1 else 0) - (if d = depth o then 1 else 0)

/-- A spline whose depth was edited from 3 to 5: the original, kept at
address 0 with the changed one as its successor, and the changed, live one at
address 1. -/
def edited_scene : Scene :=
  { null_scene with
    splines :=
      [{ next := some 1, type := 4, depth := 3, for_arrow := none, back_arrow := none,
         points := [⟨0, 0⟩, ⟨10, 10⟩], sfactors := [⟨0⟩, ⟨0⟩], rest := 0 },
       { next := none, type := 4, depth := 5, for_arrow := none, back_arrow := none,
         points := [⟨0, 0⟩, ⟨10, 10⟩], sfactors := [⟨0⟩, ⟨0⟩], rest := 0 }]
    objects := { null_compound with splines := some 1 } }

/-- The state after that EDIT of the spline has been committed on an empty
history. -/
def edited_state : State :=
  commit_edit sampleExt (set_latestspline (some 0) (set_action_object F_EDIT O_SPLINE null_staging))
    { init_state with scene := edited_scene }

/-- The laws of the `next` field: it is a field like any other. -/
class LawfulLinked (α : Type) [Linked α] : Prop where
  next_setNext : ∀ (x : α) (p : Ptr), Linked.next (Linked.setNext x p) = p
  setNext_setNext : ∀ (x : α) (p q : Ptr),
    Linked.setNext (Linked.setNext x p) q = Linked.setNext x q
  setNext_next : ∀ x : α, Linked.setNext x (Linked.next x) = x

instance : LawfulLinked F_line := ⟨fun _ _ => rfl, fun _ _ _ => rfl, fun _ => rfl⟩
instance : LawfulLinked F_spline := ⟨fun _ _ => rfl, fun _ _ _ => rfl, fun _ => rfl⟩
instance : LawfulLinked F_ellipse := ⟨fun _ _ => rfl, fun _ _ _ => rfl, fun _ => rfl⟩
instance : LawfulLinked F_text := ⟨fun _ _ => rfl, fun _ _ _ => rfl, fun _ => rfl⟩
instance : LawfulLinked F_arc := ⟨fun _ _ => rfl, fun _ _ _ => rfl, fun _ => rfl⟩
instance : LawfulLinked F_compound := ⟨fun _ _ => rfl, fun _ _ _ => rfl, fun _ => rfl⟩

/-- The saved list of the record `r`, of an edit of a single object, holds the
original at `new_o` followed by the changed, live object at `old_o`. -/
def EditPair (r : F_history) (sc : Scene) (new_o old_o : Nat) : Prop :=
  match r.last_object with
  | O_POLYLINE => r.saved_objects.lines = some new_o ∧
    ∃ n o, sc.lines[new_o]? = some n ∧ n.next = some old_o ∧ sc.lines[old_o]? = some o
  | O_ELLIPSE => r.saved_objects.ellipses = some new_o ∧
    ∃ n o, sc.ellipses[new_o]? = some n ∧ n.next = some old_o ∧ sc.ellipses[old_o]? = some o
  | O_TXT => r.saved_objects.texts = some new_o ∧
    ∃ n o, sc.texts[new_o]? = some n ∧ n.next = some old_o ∧ sc.texts[old_o]? = some o
  | O_SPLINE => r.saved_objects.splines = some new_o ∧
    ∃ n o, sc.splines[new_o]? = some n ∧ n.next = some old_o ∧ sc.splines[old_o]? = some o
  | O_ARC => r.saved_objects.arcs = some new_o ∧
    ∃ n o, sc.arcs[new_o]? = some n ∧ n.next = some old_o ∧ sc.arcs[old_o]? = some o
  | O_COMPOUND => r.saved_objects.compounds = some new_o ∧
    ∃ n o, sc.compounds[new_o]? = some n ∧ n.next = some old_o ∧
      sc.compounds[old_o]? = some o
  | _ => False

/-- The EDIT record of `edited_state`. -/
def edited_record : F_history := (edited_state.hist[0]?).getD null_history

/-- The last object of the list that starts at `a`, found in at most `fuel`
steps along the `next` links. -/
def last_from {α : Type} [Linked α] (h : List α) : Nat → Nat → Nat
  | 0, a => a
  | fuel + 1, a =>
    match (h[a]?).bind Linked.next with
    | some b => last_from h fuel b
    | none => a

/-- Modelled from the spec: `list_add_ellipse` (`u_list.c`) is not among the
sources; by section 6 it inserts an object into its typed list and, by section
8, touches no depth counter.  The ellipse at `e` loses its successor and
becomes the head of an empty list or the successor of the last ellipse. -/
def list_add_ellipse (e : Nat) (sc : Scene) : Scene :=
  match sc.ellipses[e]? with
  | none => sc
  | some o =>
    let h : List F_ellipse := sc.ellipses.set e { o with next := none }
    match sc.objects.ellipses with
    | none => { sc with ellipses := h, objects := { sc.objects with ellipses := some e } }
    | some hd =>
      let l := last_from h h.length hd
      match h[l]? with
      | none => sc
      | some x => { sc with ellipses := h.set l { x with next := some e } }

/-- The collaborators of `sampleExt`, with `list_add_ellipse` inserting. -/
def listExt : Ext :=
  { sampleExt with
    effect := fun c sc =>
      match c.fn, c.args with
      | .list_add_ellipse, [.ptr (some e)] => list_add_ellipse e sc
      | _, _ => sampleExt.effect c sc }

/-- A figure with one ellipse at depth 7 in its list (address 1) and one at
depth 4 that has just been deleted from it (address 0). -/
def deleted_scene : Scene :=
  { null_scene with
    ellipses := [{ next := none, depth := 4, rest := 0 }, { next := none, depth := 7, rest := 0 }]
    objects := { null_compound with ellipses := some 1 } }

/-- The state after the DELETE of the ellipse at address 0 has been
committed on an empty history. -/
def deleted_state : State :=
  commit_edit listExt (set_latestellipse (some 0)
    (set_action_object F_DELETE O_ELLIPSE null_staging)) { init_state with scene := deleted_scene }

/-- A figure with three polylines: the one at address 0 has the one at
address 2 as its successor, the other two have none. -/
def chained_scene : Scene :=
  { null_scene with
    lines := [{ moved_line with next := some 2 }, { moved_line with points := [⟨0, 0⟩, ⟨5, -3⟩] },
      { moved_line with depth := 60 }]
    objects := { null_compound with lines := some 0 } }

/-- The state after a JOIN whose original is the line at address 0 and whose
latest line is the one at address 1 has been committed on an empty history. -/
def chained_state : State :=
  commit_edit sampleExt (staged_join F_JOIN) { init_state with scene := chained_scene }

/-- The insertion of a point into the polyline at address 0 is staged. -/
def staged_addpoint : Staging :=
  set_last_selectedpoint (some 3)
    (set_last_prevpoint (some 2)
      (set_latestline (some 0) (set_action_object F_ADD_POINT O_POLYLINE null_staging)))

/-- The state after an ADD, an ADD_POINT and another ADD have been committed
and the last ADD has been undone: the undo stack holds the ADD_POINT record
(address 1) on top of the first ADD (address 0), the redo stack the undone ADD
(address 2). -/
def point_state : State :=
  (undo sampleExt
    (do_edits sampleExt
      [set_latestline (some 0) (set_action_object F_ADD O_POLYLINE null_staging),
        staged_addpoint,
        set_latestline (some 0) (set_action_object F_ADD O_POLYLINE null_staging)]
      moved_start)).getD init_state

/-- The state `undo_addpoint(&undo_stack)` leaves of `point_state`. -/
def point_undone : State := (undo_addpoint sampleExt .undo point_state).getD init_state

/-- The conversion of the polyline at address 0 into a spline is staged. -/
def staged_convert_line : Staging :=
  set_latest_line_var (some 0)
    (set_latestline (some 0) (set_action_object F_CONVERT O_POLYLINE null_staging))

/-- The state after six ADD edits and a CONVERT have been committed and the
CONVERT has been undone: the CONVERT record (address 6) is the redo stack, and
the undo stack is record 3 on top of records 2, 1 and 0. -/
def convert_undone : State :=
  (undo sampleExt
    (do_edits sampleExt
      (List.replicate 6
          (set_latestline (some 0) (set_action_object F_ADD O_POLYLINE null_staging)) ++
        [staged_convert_line])
      moved_start)).getD init_state

/-- The fields of the objects of a heap other than `next`: every object with
its `next` link blanked. -/
def payloads {α : Type} [Linked α] (h : List α) : List α :=
  h.map fun x => Linked.setNext x none

/-- The payloads of the six typed heaps. -/
def Scene.payloads (sc : Scene) :
    List F_line × List F_spline × List F_ellipse × List F_text × List F_arc ×
      List F_compound :=
  (XfigUndo.payloads sc.lines, XfigUndo.payloads sc.splines, XfigUndo.payloads sc.ellipses,
    XfigUndo.payloads sc.texts, XfigUndo.payloads sc.arcs, XfigUndo.payloads sc.compounds)

/-- The depth, display and list functions: they count, redraw and relink. -/
def relinking (fn : Fn) : Bool :=
  bookkeeping fn ||
    match fn with
    | .list_add_line | .list_add_ellipse | .list_add_text | .list_add_spline | .list_add_arc
    | .list_add_compound | .list_delete_line | .list_delete_ellipse | .list_delete_text
    | .list_delete_spline | .list_delete_arc | .list_delete_compound => true
    | _ => false

/-- The depth, display and list functions of `E` write to no field of an
object other than `next`. -/
def KeepsPayloads (E : Ext) : Prop :=
  ∀ (c : Call) (sc : Scene), relinking c.fn = true → (E.effect c sc).payloads = sc.payloads


/-- What `undo_scale` leaves of a pair of objects of one type: no object has
changed in a field other than `next`, the old object has the new one as its
successor, and the calls made are `calls`. -/
def ScaleOutcome {α : Type} [Linked α] (heap : Scene → List α) (calls : List Call)
    (s s2 : State) (new_o old_o : Nat) : Prop :=
  payloads (heap s2.scene) = payloads (heap s.scene) ∧
  ((heap s2.scene)[old_o]?).map Linked.next = some (some new_o) ∧
  s2.trace = s.trace ++ calls

/-- A polyline scaled by two about the origin: the original, kept at address 0
with the scaled one as its successor, and the scaled, live one at address 1. -/
def scaled_scene : Scene :=
  { null_scene with
    lines :=
      [{ next := some 1, type := 1, depth := 50, for_arrow := none, back_arrow := none,
         points := [⟨0, 0⟩, ⟨10, 10⟩], rest := 0 },
       { next := none, type := 1, depth := 50, for_arrow := none, back_arrow := none,
         points := [⟨0, 0⟩, ⟨20, 20⟩], rest := 0 }]
    objects := { null_compound with lines := some 1 } }

/-- The state after that SCALE of the polyline has been committed on an empty
history. -/
def scaled_state : State :=
  commit_edit sampleExt (set_latestline (some 0) (set_action_object F_SCALE O_POLYLINE null_staging))
    { init_state with scene := scaled_scene }

/-- The state after an ADD, an ADD_ARROW_HEAD staged for an ellipse and another
ADD have been committed on an empty history. -/
def arrow_state : State :=
  do_edits sampleExt
    [set_latestline (some 0) (set_action_object F_ADD O_POLYLINE null_staging), staged_arrow,
      set_latestline (some 0) (set_action_object F_ADD O_POLYLINE null_staging)]
    moved_start

/-- The state after a JOIN of two polylines and then the edit staged as `st`
have been committed on an empty history. -/
def join_then (st : Staging) : State :=
  do_edits sampleExt [staged_join F_JOIN, st] { init_state with scene := joined_scene }

/-- The records whose handler reads and writes no staging variable and calls
no editing command: every ADD, EDIT, GLUE, BREAK, LOAD, SCALE and
DELETE_ARROW_HEAD, a DELETE unless of a whole figure, and a MOVE unless of a
line, a text or a compound. -/
def record_only (r : F_history) : Bool :=
  match r.last_action with
  | F_ADD | F_EDIT | F_GLUE | F_BREAK | F_LOAD | F_SCALE | F_DELETE_ARROW_HEAD => true
  | F_DELETE =>
    match r.last_object with
    | O_FIGURE => false
    | _ => true
  | F_MOVE =>
    match r.last_object with
    | O_POLYLINE | O_TXT | O_COMPOUND => false
    | _ => true
  | _ => false

/-- `IsList h l p`: following `next` from the head `p` through the heap `h`
of one object type visits exactly the addresses `l`, in order, and then
reaches `NULL`. -/
def IsList {α : Type} [Linked α] (h : List α) : List Nat → Ptr → Prop
  | [], p => p = none
  | a :: l, p => p = some a ∧ ∃ x, h[a]? = some x ∧ IsList h l (Linked.next x)

/-- The collaborators insert an ellipse as `list_add_ellipse` is modelled, and
`redisplay_ellipse` writes neither to an ellipse nor to the head of their
list. -/
def InsertsEllipses (E : Ext) : Prop :=
  (∀ (e : Nat) (sc : Scene),
    E.effect ⟨.list_add_ellipse, [.ptr (some e)]⟩ sc = list_add_ellipse e sc) ∧
  ∀ (args : List Arg) (sc : Scene),
    (E.effect ⟨.redisplay_ellipse, args⟩ sc).ellipses = sc.ellipses ∧
    (E.effect ⟨.redisplay_ellipse, args⟩ sc).objects.ellipses = sc.objects.ellipses

end XfigUndo

namespace XfigUndo

open Action ObjKind

/-! ## Chains of records -/

theorem IsStack_lt {h : List F_history} : ∀ {l : List Nat} {p : Ptr},
    IsStack h l p → ∀ a, a ∈ l → a < h.length
  | [], _, _, a, ha => by simp at ha
  | b :: l, p, hs, a, ha => by
    obtain ⟨_, r, hr, hl⟩ := hs
    rcases List.mem_cons.1 ha with rfl | ha
    · exact (List.getElem?_eq_some.1 hr).1
    · exact IsStack_lt hl a ha

theorem IsStack_unique {h : List F_history} : ∀ {l l2 : List Nat} {p : Ptr},
    IsStack h l p → IsStack h l2 p → l = l2
  | [], [], _, _, _ => rfl
  | [], b :: l2, p, h1, h2 => by
    have e1 : p = none := h1
    have e2 : p = some b := h2.1
    rw [e1] at e2
    cases e2
  | a :: l, [], p, h1, h2 => by
    have e1 : p = some a := h1.1
    have e2 : p = none := h2
    rw [e1] at e2
    cases e2
  | a :: l, b :: l2, p, h1, h2 => by
    obtain ⟨e1, r, hr, hl⟩ := h1
    obtain ⟨e2, r2, hr2, hl2⟩ := h2
    rw [e1] at e2
    cases e2
    rw [hr] at hr2
    cases hr2
    rw [IsStack_unique hl hl2]

theorem IsStack_drop {h : List F_history} : ∀ {l1 : List Nat} {a : Nat} {l2 : List Nat} {p : Ptr},
    IsStack h (l1 ++ a :: l2) p → IsStack h (a :: l2) (some a)
  | [], a, l2, p, hs => by
    have e : p = some a := hs.1
    rw [e] at hs
    exact hs
  | b :: l1, a, l2, p, hs => by
    obtain ⟨_, r, _, hl⟩ := hs
    exact IsStack_drop hl

theorem IsStack_head_not_mem {h : List F_history} {a : Nat} {l : List Nat} {p : Ptr}
    (hs : IsStack h (a :: l) p) : a ∉ l := by
  intro ha
  obtain ⟨l1, l2, rfl⟩ := List.append_of_mem ha
  have e : p = some a := hs.1
  have h1 : IsStack h (a :: (l1 ++ a :: l2)) (some a) := by rw [e] at hs; exact hs
  obtain ⟨_, r, hr, hl⟩ := hs
  have h2 : IsStack h (a :: l2) (some a) := IsStack_drop hl
  have := congrArg List.length (IsStack_unique h1 h2)
  simp at this
  omega

theorem IsStack_tail {h : List F_history} {a : Nat} {l : List Nat} {p : Ptr}
    (hs : IsStack h (a :: l) p) : ∃ r, h[a]? = some r ∧ IsStack h l r.next := hs.2

theorem IsStack_nodup {h : List F_history} : ∀ {l : List Nat} {p : Ptr},
    IsStack h l p → l.Nodup
  | [], _, _ => List.nodup_nil
  | a :: l, p, hs => by
    have hn := IsStack_head_not_mem hs
    obtain ⟨_, r, _, hl⟩ := hs
    exact List.nodup_cons.2 ⟨hn, IsStack_nodup hl⟩

/-- A chain only depends on the `next` fields. -/
theorem IsStack_congr {h h2 : List F_history}
    (e : h.map F_history.next = h2.map F_history.next) :
    ∀ {l : List Nat} {p : Ptr}, IsStack h l p → IsStack h2 l p
  | [], _, hs => hs
  | a :: l, p, hs => by
    obtain ⟨e1, r, hr, hl⟩ := hs
    have h3 : (h.map F_history.next)[a]? = some r.next := by simp [hr]
    rw [e] at h3
    simp only [List.getElem?_map, Option.map_eq_some'] at h3
    obtain ⟨r2, hr2, hn⟩ := h3
    refine ⟨e1, r2, hr2, ?_⟩
    rw [hn]
    exact IsStack_congr e hl

theorem IsStack_set {h : List F_history} (b : Nat) (v : F_history) :
    ∀ {l : List Nat} {p : Ptr}, IsStack h l p → b ∉ l → IsStack (h.set b v) l p
  | [], _, hs, _ => hs
  | a :: l, p, hs, hb => by
    obtain ⟨e1, r, hr, hl⟩ := hs
    have hne : b ≠ a := fun e => hb (by simp [e])
    refine ⟨e1, r, ?_, IsStack_set b v hl (fun hm => hb (List.mem_cons_of_mem _ hm))⟩
    rw [List.getElem?_set_ne hne]
    exact hr

theorem IsStack_append {h : List F_history} (t : List F_history) :
    ∀ {l : List Nat} {p : Ptr}, IsStack h l p → IsStack (h ++ t) l p
  | [], _, hs => hs
  | a :: l, p, hs => by
    obtain ⟨e1, r, hr, hl⟩ := hs
    refine ⟨e1, r, ?_, IsStack_append t hl⟩
    rw [List.getElem?_append_left (List.getElem?_eq_some.1 hr).1]
    exact hr

/-! ## `pop_stack` and `swap_stack` -/

theorem stk_setStk_same (s : State) (w : StackRef) (p : Ptr) : (s.setStk w p).stk w = p := by
  cases w <;> rfl

theorem swap_stack_undo_eq (s : State) (a : Nat) (r : F_history)
    (hu : s.undo_stack = some a) (hr : s.hist[a]? = some r) :
    swap_stack .undo s = some
      { s with
        undo_stack := r.next
        redo_stack := some a
        hist := s.hist.set a { r with next := s.redo_stack } } := by
  simp [swap_stack, State.stk, other_stack, pop_stack, State.setStk, hu, hr]

theorem swap_stack_redo_eq (s : State) (a : Nat) (r : F_history)
    (hu : s.redo_stack = some a) (hr : s.hist[a]? = some r) (hne : s.undo_stack ≠ some a) :
    swap_stack .redo s = some
      { s with
        redo_stack := r.next
        undo_stack := some a
        hist := s.hist.set a { r with next := s.undo_stack } } := by
  have hne2 : ¬ (some a = s.undo_stack) := fun e => hne e.symm
  simp [swap_stack, State.stk, other_stack, pop_stack, State.setStk, hu, hr, hne2]

theorem swap_undo_chain {s : State} {r : Nat} {us rs : List Nat}
    (hu : IsStack s.hist (r :: us) s.undo_stack) (hr : IsStack s.hist rs s.redo_stack)
    (hn : r ∉ rs) :
    ∃ s2, swap_stack .undo s = some s2 ∧
      IsStack s2.hist us s2.undo_stack ∧ IsStack s2.hist (r :: rs) s2.redo_stack := by
  have hnu := IsStack_head_not_mem hu
  obtain ⟨e, rec, hrec, hl⟩ := hu
  refine ⟨_, swap_stack_undo_eq s r rec e hrec, IsStack_set r _ hl hnu, rfl, ?_⟩
  have hlt := (List.getElem?_eq_some.1 hrec).1
  exact ⟨_, List.getElem?_set_self hlt, IsStack_set r _ hr hn⟩

theorem swap_redo_chain {s : State} {r : Nat} {us rs : List Nat}
    (hu : IsStack s.hist us s.undo_stack) (hr : IsStack s.hist (r :: rs) s.redo_stack)
    (hn : r ∉ us) :
    ∃ s2, swap_stack .redo s = some s2 ∧
      IsStack s2.hist (r :: us) s2.undo_stack ∧ IsStack s2.hist rs s2.redo_stack := by
  have hnr := IsStack_head_not_mem hr
  obtain ⟨e, rec, hrec, hl⟩ := hr
  have hne : s.undo_stack ≠ some r := by
    intro e2
    cases us with
    | nil =>
      have e3 : s.undo_stack = none := hu
      rw [e3] at e2
      cases e2
    | cons b us =>
      have e3 : s.undo_stack = some b := hu.1
      rw [e3] at e2
      cases e2
      exact hn (List.mem_cons_self _ _)
  have hlt := (List.getElem?_eq_some.1 hrec).1
  refine ⟨_, swap_stack_redo_eq s r rec e hrec hne, ?_, IsStack_set r _ hl hnr⟩
  exact ⟨rfl, _, List.getElem?_set_self hlt, IsStack_set r _ hu hn⟩

theorem swap_stack_empty {s : State} {w : StackRef} (hw : s.stk w = none) :
    swap_stack w s = some s := by
  simp [swap_stack, hw]

/-- C1: `swap_stack` moves exactly the top record.  If the undo stack is the
chain `r :: us`, the redo stack the chain `rs`, and `r` is not also on the redo
stack, then `swap_stack(&undo_stack)` returns with the undo stack `us` and the
redo stack `r :: rs`; symmetrically for `swap_stack(&redo_stack)`; and on an
empty stack it returns the state unchanged. -/
theorem swap_stack_moves_top (s : State) (r : Nat) (us rs : List Nat) :
    (IsStack s.hist (r :: us) s.undo_stack → IsStack s.hist rs s.redo_stack → r ∉ rs →
      ∃ s2, swap_stack .undo s = some s2 ∧
        IsStack s2.hist us s2.undo_stack ∧ IsStack s2.hist (r :: rs) s2.redo_stack) ∧
    (IsStack s.hist us s.undo_stack → IsStack s.hist (r :: rs) s.redo_stack → r ∉ us →
      ∃ s2, swap_stack .redo s = some s2 ∧
        IsStack s2.hist (r :: us) s2.undo_stack ∧ IsStack s2.hist rs s2.redo_stack) ∧
    (∀ w, s.stk w = none → swap_stack w s = some s) :=
  ⟨swap_undo_chain, swap_redo_chain, fun _ hw => swap_stack_empty hw⟩

theorem swap_stack_pres {w : StackRef} {s s2 : State} (h : StacksDisjoint s)
    (hs : swap_stack w s = some s2) : StacksDisjoint s2 := by
  obtain ⟨us, rs, hu, hr, hd⟩ := h
  cases w with
  | undo =>
    cases us with
    | nil =>
      have e : s.stk .undo = none := hu
      rw [swap_stack_empty e] at hs
      cases hs
      exact ⟨[], rs, hu, hr, hd⟩
    | cons r us =>
      have hn : r ∉ rs := hd r (List.mem_cons_self _ _)
      have hnu := IsStack_head_not_mem hu
      obtain ⟨s3, h3, hu3, hr3⟩ := swap_undo_chain hu hr hn
      rw [h3] at hs
      cases hs
      refine ⟨us, r :: rs, hu3, hr3, ?_⟩
      intro a ha hm
      rcases List.mem_cons.1 hm with rfl | hm
      · exact hnu ha
      · exact hd a (List.mem_cons_of_mem _ ha) hm
  | redo =>
    cases rs with
    | nil =>
      have e : s.stk .redo = none := hr
      rw [swap_stack_empty e] at hs
      cases hs
      exact ⟨us, [], hu, hr, hd⟩
    | cons r rs =>
      have hn : r ∉ us := fun hm => hd r hm (List.mem_cons_self _ _)
      have hnr := IsStack_head_not_mem hr
      obtain ⟨s3, h3, hu3, hr3⟩ := swap_redo_chain hu hr hn
      rw [h3] at hs
      cases hs
      refine ⟨r :: us, rs, hu3, hr3, ?_⟩
      intro a ha hm
      rcases List.mem_cons.1 ha with rfl | ha
      · exact hnr hm
      · exact hd a ha (List.mem_cons_of_mem _ hm)

theorem pop_stack_pres {w : StackRef} {s s2 : State} (h : StacksDisjoint s)
    (hs : pop_stack w s = some s2) : StacksDisjoint s2 := by
  obtain ⟨us, rs, hu, hr, hd⟩ := h
  unfold pop_stack at hs
  cases w with
  | undo =>
    cases us with
    | nil =>
      have e : s.undo_stack = none := hu
      simp only [State.stk, e] at hs
      cases hs
      exact ⟨[], rs, hu, hr, hd⟩
    | cons r us =>
      obtain ⟨e, rec, hrec, hl⟩ := hu
      simp only [State.stk, e, hrec, State.setStk, Option.some.injEq] at hs
      subst hs
      exact ⟨us, rs, hl, hr, fun a ha => hd a (List.mem_cons_of_mem _ ha)⟩
  | redo =>
    cases rs with
    | nil =>
      have e : s.redo_stack = none := hr
      simp only [State.stk, e] at hs
      cases hs
      exact ⟨us, [], hu, hr, hd⟩
    | cons r rs =>
      obtain ⟨e, rec, hrec, hl⟩ := hr
      simp only [State.stk, e, hrec, State.setStk, Option.some.injEq] at hs
      subst hs
      exact ⟨us, rs, hu, hl, fun a ha hm => hd a ha (List.mem_cons_of_mem _ hm)⟩

theorem push_history_pres {E : Ext} {s : State} (h : StacksDisjoint s) :
    StacksDisjoint (push_history E s) := by
  obtain ⟨us, rs, hu, hr, hd⟩ := h
  refine ⟨s.hist.length :: us, rs, ?_, ?_, ?_⟩
  · refine ⟨rfl, _, List.getElem?_concat_length _ _, ?_⟩
    exact IsStack_append _ hu
  · exact IsStack_append _ hr
  · intro a ha hm
    rcases List.mem_cons.1 ha with rfl | ha
    · exact absurd (IsStack_lt hr _ hm) (lt_irrefl _)
    · exact hd a ha hm

theorem free_redo_pres {s : State} (h : StacksDisjoint s) :
    StacksDisjoint (free_history .redo s) := by
  obtain ⟨us, rs, hu, hr, hd⟩ := h
  exact ⟨us, [], hu, rfl, fun a _ hm => by simp at hm⟩

theorem undo_update_history_pres {E : Ext} {s : State} (h : StacksDisjoint s) :
    StacksDisjoint (undo_update_history E s) := by
  unfold undo_update_history
  split
  · exact h
  · split
    · exact push_history_pres (free_redo_pres h)
    · exact push_history_pres h

theorem runApi_pres {E : Ext} : ∀ (l : List ApiCall) {s : State}, StacksDisjoint s →
    StacksDisjoint (runApi E l s)
  | [], _, h => h
  | .stage _ :: cs, _, h => runApi_pres cs (s := _) h
  | .undo_update_history :: cs, _, h => runApi_pres cs (undo_update_history_pres h)
  | .set_freeze_undo_additions _ :: cs, _, h => runApi_pres cs (s := _) h

theorem cmd_pres {E : Ext} {fn : Fn} {args : List Arg} {s : State} (h : StacksDisjoint s) :
    StacksDisjoint (cmd E fn args s) :=
  runApi_pres _ (s := _) h

/-! ## What the handlers do to the link structure -/

theorem lk_hist {s s2 : State} (e : lk s2 = lk s) :
    s2.hist.map F_history.next = s.hist.map F_history.next := congrArg Prod.fst e

theorem lk_undo {s s2 : State} (e : lk s2 = lk s) : s2.undo_stack = s.undo_stack :=
  congrArg (fun x => x.2.1) e

theorem lk_redo {s s2 : State} (e : lk s2 = lk s) : s2.redo_stack = s.redo_stack :=
  congrArg (fun x => x.2.2) e

theorem StacksDisjoint_of_lk {s s2 : State} (e : lk s2 = lk s) (h : StacksDisjoint s) :
    StacksDisjoint s2 := by
  obtain ⟨us, rs, hu, hr, hd⟩ := h
  refine ⟨us, rs, ?_, ?_, hd⟩
  · rw [lk_undo e]; exact IsStack_congr (lk_hist e).symm hu
  · rw [lk_redo e]; exact IsStack_congr (lk_hist e).symm hr

@[simp] theorem lk_ext (E : Ext) (fn : Fn) (args : List Arg) (s : State) :
    lk (ext E fn args s) = lk s := rfl

theorem map_next_set {h : List F_history} {a : Nat} {r v : F_history}
    (hr : h[a]? = some r) (hv : v.next = r.next) :
    (h.set a v).map F_history.next = h.map F_history.next := by
  apply List.ext_getElem?
  intro i
  simp only [List.getElem?_map, List.getElem?_set]
  by_cases hi : a = i
  · subst hi
    simp [hr, (List.getElem?_eq_some.1 hr).1, hv]
  · simp [hi]

theorem setTop_lk {s s2 : State} {w : StackRef} {f : F_history → F_history}
    (h : s.setTop w f = some s2) (hf : ∀ r, (f r).next = r.next) : lk s2 = lk s := by
  unfold State.setTop at h
  split at h
  · cases h
  · split at h
    · cases h
    · rename_i a _ r hr
      cases h
      simp only [lk, map_next_set hr (hf r)]

theorem top_eq_some {s : State} {w : StackRef} {r : F_history} (h : s.top w = some r) :
    ∃ a, s.stk w = some a ∧ s.hist[a]? = some r := by
  unfold State.top at h
  cases ha : s.stk w with
  | none => rw [ha] at h; cases h
  | some a => rw [ha] at h; exact ⟨a, rfl, h⟩

theorem setTop_eq_some {s s2 : State} {w : StackRef} {f : F_history → F_history}
    (h : s.setTop w f = some s2) :
    ∃ a r, s.stk w = some a ∧ s.hist[a]? = some r ∧
      s2 = { s with hist := s.hist.set a (f r) } := by
  unfold State.setTop at h
  split at h
  · cases h
  · rename_i a ha
    split at h
    · cases h
    · rename_i r hr
      cases h
      exact ⟨a, r, ha, hr, rfl⟩

theorem stk_congr {s s1 : State} (hu : s1.undo_stack = s.undo_stack)
    (hr : s1.redo_stack = s.redo_stack) (w : StackRef) : s1.stk w = s.stk w := by
  cases w
  · exact hu
  · exact hr

theorem TopOnly.start {s : State} {w : StackRef} {a : Nat} {r : F_history}
    (ha : s.stk w = some a) (hr : s.hist[a]? = some r) : TopOnly w s s a r r := by
  refine ⟨ha, hr, ?_, rfl, rfl, rfl, rfl⟩
  apply List.ext_getElem?
  intro i
  rw [List.getElem?_set]
  by_cases hi : a = i
  · subst hi
    simp [hr, (List.getElem?_eq_some.1 hr).1]
  · simp [hi]

theorem TopOnly.congr {w : StackRef} {s s1 s2 : State} {a : Nat} {r r1 : F_history}
    (h : TopOnly w s s1 a r r1) (hh : s2.hist = s1.hist) (hu : s2.undo_stack = s1.undo_stack)
    (hr : s2.redo_stack = s1.redo_stack) (hm : s2.msgs = s1.msgs) : TopOnly w s s2 a r r1 := by
  obtain ⟨h1, h2, h3, h4, h5, h6, h7⟩ := h
  exact ⟨h1, h2, hh.trans h3, h4, hu.trans h5, hr.trans h6, hm.trans h7⟩

theorem TopOnly.stk {w : StackRef} {s s1 : State} {a : Nat} {r r1 : F_history}
    (h : TopOnly w s s1 a r r1) : s1.stk w = some a := by
  rw [stk_congr h.2.2.2.2.1 h.2.2.2.2.2.1 w]
  exact h.1

theorem TopOnly.get {w : StackRef} {s s1 : State} {a : Nat} {r r1 : F_history}
    (h : TopOnly w s s1 a r r1) : s1.hist[a]? = some r1 := by
  rw [h.2.2.1]
  exact List.getElem?_set_self (List.getElem?_eq_some.1 h.2.1).1

theorem TopOnly.setTop {w : StackRef} {s s1 s2 : State} {a : Nat} {r r1 : F_history}
    {f : F_history → F_history} (h : TopOnly w s s1 a r r1) (h2 : s1.setTop w f = some s2)
    (hf : (f r1).next = r1.next) : TopOnly w s s2 a r (f r1) := by
  obtain ⟨b, r2, hb, hr2, rfl⟩ := setTop_eq_some h2
  rw [h.stk] at hb
  cases hb
  rw [h.get] at hr2
  cases hr2
  obtain ⟨h1, h2, h3, h4, h5, h6, h7⟩ := h
  refine ⟨h1, h2, ?_, hf.trans h4, h5, h6, h7⟩
  show s1.hist.set a (f r1) = s.hist.set a (f r1)
  rw [h3, List.set_set]

theorem TopOnly.lk {w : StackRef} {s s1 : State} {a : Nat} {r r1 : F_history}
    (h : TopOnly w s s1 a r r1) : lk s1 = lk s := by
  obtain ⟨h1, h2, h3, h4, h5, h6, h7⟩ := h
  simp only [XfigUndo.lk, h3, h5, h6, map_next_set h2 h4]

@[simp] theorem ext_hist (E : Ext) (fn : Fn) (args : List Arg) (s : State) :
    (ext E fn args s).hist = s.hist := rfl

@[simp] theorem ext_undo_stack (E : Ext) (fn : Fn) (args : List Arg) (s : State) :
    (ext E fn args s).undo_stack = s.undo_stack := rfl

@[simp] theorem ext_redo_stack (E : Ext) (fn : Fn) (args : List Arg) (s : State) :
    (ext E fn args s).redo_stack = s.redo_stack := rfl

@[simp] theorem ext_msgs (E : Ext) (fn : Fn) (args : List Arg) (s : State) :
    (ext E fn args s).msgs = s.msgs := rfl

@[simp] theorem ext_stk (E : Ext) (fn : Fn) (args : List Arg) (s : State) (w : StackRef) :
    (ext E fn args s).stk w = s.stk w := by cases w <;> rfl

@[simp] theorem mapScene_hist (s : State) (f : Scene → Scene) :
    (s.mapScene f).hist = s.hist := rfl

@[simp] theorem mapScene_undo_stack (s : State) (f : Scene → Scene) :
    (s.mapScene f).undo_stack = s.undo_stack := rfl

@[simp] theorem mapScene_redo_stack (s : State) (f : Scene → Scene) :
    (s.mapScene f).redo_stack = s.redo_stack := rfl

@[simp] theorem mapScene_msgs (s : State) (f : Scene → Scene) :
    (s.mapScene f).msgs = s.msgs := rfl

@[simp] theorem mapScene_stk (s : State) (f : Scene → Scene) (w : StackRef) :
    (s.mapScene f).stk w = s.stk w := by cases w <;> rfl

@[simp] theorem mapStaging_hist (s : State) (f : Staging → Staging) :
    (s.mapStaging f).hist = s.hist := rfl

@[simp] theorem mapStaging_undo_stack (s : State) (f : Staging → Staging) :
    (s.mapStaging f).undo_stack = s.undo_stack := rfl

@[simp] theorem mapStaging_redo_stack (s : State) (f : Staging → Staging) :
    (s.mapStaging f).redo_stack = s.redo_stack := rfl

@[simp] theorem mapStaging_msgs (s : State) (f : Staging → Staging) :
    (s.mapStaging f).msgs = s.msgs := rfl

@[simp] theorem mapStaging_stk (s : State) (f : Staging → Staging) (w : StackRef) :
    (s.mapStaging f).stk w = s.stk w := by cases w <;> rfl

@[simp] theorem setFreezeRedo_hist (s : State) (b : Bool) :
    (s.setFreezeRedo b).hist = s.hist := rfl

@[simp] theorem setFreezeRedo_undo_stack (s : State) (b : Bool) :
    (s.setFreezeRedo b).undo_stack = s.undo_stack := rfl

@[simp] theorem setFreezeRedo_redo_stack (s : State) (b : Bool) :
    (s.setFreezeRedo b).redo_stack = s.redo_stack := rfl

@[simp] theorem setFreezeRedo_msgs (s : State) (b : Bool) :
    (s.setFreezeRedo b).msgs = s.msgs := rfl

@[simp] theorem setFreezeRedo_stk (s : State) (b : Bool) (w : StackRef) :
    (s.setFreezeRedo b).stk w = s.stk w := by cases w <;> rfl

theorem SameHist.rfl {s : State} : SameHist s s := ⟨Eq.refl _, Eq.refl _, Eq.refl _, Eq.refl _⟩

theorem SameHist.trans {s s1 s2 : State} (h1 : SameHist s s1) (h2 : SameHist s1 s2) :
    SameHist s s2 :=
  ⟨h2.1.trans h1.1, h2.2.1.trans h1.2.1, h2.2.2.1.trans h1.2.2.1, h2.2.2.2.trans h1.2.2.2⟩

theorem TopOnly.same {w : StackRef} {s s1 s2 : State} {a : Nat} {r r1 : F_history}
    (h : TopOnly w s s1 a r r1) (h2 : SameHist s1 s2) : TopOnly w s s2 a r r1 :=
  h.congr h2.1 h2.2.1 h2.2.2.1 h2.2.2.2

theorem change_objects_same {α : Type} [Linked α] {E : Ext} {k : ObjKind} {depth : α → Int}
    {heap : Scene → List α} {head : Ptr} {s : State} {d : State × List α × Nat × Nat}
    (h : change_objects E k depth heap head s = some d) : SameHist s d.1 := by
  simp only [change_objects, Option.bind_eq_bind, Option.bind_eq_some, Option.pure_def,
    Option.some.injEq] at h
  obtain ⟨_, _, _, _, _, _, _, _, _, _, _, _, rfl⟩ := h
  exact SameHist.rfl

theorem scale_objects_same {α : Type} [Linked α] {E : Ext} {k : ObjKind} {depth : α → Int}
    {heap : Scene → List α} {del add : Fn} {head : Ptr} {s : State} {d : State × Nat × Nat}
    (h : scale_objects E k depth heap del add head s = some d) : SameHist s d.1 := by
  simp only [scale_objects, Option.bind_eq_bind, Option.bind_eq_some, Option.pure_def,
    Option.some.injEq] at h
  obtain ⟨_, _, _, _, _, _, _, _, _, _, rfl⟩ := h
  exact SameHist.rfl

theorem undo_add_step {E : Ext} {w : StackRef} {s s2 : State} (h : undo_add E w s = some s2) :
    ∃ a r r1 s1, TopOnly w s s1 a r r1 ∧ r1.last_action = F_DELETE ∧
      swap_stack w s1 = some s2 := by
  simp only [undo_add, Option.bind_eq_bind, Option.bind_eq_some] at h
  obtain ⟨r, hr, s1, h1, h2⟩ := h
  obtain ⟨a, ha, hr⟩ := top_eq_some hr
  have h0 := TopOnly.start ha hr
  refine ⟨a, r, _, s1, (TopOnly.congr h0 ?_ ?_ ?_ ?_).setTop h1 rfl, rfl, h2⟩ <;>
    cases r.last_object <;> rfl

theorem undo_change_step {E : Ext} {w : StackRef} {s s2 : State}
    (h : undo_change E w s = some s2) :
    ∃ a r r1 s1, TopOnly w s s1 a r r1 ∧ r1.last_action = r.last_action ∧
      swap_stack w s1 = some s2 := by
  simp only [undo_change, Option.bind_eq_bind, Option.bind_eq_some] at h
  obtain ⟨r, hr, h⟩ := h
  obtain ⟨a, ha, hr⟩ := top_eq_some hr
  have h0 := TopOnly.start ha hr
  refine ⟨a, r, ?_⟩
  split at h <;>
    simp only [Option.bind_eq_bind, Option.bind_eq_some, Option.pure_def, Option.some.injEq,
      exists_eq_left'] at h
  · obtain ⟨d, hd, hsw⟩ := h
    refine ⟨_, _, ?_, rfl, hsw⟩
    exact h0.same (change_objects_same hd)
  · obtain ⟨d, hd, hsw⟩ := h
    refine ⟨_, _, ?_, rfl, hsw⟩
    exact h0.same (change_objects_same hd)
  · obtain ⟨d, hd, hsw⟩ := h
    refine ⟨_, _, ?_, rfl, hsw⟩
    exact h0.same (change_objects_same hd)
  · obtain ⟨d, hd, hsw⟩ := h
    refine ⟨_, _, ?_, rfl, hsw⟩
    exact h0.same (change_objects_same hd)
  · obtain ⟨d, hd, hsw⟩ := h
    refine ⟨_, _, ?_, rfl, hsw⟩
    exact h0.same (change_objects_same hd)
  · obtain ⟨_, _, _, _, _, _, _, _, _, _, hsw⟩ := h
    refine ⟨_, _, ?_, rfl, hsw⟩
    exact h0.same (by simp [SameHist])
  · obtain ⟨s1, h1, hsw⟩ := h
    exact ⟨_, _, (h0.same (by simp [SameHist])).setTop h1 rfl, rfl, hsw⟩
  · obtain ⟨s1, h1, hsw⟩ := h
    exact ⟨_, _, ((h0.same (by simp [SameHist])).setTop h1 rfl).same
      (by simp [SameHist]), rfl, hsw⟩
  · exact ⟨_, _, h0, rfl, h⟩

theorem undo_delete_step {E : Ext} {w : StackRef} {s s2 : State}
    (h : undo_delete E w s = some s2) :
    ∃ a r r1 s1, TopOnly w s s1 a r r1 ∧ r1.last_action = F_ADD ∧
      swap_stack w s1 = some s2 := by
  simp only [undo_delete, Option.bind_eq_bind, Option.bind_eq_some] at h
  obtain ⟨r, hr, h⟩ := h
  obtain ⟨a, ha, hr⟩ := top_eq_some hr
  have h0 := TopOnly.start ha hr
  refine ⟨a, r, ?_⟩
  split at h <;>
    simp only [Option.bind_eq_bind, Option.bind_eq_some, Option.pure_def, Option.some.injEq,
      exists_eq_left'] at h
  · obtain ⟨s1, h1, hsw⟩ := h
    exact ⟨_, _, (h0.same (by simp [SameHist])).setTop h1 rfl, rfl, hsw⟩
  · obtain ⟨s1, h1, hsw⟩ := h
    exact ⟨_, _, (h0.same (by simp [SameHist])).setTop h1 rfl, rfl, hsw⟩
  · obtain ⟨s1, h1, hsw⟩ := h
    exact ⟨_, _, (h0.same (by simp [SameHist])).setTop h1 rfl, rfl, hsw⟩
  · obtain ⟨s1, h1, hsw⟩ := h
    exact ⟨_, _, (h0.same (by simp [SameHist])).setTop h1 rfl, rfl, hsw⟩
  · obtain ⟨s1, h1, hsw⟩ := h
    exact ⟨_, _, (h0.same (by simp [SameHist])).setTop h1 rfl, rfl, hsw⟩
  · obtain ⟨s1, h1, hsw⟩ := h
    exact ⟨_, _, (h0.same (by simp [SameHist])).setTop h1 rfl, rfl, hsw⟩
  · obtain ⟨s1, h1, s3, h3, hsw⟩ := h
    have t1 := (h0.same (by simp [SameHist])).setTop h1 rfl
    have t2 := (t1.same (by simp [SameHist])).setTop h3 rfl
    exact ⟨_, _, t2, rfl, hsw⟩
  · obtain ⟨s1, h1, s3, h3, hsw⟩ := h
    have t1 := (h0.same (by simp [SameHist])).setTop h1 rfl
    have t2 := (t1.same (by simp [SameHist])).setTop h3 rfl
    exact ⟨_, _, t2, rfl, hsw⟩
  · obtain ⟨s1, h1, hsw⟩ := h
    exact ⟨_, _, h0.setTop h1 rfl, rfl, hsw⟩

theorem move_switch_same (E : Ext) (r : F_history) (dx dy : Int) (s : State) :
    SameHist s (move_switch E r dx dy s) := by
  unfold move_switch
  cases r.last_object <;> simp [SameHist]

theorem undo_move_step {E : Ext} {w : StackRef} {s s2 : State}
    (h : undo_move E w s = some s2) :
    ∃ a r r1 s1, TopOnly w s s1 a r r1 ∧ r1.last_action = r.last_action ∧
      swap_stack w s1 = some s2 := by
  unfold undo_move at h
  simp only [Option.bind_eq_bind, Option.bind_eq_some] at h
  obtain ⟨r, hr, s1, h1, hsw⟩ := h
  obtain ⟨a, ha, hr⟩ := top_eq_some hr
  have h0 := TopOnly.start ha hr
  unfold swap_newp_lastp at h1
  have t1 := (h0.same (move_switch_same E r _ _ s)).setTop h1 rfl
  exact ⟨a, r, _, s1, t1, rfl, hsw⟩

theorem undo_glue_step {E : Ext} {w : StackRef} {s s2 : State}
    (h : undo_glue E w s = some s2) :
    ∃ a r r1 s1, TopOnly w s s1 a r r1 ∧ r1.last_action = F_BREAK ∧
      swap_stack w s1 = some s2 := by
  simp only [undo_glue, Option.bind_eq_bind, Option.bind_eq_some] at h
  obtain ⟨r, hr, s1, h1, hsw⟩ := h
  obtain ⟨a, ha, hr⟩ := top_eq_some hr
  have h0 := TopOnly.start ha hr
  have h2 := (h0.same (by simp [SameHist])).setTop h1 rfl
  refine ⟨a, r, _, _, h2.same ?_, rfl, hsw⟩
  split <;> simp [SameHist]

theorem undo_break_step {E : Ext} {w : StackRef} {s s2 : State}
    (h : undo_break E w s = some s2) :
    ∃ a r r1 s1, TopOnly w s s1 a r r1 ∧ r1.last_action = F_GLUE ∧
      swap_stack w s1 = some s2 := by
  simp only [undo_break, Option.bind_eq_bind, Option.bind_eq_some] at h
  obtain ⟨r, hr, s1, h1, hsw⟩ := h
  obtain ⟨a, ha, hr⟩ := top_eq_some hr
  have h0 := TopOnly.start ha hr
  have h2 := (h0.same (by simp [SameHist])).setTop h1 rfl
  exact ⟨a, r, _, _, h2.same (by simp [SameHist]), rfl, hsw⟩

theorem undo_load_step {E : Ext} {w : StackRef} {s s2 : State}
    (h : undo_load E w s = some s2) :
    ∃ a r r1 s1, TopOnly w s s1 a r r1 ∧ r1.last_action = F_LOAD ∧
      swap_stack w s1 = some s2 := by
  unfold undo_load at h
  simp only [Option.bind_eq_bind, Option.bind_eq_some] at h
  obtain ⟨r, hr, s1, h1, s3, h3, hsw⟩ := h
  obtain ⟨a, ha, hr⟩ := top_eq_some hr
  have h0 := TopOnly.start ha hr
  have h2 := (h0.same (by simp [SameHist])).setTop h1 rfl
  have t2 := (h2.same (by simp [SameHist])).setTop h3 rfl
  exact ⟨a, r, _, _, t2, rfl, hsw⟩

theorem undo_scale_step {E : Ext} {w : StackRef} {s s2 : State}
    (h : undo_scale E w s = some s2) :
    ∃ a r r1 s1, TopOnly w s s1 a r r1 ∧ r1.last_action = r.last_action ∧
      swap_stack w s1 = some s2 := by
  unfold undo_scale at h
  simp only [Option.bind_eq_bind, Option.bind_eq_some] at h
  obtain ⟨r, hr, h⟩ := h
  obtain ⟨a, ha, hr⟩ := top_eq_some hr
  have h0 := TopOnly.start ha hr
  refine ⟨a, r, ?_⟩
  split at h <;>
    simp only [Option.bind_eq_bind, Option.bind_eq_some, Option.pure_def, Option.some.injEq,
      exists_eq_left'] at h
  · obtain ⟨d, hd, s1, h1, _, _, hsw⟩ := h
    have t1 := (h0.same (scale_objects_same hd)).setTop h1 rfl
    refine ⟨_, _, t1.same ?_, rfl, hsw⟩
    simp [SameHist]
  · obtain ⟨d, hd, s1, h1, _, _, hsw⟩ := h
    have t1 := (h0.same (scale_objects_same hd)).setTop h1 rfl
    refine ⟨_, _, t1.same ?_, rfl, hsw⟩
    simp [SameHist]
  · obtain ⟨d, hd, s1, h1, _, _, hsw⟩ := h
    have t1 := (h0.same (scale_objects_same hd)).setTop h1 rfl
    refine ⟨_, _, t1.same ?_, rfl, hsw⟩
    simp [SameHist]
  · obtain ⟨d, hd, s1, h1, _, _, hsw⟩ := h
    have t1 := (h0.same (scale_objects_same hd)).setTop h1 rfl
    refine ⟨_, _, t1.same ?_, rfl, hsw⟩
    simp [SameHist]
  · obtain ⟨d, hd, s1, h1, _, _, hsw⟩ := h
    have t1 := (h0.same (scale_objects_same hd)).setTop h1 rfl
    refine ⟨_, _, t1.same ?_, rfl, hsw⟩
    simp [SameHist]
  · obtain ⟨_, _, _, _, _, _, _, _, s1, h1, _, _, hsw⟩ := h
    have t1 := (h0.same (by simp [SameHist])).setTop h1 rfl
    refine ⟨_, _, t1.same ?_, rfl, hsw⟩
    simp [SameHist]
  · obtain ⟨s1, h1, hsw⟩ := h
    exact ⟨_, _, (h0.same (by simp [SameHist])).setTop h1 rfl, rfl, hsw⟩
  · obtain ⟨s1, h1, hsw⟩ := h
    exact ⟨_, _, ((h0.same (by simp [SameHist])).setTop h1 rfl).same
      (by simp [SameHist]), rfl, hsw⟩
  · exact ⟨_, _, h0, rfl, h⟩

theorem join_split_depth_same {α : Type} [Linked α] {E : Ext} {k : ObjKind} {depth : α → Int}
    {heap : Scene → List α} {new_o old_o : Nat} {s s1 : State}
    (h : join_split_depth E k depth heap new_o old_o s = some s1) : SameHist s s1 := by
  unfold join_split_depth at h
  simp only [Option.bind_eq_bind, Option.bind_eq_some] at h
  obtain ⟨_, _, _, _, h⟩ := h
  split at h
  · simp only [Option.bind_eq_bind, Option.bind_eq_some, Option.pure_def, Option.some.injEq] at h
    obtain ⟨_, _, _, _, rfl⟩ := h
    simp [SameHist]
  · split at h
    · simp only [Option.bind_eq_bind, Option.bind_eq_some, Option.pure_def,
        Option.some.injEq] at h
      obtain ⟨_, _, _, _, rfl⟩ := h
      simp [SameHist]
    · simp only [Option.pure_def, Option.some.injEq] at h
      subst h
      exact SameHist.rfl

theorem undo_join_split_step {E : Ext} {w : StackRef} {s s2 : State}
    (h : undo_join_split E w s = some s2) :
    ∃ a r r1 s1, TopOnly w s s1 a r r1 ∧ r1.last_action = F_JOIN ∧
      swap_stack w s1 = some s2 := by
  unfold undo_join_split at h
  simp only [Option.bind_eq_bind, Option.bind_eq_some] at h
  obtain ⟨r, hr, h⟩ := h
  obtain ⟨a, ha, hr⟩ := top_eq_some hr
  have h0 := TopOnly.start ha hr
  refine ⟨a, r, ?_⟩
  split at h <;>
    simp only [Option.bind_eq_bind, Option.bind_eq_some, Option.pure_def, Option.some.injEq,
      exists_eq_left'] at h
  · obtain ⟨_, _, _, _, _, _, s3, h3, s4, h4, hsw⟩ := h
    have t1 := ((h0.same (by simp [SameHist])).same (join_split_depth_same h3)).setTop h4 rfl
    refine ⟨_, _, t1.same ?_, rfl, hsw⟩
    simp [SameHist]
  · obtain ⟨_, _, _, _, _, _, s3, h3, s4, h4, hsw⟩ := h
    have t1 := ((h0.same (by simp [SameHist])).same (join_split_depth_same h3)).setTop h4 rfl
    refine ⟨_, _, t1.same ?_, rfl, hsw⟩
    simp [SameHist]

theorem undo_delete_arrowhead_step {E : Ext} {w : StackRef} {s s2 : State}
    (h : undo_delete_arrowhead E w s = some s2) :
    (∃ a r, s.stk w = some a ∧ s.hist[a]? = some r ∧ r.last_object ≠ O_POLYLINE ∧
        r.last_object ≠ O_SPLINE ∧ r.last_object ≠ O_ARC ∧ s2 = s) ∨
    ∃ a r r1 s1, TopOnly w s s1 a r r1 ∧ r1.last_action = F_ADD_ARROW_HEAD ∧
      swap_stack w s1 = some s2 := by
  unfold undo_delete_arrowhead at h
  simp only [Option.bind_eq_bind, Option.bind_eq_some] at h
  obtain ⟨r, hr, h⟩ := h
  obtain ⟨a, ha, hr⟩ := top_eq_some hr
  have h0 := TopOnly.start ha hr
  split at h <;>
    simp only [delete_arrowhead_tail, Option.bind_eq_bind, Option.bind_eq_some, Option.pure_def,
      Option.some.injEq, exists_eq_left'] at h
  · obtain ⟨_, _, s1, h1, hsw⟩ := h
    exact Or.inr ⟨a, r, _, _, (h0.same (by simp [SameHist])).setTop h1 rfl, rfl, hsw⟩
  · obtain ⟨_, _, s1, h1, hsw⟩ := h
    exact Or.inr ⟨a, r, _, _, (h0.same (by simp [SameHist])).setTop h1 rfl, rfl, hsw⟩
  · obtain ⟨_, _, s1, h1, hsw⟩ := h
    exact Or.inr ⟨a, r, _, _, (h0.same (by simp [SameHist])).setTop h1 rfl, rfl, hsw⟩
  · rename_i h1 h2 h3
    exact Or.inl ⟨a, r, ha, hr, h1, h2, h3, h.symm⟩

@[simp] theorem StacksDisjoint_ext (E : Ext) (fn : Fn) (args : List Arg) (s : State) :
    StacksDisjoint (ext E fn args s) ↔ StacksDisjoint s := Iff.rfl

@[simp] theorem StacksDisjoint_mapScene (s : State) (f : Scene → Scene) :
    StacksDisjoint (s.mapScene f) ↔ StacksDisjoint s := Iff.rfl

@[simp] theorem StacksDisjoint_mapStaging (s : State) (f : Staging → Staging) :
    StacksDisjoint (s.mapStaging f) ↔ StacksDisjoint s := Iff.rfl

@[simp] theorem StacksDisjoint_setFreezeRedo (s : State) (b : Bool) :
    StacksDisjoint (s.setFreezeRedo b) ↔ StacksDisjoint s := Iff.rfl

@[simp] theorem StacksDisjoint_put_msg (m : String) (s : State) :
    StacksDisjoint (put_msg m s) ↔ StacksDisjoint s := Iff.rfl

@[simp] theorem StacksDisjoint_setCompLED (v : Int) (s : State) :
    StacksDisjoint (setCompLED v s) ↔ StacksDisjoint s := Iff.rfl

theorem setTop_pres {s s2 : State} {w : StackRef} {f : F_history → F_history}
    (hd : StacksDisjoint s) (h : s.setTop w f = some s2) (hf : ∀ r, (f r).next = r.next) :
    StacksDisjoint s2 :=
  StacksDisjoint_of_lk (setTop_lk h hf) hd

theorem step_pres {w : StackRef} {s s2 : State} {L : F_history → F_history → Prop}
    (hd : StacksDisjoint s)
    (h : ∃ a r r1 s1, TopOnly w s s1 a r r1 ∧ L r r1 ∧ swap_stack w s1 = some s2) :
    StacksDisjoint s2 := by
  obtain ⟨a, r, r1, s1, ht, -, hsw⟩ := h
  exact swap_stack_pres (StacksDisjoint_of_lk ht.lk hd) hsw

theorem point_stack_fix_pres {w : StackRef} {s s2 : State} (hd : StacksDisjoint s)
    (h : point_stack_fix w s = some s2) : StacksDisjoint s2 := by
  unfold point_stack_fix at h
  split at h <;> simp only [Option.bind_eq_bind, Option.bind_eq_some] at h
  · obtain ⟨s1, h1, h2⟩ := h
    exact pop_stack_pres (swap_stack_pres hd h1) h2
  · obtain ⟨s1, h1, h2⟩ := h
    exact pop_stack_pres (swap_stack_pres hd h1) h2

theorem undo_addpoint_pres {E : Ext} {w : StackRef} {s s2 : State} (hd : StacksDisjoint s)
    (h : undo_addpoint E w s = some s2) : StacksDisjoint s2 := by
  unfold undo_addpoint at h
  simp only [Option.bind_eq_bind, Option.bind_eq_some, Option.pure_def, Option.some.injEq] at h
  obtain ⟨r, -, s1, h1, rfl⟩ := h
  rw [StacksDisjoint_setFreezeRedo]
  refine point_stack_fix_pres ?_ h1
  split
  · exact cmd_pres ((StacksDisjoint_setFreezeRedo _ _).2 hd)
  · exact cmd_pres ((StacksDisjoint_setFreezeRedo _ _).2 hd)

theorem deletepoint_switch_pres {E : Ext} {r : F_history} {s s2 : State}
    (hd : StacksDisjoint s) (h : deletepoint_switch E r s = some s2) : StacksDisjoint s2 := by
  unfold deletepoint_switch at h
  split at h
  · simp only [Option.pure_def, Option.some.injEq] at h
    subst h
    rw [StacksDisjoint_ext]
    exact cmd_pres hd
  · simp only [Option.bind_eq_bind, Option.bind_eq_some, Option.pure_def, Option.some.injEq] at h
    obtain ⟨_, _, _, _, rfl⟩ := h
    exact cmd_pres hd

theorem undo_deletepoint_pres {E : Ext} {w : StackRef} {s s2 : State} (hd : StacksDisjoint s)
    (h : undo_deletepoint E w s = some s2) : StacksDisjoint s2 := by
  unfold undo_deletepoint at h
  simp only [Option.bind_eq_bind, Option.bind_eq_some, Option.pure_def, Option.some.injEq] at h
  obtain ⟨r, -, s1, h1, s3, h3, s4, h4, rfl⟩ := h
  rw [StacksDisjoint_setFreezeRedo]
  have d1 := deletepoint_switch_pres ((StacksDisjoint_setFreezeRedo _ _).2 hd) h1
  exact point_stack_fix_pres (setTop_pres d1 h3 (fun _ => rfl)) h4

theorem convert_switch_pres {E : Ext} {r : F_history} {s s2 : State}
    (hd : StacksDisjoint s) (h : convert_switch E r s = some s2) : StacksDisjoint s2 := by
  unfold convert_switch at h
  split at h
  · simp only [Option.bind_eq_bind, Option.bind_eq_some] at h
    obtain ⟨_, _, _, _, h⟩ := h
    split at h <;> simp only [Option.pure_def, Option.some.injEq] at h <;> subst h <;>
      exact cmd_pres hd
  · simp only [Option.bind_eq_bind, Option.bind_eq_some, Option.pure_def, Option.some.injEq] at h
    obtain ⟨_, _, _, _, _, _, _, _, rfl⟩ := h
    exact cmd_pres hd
  · simp only [Option.pure_def, Option.some.injEq] at h
    subst h
    exact hd

theorem relink_saved_line_pres {s s2 : State} (hd : StacksDisjoint s)
    (h : relink_saved_line s = some s2) : StacksDisjoint s2 := by
  unfold relink_saved_line at h
  simp only [Option.bind_eq_bind, Option.bind_eq_some] at h
  obtain ⟨_, _, h⟩ := h
  exact setTop_pres hd h (fun _ => rfl)

theorem convert_stack_fix_pres {w : StackRef} {s s2 : State} (hd : StacksDisjoint s)
    (h : convert_stack_fix w s = some s2) : StacksDisjoint s2 := by
  unfold convert_stack_fix at h
  split at h <;> simp only [Option.bind_eq_bind, Option.bind_eq_some] at h
  · obtain ⟨s1, h1, s3, h3, s4, h4, h5⟩ := h
    exact relink_saved_line_pres
      (pop_stack_pres (pop_stack_pres (swap_stack_pres hd h1) h3) h4) h5
  · obtain ⟨s3, h3, s4, h4, h5⟩ := h
    exact relink_saved_line_pres (pop_stack_pres (pop_stack_pres hd h3) h4) h5

theorem undo_convert_pres {E : Ext} {w : StackRef} {s s2 : State} (hd : StacksDisjoint s)
    (h : undo_convert E w s = some s2) : StacksDisjoint s2 := by
  unfold undo_convert at h
  simp only [Option.bind_eq_bind, Option.bind_eq_some] at h
  obtain ⟨r, -, s1, h1, h2⟩ := h
  exact convert_stack_fix_pres (convert_switch_pres hd h1) h2

theorem add_arrowhead_tail_pres {w : StackRef} {s s2 : State} (hd : StacksDisjoint s)
    (h : add_arrowhead_tail w s = some s2) : StacksDisjoint s2 := by
  unfold add_arrowhead_tail at h
  simp only [Option.bind_eq_bind, Option.bind_eq_some] at h
  obtain ⟨t, -, s1, h1, s3, h3, h4⟩ := h
  have d1 := pop_stack_pres ((StacksDisjoint_setFreezeRedo _ _).2 hd) h1
  exact swap_stack_pres (setTop_pres d1 h3 (fun _ => rfl)) h4

theorem undo_add_arrowhead_pres {E : Ext} {w : StackRef} {s s2 : State}
    (hd : StacksDisjoint s) (h : undo_add_arrowhead E w s = some s2) : StacksDisjoint s2 := by
  unfold undo_add_arrowhead at h
  simp only [Option.bind_eq_bind, Option.bind_eq_some] at h
  obtain ⟨r, -, h⟩ := h
  have d0 := (StacksDisjoint_setFreezeRedo s true).2 hd
  split at h
  · exact add_arrowhead_tail_pres (cmd_pres d0) h
  · exact add_arrowhead_tail_pres (cmd_pres d0) h
  · exact add_arrowhead_tail_pres (cmd_pres d0) h
  · simp only [Option.pure_def, Option.some.injEq] at h
    subst h
    exact d0

theorem open_close_line_pres {E : Ext} {w : StackRef} {r : F_history} {s s2 : State}
    (hd : StacksDisjoint s) (h : open_close_line E w r s = some s2) : StacksDisjoint s2 := by
  unfold open_close_line at h
  simp only [Option.bind_eq_bind, Option.bind_eq_some] at h
  obtain ⟨_, _, _, _, h⟩ := h
  split at h <;> simp only [Option.bind_eq_bind, Option.bind_eq_some, Option.pure_def,
    Option.some.injEq, exists_eq_left'] at h
  · obtain ⟨s1, h1, rfl⟩ := h
    exact cmd_pres (setTop_pres ((StacksDisjoint_mapScene _ _).2 hd) h1 (fun _ => rfl))
  · subst h
    exact cmd_pres hd

theorem open_close_spline_pres {E : Ext} {w : StackRef} {r : F_history} {s s2 : State}
    (hd : StacksDisjoint s) (h : open_close_spline E w r s = some s2) : StacksDisjoint s2 := by
  unfold open_close_spline at h
  simp only [Option.bind_eq_bind, Option.bind_eq_some] at h
  obtain ⟨_, _, _, _, h⟩ := h
  split at h
  · simp only [Option.bind_eq_bind, Option.bind_eq_some, Option.pure_def,
      Option.some.injEq] at h
    obtain ⟨_, _, _, _, _, _, h⟩ := h
    subst h
    simpa using hd
  · split at h <;> simp only [Option.bind_eq_bind, Option.bind_eq_some, Option.pure_def,
      Option.some.injEq, exists_eq_left'] at h
    · obtain ⟨s1, h1, rfl⟩ := h
      exact cmd_pres (setTop_pres ((StacksDisjoint_mapScene _ _).2 hd) h1 (fun _ => rfl))
    · subst h
      exact cmd_pres hd

theorem undo_open_close_pres {E : Ext} {w : StackRef} {s s2 : State}
    (hd : StacksDisjoint s) (h : undo_open_close E w s = some s2) : StacksDisjoint s2 := by
  unfold undo_open_close at h
  simp only [Option.bind_eq_bind, Option.bind_eq_some] at h
  obtain ⟨r, -, h⟩ := h
  split at h <;> simp only [Option.bind_eq_bind, Option.bind_eq_some, Option.pure_def,
    Option.some.injEq, exists_eq_left'] at h
  · obtain ⟨s1, h1, h2⟩ := h
    exact swap_stack_pres (open_close_line_pres hd h1) h2
  · obtain ⟨s1, h1, h2⟩ := h
    exact swap_stack_pres (open_close_spline_pres hd h1) h2
  · exact swap_stack_pres hd h

theorem undo_delete_arrowhead_pres {E : Ext} {w : StackRef} {s s2 : State}
    (hd : StacksDisjoint s) (h : undo_delete_arrowhead E w s = some s2) :
    StacksDisjoint s2 := by
  rcases undo_delete_arrowhead_step h with ⟨_, _, _, _, _, _, _, rfl⟩ | h2
  · exact hd
  · exact step_pres (L := fun _ r1 => r1.last_action = F_ADD_ARROW_HEAD) hd h2

theorem dispatch_pres {E : Ext} {w : StackRef} {k : Action} {handler : State → Option State}
    {s s2 : State} (hk : dispatch E w k = some handler) (hd : StacksDisjoint s)
    (h : handler s = some s2) : StacksDisjoint s2 := by
  cases k <;> simp [dispatch] at hk <;> subst hk
  · exact step_pres (L := fun _ r1 => r1.last_action = F_DELETE) hd (undo_add_step h)
  · exact step_pres (L := fun _ r1 => r1.last_action = F_ADD) hd (undo_delete_step h)
  · exact step_pres (L := fun r r1 => r1.last_action = r.last_action) hd (undo_move_step h)
  · exact step_pres (L := fun r r1 => r1.last_action = r.last_action) hd (undo_change_step h)
  · exact step_pres (L := fun _ r1 => r1.last_action = F_BREAK) hd (undo_glue_step h)
  · exact step_pres (L := fun _ r1 => r1.last_action = F_GLUE) hd (undo_break_step h)
  · exact step_pres (L := fun _ r1 => r1.last_action = F_LOAD) hd (undo_load_step h)
  · exact step_pres (L := fun r r1 => r1.last_action = r.last_action) hd (undo_scale_step h)
  · exact undo_addpoint_pres hd h
  · exact undo_deletepoint_pres hd h
  · exact undo_add_arrowhead_pres hd h
  · exact undo_delete_arrowhead_pres hd h
  · exact undo_convert_pres hd h
  · exact undo_open_close_pres hd h
  · exact step_pres (L := fun _ r1 => r1.last_action = F_JOIN) hd (undo_join_split_step h)
  · exact step_pres (L := fun _ r1 => r1.last_action = F_JOIN) hd (undo_join_split_step h)

@[simp] theorem setCompLED_undo_stack (v : Int) (s : State) :
    (setCompLED v s).undo_stack = s.undo_stack := rfl

@[simp] theorem setCompLED_redo_stack (v : Int) (s : State) :
    (setCompLED v s).redo_stack = s.redo_stack := rfl

@[simp] theorem setCompLED_hist (v : Int) (s : State) : (setCompLED v s).hist = s.hist := rfl

@[simp] theorem setCompLED_msgs (v : Int) (s : State) : (setCompLED v s).msgs = s.msgs := rfl

@[simp] theorem setCompLED_stk (v : Int) (s : State) (w : StackRef) :
    (setCompLED v s).stk w = s.stk w := by cases w <;> rfl

/-- The three ways `undo()` returns. -/
theorem undo_cases {E : Ext} {s s2 : State} (h : undo E s = some s2) :
    (s.undo_stack = none ∧ s2 = put_msg "nothing to undo" (setCompLED 0 s)) ∨
    ∃ a r, s.undo_stack = some a ∧ s.hist[a]? = some r ∧
      ((dispatch E .undo r.last_action = none ∧
          s2 = put_msg "Nothing to UNDO" (setCompLED 0 s)) ∨
        ∃ handler s1, dispatch E .undo r.last_action = some handler ∧
          handler (setCompLED 0 s) = some s1 ∧ s2 = put_msg "Undo complete" s1) := by
  unfold undo at h
  simp only [setCompLED_undo_stack, setCompLED_hist] at h
  cases hu : s.undo_stack with
  | none =>
    rw [hu] at h
    simp only [Option.some.injEq] at h
    exact Or.inl ⟨rfl, h.symm⟩
  | some a =>
    rw [hu] at h
    simp only at h
    cases hr : s.hist[a]? with
    | none =>
      rw [hr] at h
      cases h
    | some r =>
      rw [hr] at h
      simp only at h
      refine Or.inr ⟨a, r, rfl, hr, ?_⟩
      cases hk : dispatch E .undo r.last_action with
      | none =>
        rw [hk] at h
        simp only [Option.some.injEq] at h
        exact Or.inl ⟨rfl, h.symm⟩
      | some handler =>
        rw [hk] at h
        simp only at h
        cases hh : handler (setCompLED 0 s) with
        | none =>
          rw [hh] at h
          cases h
        | some s1 =>
          rw [hh] at h
          simp only [Option.some.injEq] at h
          exact Or.inr ⟨handler, s1, rfl, hh, h.symm⟩

/-- The three ways `redo()` returns. -/
theorem redo_cases {E : Ext} {s s2 : State} (h : redo E s = some s2) :
    (s.redo_stack = none ∧ s2 = put_msg "Nothing to REDO" (setCompLED 0 s)) ∨
    ∃ a r, s.redo_stack = some a ∧ s.hist[a]? = some r ∧
      ((dispatch E .redo r.last_action = none ∧
          s2 = put_msg "Nothing to REDO" (setCompLED 0 s)) ∨
        ∃ handler s1, dispatch E .redo r.last_action = some handler ∧
          handler (setCompLED 0 s) = some s1 ∧ s2 = put_msg "Redo complete" s1) := by
  unfold redo at h
  simp only [setCompLED_redo_stack, setCompLED_hist] at h
  cases hu : s.redo_stack with
  | none =>
    rw [hu] at h
    simp only [Option.some.injEq] at h
    exact Or.inl ⟨rfl, h.symm⟩
  | some a =>
    rw [hu] at h
    simp only at h
    cases hr : s.hist[a]? with
    | none =>
      rw [hr] at h
      cases h
    | some r =>
      rw [hr] at h
      simp only at h
      refine Or.inr ⟨a, r, rfl, hr, ?_⟩
      cases hk : dispatch E .redo r.last_action with
      | none =>
        rw [hk] at h
        simp only [Option.some.injEq] at h
        exact Or.inl ⟨rfl, h.symm⟩
      | some handler =>
        rw [hk] at h
        simp only at h
        cases hh : handler (setCompLED 0 s) with
        | none =>
          rw [hh] at h
          cases h
        | some s1 =>
          rw [hh] at h
          simp only [Option.some.injEq] at h
          exact Or.inr ⟨handler, s1, rfl, hh, h.symm⟩

theorem undo_pres {E : Ext} {s s2 : State} (hd : StacksDisjoint s) (h : undo E s = some s2) :
    StacksDisjoint s2 := by
  rcases undo_cases h with ⟨-, rfl⟩ | ⟨a, r, -, -, ⟨-, rfl⟩ | ⟨handler, s1, hk, hh, rfl⟩⟩
  · exact hd
  · exact hd
  · exact (StacksDisjoint_put_msg _ _).2
      (dispatch_pres hk ((StacksDisjoint_setCompLED _ _).2 hd) hh)

theorem redo_pres {E : Ext} {s s2 : State} (hd : StacksDisjoint s) (h : redo E s = some s2) :
    StacksDisjoint s2 := by
  rcases redo_cases h with ⟨-, rfl⟩ | ⟨a, r, -, -, ⟨-, rfl⟩ | ⟨handler, s1, hk, hh, rfl⟩⟩
  · exact hd
  · exact hd
  · exact (StacksDisjoint_put_msg _ _).2
      (dispatch_pres hk ((StacksDisjoint_setCompLED _ _).2 hd) hh)

/-- C2: stack disjointness is preserved by every operation.  If both roots are
null-terminated chains with no record on both, then the same holds after
`undo_update_history()`, and after `undo()` and `redo()` whenever they return,
whatever the action kind of the dispatched record. -/
theorem stacks_stay_disjoint (E : Ext) (s : State) (h : StacksDisjoint s) :
    StacksDisjoint (undo_update_history E s) ∧
    (∀ s2, undo E s = some s2 → StacksDisjoint s2) ∧
    (∀ s2, redo E s = some s2 → StacksDisjoint s2) :=
  ⟨undo_update_history_pres h, fun _ h2 => undo_pres h h2, fun _ h2 => redo_pres h h2⟩

theorem one_undone_disjoint : StacksDisjoint one_undone :=
  ⟨[0], [1], ⟨rfl, _, rfl, rfl⟩, ⟨rfl, _, rfl, rfl⟩, by decide⟩

/-- The hypothesis of `stacks_stay_disjoint` holds in `one_undone`, where each
stack holds one record, and there `undo()` and `redo()` return. -/
theorem stacks_stay_disjoint_witness :
    StacksDisjoint one_undone ∧
      (undo sampleExt one_undone).isSome = true ∧ (redo sampleExt one_undone).isSome = true ∧
      StacksDisjoint (undo_update_history sampleExt one_undone) ∧
      (∀ s2, undo sampleExt one_undone = some s2 → StacksDisjoint s2) ∧
      (∀ s2, redo sampleExt one_undone = some s2 → StacksDisjoint s2) :=
  ⟨one_undone_disjoint, by decide, by decide,
    stacks_stay_disjoint sampleExt one_undone one_undone_disjoint⟩

/-- The hypotheses of the three parts of `swap_stack_moves_top` hold in
`one_undone` (undo stack `[0]`, redo stack `[1]`) and in the initial state. -/
theorem swap_stack_moves_top_witness :
    (IsStack one_undone.hist [0] one_undone.undo_stack ∧
      IsStack one_undone.hist [1] one_undone.redo_stack ∧ 0 ∉ [1] ∧ 1 ∉ [0]) ∧
    (∃ s2, swap_stack .undo one_undone = some s2 ∧
      IsStack s2.hist [] s2.undo_stack ∧ IsStack s2.hist [0, 1] s2.redo_stack) ∧
    (∃ s2, swap_stack .redo one_undone = some s2 ∧
      IsStack s2.hist [1, 0] s2.undo_stack ∧ IsStack s2.hist [] s2.redo_stack) ∧
    swap_stack .undo init_state = some init_state :=
  ⟨⟨⟨rfl, _, rfl, rfl⟩, ⟨rfl, _, rfl, rfl⟩, by decide, by decide⟩,
    (swap_stack_moves_top one_undone 0 [] [1]).1 ⟨rfl, _, rfl, rfl⟩ ⟨rfl, _, rfl, rfl⟩
      (by decide),
    (swap_stack_moves_top one_undone 1 [0] []).2.1 ⟨rfl, _, rfl, rfl⟩ ⟨rfl, _, rfl, rfl⟩
      (by decide),
    (swap_stack_moves_top init_state 0 [] []).2.2 .undo rfl⟩

/-! ## The dispatcher on an empty history, and the commit -/

/-- C3: on an empty undo stack `undo()` reports "nothing to undo", and on an
empty redo stack `redo()` reports "Nothing to REDO"; in both cases the stacks,
the record heap, the Staging Area, the guards, the scene and the trace of
collaborator calls are as before (only the Compose LED is switched off). -/
theorem empty_history_no_mutation (E : Ext) (s : State) :
    (s.undo_stack = none →
      undo E s = some { s with compLED := 0, msgs := s.msgs ++ ["nothing to undo"] }) ∧
    (s.redo_stack = none →
      redo E s = some { s with compLED := 0, msgs := s.msgs ++ ["Nothing to REDO"] }) := by
  constructor
  · intro h
    simp [undo, setCompLED, put_msg, h]
  · intro h
    simp [redo, setCompLED, put_msg, h]

/-- C4: while `freeze_undo_additions` is set, `undo_update_history()` returns
the state it was given: stacks, heap and every staging field are unchanged. -/
theorem commit_frozen_noop (E : Ext) (s : State) (h : s.freeze_undo_additions = true) :
    undo_update_history E s = s := by
  simp [undo_update_history, h]

/-- The hypothesis of `commit_frozen_noop` holds in `frozen_state`. -/
theorem commit_frozen_noop_witness :
    frozen_state.freeze_undo_additions = true ∧
      undo_update_history sampleExt frozen_state = frozen_state :=
  ⟨rfl, commit_frozen_noop sampleExt frozen_state rfl⟩

/-- C5: with both guards clear, `undo_update_history()` leaves the redo stack
empty, whatever it held, and a `redo()` called next reports "Nothing to REDO"
and changes nothing else (only the Compose LED is switched off). -/
theorem new_edit_clears_redo (E : Ext) (s : State) (h1 : s.freeze_undo_additions = false)
    (h2 : s.freeze_redo_cleanup = false) :
    (undo_update_history E s).redo_stack = none ∧
      redo E (undo_update_history E s) = some
        { undo_update_history E s with
          compLED := 0
          msgs := (undo_update_history E s).msgs ++ ["Nothing to REDO"] } := by
  have e : (undo_update_history E s).redo_stack = none := by
    simp [undo_update_history, h1, h2, push_history, free_history, State.setStk]
  refine ⟨e, ?_⟩
  simp [redo, setCompLED, put_msg, e]

/-- The hypotheses of `new_edit_clears_redo` hold in `one_undone`, whose redo
stack holds the record an `undo()` moved there. -/
theorem new_edit_clears_redo_witness :
    one_undone.redo_stack = some 1 ∧ one_undone.freeze_undo_additions = false ∧
      one_undone.freeze_redo_cleanup = false ∧
      (undo_update_history sampleExt one_undone).redo_stack = none ∧
      redo sampleExt (undo_update_history sampleExt one_undone) = some
        { undo_update_history sampleExt one_undone with
          compLED := 0
          msgs := (undo_update_history sampleExt one_undone).msgs ++ ["Nothing to REDO"] } :=
  ⟨rfl, rfl, rfl, new_edit_clears_redo sampleExt one_undone rfl rfl⟩

/-- C6 (a defect of the code): the commit leaves `last_arcpointnum` and the
two tension values of the new record as `create_history()` returned them,
whatever was staged.  Here the staged values are chosen one above those of
`create_history()`, so the record differs from the Staging Area in all three. -/
theorem commit_loses_staged_fields (E : Ext) :
    ∃ r, (commit_edit E
        (set_last_tension (E.create_history.last_origin_tension + 1)
          (E.create_history.last_extremity_tension + 1)
          (set_last_arcpointnum (E.create_history.last_arcpointnum + 1)
            (set_action_object F_ADD_ARROW_HEAD O_ARC null_staging)))
        init_state).top .undo = some r ∧
      r.last_action = F_ADD_ARROW_HEAD ∧ r.last_object = O_ARC ∧
      r.last_arcpointnum = E.create_history.last_arcpointnum ∧
      r.last_arcpointnum ≠ E.create_history.last_arcpointnum + 1 ∧
      r.last_origin_tension ≠ E.create_history.last_origin_tension + 1 ∧
      r.last_extremity_tension ≠ E.create_history.last_extremity_tension + 1 := by
  refine ⟨_, rfl, rfl, rfl, rfl, ?_, ?_, ?_⟩
  · show E.create_history.last_arcpointnum ≠ E.create_history.last_arcpointnum + 1
    omega
  · show E.create_history.last_origin_tension ≠ E.create_history.last_origin_tension + 1
    omega
  · show E.create_history.last_extremity_tension ≠
      E.create_history.last_extremity_tension + 1
    omega

/-- C7, as the code has it: when `freeze_undo_additions` is clear, the commit
nulls the seven object lists of `saved_objects`, `saved_for_arrow`,
`saved_back_arrow`, `latest_line`, `latest_spline` and `last_selected_sfactor`,
and leaves every other staging field with the value it had. -/
theorem commit_clears_staged_pointers (E : Ext) (s : State)
    (h : s.freeze_undo_additions = false) :
    (undo_update_history E s).staging =
      { s.staging with
        saved_objects :=
          { s.staging.saved_objects with
            arcs := none, ellipses := none, lines := none, splines := none,
            comments := none, texts := none, compounds := none }
        saved_for_arrow := none
        saved_back_arrow := none
        latest_line := none
        latest_spline := none
        last_selected_sfactor := none } := by
  unfold undo_update_history
  rw [h]
  simp only [Bool.false_eq_true, if_false]
  split <;> rfl

/-- The hypothesis of `commit_clears_staged_pointers` holds in the initial
state with a MOVE staged. -/
theorem commit_clears_staged_pointers_witness :
    ({ init_state with staging := staged_move } : State).freeze_undo_additions = false ∧
      (commit_edit sampleExt staged_move init_state).staging =
        { staged_move with
          saved_objects :=
            { staged_move.saved_objects with
              arcs := none, ellipses := none, lines := none, splines := none,
              comments := none, texts := none, compounds := none }
          saved_for_arrow := none
          saved_back_arrow := none
          latest_line := none
          latest_spline := none
          last_selected_sfactor := none } :=
  ⟨rfl, commit_clears_staged_pointers sampleExt { init_state with staging := staged_move } rfl⟩

/-- C7 fails as stated: after a MOVE is committed from the initial state, the
staged action and object kind, the previous point, the position pair and the
link information are still set. -/
theorem commit_keeps_staged_scalars :
    init_state.freeze_undo_additions = false ∧
      (commit_edit sampleExt staged_move init_state).staging.last_action = F_MOVE ∧
      (commit_edit sampleExt staged_move init_state).staging.last_object = O_POLYLINE ∧
      (commit_edit sampleExt staged_move init_state).staging.last_prev_point = some 7 ∧
      (commit_edit sampleExt staged_move init_state).staging.new_position = ⟨5, -3⟩ ∧
      (commit_edit sampleExt staged_move init_state).staging.last_links = some 9 ∧
      (commit_edit sampleExt staged_move init_state).staging ≠ null_staging := by
  refine ⟨rfl, rfl, rfl, rfl, rfl, rfl, ?_⟩
  decide

/-! ## MOVE -/

theorem int_sub_eq {a b : Int} (h1 : -2147483648 ≤ a - b) (h2 : a - b < 2147483648) :
    int_sub a b = a - b := by
  unfold int_sub
  omega

theorem move_switch_translations (E : Ext) (r : F_history) (dx dy : Int) (s : State) :
    translations (move_switch E r dx dy s).trace =
      translations s.trace ++ (translate_call r.last_object r.saved_objects dx dy).toList := by
  unfold move_switch
  cases r.last_object <;>
    simp [ext, translations, is_translate, translate_call, List.filter_append]

theorem undo_move_eval {E : Ext} {w : StackRef} {s : State} {a : Nat} {r : F_history}
    (ha : s.stk w = some a) (hr : s.hist[a]? = some r) :
    ∃ m, SameHist s m ∧
      translations m.trace = translations s.trace ++
        (translate_call r.last_object r.saved_objects (int_sub r.last_x r.new_x)
          (int_sub r.last_y r.new_y)).toList ∧
      undo_move E w s = swap_stack w
        { m with hist := s.hist.set a (swapped_pair r) } := by
  have hs := move_switch_same E r (int_sub r.last_x r.new_x) (int_sub r.last_y r.new_y) s
  refine ⟨move_switch E r (int_sub r.last_x r.new_x) (int_sub r.last_y r.new_y) s, hs,
    move_switch_translations E r _ _ s, ?_⟩
  have hstk := stk_congr hs.2.1 hs.2.2.1 w
  unfold undo_move
  simp only [State.top, ha, hr, Option.bind_eq_bind, Option.some_bind, swap_newp_lastp,
    State.setTop, hstk, hs.1, swapped_pair]

theorem undo_move_undo {E : Ext} {s : State} {a : Nat} {r : F_history}
    (ha : s.undo_stack = some a) (hr : s.hist[a]? = some r) :
    ∃ s1, undo_move E .undo s = some s1 ∧ s1.undo_stack = r.next ∧ s1.redo_stack = some a ∧
      s1.hist = s.hist.set a ((swapped_pair r).withNext s.redo_stack) ∧
      s1.msgs = s.msgs ∧
      translations s1.trace = translations s.trace ++
        (translate_call r.last_object r.saved_objects (int_sub r.last_x r.new_x)
          (int_sub r.last_y r.new_y)).toList := by
  obtain ⟨m, hs, ht, he⟩ := undo_move_eval (E := E) (w := .undo) ha hr
  have hlt := (List.getElem?_eq_some.1 hr).1
  have e2 := swap_stack_undo_eq { m with hist := s.hist.set a (swapped_pair r) } a
    (swapped_pair r) (hs.2.1.trans ha) (List.getElem?_set_self hlt)
  rw [he, e2]
  refine ⟨_, rfl, rfl, rfl, ?_, hs.2.2.2, ht⟩
  simp [List.set_set, hs.2.2.1, F_history.withNext]

theorem undo_move_redo {E : Ext} {s : State} {a : Nat} {r : F_history}
    (ha : s.redo_stack = some a) (hr : s.hist[a]? = some r) (hne : s.undo_stack ≠ some a) :
    ∃ s1, undo_move E .redo s = some s1 ∧ s1.redo_stack = r.next ∧ s1.undo_stack = some a ∧
      s1.hist = s.hist.set a ((swapped_pair r).withNext s.undo_stack) ∧
      s1.msgs = s.msgs ∧
      translations s1.trace = translations s.trace ++
        (translate_call r.last_object r.saved_objects (int_sub r.last_x r.new_x)
          (int_sub r.last_y r.new_y)).toList := by
  obtain ⟨m, hs, ht, he⟩ := undo_move_eval (E := E) (w := .redo) ha hr
  have hlt := (List.getElem?_eq_some.1 hr).1
  have hne2 : m.undo_stack ≠ some a := by rw [hs.2.1]; exact hne
  have e2 := swap_stack_redo_eq { m with hist := s.hist.set a (swapped_pair r) } a
    (swapped_pair r) (hs.2.2.1.trans ha) (List.getElem?_set_self hlt) hne2
  rw [he, e2]
  refine ⟨_, rfl, rfl, rfl, ?_, hs.2.2.2, ht⟩
  simp [List.set_set, hs.2.1, F_history.withNext]

theorem undo_of_handler {E : Ext} {s s1 : State} {a : Nat} {r : F_history}
    {handler : State → Option State} (ha : s.undo_stack = some a) (hr : s.hist[a]? = some r)
    (hk : dispatch E .undo r.last_action = some handler)
    (hh : handler (setCompLED 0 s) = some s1) :
    undo E s = some (put_msg "Undo complete" s1) := by
  unfold undo
  simp only [setCompLED_undo_stack, setCompLED_hist, ha, hr, hk, hh]

theorem redo_of_handler {E : Ext} {s s1 : State} {a : Nat} {r : F_history}
    {handler : State → Option State} (ha : s.redo_stack = some a) (hr : s.hist[a]? = some r)
    (hk : dispatch E .redo r.last_action = some handler)
    (hh : handler (setCompLED 0 s) = some s1) :
    redo E s = some (put_msg "Redo complete" s1) := by
  unfold redo
  simp only [setCompLED_redo_stack, setCompLED_hist, ha, hr, hk, hh]

theorem IsStack_next_ne {h : List F_history} {a : Nat} {us : List Nat} {p : Ptr}
    {r : F_history} (hu : IsStack h (a :: us) p) (hr : h[a]? = some r) : r.next ≠ some a := by
  intro e
  have hn := IsStack_head_not_mem hu
  obtain ⟨-, r2, hr2, hl⟩ := hu
  rw [hr] at hr2
  cases hr2
  cases us with
  | nil =>
    have e2 : r.next = none := hl
    rw [e] at e2
    cases e2
  | cons b us =>
    have e2 : r.next = some b := hl.1
    rw [e] at e2
    cases e2
    exact hn (List.mem_cons_self _ _)

/-- C10: MOVE inverts exactly.  For a MOVE record `r` on top of the undo stack
whose two coordinate differences fit an `int`, `undo()` issues exactly one
translation, of the saved object by `(last - new)`, exchanges the record's
last/new pair and reports "Undo complete"; the `redo()` that follows issues
exactly one translation, by `(new - last)`, puts the record back as it was on
top of the undo stack and reports "Redo complete". -/
theorem move_inverts (E : Ext) (s : State) (a : Nat) (us : List Nat) (r : F_history)
    (hu : IsStack s.hist (a :: us) s.undo_stack) (hr : s.hist[a]? = some r)
    (hk : r.last_action = F_MOVE)
    (hx1 : -2147483648 < r.last_x - r.new_x) (hx2 : r.last_x - r.new_x < 2147483648)
    (hy1 : -2147483648 < r.last_y - r.new_y) (hy2 : r.last_y - r.new_y < 2147483648) :
    ∃ s1 s2 r1,
      undo E s = some s1 ∧
      translations s1.trace = translations s.trace ++
        (translate_call r.last_object r.saved_objects (r.last_x - r.new_x)
          (r.last_y - r.new_y)).toList ∧
      s1.hist[a]? = some r1 ∧
      r1.last_x = r.new_x ∧ r1.last_y = r.new_y ∧ r1.new_x = r.last_x ∧ r1.new_y = r.last_y ∧
      s1.msgs = s.msgs ++ ["Undo complete"] ∧
      redo E s1 = some s2 ∧
      translations s2.trace = translations s1.trace ++
        (translate_call r.last_object r.saved_objects (r.new_x - r.last_x)
          (r.new_y - r.last_y)).toList ∧
      s2.hist[a]? = some r ∧ s2.undo_stack = some a ∧
      s2.msgs = s1.msgs ++ ["Redo complete"] := by
  have ha : s.undo_stack = some a := hu.1
  have hlt := (List.getElem?_eq_some.1 hr).1
  have hd : dispatch E .undo r.last_action = some (undo_move E .undo) := by rw [hk]; rfl
  obtain ⟨sA, hA, hAu, hAr, hAh, hAm, hAt⟩ :=
    undo_move_undo (E := E) (s := setCompLED 0 s) (a := a) (r := r) ha hr
  have h1 := undo_of_handler ha hr hd hA
  have hr1 : (put_msg "Undo complete" sA).hist[a]? =
      some ((swapped_pair r).withNext s.redo_stack) := by
    show sA.hist[a]? = _
    rw [hAh]
    exact List.getElem?_set_self hlt
  have hd2 : dispatch E .redo ((swapped_pair r).withNext s.redo_stack).last_action =
      some (undo_move E .redo) := by
    show dispatch E .redo r.last_action = _
    rw [hk]; rfl
  have hne : (setCompLED 0 (put_msg "Undo complete" sA)).undo_stack ≠ some a := by
    show sA.undo_stack ≠ some a
    rw [hAu]
    exact IsStack_next_ne hu hr
  obtain ⟨sB, hB, hBr, hBu, hBh, hBm, hBt⟩ :=
    undo_move_redo (E := E) (s := setCompLED 0 (put_msg "Undo complete" sA)) (a := a)
      (r := (swapped_pair r).withNext s.redo_stack) hAr hr1 hne
  have h2 := redo_of_handler (s := put_msg "Undo complete" sA) hAr hr1 hd2 hB
  refine ⟨_, _, _, h1, ?_, hr1, rfl, rfl, rfl, rfl, ?_, h2, ?_, ?_, hBu, ?_⟩
  · show translations sA.trace = _
    rw [hAt, int_sub_eq (le_of_lt hx1) hx2, int_sub_eq (le_of_lt hy1) hy2]
    rfl
  · show sA.msgs ++ _ = _
    rw [hAm]
    rfl
  · show translations sB.trace = _
    rw [hBt]
    have ex : int_sub r.new_x r.last_x = r.new_x - r.last_x :=
      int_sub_eq (by omega) (by omega)
    have ey : int_sub r.new_y r.last_y = r.new_y - r.last_y :=
      int_sub_eq (by omega) (by omega)
    show _ ++ (translate_call r.last_object r.saved_objects (int_sub r.new_x r.last_x)
      (int_sub r.new_y r.last_y)).toList = _
    rw [ex, ey]
    rfl
  · show sB.hist[a]? = some r
    rw [hBh]
    show (sA.hist.set a _)[a]? = some r
    rw [hAh, List.set_set,
      List.getElem?_set_self (show a < (setCompLED 0 s).hist.length from hlt)]
    show some ((swapped_pair ((swapped_pair r).withNext s.redo_stack)).withNext
      sA.undo_stack) = some r
    rw [hAu]
    cases r
    rfl
  · show sB.msgs ++ _ = _
    rw [hBm]
    rfl

/-- The scenario of C10, as a witness of `move_inverts`: a polyline of three
points was moved by `(5, -3)` and the MOVE committed; `undo()` brings the
points back to `(0,0) (10,0) (10,10)` and reports "Undo complete", and the
`redo()` that follows brings them to `(5,-3) (15,-3) (15,7)` again and reports
"Redo complete". -/
theorem move_inverts_witness :
    (IsStack moved_state.hist [0] moved_state.undo_stack ∧
      (moved_state.hist[0]?).map F_history.last_action = some F_MOVE) ∧
    (∃ s1 s2 r1,
      undo sampleExt moved_state = some s1 ∧
      translations s1.trace = translations moved_state.trace ++
        [⟨.translate_line, [.ptr (some 0), .int (-5), .int 3]⟩] ∧
      s1.hist[0]? = some r1 ∧
      r1.last_x = 5 ∧ r1.last_y = -3 ∧ r1.new_x = 0 ∧ r1.new_y = 0 ∧
      s1.msgs = moved_state.msgs ++ ["Undo complete"] ∧
      redo sampleExt s1 = some s2 ∧
      translations s2.trace = translations s1.trace ++
        [⟨.translate_line, [.ptr (some 0), .int 5, .int (-3)]⟩] ∧
      s2.hist[0]? = moved_state.hist[0]? ∧ s2.undo_stack = some 0 ∧
      s2.msgs = s1.msgs ++ ["Redo complete"]) ∧
    (undo sampleExt moved_state).map (fun s1 => s1.scene.lines.map F_line.points) =
      some [[⟨0, 0⟩, ⟨10, 0⟩, ⟨10, 10⟩]] ∧
    ((undo sampleExt moved_state).bind (redo sampleExt)).map
        (fun s2 => s2.scene.lines.map F_line.points) =
      some [[⟨5, -3⟩, ⟨15, -3⟩, ⟨15, 7⟩]] ∧
    ((undo sampleExt moved_state).bind (redo sampleExt)).map State.msgs =
      some ["Undo complete", "Redo complete"] :=
  ⟨⟨⟨rfl, _, rfl, rfl⟩, rfl⟩,
    move_inverts sampleExt moved_state 0 [] _ ⟨rfl, _, rfl, rfl⟩ rfl rfl
      (by decide) (by decide) (by decide) (by decide),
    by decide, by decide, by decide⟩

/-! ## Relabelling -/

theorem TopOnly.unique {w : StackRef} {s s1 : State} {a b : Nat} {r rb r1 : F_history}
    (h : TopOnly w s s1 b rb r1) (ha : s.stk w = some a) (hr : s.hist[a]? = some r) :
    b = a ∧ rb = r := by
  have e1 := h.1
  rw [ha] at e1
  cases e1
  have e2 := h.2.1
  rw [hr] at e2
  cases e2
  exact ⟨rfl, rfl⟩

theorem plain_step {E : Ext} {w : StackRef} {s s2 : State} {a : Nat} {r : F_history}
    {handler : State → Option State} (ha : s.stk w = some a) (hr : s.hist[a]? = some r)
    (hp : plain_swap r = true) (hd : dispatch E w r.last_action = some handler)
    (h : handler s = some s2) :
    ∃ r1 s1, TopOnly w s s1 a r r1 ∧ r1.last_action = relabelled r.last_action ∧
      swap_stack w s1 = some s2 := by
  unfold plain_swap at hp
  cases hk : r.last_action <;> rw [hk] at hd hp <;> simp [dispatch] at hd hp <;> subst hd
  · obtain ⟨b, rb, r1, s1, ht, hl, hsw⟩ := undo_add_step h
    obtain ⟨rfl, rfl⟩ := ht.unique ha hr
    exact ⟨r1, s1, ht, hl, hsw⟩
  · obtain ⟨b, rb, r1, s1, ht, hl, hsw⟩ := undo_delete_step h
    obtain ⟨rfl, rfl⟩ := ht.unique ha hr
    exact ⟨r1, s1, ht, hl, hsw⟩
  · obtain ⟨b, rb, r1, s1, ht, hl, hsw⟩ := undo_move_step h
    obtain ⟨rfl, rfl⟩ := ht.unique ha hr
    exact ⟨r1, s1, ht, hl.trans hk, hsw⟩
  · obtain ⟨b, rb, r1, s1, ht, hl, hsw⟩ := undo_change_step h
    obtain ⟨rfl, rfl⟩ := ht.unique ha hr
    exact ⟨r1, s1, ht, hl.trans hk, hsw⟩
  · obtain ⟨b, rb, r1, s1, ht, hl, hsw⟩ := undo_glue_step h
    obtain ⟨rfl, rfl⟩ := ht.unique ha hr
    exact ⟨r1, s1, ht, hl, hsw⟩
  · obtain ⟨b, rb, r1, s1, ht, hl, hsw⟩ := undo_break_step h
    obtain ⟨rfl, rfl⟩ := ht.unique ha hr
    exact ⟨r1, s1, ht, hl, hsw⟩
  · obtain ⟨b, rb, r1, s1, ht, hl, hsw⟩ := undo_load_step h
    obtain ⟨rfl, rfl⟩ := ht.unique ha hr
    exact ⟨r1, s1, ht, hl, hsw⟩
  · obtain ⟨b, rb, r1, s1, ht, hl, hsw⟩ := undo_scale_step h
    obtain ⟨rfl, rfl⟩ := ht.unique ha hr
    exact ⟨r1, s1, ht, hl.trans hk, hsw⟩
  · rcases undo_delete_arrowhead_step h with ⟨b, rb, hb, hrb, h1, h2, h3, -⟩ | h4
    · rw [ha] at hb
      cases hb
      rw [hr] at hrb
      cases hrb
      exfalso
      revert hp
      cases ho : r.last_object <;> simp_all
    · obtain ⟨b, rb, r1, s1, ht, hl, hsw⟩ := h4
      obtain ⟨rfl, rfl⟩ := ht.unique ha hr
      exact ⟨r1, s1, ht, hl, hsw⟩
  · obtain ⟨b, rb, r1, s1, ht, hl, hsw⟩ := undo_join_split_step h
    obtain ⟨rfl, rfl⟩ := ht.unique ha hr
    exact ⟨r1, s1, ht, hl, hsw⟩
  · obtain ⟨b, rb, r1, s1, ht, hl, hsw⟩ := undo_join_split_step h
    obtain ⟨rfl, rfl⟩ := ht.unique ha hr
    exact ⟨r1, s1, ht, hl, hsw⟩

theorem Labels.refl (s : State) : Labels s s := fun _ rb h => ⟨rb, h, rfl⟩

theorem Labels.comp {s s1 s2 : State} (h1 : Labels s s1) (h2 : Labels s1 s2) : Labels s s2 := by
  intro b rb hb
  obtain ⟨r1, hr1, e1⟩ := h1 b rb hb
  obtain ⟨r2, hr2, e2⟩ := h2 b r1 hr1
  exact ⟨r2, hr2, e2.trans e1⟩

theorem Labels.of_hist {s s2 : State} (h : s2.hist = s.hist) : Labels s s2 := by
  intro b rb hb
  exact ⟨rb, by rw [h]; exact hb, rfl⟩

theorem Labels.of_set {s s2 : State} {a : Nat} {r v : F_history} (hr : s.hist[a]? = some r)
    (hv : v.last_action = r.last_action) (h : s2.hist = s.hist.set a v) : Labels s s2 := by
  intro b rb hb
  rw [h]
  by_cases e : a = b
  · subst e
    rw [hr] at hb
    cases hb
    exact ⟨v, List.getElem?_set_self (List.getElem?_eq_some.1 hr).1, hv⟩
  · exact ⟨rb, by rw [List.getElem?_set_ne e]; exact hb, rfl⟩

theorem Labels.of_append {s s2 : State} {t : List F_history} (h : s2.hist = s.hist ++ t) :
    Labels s s2 := by
  intro b rb hb
  refine ⟨rb, ?_, rfl⟩
  rw [h, List.getElem?_append_left (List.getElem?_eq_some.1 hb).1]
  exact hb

theorem setTop_labels {s s2 : State} {w : StackRef} {f : F_history → F_history}
    (h : s.setTop w f = some s2) (hf : ∀ r, (f r).last_action = r.last_action) :
    Labels s s2 := by
  obtain ⟨a, r, -, hr, rfl⟩ := setTop_eq_some h
  exact Labels.of_set hr (hf r) rfl

theorem undo_update_history_labels (E : Ext) (s : State) :
    Labels s (undo_update_history E s) := by
  unfold undo_update_history
  split
  · exact Labels.refl s
  · split
    · exact Labels.of_append (t := [_]) rfl
    · exact Labels.of_append (t := [_]) rfl

theorem runApi_labels (E : Ext) : ∀ (l : List ApiCall) (s : State), Labels s (runApi E l s)
  | [], s => Labels.refl s
  | .stage f :: cs, s => by
    have h1 : Labels s { s with staging := f s.staging } := Labels.of_hist rfl
    exact h1.comp (runApi_labels E cs _)
  | .undo_update_history :: cs, s =>
    (undo_update_history_labels E s).comp (runApi_labels E cs _)
  | .set_freeze_undo_additions val :: cs, s => by
    have h1 : Labels s { s with freeze_undo_additions := val } := Labels.of_hist rfl
    exact h1.comp (runApi_labels E cs _)

theorem cmd_labels (E : Ext) (fn : Fn) (args : List Arg) (s : State) :
    Labels s (cmd E fn args s) := by
  unfold cmd
  refine Labels.comp ?_ (runApi_labels E _ _)
  exact Labels.of_hist rfl

theorem swap_stack_labels {w : StackRef} {s s2 : State} (h : swap_stack w s = some s2) :
    Labels s s2 := by
  unfold swap_stack at h
  cases ha : s.stk w with
  | none =>
    rw [ha] at h
    simp only [Option.some.injEq] at h
    subst h
    exact Labels.refl s
  | some e =>
    rw [ha] at h
    simp only at h
    cases ho : other_stack w s with
    | none =>
      rw [ho] at h
      simp only [Option.some.injEq] at h
      subst h
      exact Labels.refl s
    | some o =>
      rw [ho] at h
      simp only [pop_stack, ha] at h
      cases hr : s.hist[e]? with
      | none =>
        rw [hr] at h
        simp at h
      | some r =>
        rw [hr] at h
        simp only at h
        have e1 : (s.setStk w r.next).hist = s.hist := by cases w <;> rfl
        rw [e1, hr] at h
        simp only [Option.some.injEq] at h
        subst h
        refine Labels.of_set (v := r.withNext ((s.setStk w r.next).stk o)) hr rfl ?_
        cases w <;> cases o <;> rfl

theorem open_close_line_labels {E : Ext} {w : StackRef} {r : F_history} {s s2 : State}
    (h : open_close_line E w r s = some s2) : Labels s s2 := by
  unfold open_close_line at h
  simp only [Option.bind_eq_bind, Option.bind_eq_some] at h
  obtain ⟨_, _, _, _, h⟩ := h
  split at h <;> simp only [Option.bind_eq_bind, Option.bind_eq_some, Option.pure_def,
    Option.some.injEq, exists_eq_left'] at h
  · obtain ⟨s1, h1, rfl⟩ := h
    exact ((Labels.of_hist rfl).comp (setTop_labels h1 (fun _ => rfl))).comp
      (cmd_labels E _ _ _)
  · subst h
    exact cmd_labels E _ _ _

theorem open_close_spline_labels {E : Ext} {w : StackRef} {r : F_history} {s s2 : State}
    (h : open_close_spline E w r s = some s2) : Labels s s2 := by
  unfold open_close_spline at h
  simp only [Option.bind_eq_bind, Option.bind_eq_some] at h
  obtain ⟨_, _, _, _, h⟩ := h
  split at h
  · simp only [Option.bind_eq_bind, Option.bind_eq_some, Option.pure_def,
      Option.some.injEq] at h
    obtain ⟨_, _, _, _, _, _, h⟩ := h
    subst h
    exact Labels.of_hist (by simp)
  · split at h <;> simp only [Option.bind_eq_bind, Option.bind_eq_some, Option.pure_def,
      Option.some.injEq, exists_eq_left'] at h
    · obtain ⟨s1, h1, rfl⟩ := h
      exact ((Labels.of_hist rfl).comp (setTop_labels h1 (fun _ => rfl))).comp
        (cmd_labels E _ _ _)
    · subst h
      exact cmd_labels E _ _ _

theorem undo_open_close_labels {E : Ext} {w : StackRef} {s s2 : State}
    (h : undo_open_close E w s = some s2) : Labels s s2 := by
  unfold undo_open_close at h
  simp only [Option.bind_eq_bind, Option.bind_eq_some] at h
  obtain ⟨r, -, h⟩ := h
  split at h <;> simp only [Option.bind_eq_bind, Option.bind_eq_some, Option.pure_def,
    Option.some.injEq, exists_eq_left'] at h
  · obtain ⟨s1, h1, h2⟩ := h
    exact (open_close_line_labels h1).comp (swap_stack_labels h2)
  · obtain ⟨s1, h1, h2⟩ := h
    exact (open_close_spline_labels h1).comp (swap_stack_labels h2)
  · exact swap_stack_labels h

theorem dispatch_plain (E : Ext) (w : StackRef) {r : F_history} (hp : plain_swap r = true) :
    ∃ handler, dispatch E w r.last_action = some handler := by
  unfold plain_swap at hp
  cases hk : r.last_action <;> rw [hk] at hp <;> simp [dispatch] at hp ⊢

theorem run_handler {E : Ext} {w : StackRef} {s s2 : State} {a : Nat} {r : F_history}
    {handler : State → Option State} (h : run E w s = some s2) (ha : s.stk w = some a)
    (hr : s.hist[a]? = some r) (hd : dispatch E w r.last_action = some handler) :
    ∃ s1 m, handler (setCompLED 0 s) = some s1 ∧ s2 = put_msg m s1 := by
  cases w with
  | undo =>
    have ha2 : s.undo_stack = some a := ha
    rcases undo_cases h with ⟨hn, -⟩ | ⟨b, rb, hb, hrb, ⟨hk, -⟩ | ⟨g, s1, hk, hh, rfl⟩⟩
    · rw [ha2] at hn; cases hn
    · rw [ha2] at hb; cases hb
      rw [hr] at hrb; cases hrb
      rw [hd] at hk; cases hk
    · rw [ha2] at hb; cases hb
      rw [hr] at hrb; cases hrb
      rw [hd] at hk; cases hk
      exact ⟨s1, _, hh, rfl⟩
  | redo =>
    have ha2 : s.redo_stack = some a := ha
    rcases redo_cases h with ⟨hn, -⟩ | ⟨b, rb, hb, hrb, ⟨hk, -⟩ | ⟨g, s1, hk, hh, rfl⟩⟩
    · rw [ha2] at hn; cases hn
    · rw [ha2] at hb; cases hb
      rw [hr] at hrb; cases hrb
      rw [hd] at hk; cases hk
    · rw [ha2] at hb; cases hb
      rw [hr] at hrb; cases hrb
      rw [hd] at hk; cases hk
      exact ⟨s1, _, hh, rfl⟩

/-- What `undo()` does on a record whose handler only rewrites the record on
top and ends in `swap_stack`. -/
theorem plain_undo_result {E : Ext} {s s2 : State} {a : Nat} {r : F_history}
    (ha : s.undo_stack = some a) (hr : s.hist[a]? = some r) (hp : plain_swap r = true)
    (h : undo E s = some s2) :
    ∃ r1 : F_history, r1.last_action = relabelled r.last_action ∧
      s2.undo_stack = r.next ∧ s2.redo_stack = some a ∧
      s2.hist = s.hist.set a (r1.withNext s.redo_stack) ∧
      s2.msgs = s.msgs ++ ["Undo complete"] := by
  rcases undo_cases h with ⟨hn, -⟩ | ⟨b, rb, hb, hrb, ⟨hk, -⟩ | ⟨g, s1, hk, hh, rfl⟩⟩
  · rw [ha] at hn; cases hn
  · rw [ha] at hb; cases hb
    rw [hr] at hrb; cases hrb
    obtain ⟨g, hg⟩ := dispatch_plain E .undo hp
    rw [hg] at hk; cases hk
  · rw [ha] at hb; cases hb
    rw [hr] at hrb; cases hrb
    obtain ⟨r1, s0, t, hl, hsw⟩ :=
      plain_step (w := .undo) (s := setCompLED 0 s) (by simpa using ha) (by simpa using hr)
        hp hk hh
    have e := swap_stack_undo_eq s0 a r1 t.stk t.get
    rw [e] at hsw
    cases hsw
    obtain ⟨-, -, t3, t4, -, t6, t7⟩ := t
    refine ⟨r1, hl, t4, rfl, ?_, ?_⟩
    · show s0.hist.set a _ = _
      rw [t3, List.set_set, t6]
      rfl
    · show s0.msgs ++ _ = _
      rw [t7]
      rfl

/-- What `redo()` does on such a record. -/
theorem plain_redo_result {E : Ext} {s s2 : State} {a : Nat} {r : F_history}
    (ha : s.redo_stack = some a) (hr : s.hist[a]? = some r) (hp : plain_swap r = true)
    (hne : s.undo_stack ≠ some a) (h : redo E s = some s2) :
    ∃ r1 : F_history, r1.last_action = relabelled r.last_action ∧
      s2.undo_stack = some a ∧ s2.redo_stack = r.next ∧
      s2.hist = s.hist.set a (r1.withNext s.undo_stack) ∧
      s2.msgs = s.msgs ++ ["Redo complete"] := by
  rcases redo_cases h with ⟨hn, -⟩ | ⟨b, rb, hb, hrb, ⟨hk, -⟩ | ⟨g, s1, hk, hh, rfl⟩⟩
  · rw [ha] at hn; cases hn
  · rw [ha] at hb; cases hb
    rw [hr] at hrb; cases hrb
    obtain ⟨g, hg⟩ := dispatch_plain E .redo hp
    rw [hg] at hk; cases hk
  · rw [ha] at hb; cases hb
    rw [hr] at hrb; cases hrb
    obtain ⟨r1, s0, t, hl, hsw⟩ :=
      plain_step (w := .redo) (s := setCompLED 0 s) (by simpa using ha) (by simpa using hr)
        hp hk hh
    obtain ⟨-, -, t3, t4, t5, t6, t7⟩ := id t
    have e := swap_stack_redo_eq s0 a r1 t.stk t.get (by rw [t5]; simpa using hne)
    rw [e] at hsw
    cases hsw
    refine ⟨r1, hl, rfl, t4, ?_, ?_⟩
    · show s0.hist.set a _ = _
      rw [t3, List.set_set, t5]
      rfl
    · show s0.msgs ++ _ = _
      rw [t7]
      rfl

theorem plain_relabelled {r r1 : F_history} (hp : plain_swap r = true)
    (hn : r.last_action ≠ F_DELETE_ARROW_HEAD) (h1 : r1.last_action = relabelled r.last_action) :
    plain_swap r1 = true := by
  unfold plain_swap at hp ⊢
  rw [h1]
  cases hk : r.last_action <;> rw [hk] at hp <;> simp [relabelled] at hp ⊢
  exact hn hk

theorem relabelled_twice {r : F_history} (hp : plain_swap r = true)
    (hn : r.last_action ≠ F_DELETE_ARROW_HEAD) :
    relabelled (relabelled r.last_action) =
      if r.last_action = F_SPLIT then F_JOIN else r.last_action := by
  unfold plain_swap at hp
  cases hk : r.last_action <;> rw [hk] at hp <;> simp [relabelled] at hp ⊢
  exact hn hk

/-- C9 (amended): each handler relabels the dispatched record.  Let `r` be the
record on top of the stack that `undo()` or `redo()` works on, of kind ADD,
DELETE, MOVE, EDIT, GLUE, BREAK, LOAD, SCALE, JOIN, SPLIT or OPEN_CLOSE, or of
kind DELETE_ARROW_HEAD on a line, a spline or an arc.  When the call returns,
the record is still at its address and its kind is DELETE for ADD and ADD for
DELETE, BREAK for GLUE and GLUE for BREAK, ADD_ARROW_HEAD for
DELETE_ARROW_HEAD, JOIN for SPLIT and also JOIN for JOIN, and unchanged for
MOVE, EDIT, SCALE, LOAD and OPEN_CLOSE.  For `undo()` on a record that is not
its own successor and is of one of these kinds other than OPEN_CLOSE and
DELETE_ARROW_HEAD, the record is then on top of the redo stack, and every
`redo()` that returns after it leaves the record on top of the undo stack with
its original kind, except that a SPLIT record comes back as JOIN. -/
theorem handlers_relabel (E : Ext) (w : StackRef) (s s2 : State) (a : Nat) (r : F_history)
    (ha : s.stk w = some a) (hr : s.hist[a]? = some r)
    (hk : plain_swap r = true ∨ r.last_action = F_OPEN_CLOSE)
    (h : run E w s = some s2) :
    (∃ r2 : F_history, s2.hist[a]? = some r2 ∧ r2.last_action = relabelled r.last_action) ∧
    (w = .undo → plain_swap r = true → r.last_action ≠ F_DELETE_ARROW_HEAD →
      r.next ≠ some a →
      s2.redo_stack = some a ∧
      ∀ s3, redo E s2 = some s3 →
        s3.undo_stack = some a ∧
        ∃ r3 : F_history, s3.hist[a]? = some r3 ∧
          r3.last_action = if r.last_action = F_SPLIT then F_JOIN else r.last_action) := by
  have hlt := (List.getElem?_eq_some.1 hr).1
  constructor
  · rcases hk with hp | hoc
    · obtain ⟨g, hg⟩ := dispatch_plain E w hp
      obtain ⟨s1, m, hh, rfl⟩ := run_handler h ha hr hg
      obtain ⟨r1, s0, t, hl, hsw⟩ :=
        plain_step (s := setCompLED 0 s) (by simpa using ha) (by simpa using hr) hp hg hh
      obtain ⟨r2, h2, e2⟩ := swap_stack_labels hsw a r1 t.get
      exact ⟨r2, h2, e2.trans hl⟩
    · have hg : dispatch E w r.last_action = some (undo_open_close E w) := by
        rw [hoc]; rfl
      obtain ⟨s1, m, hh, rfl⟩ := run_handler h ha hr hg
      obtain ⟨r2, h2, e2⟩ := undo_open_close_labels hh a r (by simpa using hr)
      refine ⟨r2, h2, e2.trans ?_⟩
      rw [hoc]; rfl
  · intro hw hp hn hs
    subst hw
    obtain ⟨r1, hl, hu2, hr2, hh2, -⟩ := plain_undo_result ha hr hp h
    refine ⟨hr2, ?_⟩
    intro s3 h3
    have hg2 : s2.hist[a]? = some (r1.withNext s.redo_stack) := by
      rw [hh2]; exact List.getElem?_set_self hlt
    have hp2 : plain_swap (r1.withNext s.redo_stack) = true := plain_relabelled hp hn hl
    obtain ⟨r3, hl3, hu3, -, hh3, -⟩ :=
      plain_redo_result hr2 hg2 hp2 (by rw [hu2]; exact hs) h3
    refine ⟨hu3, r3.withNext s2.undo_stack, ?_, ?_⟩
    · rw [hh3]
      exact List.getElem?_set_self (by rw [hh2, List.length_set]; exact hlt)
    · show r3.last_action = _
      rw [hl3]
      show relabelled r1.last_action = _
      rw [hl]
      exact relabelled_twice hp hn

/-- The hypotheses of `handlers_relabel` hold in `two_edits`, whose undo stack
has the ADD record at address 1 on top: `undo()` returns `one_undone`, where
the record is a DELETE on top of the redo stack, and after `redo()` it is an
ADD on top of the undo stack again. -/
theorem handlers_relabel_witness :
    (two_edits.stk .undo = some 1 ∧
      (two_edits.hist[1]?).map F_history.last_action = some F_ADD ∧
      run sampleExt .undo two_edits = some one_undone ∧
      (redo sampleExt one_undone).isSome = true) ∧
    (∃ r2 : F_history, one_undone.hist[1]? = some r2 ∧ r2.last_action = F_DELETE) ∧
    one_undone.redo_stack = some 1 ∧
    ∀ s3, redo sampleExt one_undone = some s3 →
      s3.undo_stack = some 1 ∧
      ∃ r3 : F_history, s3.hist[1]? = some r3 ∧ r3.last_action = F_ADD :=
  ⟨⟨rfl, rfl, rfl, by decide⟩,
    (handlers_relabel sampleExt .undo two_edits one_undone 1 _ rfl rfl (Or.inl rfl) rfl).1,
    (handlers_relabel sampleExt .undo two_edits one_undone 1 _ rfl rfl (Or.inl rfl) rfl).2
      rfl rfl (by decide) (by decide)⟩

/-! ## Successive undos -/

/-- C8 as stated fails for N = 1.  Whatever the collaborators, `undo()` faults
on a CONVERT record of a spline that is the only record of the history: line
414 reads `(*stack)->next->saved_objects` where `(*stack)->next` is null.  And
on an ADD_ARROW_HEAD record of an ellipse `undo()` reports "Undo complete"
while the record stays on top of the undo stack and the redo stack stays
empty (`default: return` at line 452). -/
theorem first_convert_faults :
    (∀ E : Ext, (do_edits E [staged_convert] init_state).undo_stack = some 0 ∧
      ((do_edits E [staged_convert] init_state).hist.map F_history.last_action = [F_CONVERT]) ∧
      undo E (do_edits E [staged_convert] init_state) = none) ∧
    (∀ E : Ext, (do_edits E [staged_arrow] init_state).undo_stack = some 0 ∧
      (undo_n E 1 (do_edits E [staged_arrow] init_state)).map
          (fun s => (s.undo_stack, s.redo_stack, s.msgs)) =
        some (some 0, none, ["Undo complete"])) :=
  ⟨fun _ => ⟨rfl, rfl, rfl⟩, fun _ => ⟨rfl, rfl⟩⟩

theorem plain_of_staged {r : F_history} {st : Staging} (h1 : r.last_action = st.last_action)
    (h2 : r.last_object = st.last_object) (h : plain_staged st = true) :
    plain_swap r = true := by
  unfold plain_staged at h
  unfold plain_swap
  rw [h1, h2]
  exact h

/-- A commit with additions enabled on an empty redo stack: one record is
appended, linked on top of the undo stack, with the staged kind and object. -/
theorem commit_edit_push (E : Ext) (st : Staging) (s : State)
    (hf : s.freeze_undo_additions = false) (hr : s.redo_stack = none) :
    ∃ r : F_history, r.next = s.undo_stack ∧ r.last_action = st.last_action ∧
      r.last_object = st.last_object ∧
      (commit_edit E st s).hist = s.hist ++ [r] ∧
      (commit_edit E st s).undo_stack = some s.hist.length ∧
      (commit_edit E st s).redo_stack = none ∧
      (commit_edit E st s).freeze_undo_additions = false ∧
      (commit_edit E st s).msgs = s.msgs := by
  unfold commit_edit undo_update_history
  simp only [hf, Bool.false_eq_true, if_false]
  split
  · exact ⟨_, rfl, rfl, rfl, rfl, rfl, rfl, rfl, rfl⟩
  · exact ⟨_, rfl, rfl, rfl, rfl, rfl, hr, rfl, rfl⟩

theorem commit_edit_hist (E : Ext) (st : Staging) (s : State) :
    ∃ t, (commit_edit E st s).hist = s.hist ++ t := by
  unfold commit_edit undo_update_history
  split
  · exact ⟨[], (List.append_nil _).symm⟩
  · split
    · exact ⟨[_], rfl⟩
    · exact ⟨[_], rfl⟩

theorem do_edits_hist (E : Ext) : ∀ (edits : List Staging) (s : State),
    ∃ t, (do_edits E edits s).hist = s.hist ++ t
  | [], s => ⟨[], (List.append_nil _).symm⟩
  | st :: edits, s => by
    obtain ⟨t1, h1⟩ := commit_edit_hist E st s
    obtain ⟨t2, h2⟩ := do_edits_hist E edits (commit_edit E st s)
    refine ⟨t1 ++ t2, ?_⟩
    have e : do_edits E (st :: edits) s = do_edits E edits (commit_edit E st s) := rfl
    rw [e, h2, h1, List.append_assoc]

/-- The chain that a sequence of commits builds on top of the chain `us`. -/
theorem do_edits_chain (E : Ext) : ∀ (edits : List Staging) (s : State) (us : List Nat),
    s.freeze_undo_additions = false → s.redo_stack = none →
    IsStack s.hist us s.undo_stack →
    IsStack (do_edits E edits s).hist
        ((List.range' s.hist.length edits.length).reverse ++ us)
        (do_edits E edits s).undo_stack ∧
      (do_edits E edits s).redo_stack = none ∧
      (do_edits E edits s).msgs = s.msgs ∧
      ∀ x ∈ List.range' s.hist.length edits.length, ∃ r st,
        (do_edits E edits s).hist[x]? = some r ∧ st ∈ edits ∧
        r.last_action = st.last_action ∧ r.last_object = st.last_object
  | [], s, us, _, hr, hu => ⟨by simpa [do_edits] using hu, hr, rfl, by simp⟩
  | st :: edits, s, us, hf, hr, hu => by
    obtain ⟨r, h1, h2, h3, h4, h5, h6, h7, h8⟩ := commit_edit_push E st s hf hr
    have hlen : (commit_edit E st s).hist.length = s.hist.length + 1 := by
      rw [h4]; simp
    have hu1 : IsStack (commit_edit E st s).hist (s.hist.length :: us)
        (commit_edit E st s).undo_stack := by
      refine ⟨h5, r, ?_, ?_⟩
      · rw [h4]; simp
      · rw [h4, h1]; exact IsStack_append _ hu
    obtain ⟨i1, i2, i3, i4⟩ := do_edits_chain E edits (commit_edit E st s) _ h7 h6 hu1
    have e : do_edits E (st :: edits) s = do_edits E edits (commit_edit E st s) := rfl
    rw [e]
    refine ⟨?_, i2, i3.trans h8, ?_⟩
    · rw [hlen] at i1
      simpa [List.range'_succ, List.reverse_cons, List.append_assoc] using i1
    · intro x hx
      simp only [List.length_cons, List.range'_succ, List.mem_cons] at hx
      rcases hx with rfl | hx
      · have hlt : s.hist.length < (commit_edit E st s).hist.length := by omega
        have hg : (commit_edit E st s).hist[s.hist.length]? = some r := by
          rw [h4]; simp
        obtain ⟨t, ht⟩ := do_edits_hist E edits (commit_edit E st s)
        refine ⟨r, st, ?_, List.mem_cons_self _ _, h2, h3⟩
        rw [ht, List.getElem?_append_left hlt]
        exact hg
      · rw [← hlen] at hx
        obtain ⟨r2, st2, g1, g2, g3, g4⟩ := i4 x hx
        exact ⟨r2, st2, g1, List.mem_cons_of_mem _ g2, g3, g4⟩

/-- One `undo()` on a record of a plain kind, in terms of the two chains. -/
theorem undo_chain_step {E : Ext} {s s2 : State} {a : Nat} {us rs : List Nat}
    (hu : IsStack s.hist (a :: us) s.undo_stack) (hr : IsStack s.hist rs s.redo_stack)
    (hn : a ∉ rs) (hp : ∀ r, s.hist[a]? = some r → plain_swap r = true)
    (h : undo E s = some s2) :
    IsStack s2.hist us s2.undo_stack ∧ IsStack s2.hist (a :: rs) s2.redo_stack ∧
      s2.msgs = s.msgs ++ ["Undo complete"] ∧ ∀ x, x ≠ a → s2.hist[x]? = s.hist[x]? := by
  have hnu := IsStack_head_not_mem hu
  obtain ⟨e, rec, hrec, hl⟩ := hu
  have hlt := (List.getElem?_eq_some.1 hrec).1
  obtain ⟨r1, -, hu2, hr2, hh2, hm⟩ := plain_undo_result e hrec (hp rec hrec) h
  refine ⟨?_, ?_, hm, ?_⟩
  · rw [hu2, hh2]
    exact IsStack_set a _ hl hnu
  · rw [hr2, hh2]
    exact ⟨rfl, _, List.getElem?_set_self hlt, IsStack_set a _ hr hn⟩
  · intro x hx
    rw [hh2, List.getElem?_set_ne (Ne.symm hx)]

theorem total_setTop {w : StackRef} {a : Nat} {X : State} {f : F_history → F_history}
    {k : State → Option State} (ha : X.stk w = some a) (hl : a < X.hist.length)
    (hk : ∀ s1 : State, s1.stk w = some a → a < s1.hist.length → ∃ s2, k s1 = some s2) :
    ∃ s2, (X.setTop w f).bind k = some s2 := by
  have hg := List.getElem?_eq_getElem hl
  unfold State.setTop
  rw [ha]
  simp only [hg, Option.some_bind]
  apply hk
  · cases w <;> exact ha
  · simpa using hl

theorem total_swap {w : StackRef} {a : Nat} {X : State} (ha : X.stk w = some a)
    (hl : a < X.hist.length) : ∃ s2, swap_stack w X = some s2 := by
  have hg := List.getElem?_eq_getElem hl
  unfold swap_stack
  rw [ha]
  simp only
  cases other_stack w X with
  | none => exact ⟨_, rfl⟩
  | some o =>
    simp only [pop_stack, ha, hg]
    have e1 : (X.setStk w X.hist[a].next).hist = X.hist := by cases w <;> rfl
    rw [e1, hg]
    exact ⟨_, rfl⟩

theorem undo_add_total {E : Ext} {w : StackRef} {s : State} {a : Nat}
    (ha : s.stk w = some a) (hl : a < s.hist.length) : ∃ s2, undo_add E w s = some s2 := by
  have hg := List.getElem?_eq_getElem hl
  unfold undo_add
  have ht : s.top w = some s.hist[a] := by simp [State.top, ha, hg]
  simp only [ht, Option.bind_eq_bind, Option.some_bind]
  apply total_setTop (a := a)
  · cases (s.hist[a]).last_object <;> simpa using ha
  · cases (s.hist[a]).last_object <;> simpa using hl
  · intro s1 h1 h2
    exact total_swap h1 h2

theorem undo_delete_total {E : Ext} {w : StackRef} {s : State} {a : Nat}
    (ha : s.stk w = some a) (hl : a < s.hist.length) : ∃ s2, undo_delete E w s = some s2 := by
  have hg := List.getElem?_eq_getElem hl
  unfold undo_delete
  have ht : s.top w = some s.hist[a] := by simp [State.top, ha, hg]
  simp only [ht, Option.bind_eq_bind, Option.some_bind]
  split <;> simp only [Option.pure_def, Option.bind_eq_bind, Option.some_bind]
  all_goals
    apply total_setTop (a := a) (by simpa using ha) (by simpa using hl)
    intro s1 h1 h2
  all_goals
    first
    | exact total_swap h1 h2
    | (apply total_setTop (a := a) (by simpa using h1) (by simpa using h2)
       intro s3 h3 h4
       exact total_swap h3 h4)

theorem undo_move_total {E : Ext} {w : StackRef} {s : State} {a : Nat}
    (ha : s.stk w = some a) (hl : a < s.hist.length) : ∃ s2, undo_move E w s = some s2 := by
  have hg := List.getElem?_eq_getElem hl
  obtain ⟨m, hs, -, he⟩ := undo_move_eval (E := E) ha hg
  rw [he]
  apply total_swap (a := a)
  · rw [← ha]
    exact stk_congr hs.2.1 hs.2.2.1 w
  · simpa using hl

theorem undo_break_total {E : Ext} {w : StackRef} {s : State} {a : Nat}
    (ha : s.stk w = some a) (hl : a < s.hist.length) : ∃ s2, undo_break E w s = some s2 := by
  have hg := List.getElem?_eq_getElem hl
  unfold undo_break
  have ht : s.top w = some s.hist[a] := by simp [State.top, ha, hg]
  simp only [ht, Option.bind_eq_bind, Option.some_bind]
  apply total_setTop (a := a) (by simpa using ha) (by simpa using hl)
  intro s1 h1 h2
  exact total_swap (by simpa using h1) (by simpa using h2)

theorem undo_glue_total {E : Ext} {w : StackRef} {s : State} {a : Nat}
    (ha : s.stk w = some a) (hl : a < s.hist.length) : ∃ s2, undo_glue E w s = some s2 := by
  have hg := List.getElem?_eq_getElem hl
  unfold undo_glue
  have ht : s.top w = some s.hist[a] := by simp [State.top, ha, hg]
  simp only [ht, Option.bind_eq_bind, Option.some_bind]
  apply total_setTop (a := a) (by simpa using ha) (by simpa using hl)
  intro s1 h1 h2
  split
  · exact total_swap (by simpa using h1) (by simpa using h2)
  · exact total_swap (by simpa using h1) (by simpa using h2)

theorem undo_load_total {E : Ext} {w : StackRef} {s : State} {a : Nat}
    (ha : s.stk w = some a) (hl : a < s.hist.length) : ∃ s2, undo_load E w s = some s2 := by
  have hg := List.getElem?_eq_getElem hl
  unfold undo_load
  have ht : s.top w = some s.hist[a] := by simp [State.top, ha, hg]
  simp only [ht, Option.bind_eq_bind, Option.some_bind]
  apply total_setTop (a := a) (by simpa using ha) (by simpa using hl)
  intro s1 h1 h2
  apply total_setTop (a := a) (by simpa using h1) (by simpa using h2)
  intro s3 h3 h4
  exact total_swap h3 h4

/-- The call of `undo()` returns on a record whose handler follows no object
pointer. -/
theorem undo_total {E : Ext} {s : State} {a : Nat} {r : F_history}
    (ha : s.undo_stack = some a) (hr : s.hist[a]? = some r)
    (hn : no_deref r.last_action = true) : ∃ s2, undo E s = some s2 := by
  have hl := (List.getElem?_eq_some.1 hr).1
  have ha2 : (setCompLED 0 s).stk .undo = some a := ha
  have hl2 : a < (setCompLED 0 s).hist.length := hl
  have key : ∀ handler, dispatch E .undo r.last_action = some handler →
      (∃ s1, handler (setCompLED 0 s) = some s1) → ∃ s2, undo E s = some s2 := by
    intro handler hk ⟨s1, hh⟩
    exact ⟨_, undo_of_handler ha hr hk hh⟩
  unfold no_deref at hn
  cases hk : r.last_action <;> rw [hk] at hn key <;> simp at hn
  · exact key _ rfl (undo_add_total ha2 hl2)
  · exact key _ rfl (undo_delete_total ha2 hl2)
  · exact key _ rfl (undo_move_total ha2 hl2)
  · exact key _ rfl (undo_glue_total ha2 hl2)
  · exact key _ rfl (undo_break_total ha2 hl2)
  · exact key _ rfl (undo_load_total ha2 hl2)

/-- As many `undo()` calls as the list `l1` is long, on an undo chain that
starts with `l1`: the records of `l1` go to the redo chain one by one. -/
theorem undo_n_chain (E : Ext) : ∀ (l1 : List Nat) (s : State) (l2 rs : List Nat),
    IsStack s.hist (l1 ++ l2) s.undo_stack → IsStack s.hist rs s.redo_stack →
    (∀ x ∈ l1 ++ l2, x ∉ rs) →
    (∀ x ∈ l1, ∀ r, s.hist[x]? = some r → plain_swap r = true) →
    (∀ s2, undo_n E l1.length s = some s2 →
      IsStack s2.hist l2 s2.undo_stack ∧ IsStack s2.hist (l1.reverse ++ rs) s2.redo_stack ∧
      s2.msgs = s.msgs ++ List.replicate l1.length "Undo complete") ∧
    ((∀ x ∈ l1, ∀ r, s.hist[x]? = some r → no_deref r.last_action = true) →
      ∃ s2, undo_n E l1.length s = some s2)
  | [], s, l2, rs, hu, hr, _, _ => by
    refine ⟨fun s2 h => ?_, fun _ => ⟨s, rfl⟩⟩
    cases h
    simpa using ⟨hu, hr⟩
  | a :: l1, s, l2, rs, hu, hr, hd, hp => by
    have hu2 : IsStack s.hist (a :: (l1 ++ l2)) s.undo_stack := hu
    have hnu := IsStack_head_not_mem hu2
    have hna : a ∉ rs := hd a (by simp)
    have hne : ∀ x ∈ l1, x ≠ a := fun x hx e => hnu (e ▸ List.mem_append_left _ hx)
    have step := fun s1 (h1 : undo E s = some s1) =>
      undo_chain_step hu2 hr hna (hp a (List.mem_cons_self _ _)) h1
    have disj : ∀ x ∈ l1 ++ l2, x ∉ a :: rs := by
      intro x hx hm
      rcases List.mem_cons.1 hm with e | hm
      · exact hnu (e ▸ hx)
      · exact hd x (List.mem_cons_of_mem _ hx) hm
    constructor
    · intro s2 h
      have h0 : (undo E s).bind (undo_n E l1.length) = some s2 := h
      obtain ⟨s1, h1, h2⟩ := Option.bind_eq_some.1 h0
      obtain ⟨c1, c2, c3, c4⟩ := step s1 h1
      have plain : ∀ x ∈ l1, ∀ r, s1.hist[x]? = some r → plain_swap r = true := by
        intro x hx r hr1
        rw [c4 x (hne x hx)] at hr1
        exact hp x (List.mem_cons_of_mem _ hx) r hr1
      obtain ⟨i1, i2, i3⟩ := (undo_n_chain E l1 s1 l2 (a :: rs) c1 c2 disj plain).1 s2 h2
      refine ⟨i1, ?_, ?_⟩
      · simpa using i2
      · rw [i3, c3]
        simp [List.replicate_succ]
    · intro hnd
      obtain ⟨ha, r, hr0, -⟩ := hu2
      obtain ⟨s1, h1⟩ := undo_total (E := E) ha hr0 (hnd a (List.mem_cons_self _ _) r hr0)
      obtain ⟨c1, c2, -, c4⟩ := step s1 h1
      have plain : ∀ x ∈ l1, ∀ r, s1.hist[x]? = some r → plain_swap r = true := by
        intro x hx r hr1
        rw [c4 x (hne x hx)] at hr1
        exact hp x (List.mem_cons_of_mem _ hx) r hr1
      have nd : ∀ x ∈ l1, ∀ r, s1.hist[x]? = some r → no_deref r.last_action = true := by
        intro x hx r hr1
        rw [c4 x (hne x hx)] at hr1
        exact hnd x (List.mem_cons_of_mem _ hx) r hr1
      obtain ⟨s2, h2⟩ := (undo_n_chain E l1 s1 l2 (a :: rs) c1 c2 disj plain).2 nd
      refine ⟨s2, ?_⟩
      show (undo E s).bind (undo_n E l1.length) = some s2
      rw [h1]
      exact h2

/-- C8 (amended): successive undos take back commits in LIFO order.  Start
from empty undo and redo stacks with additions enabled and commit N edits
whose records are of kind ADD, DELETE, MOVE, EDIT, GLUE, BREAK, LOAD, SCALE,
JOIN or SPLIT, or of kind DELETE_ARROW_HEAD on a line, a spline or an arc.
For every k ≤ N, if k successive calls of `undo()` return, then the undo stack
is the chain of the first N - k records, the latest of them on top, the redo
stack is the chain of the last k records, the earliest of them on top, and
each call has reported "Undo complete"; for k = N the undo stack is empty and
the redo stack holds the N records with the first-committed one on top.  When
all N records are of kind ADD, DELETE, MOVE, GLUE, BREAK or LOAD, the k calls
do return. -/
theorem undos_take_back_commits (E : Ext) (s0 : State) (edits : List Staging) (k : Nat)
    (hu : s0.undo_stack = none) (hr : s0.redo_stack = none)
    (hf : s0.freeze_undo_additions = false)
    (hp : ∀ st ∈ edits, plain_staged st = true) (hk : k ≤ edits.length) :
    (∀ s2, undo_n E k (do_edits E edits s0) = some s2 →
      IsStack s2.hist (List.range' s0.hist.length (edits.length - k)).reverse s2.undo_stack ∧
      IsStack s2.hist (List.range' (s0.hist.length + (edits.length - k)) k) s2.redo_stack ∧
      s2.msgs = s0.msgs ++ List.replicate k "Undo complete") ∧
    ((∀ st ∈ edits, no_deref st.last_action = true) →
      ∃ s2, undo_n E k (do_edits E edits s0) = some s2) := by
  obtain ⟨i1, i2, i3, i4⟩ := do_edits_chain E edits s0 [] hf hr hu
  have hsplit : List.range' s0.hist.length edits.length =
      List.range' s0.hist.length (edits.length - k) ++
        List.range' (s0.hist.length + (edits.length - k)) k := by
    rw [List.range'_append_1]
    congr 1
    omega
  have hlen : (List.range' (s0.hist.length + (edits.length - k)) k).reverse.length = k := by
    simp
  have hmem : ∀ x ∈ (List.range' (s0.hist.length + (edits.length - k)) k).reverse,
      x ∈ List.range' s0.hist.length edits.length := by
    intro x hx
    rw [hsplit]
    exact List.mem_append_right _ (List.mem_reverse.1 hx)
  have hc : IsStack (do_edits E edits s0).hist
      ((List.range' (s0.hist.length + (edits.length - k)) k).reverse ++
        (List.range' s0.hist.length (edits.length - k)).reverse)
      (do_edits E edits s0).undo_stack := by
    rw [← List.reverse_append, ← hsplit]
    simpa using i1
  have main := undo_n_chain E _ (do_edits E edits s0) _ [] hc i2 (by simp)
    (by
      intro x hx r hr1
      obtain ⟨r2, st, g1, g2, g3, g4⟩ := i4 x (hmem x hx)
      rw [hr1] at g1
      cases g1
      exact plain_of_staged g3 g4 (hp st g2))
  rw [hlen] at main
  constructor
  · intro s2 h2
    obtain ⟨m1, m2, m3⟩ := main.1 s2 h2
    refine ⟨m1, ?_, m3.trans (by rw [i3])⟩
    simpa using m2
  · intro hnd
    apply main.2
    intro x hx r hr1
    obtain ⟨r2, st, g1, g2, g3, -⟩ := i4 x (hmem x hx)
    rw [hr1] at g1
    cases g1
    rw [g3]
    exact hnd st g2

/-- The hypotheses of `undos_take_back_commits` hold for the two edits of
`two_edits`, a MOVE and an ADD: the two calls of `undo()` return, the undo
stack is then empty, the redo stack has the MOVE record (address 0) on top of
the ADD record (address 1), and both calls have reported "Undo complete". -/
theorem undos_take_back_commits_witness :
    (moved_start.undo_stack = none ∧ moved_start.redo_stack = none ∧
      moved_start.freeze_undo_additions = false ∧
      (∀ st ∈ two_staged, plain_staged st = true) ∧ 2 ≤ two_staged.length ∧
      (∀ st ∈ two_staged, no_deref st.last_action = true) ∧
      do_edits sampleExt two_staged moved_start = two_edits) ∧
    ((∀ s2, undo_n sampleExt 2 (do_edits sampleExt two_staged moved_start) = some s2 →
        IsStack s2.hist (List.range' moved_start.hist.length (two_staged.length - 2)).reverse
          s2.undo_stack ∧
        IsStack s2.hist (List.range' (moved_start.hist.length + (two_staged.length - 2)) 2)
          s2.redo_stack ∧
        s2.msgs = moved_start.msgs ++ List.replicate 2 "Undo complete") ∧
      ((∀ st ∈ two_staged, no_deref st.last_action = true) →
        ∃ s2, undo_n sampleExt 2 (do_edits sampleExt two_staged moved_start) = some s2)) ∧
    (undo_n sampleExt 2 two_edits).map (fun s => (s.undo_stack, s.redo_stack, s.msgs)) =
      some (none, some 0, ["Undo complete", "Undo complete"]) :=
  ⟨⟨rfl, rfl, rfl, by decide, by decide, by decide, rfl⟩,
    undos_take_back_commits sampleExt moved_start two_staged 2 rfl rfl rfl (by decide)
      (by decide),
    by decide⟩

/-! ## ADD_ARROW_HEAD on the redo stack -/

theorem runApi_frozen (E : Ext) : ∀ (l : List ApiCall) (s : State),
    s.freeze_redo_cleanup = true →
    (runApi E l s).redo_stack = s.redo_stack ∧ ∃ t, (runApi E l s).hist = s.hist ++ t
  | [], s, _ => ⟨rfl, [], (List.append_nil _).symm⟩
  | .stage f :: cs, s, h => runApi_frozen E cs { s with staging := f s.staging } h
  | .set_freeze_undo_additions v :: cs, s, h =>
    runApi_frozen E cs { s with freeze_undo_additions := v } h
  | .undo_update_history :: cs, s, h => by
    have e : runApi E (.undo_update_history :: cs) s = runApi E cs (undo_update_history E s) :=
      rfl
    rw [e]
    unfold undo_update_history
    split
    · exact runApi_frozen E cs s h
    · simp only [h, Bool.not_true, Bool.false_eq_true, if_false]
      obtain ⟨i1, t, i2⟩ := runApi_frozen E cs (push_history E s) h
      obtain ⟨r0, hp⟩ : ∃ r0, (push_history E s).hist = s.hist ++ [r0] := ⟨_, rfl⟩
      exact ⟨i1, r0 :: t, by rw [i2, hp]; simp⟩

/-- The `pop_stack(stack)` of `undo_add_arrowhead` (line 461) on the redo
stack: the dispatched record itself is popped, and when it was the only one
the assignment that follows goes through a null `*stack`. -/
theorem add_arrowhead_tail_redo {E : Ext} {s : State} {a : Nat} {r : F_history}
    {fn : Fn} {args : List Arg} (ha : s.redo_stack = some a) (hr : s.hist[a]? = some r)
    (hn : r.next = none) (hf : s.freeze_redo_cleanup = true) :
    add_arrowhead_tail .redo (cmd E fn args s) = none := by
  obtain ⟨i1, t, i2⟩ := runApi_frozen E (E.command ⟨fn, args⟩ s.scene)
    { s with scene := E.effect ⟨fn, args⟩ s.scene, trace := s.trace ++ [⟨fn, args⟩] } hf
  have h1 : (cmd E fn args s).redo_stack = some a := i1.trans ha
  have h2 : (cmd E fn args s).hist[a]? = some r := by
    have e : (cmd E fn args s).hist = s.hist ++ t := i2
    rw [e, List.getElem?_append_left (List.getElem?_eq_some.1 hr).1]
    exact hr
  unfold add_arrowhead_tail
  simp [State.top, State.stk, State.setFreezeRedo, pop_stack, State.setStk, State.setTop,
    h1, h2, hn]

theorem redo_add_arrowhead_faults (E : Ext) {s : State} {a : Nat} {r : F_history}
    (ha : s.redo_stack = some a) (hr : s.hist[a]? = some r)
    (hk : r.last_action = F_ADD_ARROW_HEAD) (ho : r.last_object = O_POLYLINE)
    (hn : r.next = none) : redo E s = none := by
  unfold redo
  simp only [setCompLED_redo_stack, setCompLED_hist, ha, hr, hk, dispatch]
  have e : undo_add_arrowhead E .redo (setCompLED 0 s) = none := by
    unfold undo_add_arrowhead
    have ht : ((setCompLED 0 s).setFreezeRedo true).top .redo = some r := by
      simp [State.top, State.stk, State.setFreezeRedo, setCompLED, ha, hr]
    simp only [ht, Option.bind_eq_bind, Option.some_bind, ho]
    exact add_arrowhead_tail_redo (s := (setCompLED 0 s).setFreezeRedo true) ha hr hn rfl
  rw [e]

/-- C9 as stated fails for JOIN, SPLIT and the arrowhead kinds.  After `undo()`
on a committed JOIN record the record is on the redo stack and its kind is
still JOIN, not SPLIT.  After `undo()` and `redo()` on a committed SPLIT record
the record is on top of the undo stack with kind JOIN, not its original kind.
And whatever the collaborators, after `undo()` on a committed
DELETE_ARROW_HEAD record of a polyline the record is an ADD_ARROW_HEAD on the
redo stack, and the `redo()` that follows pops that record itself (line 461)
and faults on the null `*stack`, so it does not bring the record back. -/
theorem relabelling_exceptions :
    (joined_state.undo_stack = some 0 ∧
      joined_state.hist.map F_history.last_action = [F_JOIN] ∧
      (undo sampleExt joined_state).map
          (fun s => (s.redo_stack, s.hist.map F_history.last_action)) =
        some (some 0, [F_JOIN])) ∧
    (split_state.undo_stack = some 0 ∧
      split_state.hist.map F_history.last_action = [F_SPLIT] ∧
      ((undo sampleExt split_state).bind (redo sampleExt)).map
          (fun s => (s.undo_stack, s.hist.map F_history.last_action)) =
        some (some 0, [F_JOIN])) ∧
    (∀ E : Ext, ∃ s1, undo E (do_edits E [staged_delarrow] moved_start) = some s1 ∧
      s1.redo_stack = some 0 ∧ s1.hist.map F_history.last_action = [F_ADD_ARROW_HEAD] ∧
      redo E s1 = none) :=
  ⟨by decide, by decide,
    fun E => ⟨_, rfl, rfl, rfl, redo_add_arrowhead_faults E (a := 0) rfl rfl rfl rfl rfl⟩⟩

/-! ## EDIT -/

theorem swap_payload_eq {α : Type} [Linked α] {h : List α} {old new : Nat} {o n : α}
    (ho : h[old]? = some o) (hn : h[new]? = some n) (hne : new ≠ old) :
    swap_payload h old new = some (exchanged h new old n o) := by
  have lo := (List.getElem?_eq_some.1 ho).1
  have ln := (List.getElem?_eq_some.1 hn).1
  have e1 : ((h.set old n).set new o)[old]? = some n := by
    rw [List.getElem?_set_ne hne]
    exact List.getElem?_set_self lo
  have e2 : ((h.set old n).set new o)[new]? = some o :=
    List.getElem?_set_self (by simpa using ln)
  have e3 : (((h.set old n).set new o).set old (Linked.setNext n (Linked.next o)))[new]? =
      some o := by
    rw [List.getElem?_set_ne (Ne.symm hne)]
    exact e2
  unfold swap_payload memswap restore_next
  simp only [ho, hn, e1, e2, e3, exchanged, Option.some.injEq]
  apply List.ext_getElem?
  intro i
  simp only [List.getElem?_set, List.length_set]
  by_cases h1 : new = i <;> by_cases h2 : old = i <;> simp [h1, h2]

theorem sampleExt_keeps : KeepsObjects sampleExt := by
  intro c sc h
  obtain ⟨fn, args⟩ := c
  cases fn <;> simp [bookkeeping] at h <;> rfl

theorem KeepsObjects.heap {E : Ext} (hE : KeepsObjects E) {fn : Fn} (hb : bookkeeping fn = true)
    (args : List Arg) (s : State) : (ext E fn args s).scene.heaps = s.scene.heaps :=
  hE ⟨fn, args⟩ s.scene hb

theorem change_objects_eval {α : Type} [Linked α] {E : Ext} {k : ObjKind} {D : α → Int}
    {H : Scene → List α} {head : Ptr} {s : State} {new_o old_o : Nat} {n o : α}
    (hE : ∀ fn args (x : State), bookkeeping fn = true →
      H (ext E fn args x).scene = H x.scene)
    (h1 : head = some new_o) (h2 : (H s.scene)[new_o]? = some n)
    (h3 : Linked.next n = some old_o) (h4 : (H s.scene)[old_o]? = some o)
    (hne : new_o ≠ old_o) :
    change_objects E k D H head s = some
      (ext E .add_depth [.kind k, .int (D n)]
        (ext E .remove_depth [.kind k, .int (D o)] s),
        exchanged (H s.scene) new_o old_o n o, new_o, old_o) := by
  have e1 := hE .remove_depth [.kind k, .int (D o)] s rfl
  have e2 := hE .add_depth [.kind k, .int (D n)]
    (ext E .remove_depth [.kind k, .int (D o)] s) rfl
  unfold change_objects
  simp only [h1, h2, h3, h4, e1, e2, Option.bind_eq_bind, Option.some_bind, Option.pure_def,
    swap_payload_eq h4 h2 hne]

/-- The `swap_stack` that ends a handler returns when `*stack` is a record, and
touches neither the scene nor the trace. -/
theorem swap_then {w : StackRef} {a : Nat} {X : State} {Q : State → Prop}
    (ha : X.stk w = some a) (hl : a < X.hist.length)
    (hq : ∀ s2 : State, s2.scene = X.scene → s2.trace = X.trace → Q s2) :
    ∃ s2, swap_stack w X = some s2 ∧ Q s2 := by
  have hg := List.getElem?_eq_getElem hl
  unfold swap_stack
  rw [ha]
  simp only
  cases other_stack w X with
  | none => exact ⟨_, rfl, hq _ rfl rfl⟩
  | some o =>
    simp only [pop_stack, ha, hg]
    have e1 : (X.setStk w X.hist[a].next).hist = X.hist := by cases w <;> rfl
    rw [e1, hg]
    refine ⟨_, rfl, hq _ ?_ ?_⟩ <;> cases w <;> cases o <;> rfl

theorem depth_count_append (k : ObjKind) (d : Int) (t u : List Call) :
    depth_count k d (t ++ u) = depth_count k d t + depth_count k d u := by
  unfold depth_count
  simp only [List.count_append]
  push_cast
  ring

theorem depth_count_calls (k : ObjKind) (d x y : Int) (fn : Fn) (args : List Arg)
    (h1 : fn ≠ .add_depth) (h2 : fn ≠ .remove_depth) :
    depth_count k d [⟨.remove_depth, [.kind k, .int x]⟩, ⟨.add_depth, [.kind k, .int y]⟩,
      ⟨fn, args⟩] = (if d = y then 1 else 0) - (if d = x then 1 else 0) := by
  unfold depth_count
  have e1 : (⟨fn, args⟩ : Call) ≠ ⟨.add_depth, [.kind k, .int d]⟩ := fun e =>
    h1 (congrArg Call.fn e)
  have e2 : (⟨fn, args⟩ : Call) ≠ ⟨.remove_depth, [.kind k, .int d]⟩ := fun e =>
    h2 (congrArg Call.fn e)
  have cx : (d = x) ↔ (x = d) := eq_comm
  have cy : (d = y) ↔ (y = d) := eq_comm
  simp only [cx, cy]
  by_cases hx : x = d <;> by_cases hy : y = d <;>
    simp [List.count_cons, hx, hy, e1, e2, h1, h2]

theorem edit_outcome {α : Type} [Linked α] {k : ObjKind} {depth : α → Int}
    {heap : Scene → List α} {fn : Fn} {s s2 : State} {new_o old_o : Nat} {n o : α}
    (h1 : fn ≠ .add_depth) (h2 : fn ≠ .remove_depth)
    (hn : (heap s.scene)[new_o]? = some n) (ho : (heap s.scene)[old_o]? = some o)
    (hne : new_o ≠ old_o)
    (hh : heap s2.scene = exchanged (heap s.scene) new_o old_o n o)
    (ht : s2.trace = s.trace ++
      [⟨.remove_depth, [.kind k, .int (depth o)]⟩, ⟨.add_depth, [.kind k, .int (depth n)]⟩,
        ⟨fn, [.ptr (some new_o), .ptr (some old_o)]⟩]) :
    EditOutcome k depth heap fn s s2 new_o old_o n o := by
  have lo := (List.getElem?_eq_some.1 ho).1
  have ln := (List.getElem?_eq_some.1 hn).1
  refine ⟨hh, ?_, ?_, ht, ?_⟩
  · rw [hh, exchanged, List.getElem?_set_ne hne]
    exact List.getElem?_set_self lo
  · rw [hh, exchanged]
    exact List.getElem?_set_self (by simpa using ln)
  · intro d
    rw [ht, depth_count_append, depth_count_calls k d _ _ fn _ h1 h2]
    ring

theorem undo_change_line {E : Ext} {w : StackRef} {s : State} {a : Nat} {r : F_history}
    {new_o old_o : Nat} {n o : F_line} (hE : KeepsObjects E)
    (ha : s.stk w = some a) (hr : s.hist[a]? = some r) (hk : r.last_object = O_POLYLINE)
    (h1 : r.saved_objects.lines = some new_o) (h2 : s.scene.lines[new_o]? = some n)
    (h3 : n.next = some old_o) (h4 : s.scene.lines[old_o]? = some o) (hne : new_o ≠ old_o) :
    ∃ s2, undo_change E w s = some s2 ∧
      EditOutcome O_POLYLINE F_line.depth Scene.lines .redisplay_lines s s2 new_o old_o n o := by
  have hl := (List.getElem?_eq_some.1 hr).1
  have hp : ∀ fn args (x : State), bookkeeping fn = true →
      (ext E fn args x).scene.lines = x.scene.lines :=
    fun fn args x hb => congrArg (fun t => t.1) (hE.heap hb args x)
  have ev := change_objects_eval (E := E) (k := O_POLYLINE) (D := F_line.depth)
    (H := Scene.lines) hp h1 h2 h3 h4 hne
  have ht : s.top w = some r := by simp [State.top, ha, hr]
  unfold undo_change
  simp only [ht, hk, ev, Option.bind_eq_bind, Option.some_bind, Option.pure_def]
  apply swap_then (a := a) (by simpa using ha) (by simpa using hl)
  intro s2 hs htr
  refine edit_outcome (by decide) (by decide) h2 h4 hne ?_ ?_
  · rw [hs, hp .redisplay_lines _ _ rfl]
    rfl
  · rw [htr]
    simp [ext, State.mapScene]

theorem undo_change_ellipse {E : Ext} {w : StackRef} {s : State} {a : Nat} {r : F_history}
    {new_o old_o : Nat} {n o : F_ellipse} (hE : KeepsObjects E)
    (ha : s.stk w = some a) (hr : s.hist[a]? = some r) (hk : r.last_object = O_ELLIPSE)
    (h1 : r.saved_objects.ellipses = some new_o) (h2 : s.scene.ellipses[new_o]? = some n)
    (h3 : n.next = some old_o) (h4 : s.scene.ellipses[old_o]? = some o) (hne : new_o ≠ old_o) :
    ∃ s2, undo_change E w s = some s2 ∧
      EditOutcome O_ELLIPSE F_ellipse.depth Scene.ellipses .redisplay_ellipses s s2 new_o old_o n o := by
  have hl := (List.getElem?_eq_some.1 hr).1
  have hp : ∀ fn args (x : State), bookkeeping fn = true →
      (ext E fn args x).scene.ellipses = x.scene.ellipses :=
    fun fn args x hb => congrArg (fun t => t.2.2.1) (hE.heap hb args x)
  have ev := change_objects_eval (E := E) (k := O_ELLIPSE) (D := F_ellipse.depth)
    (H := Scene.ellipses) hp h1 h2 h3 h4 hne
  have ht : s.top w = some r := by simp [State.top, ha, hr]
  unfold undo_change
  simp only [ht, hk, ev, Option.bind_eq_bind, Option.some_bind, Option.pure_def]
  apply swap_then (a := a) (by simpa using ha) (by simpa using hl)
  intro s2 hs htr
  refine edit_outcome (by decide) (by decide) h2 h4 hne ?_ ?_
  · rw [hs, hp .redisplay_ellipses _ _ rfl]
    rfl
  · rw [htr]
    simp [ext, State.mapScene]

theorem undo_change_text {E : Ext} {w : StackRef} {s : State} {a : Nat} {r : F_history}
    {new_o old_o : Nat} {n o : F_text} (hE : KeepsObjects E)
    (ha : s.stk w = some a) (hr : s.hist[a]? = some r) (hk : r.last_object = O_TXT)
    (h1 : r.saved_objects.texts = some new_o) (h2 : s.scene.texts[new_o]? = some n)
    (h3 : n.next = some old_o) (h4 : s.scene.texts[old_o]? = some o) (hne : new_o ≠ old_o) :
    ∃ s2, undo_change E w s = some s2 ∧
      EditOutcome O_TXT F_text.depth Scene.texts .redisplay_texts s s2 new_o old_o n o := by
  have hl := (List.getElem?_eq_some.1 hr).1
  have hp : ∀ fn args (x : State), bookkeeping fn = true →
      (ext E fn args x).scene.texts = x.scene.texts :=
    fun fn args x hb => congrArg (fun t => t.2.2.2.1) (hE.heap hb args x)
  have ev := change_objects_eval (E := E) (k := O_TXT) (D := F_text.depth)
    (H := Scene.texts) hp h1 h2 h3 h4 hne
  have ht : s.top w = some r := by simp [State.top, ha, hr]
  unfold undo_change
  simp only [ht, hk, ev, Option.bind_eq_bind, Option.some_bind, Option.pure_def]
  apply swap_then (a := a) (by simpa using ha) (by simpa using hl)
  intro s2 hs htr
  refine edit_outcome (by decide) (by decide) h2 h4 hne ?_ ?_
  · rw [hs, hp .redisplay_texts _ _ rfl]
    rfl
  · rw [htr]
    simp [ext, State.mapScene]

theorem undo_change_spline {E : Ext} {w : StackRef} {s : State} {a : Nat} {r : F_history}
    {new_o old_o : Nat} {n o : F_spline} (hE : KeepsObjects E)
    (ha : s.stk w = some a) (hr : s.hist[a]? = some r) (hk : r.last_object = O_SPLINE)
    (h1 : r.saved_objects.splines = some new_o) (h2 : s.scene.splines[new_o]? = some n)
    (h3 : n.next = some old_o) (h4 : s.scene.splines[old_o]? = some o) (hne : new_o ≠ old_o) :
    ∃ s2, undo_change E w s = some s2 ∧
      EditOutcome O_SPLINE F_spline.depth Scene.splines .redisplay_splines s s2 new_o old_o n o := by
  have hl := (List.getElem?_eq_some.1 hr).1
  have hp : ∀ fn args (x : State), bookkeeping fn = true →
      (ext E fn args x).scene.splines = x.scene.splines :=
    fun fn args x hb => congrArg (fun t => t.2.1) (hE.heap hb args x)
  have ev := change_objects_eval (E := E) (k := O_SPLINE) (D := F_spline.depth)
    (H := Scene.splines) hp h1 h2 h3 h4 hne
  have ht : s.top w = some r := by simp [State.top, ha, hr]
  unfold undo_change
  simp only [ht, hk, ev, Option.bind_eq_bind, Option.some_bind, Option.pure_def]
  apply swap_then (a := a) (by simpa using ha) (by simpa using hl)
  intro s2 hs htr
  refine edit_outcome (by decide) (by decide) h2 h4 hne ?_ ?_
  · rw [hs, hp .redisplay_splines _ _ rfl]
    rfl
  · rw [htr]
    simp [ext, State.mapScene]

theorem undo_change_arc {E : Ext} {w : StackRef} {s : State} {a : Nat} {r : F_history}
    {new_o old_o : Nat} {n o : F_arc} (hE : KeepsObjects E)
    (ha : s.stk w = some a) (hr : s.hist[a]? = some r) (hk : r.last_object = O_ARC)
    (h1 : r.saved_objects.arcs = some new_o) (h2 : s.scene.arcs[new_o]? = some n)
    (h3 : n.next = some old_o) (h4 : s.scene.arcs[old_o]? = some o) (hne : new_o ≠ old_o) :
    ∃ s2, undo_change E w s = some s2 ∧
      EditOutcome O_ARC F_arc.depth Scene.arcs .redisplay_arcs s s2 new_o old_o n o := by
  have hl := (List.getElem?_eq_some.1 hr).1
  have hp : ∀ fn args (x : State), bookkeeping fn = true →
      (ext E fn args x).scene.arcs = x.scene.arcs :=
    fun fn args x hb => congrArg (fun t => t.2.2.2.2.1) (hE.heap hb args x)
  have ev := change_objects_eval (E := E) (k := O_ARC) (D := F_arc.depth)
    (H := Scene.arcs) hp h1 h2 h3 h4 hne
  have ht : s.top w = some r := by simp [State.top, ha, hr]
  unfold undo_change
  simp only [ht, hk, ev, Option.bind_eq_bind, Option.some_bind, Option.pure_def]
  apply swap_then (a := a) (by simpa using ha) (by simpa using hl)
  intro s2 hs htr
  refine edit_outcome (by decide) (by decide) h2 h4 hne ?_ ?_
  · rw [hs, hp .redisplay_arcs _ _ rfl]
    rfl
  · rw [htr]
    simp [ext, State.mapScene]

/-- C11: EDIT exchanges payloads in place and fixes the depth counters.  Let
the record on top of the stack be that of an edited line, ellipse, text,
spline or arc, its saved list holding the original `n` at `new_o` followed by
the changed object `o` at `old_o`, and let the depth and display functions
write to no object.  Then `undo_change` returns; in the heap of that type the
object at `old_o` is `n` with the `next` link of `o` and the object at `new_o`
is `o` with the `next` link of `n`, every other object being as before; the
calls made are `remove_depth` at the depth of `o`, `add_depth` at the depth of
`n` and the redisplay, so the counter at the depth of the changed object goes
down by one and that at the depth of the original goes up by one. -/
theorem edit_exchanges_payloads (E : Ext) (w : StackRef) (s : State) (a : Nat) (r : F_history)
    (new_o old_o : Nat) (hE : KeepsObjects E) (ha : s.stk w = some a)
    (hr : s.hist[a]? = some r) (hne : new_o ≠ old_o) :
    (∀ n o, r.last_object = O_POLYLINE → r.saved_objects.lines = some new_o →
      s.scene.lines[new_o]? = some n → n.next = some old_o → s.scene.lines[old_o]? = some o →
      ∃ s2, undo_change E w s = some s2 ∧
        EditOutcome O_POLYLINE F_line.depth Scene.lines .redisplay_lines s s2 new_o old_o n o) ∧
    (∀ n o, r.last_object = O_ELLIPSE → r.saved_objects.ellipses = some new_o →
      s.scene.ellipses[new_o]? = some n → n.next = some old_o →
      s.scene.ellipses[old_o]? = some o →
      ∃ s2, undo_change E w s = some s2 ∧
        EditOutcome O_ELLIPSE F_ellipse.depth Scene.ellipses .redisplay_ellipses s s2
          new_o old_o n o) ∧
    (∀ n o, r.last_object = O_TXT → r.saved_objects.texts = some new_o →
      s.scene.texts[new_o]? = some n → n.next = some old_o → s.scene.texts[old_o]? = some o →
      ∃ s2, undo_change E w s = some s2 ∧
        EditOutcome O_TXT F_text.depth Scene.texts .redisplay_texts s s2 new_o old_o n o) ∧
    (∀ n o, r.last_object = O_SPLINE → r.saved_objects.splines = some new_o →
      s.scene.splines[new_o]? = some n → n.next = some old_o →
      s.scene.splines[old_o]? = some o →
      ∃ s2, undo_change E w s = some s2 ∧
        EditOutcome O_SPLINE F_spline.depth Scene.splines .redisplay_splines s s2
          new_o old_o n o) ∧
    (∀ n o, r.last_object = O_ARC → r.saved_objects.arcs = some new_o →
      s.scene.arcs[new_o]? = some n → n.next = some old_o → s.scene.arcs[old_o]? = some o →
      ∃ s2, undo_change E w s = some s2 ∧
        EditOutcome O_ARC F_arc.depth Scene.arcs .redisplay_arcs s s2 new_o old_o n o) :=
  ⟨fun _ _ hk h1 h2 h3 h4 => undo_change_line hE ha hr hk h1 h2 h3 h4 hne,
    fun _ _ hk h1 h2 h3 h4 => undo_change_ellipse hE ha hr hk h1 h2 h3 h4 hne,
    fun _ _ hk h1 h2 h3 h4 => undo_change_text hE ha hr hk h1 h2 h3 h4 hne,
    fun _ _ hk h1 h2 h3 h4 => undo_change_spline hE ha hr hk h1 h2 h3 h4 hne,
    fun _ _ hk h1 h2 h3 h4 => undo_change_arc hE ha hr hk h1 h2 h3 h4 hne⟩

/-- The hypotheses of `edit_exchanges_payloads` hold for the spline of
`edited_state`, edited from depth 3 to depth 5: after `undo()` the live spline
at address 1 has depth 3 again and no successor, the saved one at address 0 has
depth 5 and still points to address 1, the count at depth 3 has gone up by one
and the count at depth 5 down by one. -/
theorem edit_exchanges_payloads_witness :
    (KeepsObjects sampleExt ∧ edited_state.stk .undo = some 0 ∧ (0 : Nat) ≠ 1) ∧
    (∃ s2, undo_change sampleExt .undo edited_state = some s2 ∧
      EditOutcome O_SPLINE F_spline.depth Scene.splines .redisplay_splines edited_state s2 0 1
        { next := some 1, type := 4, depth := 3, for_arrow := none, back_arrow := none,
          points := [⟨0, 0⟩, ⟨10, 10⟩], sfactors := [⟨0⟩, ⟨0⟩], rest := 0 }
        { next := none, type := 4, depth := 5, for_arrow := none, back_arrow := none,
          points := [⟨0, 0⟩, ⟨10, 10⟩], sfactors := [⟨0⟩, ⟨0⟩], rest := 0 }) ∧
    (undo sampleExt edited_state).map
        (fun s => (s.scene.splines.map F_spline.depth, s.scene.splines.map F_spline.next,
          depth_count O_SPLINE 3 s.trace, depth_count O_SPLINE 5 s.trace, s.msgs)) =
      some ([5, 3], [some 1, none], 1, -1, ["Undo complete"]) :=
  ⟨⟨sampleExt_keeps, rfl, by decide⟩,
    (edit_exchanges_payloads sampleExt .undo edited_state 0 _ 0 1 sampleExt_keeps rfl rfl
      (by decide)).2.2.2.1 _ _ rfl rfl rfl rfl rfl,
    by decide⟩

/-! ## EDIT: undo, then redo -/

theorem exchanged_twice {α : Type} [Linked α] [LawfulLinked α] {h : List α} {new_o old_o : Nat}
    {n o : α} (hn : h[new_o]? = some n) (ho : h[old_o]? = some o) :
    exchanged (exchanged h new_o old_o n o) new_o old_o
      (Linked.setNext o (Linked.next n)) (Linked.setNext n (Linked.next o)) = h := by
  unfold exchanged
  simp only [LawfulLinked.next_setNext, LawfulLinked.setNext_setNext,
    LawfulLinked.setNext_next]
  apply List.ext_getElem?
  intro i
  simp only [List.getElem?_set, List.length_set]
  have ln := (List.getElem?_eq_some.1 hn).1
  have lo := (List.getElem?_eq_some.1 ho).1
  by_cases h1 : new_o = i
  · subst h1
    simp [ln, hn]
  · by_cases h2 : old_o = i
    · subst h2
      simp [h1, lo, ho]
    · simp [h1, h2]

theorem swap_undo_result {X : State} {a : Nat} {r : F_history} (ha : X.undo_stack = some a)
    (hr : X.hist[a]? = some r) :
    ∃ s1, swap_stack .undo X = some s1 ∧ s1.undo_stack = r.next ∧ s1.redo_stack = some a ∧
      s1.hist = X.hist.set a (r.withNext X.redo_stack) ∧ s1.scene = X.scene ∧
      s1.trace = X.trace ∧ s1.msgs = X.msgs :=
  ⟨_, swap_stack_undo_eq X a r ha hr, rfl, rfl, rfl, rfl, rfl, rfl⟩

theorem swap_redo_result {X : State} {a : Nat} {r : F_history} (ha : X.redo_stack = some a)
    (hr : X.hist[a]? = some r) (hne : X.undo_stack ≠ some a) :
    ∃ s1, swap_stack .redo X = some s1 ∧ s1.undo_stack = some a ∧ s1.redo_stack = r.next ∧
      s1.hist = X.hist.set a (r.withNext X.undo_stack) ∧ s1.scene = X.scene ∧
      s1.trace = X.trace ∧ s1.msgs = X.msgs :=
  ⟨_, swap_stack_redo_eq X a r ha hr hne, rfl, rfl, rfl, rfl, rfl, rfl⟩

/-- The call of `undo()` on a record whose handler comes down to `swap_stack`
on a state `X` with the history of the state it was given. -/
theorem run_swap_undo {E : Ext} {s X : State} {a : Nat} {r : F_history}
    {handler : State → Option State} (ha : s.undo_stack = some a) (hr : s.hist[a]? = some r)
    (hd : dispatch E .undo r.last_action = some handler)
    (hx : handler (setCompLED 0 s) = swap_stack .undo X) (hs : SameHist (setCompLED 0 s) X) :
    ∃ s1, undo E s = some s1 ∧ s1.undo_stack = r.next ∧ s1.redo_stack = some a ∧
      s1.hist = s.hist.set a (r.withNext s.redo_stack) ∧ s1.scene = X.scene ∧
      s1.trace = X.trace ∧ s1.msgs = s.msgs ++ ["Undo complete"] := by
  obtain ⟨e1, e2, e3, e4⟩ := hs
  obtain ⟨s1, h1, h2, h3, h4, h5, h6, h7⟩ :=
    swap_undo_result (X := X) (a := a) (r := r) (e2.trans ha) (by rw [e1]; exact hr)
  refine ⟨_, undo_of_handler ha hr hd (hx.trans h1), h2, h3, ?_, h5, h6, ?_⟩
  · show s1.hist = _
    rw [h4, e1, e3]
    rfl
  · show s1.msgs ++ _ = _
    rw [h7, e4]
    rfl

theorem run_swap_redo {E : Ext} {s X : State} {a : Nat} {r : F_history}
    {handler : State → Option State} (ha : s.redo_stack = some a) (hr : s.hist[a]? = some r)
    (hne : s.undo_stack ≠ some a)
    (hd : dispatch E .redo r.last_action = some handler)
    (hx : handler (setCompLED 0 s) = swap_stack .redo X) (hs : SameHist (setCompLED 0 s) X) :
    ∃ s1, redo E s = some s1 ∧ s1.undo_stack = some a ∧ s1.redo_stack = r.next ∧
      s1.hist = s.hist.set a (r.withNext s.undo_stack) ∧ s1.scene = X.scene ∧
      s1.trace = X.trace ∧ s1.msgs = s.msgs ++ ["Redo complete"] := by
  obtain ⟨e1, e2, e3, e4⟩ := hs
  obtain ⟨s1, h1, h2, h3, h4, h5, h6, h7⟩ :=
    swap_redo_result (X := X) (a := a) (r := r) (e3.trans ha) (by rw [e1]; exact hr)
      (by rw [e2]; exact hne)
  refine ⟨_, redo_of_handler ha hr hd (hx.trans h1), h2, h3, ?_, h5, h6, ?_⟩
  · show s1.hist = _
    rw [h4, e1, e2]
    rfl
  · show s1.msgs ++ _ = _
    rw [h7, e4]
    rfl

theorem KeepsObjects.ext {E : Ext} (hE : KeepsObjects E) (fn : Fn) (args : List Arg)
    (s : State) (hb : bookkeeping fn = true) :
    (XfigUndo.ext E fn args s).scene.heaps = s.scene.heaps :=
  hE ⟨fn, args⟩ s.scene hb

theorem set_same {α : Type} {l : List α} {i : Nat} {x : α} (h : l[i]? = some x) :
    l.set i x = l := by
  apply List.ext_getElem?
  intro j
  rw [List.getElem?_set]
  split
  · rename_i e
    subst e
    simp [h, (List.getElem?_eq_some.1 h).1]
  · rfl

theorem depth_count_pair (k k0 : ObjKind) (d x y : Int) (f1 f2 : Fn) (a1 a2 : List Arg)
    (h1 : f1 ≠ .add_depth) (h2 : f1 ≠ .remove_depth) (h3 : f2 ≠ .add_depth)
    (h4 : f2 ≠ .remove_depth) (t : List Call) :
    depth_count k d
      ((t ++ [⟨.remove_depth, [.kind k0, .int x]⟩, ⟨.add_depth, [.kind k0, .int y]⟩,
          ⟨f1, a1⟩]) ++
        [⟨.remove_depth, [.kind k0, .int y]⟩, ⟨.add_depth, [.kind k0, .int x]⟩, ⟨f2, a2⟩]) =
      depth_count k d t := by
  rw [depth_count_append, depth_count_append]
  by_cases hk : k0 = k
  · subst hk
    rw [depth_count_calls k0 d _ _ f1 _ h1 h2, depth_count_calls k0 d _ _ f2 _ h3 h4]
    ring
  · have e1 : (⟨f1, a1⟩ : Call) ≠ ⟨.add_depth, [.kind k, .int d]⟩ := fun e =>
      h1 (congrArg Call.fn e)
    have e2 : (⟨f1, a1⟩ : Call) ≠ ⟨.remove_depth, [.kind k, .int d]⟩ := fun e =>
      h2 (congrArg Call.fn e)
    have e3 : (⟨f2, a2⟩ : Call) ≠ ⟨.add_depth, [.kind k, .int d]⟩ := fun e =>
      h3 (congrArg Call.fn e)
    have e4 : (⟨f2, a2⟩ : Call) ≠ ⟨.remove_depth, [.kind k, .int d]⟩ := fun e =>
      h4 (congrArg Call.fn e)
    simp [depth_count, List.count_cons, hk, e1, e2, e3, e4, h1, h2, h3, h4]

theorem undo_change_line_eq {E : Ext} {w : StackRef} {s : State} {a : Nat} {r : F_history}
    {new_o old_o : Nat} {n o : F_line} (hE : KeepsObjects E)
    (ha : s.stk w = some a) (hr : s.hist[a]? = some r) (hk : r.last_object = O_POLYLINE)
    (h1 : r.saved_objects.lines = some new_o) (h2 : s.scene.lines[new_o]? = some n)
    (h3 : n.next = some old_o) (h4 : s.scene.lines[old_o]? = some o) (hne : new_o ≠ old_o) :
    ∃ X, undo_change E w s = swap_stack w X ∧ SameHist s X ∧
      X.scene.heaps = (exchanged s.scene.lines new_o old_o n o, s.scene.splines, s.scene.ellipses, s.scene.texts, s.scene.arcs, s.scene.compounds) ∧
      X.trace = s.trace ++
        [⟨.remove_depth, [.kind O_POLYLINE, .int o.depth]⟩,
          ⟨.add_depth, [.kind O_POLYLINE, .int n.depth]⟩,
          ⟨.redisplay_lines, [.ptr (some new_o), .ptr (some old_o)]⟩] := by
  have hp : ∀ fn args (x : State), bookkeeping fn = true →
      (ext E fn args x).scene.lines = x.scene.lines :=
    fun fn args x hb => congrArg (fun t => t.1) (hE.heap hb args x)
  have ev := change_objects_eval (E := E) (k := O_POLYLINE) (D := F_line.depth)
    (H := Scene.lines) hp h1 h2 h3 h4 hne
  have ht : s.top w = some r := by simp [State.top, ha, hr]
  have z : (ext E .add_depth [.kind O_POLYLINE, .int n.depth]
      (ext E .remove_depth [.kind O_POLYLINE, .int o.depth] s)).scene.heaps = s.scene.heaps :=
    (hE.ext .add_depth _ _ rfl).trans (hE.ext .remove_depth _ _ rfl)
  unfold undo_change
  simp only [ht, hk, ev, Option.bind_eq_bind, Option.some_bind, Option.pure_def]
  refine ⟨_, rfl, by simp [SameHist], ?_, by simp [ext, State.mapScene]⟩
  rw [hE.ext .redisplay_lines _ _ rfl]
  simp only [Scene.heaps, State.mapScene, Prod.mk.injEq] at z ⊢
  obtain ⟨z1, z2, z3, z4, z5, z6⟩ := z
  simp [z1, z2, z3, z4, z5, z6]

/-- For an edited line: `undo()` and then `redo()` return, and the objects, the
history, the two stacks and the depth counters are as before the `undo()`. -/
theorem edit_roundtrip_line {E : Ext} {s : State} {a : Nat} {r : F_history}
    {new_o old_o : Nat} {n o : F_line} (hE : KeepsObjects E)
    (ha : s.undo_stack = some a) (hr : s.hist[a]? = some r) (hnx : r.next ≠ some a)
    (he : r.last_action = F_EDIT) (hk : r.last_object = O_POLYLINE)
    (h1 : r.saved_objects.lines = some new_o) (h2 : s.scene.lines[new_o]? = some n)
    (h3 : n.next = some old_o) (h4 : s.scene.lines[old_o]? = some o) (hne : new_o ≠ old_o) :
    ∃ s1 s2, undo E s = some s1 ∧ redo E s1 = some s2 ∧
      s2.scene.heaps = s.scene.heaps ∧ s2.hist = s.hist ∧ s2.undo_stack = s.undo_stack ∧
      s2.redo_stack = s.redo_stack ∧
      (∀ k d, depth_count k d s2.trace = depth_count k d s.trace) ∧
      s2.msgs = s.msgs ++ ["Undo complete", "Redo complete"] := by
  have hlt := (List.getElem?_eq_some.1 hr).1
  have hd : ∀ w, dispatch E w r.last_action = some (undo_change E w) := fun w => by
    rw [he]; rfl
  obtain ⟨X1, x1, x2, x3, x4⟩ := undo_change_line_eq (E := E) (w := .undo)
    (s := setCompLED 0 s) hE ha hr hk h1 h2 h3 h4 hne
  obtain ⟨s1, u1, u2, u3, u4, u5, u6, u7⟩ := run_swap_undo ha hr (hd .undo) x1 x2
  have g1 : s1.hist[a]? = some (r.withNext s.redo_stack) := by
    rw [u4]; exact List.getElem?_set_self hlt
  have hs1 : s1.scene.heaps = X1.scene.heaps := congrArg Scene.heaps u5
  rw [x3] at hs1
  simp only [Scene.heaps, Prod.mk.injEq] at hs1
  obtain ⟨q1, q2, q3, q4, q5, q6⟩ := hs1
  have lo := (List.getElem?_eq_some.1 h4).1
  have ln := (List.getElem?_eq_some.1 h2).1
  have k2 : s1.scene.lines[new_o]? = some (Linked.setNext o (Linked.next n)) := by
    rw [q1, exchanged]
    exact List.getElem?_set_self (by simpa using ln)
  have k4 : s1.scene.lines[old_o]? = some (Linked.setNext n (Linked.next o)) := by
    rw [q1, exchanged, List.getElem?_set_ne hne]
    exact List.getElem?_set_self lo
  obtain ⟨X2, y1, y2, y3, y4⟩ := undo_change_line_eq (E := E) (w := .redo)
    (s := setCompLED 0 s1) hE u3 g1 hk h1 k2 h3 k4 hne
  obtain ⟨s2, v1, v2, v3, v4, v5, v6, v7⟩ :=
    run_swap_redo u3 g1 (by rw [u2]; exact hnx) (hd .redo) y1 y2
  refine ⟨s1, s2, u1, v1, ?_, ?_, v2.trans ha.symm, v3, ?_, ?_⟩
  · rw [v5, y3]
    show _ = s.scene.heaps
    simp only [Scene.heaps, setCompLED, Prod.mk.injEq]
    refine ⟨?_, q2, q3, q4, q5, q6⟩
    rw [q1]
    exact exchanged_twice h2 h4
  · rw [v4, u4, u2, List.set_set]
    have e0 : (r.withNext s.redo_stack).withNext r.next = r := rfl
    rw [e0]
    exact set_same hr
  · intro k d
    rw [v6, y4]
    show depth_count k d (s1.trace ++ _) = _
    rw [u6, x4]
    exact depth_count_pair k _ d _ _ _ _ _ _ (by decide) (by decide) (by decide) (by decide) _
  · rw [v7, u7]
    simp

theorem undo_change_ellipse_eq {E : Ext} {w : StackRef} {s : State} {a : Nat} {r : F_history}
    {new_o old_o : Nat} {n o : F_ellipse} (hE : KeepsObjects E)
    (ha : s.stk w = some a) (hr : s.hist[a]? = some r) (hk : r.last_object = O_ELLIPSE)
    (h1 : r.saved_objects.ellipses = some new_o) (h2 : s.scene.ellipses[new_o]? = some n)
    (h3 : n.next = some old_o) (h4 : s.scene.ellipses[old_o]? = some o) (hne : new_o ≠ old_o) :
    ∃ X, undo_change E w s = swap_stack w X ∧ SameHist s X ∧
      X.scene.heaps = (s.scene.lines, s.scene.splines, exchanged s.scene.ellipses new_o old_o n o, s.scene.texts, s.scene.arcs, s.scene.compounds) ∧
      X.trace = s.trace ++
        [⟨.remove_depth, [.kind O_ELLIPSE, .int o.depth]⟩,
          ⟨.add_depth, [.kind O_ELLIPSE, .int n.depth]⟩,
          ⟨.redisplay_ellipses, [.ptr (some new_o), .ptr (some old_o)]⟩] := by
  have hp : ∀ fn args (x : State), bookkeeping fn = true →
      (ext E fn args x).scene.ellipses = x.scene.ellipses :=
    fun fn args x hb => congrArg (fun t => t.2.2.1) (hE.heap hb args x)
  have ev := change_objects_eval (E := E) (k := O_ELLIPSE) (D := F_ellipse.depth)
    (H := Scene.ellipses) hp h1 h2 h3 h4 hne
  have ht : s.top w = some r := by simp [State.top, ha, hr]
  have z : (ext E .add_depth [.kind O_ELLIPSE, .int n.depth]
      (ext E .remove_depth [.kind O_ELLIPSE, .int o.depth] s)).scene.heaps = s.scene.heaps :=
    (hE.ext .add_depth _ _ rfl).trans (hE.ext .remove_depth _ _ rfl)
  unfold undo_change
  simp only [ht, hk, ev, Option.bind_eq_bind, Option.some_bind, Option.pure_def]
  refine ⟨_, rfl, by simp [SameHist], ?_, by simp [ext, State.mapScene]⟩
  rw [hE.ext .redisplay_ellipses _ _ rfl]
  simp only [Scene.heaps, State.mapScene, Prod.mk.injEq] at z ⊢
  obtain ⟨z1, z2, z3, z4, z5, z6⟩ := z
  simp [z1, z2, z3, z4, z5, z6]

/-- For an edited ellipse: `undo()` and then `redo()` return, and the objects, the
history, the two stacks and the depth counters are as before the `undo()`. -/
theorem edit_roundtrip_ellipse {E : Ext} {s : State} {a : Nat} {r : F_history}
    {new_o old_o : Nat} {n o : F_ellipse} (hE : KeepsObjects E)
    (ha : s.undo_stack = some a) (hr : s.hist[a]? = some r) (hnx : r.next ≠ some a)
    (he : r.last_action = F_EDIT) (hk : r.last_object = O_ELLIPSE)
    (h1 : r.saved_objects.ellipses = some new_o) (h2 : s.scene.ellipses[new_o]? = some n)
    (h3 : n.next = some old_o) (h4 : s.scene.ellipses[old_o]? = some o) (hne : new_o ≠ old_o) :
    ∃ s1 s2, undo E s = some s1 ∧ redo E s1 = some s2 ∧
      s2.scene.heaps = s.scene.heaps ∧ s2.hist = s.hist ∧ s2.undo_stack = s.undo_stack ∧
      s2.redo_stack = s.redo_stack ∧
      (∀ k d, depth_count k d s2.trace = depth_count k d s.trace) ∧
      s2.msgs = s.msgs ++ ["Undo complete", "Redo complete"] := by
  have hlt := (List.getElem?_eq_some.1 hr).1
  have hd : ∀ w, dispatch E w r.last_action = some (undo_change E w) := fun w => by
    rw [he]; rfl
  obtain ⟨X1, x1, x2, x3, x4⟩ := undo_change_ellipse_eq (E := E) (w := .undo)
    (s := setCompLED 0 s) hE ha hr hk h1 h2 h3 h4 hne
  obtain ⟨s1, u1, u2, u3, u4, u5, u6, u7⟩ := run_swap_undo ha hr (hd .undo) x1 x2
  have g1 : s1.hist[a]? = some (r.withNext s.redo_stack) := by
    rw [u4]; exact List.getElem?_set_self hlt
  have hs1 : s1.scene.heaps = X1.scene.heaps := congrArg Scene.heaps u5
  rw [x3] at hs1
  simp only [Scene.heaps, Prod.mk.injEq] at hs1
  obtain ⟨q1, q2, q3, q4, q5, q6⟩ := hs1
  have lo := (List.getElem?_eq_some.1 h4).1
  have ln := (List.getElem?_eq_some.1 h2).1
  have k2 : s1.scene.ellipses[new_o]? = some (Linked.setNext o (Linked.next n)) := by
    rw [q3, exchanged]
    exact List.getElem?_set_self (by simpa using ln)
  have k4 : s1.scene.ellipses[old_o]? = some (Linked.setNext n (Linked.next o)) := by
    rw [q3, exchanged, List.getElem?_set_ne hne]
    exact List.getElem?_set_self lo
  obtain ⟨X2, y1, y2, y3, y4⟩ := undo_change_ellipse_eq (E := E) (w := .redo)
    (s := setCompLED 0 s1) hE u3 g1 hk h1 k2 h3 k4 hne
  obtain ⟨s2, v1, v2, v3, v4, v5, v6, v7⟩ :=
    run_swap_redo u3 g1 (by rw [u2]; exact hnx) (hd .redo) y1 y2
  refine ⟨s1, s2, u1, v1, ?_, ?_, v2.trans ha.symm, v3, ?_, ?_⟩
  · rw [v5, y3]
    show _ = s.scene.heaps
    simp only [Scene.heaps, setCompLED, Prod.mk.injEq]
    refine ⟨q1, q2, ?_, q4, q5, q6⟩
    rw [q3]
    exact exchanged_twice h2 h4
  · rw [v4, u4, u2, List.set_set]
    have e0 : (r.withNext s.redo_stack).withNext r.next = r := rfl
    rw [e0]
    exact set_same hr
  · intro k d
    rw [v6, y4]
    show depth_count k d (s1.trace ++ _) = _
    rw [u6, x4]
    exact depth_count_pair k _ d _ _ _ _ _ _ (by decide) (by decide) (by decide) (by decide) _
  · rw [v7, u7]
    simp

theorem undo_change_text_eq {E : Ext} {w : StackRef} {s : State} {a : Nat} {r : F_history}
    {new_o old_o : Nat} {n o : F_text} (hE : KeepsObjects E)
    (ha : s.stk w = some a) (hr : s.hist[a]? = some r) (hk : r.last_object = O_TXT)
    (h1 : r.saved_objects.texts = some new_o) (h2 : s.scene.texts[new_o]? = some n)
    (h3 : n.next = some old_o) (h4 : s.scene.texts[old_o]? = some o) (hne : new_o ≠ old_o) :
    ∃ X, undo_change E w s = swap_stack w X ∧ SameHist s X ∧
      X.scene.heaps = (s.scene.lines, s.scene.splines, s.scene.ellipses, exchanged s.scene.texts new_o old_o n o, s.scene.arcs, s.scene.compounds) ∧
      X.trace = s.trace ++
        [⟨.remove_depth, [.kind O_TXT, .int o.depth]⟩,
          ⟨.add_depth, [.kind O_TXT, .int n.depth]⟩,
          ⟨.redisplay_texts, [.ptr (some new_o), .ptr (some old_o)]⟩] := by
  have hp : ∀ fn args (x : State), bookkeeping fn = true →
      (ext E fn args x).scene.texts = x.scene.texts :=
    fun fn args x hb => congrArg (fun t => t.2.2.2.1) (hE.heap hb args x)
  have ev := change_objects_eval (E := E) (k := O_TXT) (D := F_text.depth)
    (H := Scene.texts) hp h1 h2 h3 h4 hne
  have ht : s.top w = some r := by simp [State.top, ha, hr]
  have z : (ext E .add_depth [.kind O_TXT, .int n.depth]
      (ext E .remove_depth [.kind O_TXT, .int o.depth] s)).scene.heaps = s.scene.heaps :=
    (hE.ext .add_depth _ _ rfl).trans (hE.ext .remove_depth _ _ rfl)
  unfold undo_change
  simp only [ht, hk, ev, Option.bind_eq_bind, Option.some_bind, Option.pure_def]
  refine ⟨_, rfl, by simp [SameHist], ?_, by simp [ext, State.mapScene]⟩
  rw [hE.ext .redisplay_texts _ _ rfl]
  simp only [Scene.heaps, State.mapScene, Prod.mk.injEq] at z ⊢
  obtain ⟨z1, z2, z3, z4, z5, z6⟩ := z
  simp [z1, z2, z3, z4, z5, z6]

/-- For an edited text: `undo()` and then `redo()` return, and the objects, the
history, the two stacks and the depth counters are as before the `undo()`. -/
theorem edit_roundtrip_text {E : Ext} {s : State} {a : Nat} {r : F_history}
    {new_o old_o : Nat} {n o : F_text} (hE : KeepsObjects E)
    (ha : s.undo_stack = some a) (hr : s.hist[a]? = some r) (hnx : r.next ≠ some a)
    (he : r.last_action = F_EDIT) (hk : r.last_object = O_TXT)
    (h1 : r.saved_objects.texts = some new_o) (h2 : s.scene.texts[new_o]? = some n)
    (h3 : n.next = some old_o) (h4 : s.scene.texts[old_o]? = some o) (hne : new_o ≠ old_o) :
    ∃ s1 s2, undo E s = some s1 ∧ redo E s1 = some s2 ∧
      s2.scene.heaps = s.scene.heaps ∧ s2.hist = s.hist ∧ s2.undo_stack = s.undo_stack ∧
      s2.redo_stack = s.redo_stack ∧
      (∀ k d, depth_count k d s2.trace = depth_count k d s.trace) ∧
      s2.msgs = s.msgs ++ ["Undo complete", "Redo complete"] := by
  have hlt := (List.getElem?_eq_some.1 hr).1
  have hd : ∀ w, dispatch E w r.last_action = some (undo_change E w) := fun w => by
    rw [he]; rfl
  obtain ⟨X1, x1, x2, x3, x4⟩ := undo_change_text_eq (E := E) (w := .undo)
    (s := setCompLED 0 s) hE ha hr hk h1 h2 h3 h4 hne
  obtain ⟨s1, u1, u2, u3, u4, u5, u6, u7⟩ := run_swap_undo ha hr (hd .undo) x1 x2
  have g1 : s1.hist[a]? = some (r.withNext s.redo_stack) := by
    rw [u4]; exact List.getElem?_set_self hlt
  have hs1 : s1.scene.heaps = X1.scene.heaps := congrArg Scene.heaps u5
  rw [x3] at hs1
  simp only [Scene.heaps, Prod.mk.injEq] at hs1
  obtain ⟨q1, q2, q3, q4, q5, q6⟩ := hs1
  have lo := (List.getElem?_eq_some.1 h4).1
  have ln := (List.getElem?_eq_some.1 h2).1
  have k2 : s1.scene.texts[new_o]? = some (Linked.setNext o (Linked.next n)) := by
    rw [q4, exchanged]
    exact List.getElem?_set_self (by simpa using ln)
  have k4 : s1.scene.texts[old_o]? = some (Linked.setNext n (Linked.next o)) := by
    rw [q4, exchanged, List.getElem?_set_ne hne]
    exact List.getElem?_set_self lo
  obtain ⟨X2, y1, y2, y3, y4⟩ := undo_change_text_eq (E := E) (w := .redo)
    (s := setCompLED 0 s1) hE u3 g1 hk h1 k2 h3 k4 hne
  obtain ⟨s2, v1, v2, v3, v4, v5, v6, v7⟩ :=
    run_swap_redo u3 g1 (by rw [u2]; exact hnx) (hd .redo) y1 y2
  refine ⟨s1, s2, u1, v1, ?_, ?_, v2.trans ha.symm, v3, ?_, ?_⟩
  · rw [v5, y3]
    show _ = s.scene.heaps
    simp only [Scene.heaps, setCompLED, Prod.mk.injEq]
    refine ⟨q1, q2, q3, ?_, q5, q6⟩
    rw [q4]
    exact exchanged_twice h2 h4
  · rw [v4, u4, u2, List.set_set]
    have e0 : (r.withNext s.redo_stack).withNext r.next = r := rfl
    rw [e0]
    exact set_same hr
  · intro k d
    rw [v6, y4]
    show depth_count k d (s1.trace ++ _) = _
    rw [u6, x4]
    exact depth_count_pair k _ d _ _ _ _ _ _ (by decide) (by decide) (by decide) (by decide) _
  · rw [v7, u7]
    simp

theorem undo_change_spline_eq {E : Ext} {w : StackRef} {s : State} {a : Nat} {r : F_history}
    {new_o old_o : Nat} {n o : F_spline} (hE : KeepsObjects E)
    (ha : s.stk w = some a) (hr : s.hist[a]? = some r) (hk : r.last_object = O_SPLINE)
    (h1 : r.saved_objects.splines = some new_o) (h2 : s.scene.splines[new_o]? = some n)
    (h3 : n.next = some old_o) (h4 : s.scene.splines[old_o]? = some o) (hne : new_o ≠ old_o) :
    ∃ X, undo_change E w s = swap_stack w X ∧ SameHist s X ∧
      X.scene.heaps = (s.scene.lines, exchanged s.scene.splines new_o old_o n o, s.scene.ellipses, s.scene.texts, s.scene.arcs, s.scene.compounds) ∧
      X.trace = s.trace ++
        [⟨.remove_depth, [.kind O_SPLINE, .int o.depth]⟩,
          ⟨.add_depth, [.kind O_SPLINE, .int n.depth]⟩,
          ⟨.redisplay_splines, [.ptr (some new_o), .ptr (some old_o)]⟩] := by
  have hp : ∀ fn args (x : State), bookkeeping fn = true →
      (ext E fn args x).scene.splines = x.scene.splines :=
    fun fn args x hb => congrArg (fun t => t.2.1) (hE.heap hb args x)
  have ev := change_objects_eval (E := E) (k := O_SPLINE) (D := F_spline.depth)
    (H := Scene.splines) hp h1 h2 h3 h4 hne
  have ht : s.top w = some r := by simp [State.top, ha, hr]
  have z : (ext E .add_depth [.kind O_SPLINE, .int n.depth]
      (ext E .remove_depth [.kind O_SPLINE, .int o.depth] s)).scene.heaps = s.scene.heaps :=
    (hE.ext .add_depth _ _ rfl).trans (hE.ext .remove_depth _ _ rfl)
  unfold undo_change
  simp only [ht, hk, ev, Option.bind_eq_bind, Option.some_bind, Option.pure_def]
  refine ⟨_, rfl, by simp [SameHist], ?_, by simp [ext, State.mapScene]⟩
  rw [hE.ext .redisplay_splines _ _ rfl]
  simp only [Scene.heaps, State.mapScene, Prod.mk.injEq] at z ⊢
  obtain ⟨z1, z2, z3, z4, z5, z6⟩ := z
  simp [z1, z2, z3, z4, z5, z6]

/-- For an edited spline: `undo()` and then `redo()` return, and the objects, the
history, the two stacks and the depth counters are as before the `undo()`. -/
theorem edit_roundtrip_spline {E : Ext} {s : State} {a : Nat} {r : F_history}
    {new_o old_o : Nat} {n o : F_spline} (hE : KeepsObjects E)
    (ha : s.undo_stack = some a) (hr : s.hist[a]? = some r) (hnx : r.next ≠ some a)
    (he : r.last_action = F_EDIT) (hk : r.last_object = O_SPLINE)
    (h1 : r.saved_objects.splines = some new_o) (h2 : s.scene.splines[new_o]? = some n)
    (h3 : n.next = some old_o) (h4 : s.scene.splines[old_o]? = some o) (hne : new_o ≠ old_o) :
    ∃ s1 s2, undo E s = some s1 ∧ redo E s1 = some s2 ∧
      s2.scene.heaps = s.scene.heaps ∧ s2.hist = s.hist ∧ s2.undo_stack = s.undo_stack ∧
      s2.redo_stack = s.redo_stack ∧
      (∀ k d, depth_count k d s2.trace = depth_count k d s.trace) ∧
      s2.msgs = s.msgs ++ ["Undo complete", "Redo complete"] := by
  have hlt := (List.getElem?_eq_some.1 hr).1
  have hd : ∀ w, dispatch E w r.last_action = some (undo_change E w) := fun w => by
    rw [he]; rfl
  obtain ⟨X1, x1, x2, x3, x4⟩ := undo_change_spline_eq (E := E) (w := .undo)
    (s := setCompLED 0 s) hE ha hr hk h1 h2 h3 h4 hne
  obtain ⟨s1, u1, u2, u3, u4, u5, u6, u7⟩ := run_swap_undo ha hr (hd .undo) x1 x2
  have g1 : s1.hist[a]? = some (r.withNext s.redo_stack) := by
    rw [u4]; exact List.getElem?_set_self hlt
  have hs1 : s1.scene.heaps = X1.scene.heaps := congrArg Scene.heaps u5
  rw [x3] at hs1
  simp only [Scene.heaps, Prod.mk.injEq] at hs1
  obtain ⟨q1, q2, q3, q4, q5, q6⟩ := hs1
  have lo := (List.getElem?_eq_some.1 h4).1
  have ln := (List.getElem?_eq_some.1 h2).1
  have k2 : s1.scene.splines[new_o]? = some (Linked.setNext o (Linked.next n)) := by
    rw [q2, exchanged]
    exact List.getElem?_set_self (by simpa using ln)
  have k4 : s1.scene.splines[old_o]? = some (Linked.setNext n (Linked.next o)) := by
    rw [q2, exchanged, List.getElem?_set_ne hne]
    exact List.getElem?_set_self lo
  obtain ⟨X2, y1, y2, y3, y4⟩ := undo_change_spline_eq (E := E) (w := .redo)
    (s := setCompLED 0 s1) hE u3 g1 hk h1 k2 h3 k4 hne
  obtain ⟨s2, v1, v2, v3, v4, v5, v6, v7⟩ :=
    run_swap_redo u3 g1 (by rw [u2]; exact hnx) (hd .redo) y1 y2
  refine ⟨s1, s2, u1, v1, ?_, ?_, v2.trans ha.symm, v3, ?_, ?_⟩
  · rw [v5, y3]
    show _ = s.scene.heaps
    simp only [Scene.heaps, setCompLED, Prod.mk.injEq]
    refine ⟨q1, ?_, q3, q4, q5, q6⟩
    rw [q2]
    exact exchanged_twice h2 h4
  · rw [v4, u4, u2, List.set_set]
    have e0 : (r.withNext s.redo_stack).withNext r.next = r := rfl
    rw [e0]
    exact set_same hr
  · intro k d
    rw [v6, y4]
    show depth_count k d (s1.trace ++ _) = _
    rw [u6, x4]
    exact depth_count_pair k _ d _ _ _ _ _ _ (by decide) (by decide) (by decide) (by decide) _
  · rw [v7, u7]
    simp

theorem undo_change_arc_eq {E : Ext} {w : StackRef} {s : State} {a : Nat} {r : F_history}
    {new_o old_o : Nat} {n o : F_arc} (hE : KeepsObjects E)
    (ha : s.stk w = some a) (hr : s.hist[a]? = some r) (hk : r.last_object = O_ARC)
    (h1 : r.saved_objects.arcs = some new_o) (h2 : s.scene.arcs[new_o]? = some n)
    (h3 : n.next = some old_o) (h4 : s.scene.arcs[old_o]? = some o) (hne : new_o ≠ old_o) :
    ∃ X, undo_change E w s = swap_stack w X ∧ SameHist s X ∧
      X.scene.heaps = (s.scene.lines, s.scene.splines, s.scene.ellipses, s.scene.texts, exchanged s.scene.arcs new_o old_o n o, s.scene.compounds) ∧
      X.trace = s.trace ++
        [⟨.remove_depth, [.kind O_ARC, .int o.depth]⟩,
          ⟨.add_depth, [.kind O_ARC, .int n.depth]⟩,
          ⟨.redisplay_arcs, [.ptr (some new_o), .ptr (some old_o)]⟩] := by
  have hp : ∀ fn args (x : State), bookkeeping fn = true →
      (ext E fn args x).scene.arcs = x.scene.arcs :=
    fun fn args x hb => congrArg (fun t => t.2.2.2.2.1) (hE.heap hb args x)
  have ev := change_objects_eval (E := E) (k := O_ARC) (D := F_arc.depth)
    (H := Scene.arcs) hp h1 h2 h3 h4 hne
  have ht : s.top w = some r := by simp [State.top, ha, hr]
  have z : (ext E .add_depth [.kind O_ARC, .int n.depth]
      (ext E .remove_depth [.kind O_ARC, .int o.depth] s)).scene.heaps = s.scene.heaps :=
    (hE.ext .add_depth _ _ rfl).trans (hE.ext .remove_depth _ _ rfl)
  unfold undo_change
  simp only [ht, hk, ev, Option.bind_eq_bind, Option.some_bind, Option.pure_def]
  refine ⟨_, rfl, by simp [SameHist], ?_, by simp [ext, State.mapScene]⟩
  rw [hE.ext .redisplay_arcs _ _ rfl]
  simp only [Scene.heaps, State.mapScene, Prod.mk.injEq] at z ⊢
  obtain ⟨z1, z2, z3, z4, z5, z6⟩ := z
  simp [z1, z2, z3, z4, z5, z6]

/-- For an edited arc: `undo()` and then `redo()` return, and the objects, the
history, the two stacks and the depth counters are as before the `undo()`. -/
theorem edit_roundtrip_arc {E : Ext} {s : State} {a : Nat} {r : F_history}
    {new_o old_o : Nat} {n o : F_arc} (hE : KeepsObjects E)
    (ha : s.undo_stack = some a) (hr : s.hist[a]? = some r) (hnx : r.next ≠ some a)
    (he : r.last_action = F_EDIT) (hk : r.last_object = O_ARC)
    (h1 : r.saved_objects.arcs = some new_o) (h2 : s.scene.arcs[new_o]? = some n)
    (h3 : n.next = some old_o) (h4 : s.scene.arcs[old_o]? = some o) (hne : new_o ≠ old_o) :
    ∃ s1 s2, undo E s = some s1 ∧ redo E s1 = some s2 ∧
      s2.scene.heaps = s.scene.heaps ∧ s2.hist = s.hist ∧ s2.undo_stack = s.undo_stack ∧
      s2.redo_stack = s.redo_stack ∧
      (∀ k d, depth_count k d s2.trace = depth_count k d s.trace) ∧
      s2.msgs = s.msgs ++ ["Undo complete", "Redo complete"] := by
  have hlt := (List.getElem?_eq_some.1 hr).1
  have hd : ∀ w, dispatch E w r.last_action = some (undo_change E w) := fun w => by
    rw [he]; rfl
  obtain ⟨X1, x1, x2, x3, x4⟩ := undo_change_arc_eq (E := E) (w := .undo)
    (s := setCompLED 0 s) hE ha hr hk h1 h2 h3 h4 hne
  obtain ⟨s1, u1, u2, u3, u4, u5, u6, u7⟩ := run_swap_undo ha hr (hd .undo) x1 x2
  have g1 : s1.hist[a]? = some (r.withNext s.redo_stack) := by
    rw [u4]; exact List.getElem?_set_self hlt
  have hs1 : s1.scene.heaps = X1.scene.heaps := congrArg Scene.heaps u5
  rw [x3] at hs1
  simp only [Scene.heaps, Prod.mk.injEq] at hs1
  obtain ⟨q1, q2, q3, q4, q5, q6⟩ := hs1
  have lo := (List.getElem?_eq_some.1 h4).1
  have ln := (List.getElem?_eq_some.1 h2).1
  have k2 : s1.scene.arcs[new_o]? = some (Linked.setNext o (Linked.next n)) := by
    rw [q5, exchanged]
    exact List.getElem?_set_self (by simpa using ln)
  have k4 : s1.scene.arcs[old_o]? = some (Linked.setNext n (Linked.next o)) := by
    rw [q5, exchanged, List.getElem?_set_ne hne]
    exact List.getElem?_set_self lo
  obtain ⟨X2, y1, y2, y3, y4⟩ := undo_change_arc_eq (E := E) (w := .redo)
    (s := setCompLED 0 s1) hE u3 g1 hk h1 k2 h3 k4 hne
  obtain ⟨s2, v1, v2, v3, v4, v5, v6, v7⟩ :=
    run_swap_redo u3 g1 (by rw [u2]; exact hnx) (hd .redo) y1 y2
  refine ⟨s1, s2, u1, v1, ?_, ?_, v2.trans ha.symm, v3, ?_, ?_⟩
  · rw [v5, y3]
    show _ = s.scene.heaps
    simp only [Scene.heaps, setCompLED, Prod.mk.injEq]
    refine ⟨q1, q2, q3, q4, ?_, q6⟩
    rw [q5]
    exact exchanged_twice h2 h4
  · rw [v4, u4, u2, List.set_set]
    have e0 : (r.withNext s.redo_stack).withNext r.next = r := rfl
    rw [e0]
    exact set_same hr
  · intro k d
    rw [v6, y4]
    show depth_count k d (s1.trace ++ _) = _
    rw [u6, x4]
    exact depth_count_pair k _ d _ _ _ _ _ _ (by decide) (by decide) (by decide) (by decide) _
  · rw [v7, u7]
    simp

theorem undo_change_compound_eq {E : Ext} {w : StackRef} {s : State} {a : Nat} {r : F_history}
    {new_o old_o : Nat} {n o : F_compound} (hE : KeepsObjects E)
    (ha : s.stk w = some a) (hr : s.hist[a]? = some r) (hk : r.last_object = O_COMPOUND)
    (h1 : r.saved_objects.compounds = some new_o) (h2 : s.scene.compounds[new_o]? = some n)
    (h3 : n.next = some old_o) (h4 : s.scene.compounds[old_o]? = some o)
    (hne : new_o ≠ old_o) :
    ∃ X, undo_change E w s = swap_stack w X ∧ SameHist s X ∧
      X.scene.heaps = (s.scene.lines, s.scene.splines, s.scene.ellipses, s.scene.texts,
        s.scene.arcs, exchanged s.scene.compounds new_o old_o n o) ∧
      X.trace = s.trace ++
        [⟨.remove_compound_depth, [.ptr (some old_o)]⟩,
          ⟨.add_compound_depth, [.ptr (some new_o)]⟩,
          ⟨.redisplay_compounds, [.ptr (some new_o), .ptr (some old_o)]⟩] := by
  have ht : s.top w = some r := by simp [State.top, ha, hr]
  have z : (ext E .add_compound_depth [.ptr (some new_o)]
      (ext E .remove_compound_depth [.ptr (some old_o)] s)).scene.heaps = s.scene.heaps :=
    (hE.ext .add_compound_depth _ _ rfl).trans (hE.ext .remove_compound_depth _ _ rfl)
  have zc : (ext E .add_compound_depth [.ptr (some new_o)]
      (ext E .remove_compound_depth [.ptr (some old_o)] s)).scene.compounds =
      s.scene.compounds := congrArg (fun t => t.2.2.2.2.2) z
  unfold undo_change
  simp only [ht, hk, h1, h2, h3, h4, zc, swap_payload_eq h4 h2 hne, Option.bind_eq_bind,
    Option.some_bind, Option.pure_def]
  refine ⟨_, rfl, by simp [SameHist], ?_, by simp [ext, State.mapScene]⟩
  rw [hE.ext .redisplay_compounds _ _ rfl]
  simp only [Scene.heaps, State.mapScene, Prod.mk.injEq] at z ⊢
  obtain ⟨z1, z2, z3, z4, z5, z6⟩ := z
  simp [z1, z2, z3, z4, z5, z6]

theorem depth_count_compound (k : ObjKind) (d : Int) (t : List Call) (p q : Nat) :
    depth_count k d
      ((t ++ [⟨.remove_compound_depth, [.ptr (some q)]⟩,
          ⟨.add_compound_depth, [.ptr (some p)]⟩,
          ⟨.redisplay_compounds, [.ptr (some p), .ptr (some q)]⟩]) ++
        [⟨.remove_compound_depth, [.ptr (some q)]⟩, ⟨.add_compound_depth, [.ptr (some p)]⟩,
          ⟨.redisplay_compounds, [.ptr (some p), .ptr (some q)]⟩]) = depth_count k d t := by
  rw [depth_count_append, depth_count_append]
  simp [depth_count, List.count_cons]

/-- For an edited compound: `undo()` and then `redo()` return, and the objects,
the history and the two stacks are as before the `undo()`.  Each of the two
calls hands `old_o` to `remove_compound_depth` and `new_o` to
`add_compound_depth`, and between them the two compounds have exchanged their
contents. -/
theorem edit_roundtrip_compound {E : Ext} {s : State} {a : Nat}
    {r : F_history} {new_o old_o : Nat} {n o : F_compound} (hE : KeepsObjects E)
    (ha : s.undo_stack = some a) (hr : s.hist[a]? = some r) (hnx : r.next ≠ some a)
    (he : r.last_action = F_EDIT) (hk : r.last_object = O_COMPOUND)
    (h1 : r.saved_objects.compounds = some new_o) (h2 : s.scene.compounds[new_o]? = some n)
    (h3 : n.next = some old_o) (h4 : s.scene.compounds[old_o]? = some o)
    (hne : new_o ≠ old_o) :
    ∃ s1 s2, undo E s = some s1 ∧ redo E s1 = some s2 ∧
      s2.scene.heaps = s.scene.heaps ∧ s2.hist = s.hist ∧ s2.undo_stack = s.undo_stack ∧
      s2.redo_stack = s.redo_stack ∧
      (∀ k d, depth_count k d s2.trace = depth_count k d s.trace) ∧
      s2.msgs = s.msgs ++ ["Undo complete", "Redo complete"] ∧
      s1.scene.compounds[new_o]? = some { o with next := n.next } ∧
      s1.scene.compounds[old_o]? = some { n with next := o.next } ∧
      s1.trace = s.trace ++
        [⟨.remove_compound_depth, [.ptr (some old_o)]⟩,
          ⟨.add_compound_depth, [.ptr (some new_o)]⟩,
          ⟨.redisplay_compounds, [.ptr (some new_o), .ptr (some old_o)]⟩] ∧
      s2.trace = s1.trace ++
        [⟨.remove_compound_depth, [.ptr (some old_o)]⟩,
          ⟨.add_compound_depth, [.ptr (some new_o)]⟩,
          ⟨.redisplay_compounds, [.ptr (some new_o), .ptr (some old_o)]⟩] := by
  have hlt := (List.getElem?_eq_some.1 hr).1
  have hd : ∀ w, dispatch E w r.last_action = some (undo_change E w) := fun w => by
    rw [he]; rfl
  obtain ⟨X1, x1, x2, x3, x4⟩ := undo_change_compound_eq (E := E) (w := .undo)
    (s := setCompLED 0 s) hE ha hr hk h1 h2 h3 h4 hne
  obtain ⟨s1, u1, u2, u3, u4, u5, u6, u7⟩ := run_swap_undo ha hr (hd .undo) x1 x2
  have g1 : s1.hist[a]? = some (r.withNext s.redo_stack) := by
    rw [u4]; exact List.getElem?_set_self hlt
  have hs1 : s1.scene.heaps = X1.scene.heaps := congrArg Scene.heaps u5
  rw [x3] at hs1
  simp only [Scene.heaps, Prod.mk.injEq] at hs1
  obtain ⟨q1, q2, q3, q4, q5, q6⟩ := hs1
  have lo := (List.getElem?_eq_some.1 h4).1
  have ln := (List.getElem?_eq_some.1 h2).1
  have k2 : s1.scene.compounds[new_o]? = some (Linked.setNext o (Linked.next n)) := by
    rw [q6, exchanged]
    exact List.getElem?_set_self (by simpa using ln)
  have k4 : s1.scene.compounds[old_o]? = some (Linked.setNext n (Linked.next o)) := by
    rw [q6, exchanged, List.getElem?_set_ne hne]
    exact List.getElem?_set_self lo
  obtain ⟨X2, y1, y2, y3, y4⟩ := undo_change_compound_eq (E := E) (w := .redo)
    (s := setCompLED 0 s1) hE u3 g1 hk h1 k2 h3 k4 hne
  obtain ⟨s2, v1, v2, v3, v4, v5, v6, v7⟩ :=
    run_swap_redo u3 g1 (by rw [u2]; exact hnx) (hd .redo) y1 y2
  have t1 : s1.trace = s.trace ++ _ := u6.trans x4
  have t2 : s2.trace = s1.trace ++ _ := v6.trans y4
  refine ⟨s1, s2, u1, v1, ?_, ?_, v2.trans ha.symm, v3, ?_, ?_, k2, k4, t1, t2⟩
  · rw [v5, y3]
    show _ = s.scene.heaps
    simp only [Scene.heaps, setCompLED, Prod.mk.injEq]
    refine ⟨q1, q2, q3, q4, q5, ?_⟩
    rw [q6]
    exact exchanged_twice h2 h4
  · rw [v4, u4, u2, List.set_set]
    have e0 : (r.withNext s.redo_stack).withNext r.next = r := rfl
    rw [e0]
    exact set_same hr
  · intro k d
    rw [t2, t1]
    exact depth_count_compound k d _ _ _
  · rw [v7, u7]
    simp

/-- C12: redo undoes undo for EDIT.  Let the record `r` on top of the undo
stack be an EDIT of a single line, ellipse, text, spline, arc or compound, not
its own successor, its saved list holding the original followed by the changed
object, and let the depth and display functions write to no object.  Then
`undo()` and the `redo()` after it return, and afterwards all six object heaps
(every field of every object, `next` links included), the history records,
both stack roots and the depth counters kept by `add_depth` and `remove_depth`
are what they were before the `undo()`.  For a compound the depth calls are the
compound-wide ones: both `undo()` and `redo()` hand `old_o` to
`remove_compound_depth` and `new_o` to `add_compound_depth`, the two compounds
having exchanged their contents in between. -/
theorem edit_redo_undoes_undo (E : Ext) (s : State) (a : Nat) (r : F_history)
    (new_o old_o : Nat) (hE : KeepsObjects E) (ha : s.undo_stack = some a)
    (hr : s.hist[a]? = some r) (hnx : r.next ≠ some a) (he : r.last_action = F_EDIT)
    (hp : EditPair r s.scene new_o old_o) (hne : new_o ≠ old_o) :
    ∃ s1 s2, undo E s = some s1 ∧ redo E s1 = some s2 ∧
      s2.scene.heaps = s.scene.heaps ∧ s2.hist = s.hist ∧ s2.undo_stack = s.undo_stack ∧
      s2.redo_stack = s.redo_stack ∧
      (∀ k d, depth_count k d s2.trace = depth_count k d s.trace) ∧
      s2.msgs = s.msgs ++ ["Undo complete", "Redo complete"] ∧
      (r.last_object = O_COMPOUND → ∃ n o : F_compound,
        s.scene.compounds[new_o]? = some n ∧ s.scene.compounds[old_o]? = some o ∧
        s1.scene.compounds[new_o]? = some { o with next := n.next } ∧
        s1.scene.compounds[old_o]? = some { n with next := o.next } ∧
        s1.trace = s.trace ++
          [⟨.remove_compound_depth, [.ptr (some old_o)]⟩,
            ⟨.add_compound_depth, [.ptr (some new_o)]⟩,
            ⟨.redisplay_compounds, [.ptr (some new_o), .ptr (some old_o)]⟩] ∧
        s2.trace = s1.trace ++
          [⟨.remove_compound_depth, [.ptr (some old_o)]⟩,
            ⟨.add_compound_depth, [.ptr (some new_o)]⟩,
            ⟨.redisplay_compounds, [.ptr (some new_o), .ptr (some old_o)]⟩]) := by
  unfold EditPair at hp
  cases hk : r.last_object <;> rw [hk] at hp <;> simp only at hp
  · obtain ⟨h1, n, o, h2, h3, h4⟩ := hp
    obtain ⟨s1, s2, c1, c2, c3, c4, c5, c6, c7, c8⟩ :=
      edit_roundtrip_line hE ha hr hnx he hk h1 h2 h3 h4 hne
    exact ⟨s1, s2, c1, c2, c3, c4, c5, c6, c7, c8, fun e => by cases e⟩
  · obtain ⟨h1, n, o, h2, h3, h4⟩ := hp
    obtain ⟨s1, s2, c1, c2, c3, c4, c5, c6, c7, c8⟩ :=
      edit_roundtrip_ellipse hE ha hr hnx he hk h1 h2 h3 h4 hne
    exact ⟨s1, s2, c1, c2, c3, c4, c5, c6, c7, c8, fun e => by cases e⟩
  · obtain ⟨h1, n, o, h2, h3, h4⟩ := hp
    obtain ⟨s1, s2, c1, c2, c3, c4, c5, c6, c7, c8⟩ :=
      edit_roundtrip_text hE ha hr hnx he hk h1 h2 h3 h4 hne
    exact ⟨s1, s2, c1, c2, c3, c4, c5, c6, c7, c8, fun e => by cases e⟩
  · obtain ⟨h1, n, o, h2, h3, h4⟩ := hp
    obtain ⟨s1, s2, c1, c2, c3, c4, c5, c6, c7, c8⟩ :=
      edit_roundtrip_spline hE ha hr hnx he hk h1 h2 h3 h4 hne
    exact ⟨s1, s2, c1, c2, c3, c4, c5, c6, c7, c8, fun e => by cases e⟩
  · obtain ⟨h1, n, o, h2, h3, h4⟩ := hp
    obtain ⟨s1, s2, c1, c2, c3, c4, c5, c6, c7, c8⟩ :=
      edit_roundtrip_arc hE ha hr hnx he hk h1 h2 h3 h4 hne
    exact ⟨s1, s2, c1, c2, c3, c4, c5, c6, c7, c8, fun e => by cases e⟩
  · obtain ⟨h1, n, o, h2, h3, h4⟩ := hp
    obtain ⟨s1, s2, c1, c2, c3, c4, c5, c6, c7, c8, c9, c10, c11, c12⟩ :=
      edit_roundtrip_compound hE ha hr hnx he hk h1 h2 h3 h4 hne
    exact ⟨s1, s2, c1, c2, c3, c4, c5, c6, c7, c8, fun _ => ⟨n, o, h2, h4, c9, c10, c11, c12⟩⟩

/-- The hypotheses of `edit_redo_undoes_undo` hold for the EDIT record of
`edited_state`, a spline edited from depth 3 to depth 5: after `undo()` and
`redo()` the two splines, the record and the stacks are those of
`edited_state` again. -/
theorem edit_redo_undoes_undo_witness :
    (KeepsObjects sampleExt ∧ edited_state.undo_stack = some 0 ∧
      edited_state.hist[0]? = some edited_record ∧ edited_record.next ≠ some 0 ∧
      edited_record.last_action = F_EDIT ∧ EditPair edited_record edited_state.scene 0 1 ∧
      (0 : Nat) ≠ 1) ∧
    (∃ s1 s2, undo sampleExt edited_state = some s1 ∧ redo sampleExt s1 = some s2 ∧
      s2.scene.heaps = edited_state.scene.heaps ∧ s2.hist = edited_state.hist ∧
      s2.undo_stack = edited_state.undo_stack ∧ s2.redo_stack = edited_state.redo_stack ∧
      (∀ k d, depth_count k d s2.trace = depth_count k d edited_state.trace) ∧
      s2.msgs = edited_state.msgs ++ ["Undo complete", "Redo complete"]) ∧
    ((undo sampleExt edited_state).bind (redo sampleExt)).map
        (fun s => (s.scene.splines.map F_spline.depth, s.undo_stack, s.redo_stack)) =
      some ([3, 5], some 0, none) := by
  have hp : EditPair edited_record edited_state.scene 0 1 := by
    show edited_record.saved_objects.splines = some 0 ∧ _
    exact ⟨rfl, _, _, rfl, rfl, rfl⟩
  refine ⟨⟨sampleExt_keeps, rfl, rfl, by decide, rfl, hp, by decide⟩, ?_, by decide⟩
  obtain ⟨s1, s2, c1, c2, c3, c4, c5, c6, c7, c8, -⟩ :=
    edit_redo_undoes_undo sampleExt edited_state 0 edited_record 0 1 sampleExt_keeps rfl rfl
      (by decide) rfl hp (by decide)
  exact ⟨s1, s2, c1, c2, c3, c4, c5, c6, c7, c8⟩

/-! ## DELETE of an ellipse -/

theorem setTop_some {s : State} {w : StackRef} {a : Nat} {r : F_history}
    (f : F_history → F_history) (ha : s.stk w = some a) (hr : s.hist[a]? = some r) :
    s.setTop w f = some { s with hist := s.hist.set a (f r) } := by
  unfold State.setTop
  rw [ha]
  simp only [hr]

theorem depth_count_two (k : ObjKind) (d : Int) (t : List Call) (c1 c2 : Call)
    (h1 : bookkeeping c1.fn = false ∨ c1.fn = .redisplay_ellipse)
    (h2 : bookkeeping c2.fn = false ∨ c2.fn = .redisplay_ellipse) :
    depth_count k d (t ++ [c1, c2]) = depth_count k d t := by
  have e : ∀ c : Call, (bookkeeping c.fn = false ∨ c.fn = .redisplay_ellipse) →
      c ≠ ⟨.add_depth, [.kind k, .int d]⟩ ∧ c ≠ ⟨.remove_depth, [.kind k, .int d]⟩ := by
    intro c hc
    constructor <;> intro e <;> subst e <;> simp [bookkeeping] at hc
  rw [depth_count_append]
  simp [depth_count, List.count_cons, (e c1 h1).1, (e c1 h1).2, (e c2 h2).1, (e c2 h2).2]

/-! ## Lists of objects -/

theorem payloads_get {α : Type} [Linked α] {h h2 : List α} (e : payloads h2 = payloads h)
    {i : Nat} {x : α} (hx : h[i]? = some x) :
    ∃ y, h2[i]? = some y ∧ Linked.setNext y none = Linked.setNext x none := by
  have e1 : (payloads h2)[i]? = (payloads h)[i]? := by rw [e]
  simp only [payloads, List.getElem?_map, hx, Option.map_some'] at e1
  cases hy : h2[i]? with
  | none => rw [hy] at e1; cases e1
  | some y =>
    rw [hy] at e1
    exact ⟨y, rfl, Option.some.inj e1⟩

theorem payloads_set {α : Type} [Linked α] [LawfulLinked α] {h : List α} {i : Nat} {x : α}
    (hx : h[i]? = some x) (p : Ptr) :
    payloads (h.set i (Linked.setNext x p)) = payloads h := by
  unfold payloads
  rw [List.map_set, LawfulLinked.setNext_setNext]
  exact set_same (by simp [List.getElem?_map, hx])

theorem IsList_lt {α : Type} [Linked α] {h : List α} : ∀ {l : List Nat} {p : Ptr},
    IsList h l p → ∀ a, a ∈ l → a < h.length
  | [], _, _, a, ha => by simp at ha
  | b :: l, p, hs, a, ha => by
    obtain ⟨_, r, hr, hl⟩ := hs
    rcases List.mem_cons.1 ha with rfl | ha
    · exact (List.getElem?_eq_some.1 hr).1
    · exact IsList_lt hl a ha

theorem IsList_unique {α : Type} [Linked α] {h : List α} : ∀ {l l2 : List Nat} {p : Ptr},
    IsList h l p → IsList h l2 p → l = l2
  | [], [], _, _, _ => rfl
  | [], b :: l2, p, h1, h2 => by
    have e1 : p = none := h1
    have e2 : p = some b := h2.1
    rw [e1] at e2
    cases e2
  | a :: l, [], p, h1, h2 => by
    have e1 : p = some a := h1.1
    have e2 : p = none := h2
    rw [e1] at e2
    cases e2
  | a :: l, b :: l2, p, h1, h2 => by
    obtain ⟨e1, r, hr, hl⟩ := h1
    obtain ⟨e2, r2, hr2, hl2⟩ := h2
    rw [e1] at e2
    cases e2
    rw [hr] at hr2
    cases hr2
    rw [IsList_unique hl hl2]

theorem IsList_drop {α : Type} [Linked α] {h : List α} :
    ∀ {l1 : List Nat} {a : Nat} {l2 : List Nat} {p : Ptr},
    IsList h (l1 ++ a :: l2) p → IsList h (a :: l2) (some a)
  | [], a, l2, p, hs => by
    have e : p = some a := hs.1
    rw [e] at hs
    exact hs
  | b :: l1, a, l2, p, hs => by
    obtain ⟨_, r, _, hl⟩ := hs
    exact IsList_drop hl

theorem IsList_head_not_mem {α : Type} [Linked α] {h : List α} {a : Nat} {l : List Nat}
    {p : Ptr} (hs : IsList h (a :: l) p) : a ∉ l := by
  intro ha
  obtain ⟨l1, l2, rfl⟩ := List.append_of_mem ha
  have e : p = some a := hs.1
  have h1 : IsList h (a :: (l1 ++ a :: l2)) (some a) := by rw [e] at hs; exact hs
  obtain ⟨_, r, hr, hl⟩ := hs
  have h2 : IsList h (a :: l2) (some a) := IsList_drop hl
  have := congrArg List.length (IsList_unique h1 h2)
  simp at this
  omega

theorem IsList_nodup {α : Type} [Linked α] {h : List α} : ∀ {l : List Nat} {p : Ptr},
    IsList h l p → l.Nodup
  | [], _, _ => List.nodup_nil
  | a :: l, p, hs => by
    have hn := IsList_head_not_mem hs
    obtain ⟨_, r, _, hl⟩ := hs
    exact List.nodup_cons.2 ⟨hn, IsList_nodup hl⟩

theorem IsList_length_le {α : Type} [Linked α] {h : List α} {l : List Nat} {p : Ptr}
    (hs : IsList h l p) : l.length ≤ h.length := by
  have hsub : l ⊆ List.range h.length := fun a ha => List.mem_range.2 (IsList_lt hs a ha)
  have := (List.subperm_of_subset (IsList_nodup hs) hsub).length_le
  simpa using this

/-- Writing to an object that is not on a list leaves the list as it is. -/
theorem IsList_set {α : Type} [Linked α] {h : List α} {i : Nat} {x : α} :
    ∀ {l : List Nat} {p : Ptr}, IsList h l p → i ∉ l → IsList (h.set i x) l p
  | [], _, hs, _ => hs
  | a :: l, p, hs, hi => by
    obtain ⟨e, r, hr, hl⟩ := hs
    have ne : i ≠ a := fun c => hi (c ▸ List.mem_cons_self _ _)
    refine ⟨e, r, ?_, IsList_set hl (fun c => hi (List.mem_cons_of_mem _ c))⟩
    rw [List.getElem?_set_ne ne]
    exact hr

theorem last_from_eq {α : Type} [Linked α] {h : List α} :
    ∀ {l : List Nat} {a : Nat} {fuel : Nat}, IsList h (a :: l) (some a) → l.length ≤ fuel →
      last_from h fuel a = (a :: l).getLast (List.cons_ne_nil _ _)
  | [], a, fuel, hs, _ => by
    obtain ⟨_, x, hx, hn⟩ := hs
    have hn2 : Linked.next x = none := hn
    cases fuel with
    | zero => rfl
    | succ f => simp [last_from, hx, hn2]
  | b :: l, a, fuel, hs, hf => by
    obtain ⟨_, x, hx, hl⟩ := hs
    have hb : Linked.next x = some b := hl.1
    cases fuel with
    | zero => simp at hf
    | succ f =>
      have hl2 : IsList h (b :: l) (some b) := by rw [hb] at hl; exact hl
      have ih := last_from_eq hl2 (Nat.le_of_succ_le_succ hf)
      simp only [last_from, hx, hb, Option.some_bind]
      rw [ih]
      rfl

/-- Linking a new object behind the last one of a list. -/
theorem IsList_snoc {α : Type} [Linked α] [LawfulLinked α] {h : List α} {e : Nat} {y : α}
    (hy : h[e]? = some y) (hyn : Linked.next y = none) :
    ∀ {l : List Nat} {p : Ptr} (hne : l ≠ []) {x : α}, IsList h l p → e ∉ l →
      h[l.getLast hne]? = some x →
      IsList (h.set (l.getLast hne) (Linked.setNext x (some e))) (l ++ [e]) p
  | [], _, hne, _, _, _, _ => absurd rfl hne
  | [b], p, _, x, hs, he, hb => by
    obtain ⟨e1, x1, hx1, -⟩ := hs
    have hb2 : h[b]? = some x := hb
    have lb := (List.getElem?_eq_some.1 hb2).1
    have ne : b ≠ e := fun c => he (c ▸ List.mem_cons_self _ _)
    refine ⟨e1, _, List.getElem?_set_self lb, ?_⟩
    rw [LawfulLinked.next_setNext]
    refine ⟨rfl, y, ?_, hyn⟩
    show (h.set b _)[e]? = _
    rw [List.getElem?_set_ne ne]
    exact hy
  | a :: b :: l, p, _, x, hs, he, hb => by
    have hna := IsList_head_not_mem hs
    obtain ⟨e1, xa, hxa, hl⟩ := hs
    have hb2 : h[(b :: l).getLast (List.cons_ne_nil _ _)]? = some x := hb
    have hm : (b :: l).getLast (List.cons_ne_nil _ _) ∈ b :: l := List.getLast_mem _
    have ne : (b :: l).getLast (List.cons_ne_nil _ _) ≠ a := fun c => hna (c ▸ hm)
    have ih := IsList_snoc hy hyn (List.cons_ne_nil b l) hl
      (fun c => he (List.mem_cons_of_mem _ c)) hb2
    refine ⟨e1, xa, ?_, ih⟩
    show (h.set ((b :: l).getLast _) _)[a]? = _
    rw [List.getElem?_set_ne ne]
    exact hxa

/-- The list insertion as modelled: the ellipse at `e`, which is not on the
live list `l`, is afterwards its last member, and no ellipse has changed in a
field other than `next`. -/
theorem list_add_ellipse_inserts {sc : Scene} {e : Nat} {o : F_ellipse} {l : List Nat}
    (ho : sc.ellipses[e]? = some o) (hl : IsList sc.ellipses l sc.objects.ellipses)
    (hn : e ∉ l) :
    IsList (list_add_ellipse e sc).ellipses (l ++ [e])
        (list_add_ellipse e sc).objects.ellipses ∧
      payloads (list_add_ellipse e sc).ellipses = payloads sc.ellipses := by
  have le := (List.getElem?_eq_some.1 ho).1
  obtain ⟨h, hh⟩ : ∃ h, h = sc.ellipses.set e (Linked.setNext o none) := ⟨_, rfl⟩
  have he : h[e]? = some (Linked.setNext o none) := by
    rw [hh]
    exact List.getElem?_set_self le
  have hp : payloads h = payloads sc.ellipses := by
    rw [hh]
    exact payloads_set ho none
  have h1 : IsList h l sc.objects.ellipses := by
    rw [hh]
    exact IsList_set hl hn
  have e0 : sc.ellipses.set e { o with next := none } = h := hh.symm
  unfold list_add_ellipse
  simp only [ho, e0]
  cases hd : sc.objects.ellipses with
  | none =>
    rw [hd] at h1
    cases l with
    | nil => exact ⟨⟨rfl, _, he, rfl⟩, hp⟩
    | cons a l =>
      have c : (none : Ptr) = some a := h1.1
      cases c
  | some b =>
    rw [hd] at h1
    cases l with
    | nil =>
      have c : some b = (none : Ptr) := h1
      cases c
    | cons a l =>
      have c : some b = some a := h1.1
      cases c
      have hf : last_from h h.length b = (b :: l).getLast (List.cons_ne_nil _ _) :=
        last_from_eq h1 (Nat.le_of_succ_le (IsList_length_le h1))
      have hm : (b :: l).getLast (List.cons_ne_nil _ _) ∈ b :: l := List.getLast_mem _
      have lt := IsList_lt h1 _ hm
      obtain ⟨x, hx⟩ : ∃ x, h[(b :: l).getLast (List.cons_ne_nil _ _)]? = some x :=
        ⟨_, List.getElem?_eq_getElem lt⟩
      simp only [hf, hx]
      refine ⟨?_, ?_⟩
      · show IsList (h.set _ (Linked.setNext x (some e))) _ sc.objects.ellipses
        rw [hd]
        exact IsList_snoc he (LawfulLinked.next_setNext o none) (List.cons_ne_nil _ _) h1 hn hx
      · show payloads (h.set _ (Linked.setNext x (some e))) = _
        rw [payloads_set hx (some e), hp]

theorem payloads_depth {h h2 : List F_ellipse} (e : payloads h2 = payloads h) :
    h2.map F_ellipse.depth = h.map F_ellipse.depth := by
  have := congrArg (List.map F_ellipse.depth) e
  simpa [payloads, List.map_map, Function.comp_def, Linked.setNext] using this

/-- What `undo()` does on a DELETE record of an ellipse with any collaborators:
it makes two calls, `list_add_ellipse` and `redisplay_ellipse` on the saved
ellipse, writes to the scene only through them, relabels the record ADD and
moves it to the redo stack. -/
theorem undo_delete_ellipse_calls (E : Ext) (s : State) (a : Nat) (r : F_history)
    (ha : s.undo_stack = some a) (hr : s.hist[a]? = some r)
    (hk : r.last_action = F_DELETE) (ho : r.last_object = O_ELLIPSE) :
    ∃ s2, undo E s = some s2 ∧
      s2.trace = s.trace ++
        [⟨.list_add_ellipse, [.ptr r.saved_objects.ellipses]⟩,
          ⟨.redisplay_ellipse, [.ptr r.saved_objects.ellipses]⟩] ∧
      s2.scene = E.effect ⟨.redisplay_ellipse, [.ptr r.saved_objects.ellipses]⟩
        (E.effect ⟨.list_add_ellipse, [.ptr r.saved_objects.ellipses]⟩ s.scene) ∧
      (∀ k d, depth_count k d s2.trace = depth_count k d s.trace) ∧
      s2.hist = s.hist.set a { r with last_action := F_ADD, next := s.redo_stack } ∧
      s2.undo_stack = r.next ∧ s2.redo_stack = some a ∧
      s2.msgs = s.msgs ++ ["Undo complete"] := by
  have hd : dispatch E .undo r.last_action = some (undo_delete E .undo) := by rw [hk]; rfl
  have ht : (setCompLED 0 s).top .undo = some r := by
    simp [State.top, State.stk, ha, hr]
  have hl := (List.getElem?_eq_some.1 hr).1
  obtain ⟨Y, hY⟩ : ∃ Y, Y = ext E .redisplay_ellipse [.ptr r.saved_objects.ellipses]
      (ext E .list_add_ellipse [.ptr r.saved_objects.ellipses] (setCompLED 0 s)) := ⟨_, rfl⟩
  have y1 : Y.undo_stack = some a := by rw [hY]; exact ha
  have y2 : Y.hist = s.hist := by rw [hY]; rfl
  have y3 : Y.redo_stack = s.redo_stack := by rw [hY]; rfl
  have y4 : Y.msgs = s.msgs := by rw [hY]; rfl
  have y5 : Y.scene = E.effect ⟨.redisplay_ellipse, [.ptr r.saved_objects.ellipses]⟩
      (E.effect ⟨.list_add_ellipse, [.ptr r.saved_objects.ellipses]⟩ s.scene) := by
    rw [hY]; rfl
  have y6 : Y.trace = s.trace ++
      [⟨.list_add_ellipse, [.ptr r.saved_objects.ellipses]⟩,
        ⟨.redisplay_ellipse, [.ptr r.saved_objects.ellipses]⟩] := by
    rw [hY]
    simp [ext, setCompLED]
  have e1 := setTop_some (w := .undo) (s := Y) (fun r => { r with last_action := F_ADD }) y1
    (by rw [y2]; exact hr)
  have e2 : undo_delete E .undo (setCompLED 0 s) = swap_stack .undo
      { Y with hist := Y.hist.set a { r with last_action := F_ADD } } := by
    unfold undo_delete
    simp only [ht, ho, Option.bind_eq_bind, Option.some_bind, Option.pure_def, ← hY, e1]
  obtain ⟨s1, h1, h2, h3, h4, h5, h6, h7⟩ := swap_undo_result
    (X := { Y with hist := Y.hist.set a { r with last_action := F_ADD } })
    (a := a) (r := { r with last_action := F_ADD }) y1
    (List.getElem?_set_self (by rw [y2]; exact hl))
  have tr : s1.trace = s.trace ++
      [⟨.list_add_ellipse, [.ptr r.saved_objects.ellipses]⟩,
        ⟨.redisplay_ellipse, [.ptr r.saved_objects.ellipses]⟩] := h6.trans y6
  refine ⟨_, undo_of_handler ha hr hd (e2.trans h1), tr, h5.trans y5, ?_, ?_, h2, h3, ?_⟩
  · intro k d
    show depth_count k d s1.trace = _
    rw [tr]
    exact depth_count_two k d _ _ _ (Or.inl rfl) (Or.inr rfl)
  · show s1.hist = _
    rw [h4]
    show (Y.hist.set a _).set a _ = _
    rw [List.set_set, y2, y3]
    rfl
  · show s1.msgs ++ _ = _
    rw [h7]
    show Y.msgs ++ _ = _
    rw [y4]

/-- C13: undoing a DELETE of an ellipse is a pure list move.  Let the live
ellipses be the list `l`, let the record on top of the undo stack be a DELETE
of the ellipse at `e`, which is not on that list, and let the collaborators
insert as `list_add_ellipse` is modelled.  Then `undo()` returns; the live list
is `l` followed by `e`; no ellipse has changed in a field other than `next`, so
every depth field is what it was; the calls made are `list_add_ellipse` and
`redisplay_ellipse` on the saved ellipse and no depth call, so no depth counter
changes; the record is relabelled ADD and is on top of the redo stack, the undo
stack is what followed it, and "Undo complete" is reported. -/
theorem undo_delete_ellipse (E : Ext) (s : State) (a : Nat) (r : F_history) (e : Nat)
    (l : List Nat) (hE : InsertsEllipses E)
    (ha : s.undo_stack = some a) (hr : s.hist[a]? = some r)
    (hk : r.last_action = F_DELETE) (ho : r.last_object = O_ELLIPSE)
    (he : r.saved_objects.ellipses = some e) (hx : e < s.scene.ellipses.length)
    (hl : IsList s.scene.ellipses l s.scene.objects.ellipses) (hn : e ∉ l) :
    ∃ s2, undo E s = some s2 ∧
      IsList s2.scene.ellipses (l ++ [e]) s2.scene.objects.ellipses ∧
      payloads s2.scene.ellipses = payloads s.scene.ellipses ∧
      s2.scene.ellipses.map F_ellipse.depth = s.scene.ellipses.map F_ellipse.depth ∧
      s2.trace = s.trace ++
        [⟨.list_add_ellipse, [.ptr (some e)]⟩, ⟨.redisplay_ellipse, [.ptr (some e)]⟩] ∧
      (∀ k d, depth_count k d s2.trace = depth_count k d s.trace) ∧
      s2.hist = s.hist.set a { r with last_action := F_ADD, next := s.redo_stack } ∧
      s2.undo_stack = r.next ∧ s2.redo_stack = some a ∧
      s2.msgs = s.msgs ++ ["Undo complete"] := by
  obtain ⟨s2, c1, c2, c3, c4, c5, c6, c7, c8⟩ := undo_delete_ellipse_calls E s a r ha hr hk ho
  rw [he] at c2 c3
  rw [hE.1 e s.scene] at c3
  obtain ⟨i1, i2⟩ := list_add_ellipse_inserts (List.getElem?_eq_getElem hx) hl hn
  obtain ⟨d1, d2⟩ := hE.2 [.ptr (some e)] (list_add_ellipse e s.scene)
  have e1 : s2.scene.ellipses = (list_add_ellipse e s.scene).ellipses := by rw [c3, d1]
  have e2 : s2.scene.objects.ellipses = (list_add_ellipse e s.scene).objects.ellipses := by
    rw [c3, d2]
  have e3 : payloads s2.scene.ellipses = payloads s.scene.ellipses := by rw [e1, i2]
  refine ⟨s2, c1, ?_, e3, payloads_depth e3, c2, c4, c5, c6, c7, c8⟩
  rw [e1, e2]
  exact i1

theorem listExt_inserts : InsertsEllipses listExt :=
  ⟨fun _ _ => rfl, fun _ _ => ⟨rfl, rfl⟩⟩

/-- The hypotheses of `undo_delete_ellipse` hold in `deleted_state`, where the
live list is the ellipse at address 1 and the deleted one is at address 0:
after `undo()` the deleted ellipse is the successor of the ellipse in the list,
at its depth 4, no depth counter has changed and the record is an ADD on the
redo stack. -/
theorem undo_delete_ellipse_witness :
    (InsertsEllipses listExt ∧ deleted_state.undo_stack = some 0 ∧
      (deleted_state.hist[0]?).map
          (fun r => (r.last_action, r.last_object, r.saved_objects.ellipses)) =
        some (F_DELETE, O_ELLIPSE, some 0) ∧
      IsList deleted_state.scene.ellipses [1] deleted_state.scene.objects.ellipses) ∧
    (∃ s2, undo listExt deleted_state = some s2 ∧
      IsList s2.scene.ellipses [1, 0] s2.scene.objects.ellipses ∧
      s2.scene.ellipses.map F_ellipse.depth =
        deleted_state.scene.ellipses.map F_ellipse.depth ∧
      (∀ k d, depth_count k d s2.trace = depth_count k d deleted_state.trace) ∧
      s2.redo_stack = some 0 ∧ s2.undo_stack = none) ∧
    (undo listExt deleted_state).map
        (fun s => (s.scene.objects.ellipses, s.scene.ellipses.map F_ellipse.next,
          s.scene.ellipses.map F_ellipse.depth, s.hist.map F_history.last_action)) =
      some (some 1, [none, some 0], [4, 7], [F_ADD]) := by
  have hl : IsList deleted_state.scene.ellipses [1] deleted_state.scene.objects.ellipses :=
    ⟨rfl, _, rfl, rfl⟩
  refine ⟨⟨listExt_inserts, rfl, by decide, hl⟩, ?_, by decide⟩
  obtain ⟨s2, c1, c2, -, c4, -, c6, -, c8, c9, -⟩ :=
    undo_delete_ellipse listExt deleted_state 0 ((deleted_state.hist[0]?).getD null_history)
      0 [1] listExt_inserts rfl (by decide) (by decide) (by decide) (by decide) (by decide)
      hl (by decide)
  exact ⟨s2, c1, c2, c4, c6, c9, c8⟩

/-! ## JOIN and SPLIT -/

theorem memswap_eq {α : Type} {h : List α} {old new : Nat} {o n : α}
    (ho : h[old]? = some o) (hn : h[new]? = some n) :
    memswap h old new = some ((h.set old n).set new o) := by
  unfold memswap
  simp only [ho, hn]

theorem setTop_then {w : StackRef} {a : Nat} {X : State} {f : F_history → F_history}
    {k : State → Option State} {Q : State → Prop} (ha : X.stk w = some a)
    (hl : a < X.hist.length)
    (hk : ∀ s1 : State, s1.stk w = some a → a < s1.hist.length → s1.scene = X.scene →
      s1.trace = X.trace → ∃ s2, k s1 = some s2 ∧ Q s2) :
    ∃ s2, (X.setTop w f).bind k = some s2 ∧ Q s2 := by
  have hg := List.getElem?_eq_getElem hl
  unfold State.setTop
  rw [ha]
  simp only [hg, Option.some_bind]
  apply hk
  · cases w <;> exact ha
  · simpa using hl
  · rfl
  · rfl

theorem join_split_depth_eval {α : Type} [Linked α] {E : Ext} {k : ObjKind} {D : α → Int}
    {H : Scene → List α} {p q : Nat} {s : State} {n o : α} (hE : KeepsObjects E)
    (hn : (H s.scene)[p]? = some n) (ho : (H s.scene)[q]? = some o)
    (hv : ∀ nx, Linked.next n = some nx ∨ Linked.next o = some nx →
      nx < (H s.scene).length) :
    ∃ s1, join_split_depth E k D H p q s = some s1 ∧ SameHist s s1 ∧
      s1.scene.heaps = s.scene.heaps := by
  unfold join_split_depth
  simp only [hn, ho, Option.bind_eq_bind, Option.some_bind]
  split
  · rename_i c
    cases hx : Linked.next o with
    | none => exact absurd hx c.2
    | some nx =>
      have hg := List.getElem?_eq_getElem (hv nx (Or.inr hx))
      simp only [hg, Option.some_bind, Option.pure_def]
      exact ⟨_, rfl, by simp [SameHist], hE.ext .add_depth _ _ rfl⟩
  · split
    · rename_i c
      cases hx : Linked.next n with
      | none => exact absurd hx c.1
      | some nx =>
        have hg := List.getElem?_eq_getElem (hv nx (Or.inl hx))
        simp only [hg, Option.some_bind, Option.pure_def]
        exact ⟨_, rfl, by simp [SameHist], hE.ext .remove_depth _ _ rfl⟩
    · exact ⟨_, rfl, SameHist.rfl, rfl⟩

theorem undo_join_split_line {E : Ext} {w : StackRef} {s : State} {a : Nat} {r : F_history}
    {new_o old_o : Nat} {n o : F_line} (hE : KeepsObjects E)
    (ha : s.stk w = some a) (hr : s.hist[a]? = some r)
    (hk : s.staging.last_object = O_POLYLINE)
    (h1 : r.saved_objects.lines = some new_o) (h2 : r.latest_line = some old_o)
    (h3 : s.scene.lines[new_o]? = some n) (h4 : s.scene.lines[old_o]? = some o)
    (hv : ∀ nx, n.next = some nx ∨ o.next = some nx → nx < s.scene.lines.length) :
    ∃ s2, undo_join_split E w s = some s2 ∧
      s2.scene.lines = (s.scene.lines.set old_o n).set new_o o := by
  have hl := (List.getElem?_eq_some.1 hr).1
  have ln := (List.getElem?_eq_some.1 h3).1
  have lo := (List.getElem?_eq_some.1 h4).1
  have ht : s.top w = some r := by simp [State.top, ha, hr]
  by_cases hne : new_o = old_o
  · subst hne
    rw [h3] at h4
    cases h4
    have g : ((s.scene.lines.set new_o n).set new_o n)[new_o]? = some n :=
      List.getElem?_set_self (by simpa using ln)
    obtain ⟨s3, j1, j2, j3⟩ := join_split_depth_eval (E := E) (k := O_POLYLINE)
      (D := F_line.depth) (H := Scene.lines)
      (s := s.mapScene fun sc => { sc with lines := (s.scene.lines.set new_o n).set new_o n })
      (p := new_o) (q := new_o) hE g g (by simpa [State.mapScene] using hv)
    unfold undo_join_split
    simp only [ht, hk, h1, h2, memswap_eq h3 h3, if_true, Option.bind_eq_bind,
      Option.some_bind, j1]
    apply setTop_then (a := a) ((stk_congr j2.2.1 j2.2.2.1 w).trans ha) (by rw [j2.1]; exact hl)
    intro s4 a4 l4 c4 _
    apply swap_then (a := a) (by simpa using a4) (by simpa using l4)
    intro s2 c2 _
    rw [c2, show (ext E .redisplay_lines [.ptr (some new_o), .ptr (some new_o)] s4).scene.lines
      = s4.scene.lines from congrArg (fun t => t.1) (hE.ext .redisplay_lines _ _ rfl), c4,
      show s3.scene.lines = _ from congrArg (fun t => t.1) j3]
    rfl
  · have g1 : ((s.scene.lines.set old_o n).set new_o o)[new_o]? = some o :=
      List.getElem?_set_self (by simpa using ln)
    have g2 : ((s.scene.lines.set old_o n).set new_o o)[old_o]? = some n := by
      rw [List.getElem?_set_ne hne]
      exact List.getElem?_set_self lo
    obtain ⟨s3, j1, j2, j3⟩ := join_split_depth_eval (E := E) (k := O_POLYLINE)
      (D := F_line.depth) (H := Scene.lines)
      (s := s.mapScene fun sc => { sc with lines := (s.scene.lines.set old_o n).set new_o o })
      (p := new_o) (q := old_o) hE g1 g2
      (by intro nx h; simpa [State.mapScene] using hv nx h.symm)
    unfold undo_join_split
    simp only [ht, hk, h1, h2, memswap_eq h4 h3, if_true, Option.bind_eq_bind,
      Option.some_bind, j1]
    apply setTop_then (a := a) ((stk_congr j2.2.1 j2.2.2.1 w).trans ha) (by rw [j2.1]; exact hl)
    intro s4 a4 l4 c4 _
    apply swap_then (a := a) (by simpa using a4) (by simpa using l4)
    intro s2 c2 _
    rw [c2, show (ext E .redisplay_lines [.ptr (some new_o), .ptr (some old_o)] s4).scene.lines
      = s4.scene.lines from congrArg (fun t => t.1) (hE.ext .redisplay_lines _ _ rfl), c4,
      show s3.scene.lines = _ from congrArg (fun t => t.1) j3]
    rfl

theorem undo_join_split_spline {E : Ext} {w : StackRef} {s : State} {a : Nat} {r : F_history}
    {new_o old_o : Nat} {n o : F_spline} (hE : KeepsObjects E)
    (ha : s.stk w = some a) (hr : s.hist[a]? = some r)
    (hk : s.staging.last_object ≠ O_POLYLINE)
    (h1 : r.saved_objects.splines = some new_o) (h2 : r.latest_spline = some old_o)
    (h3 : s.scene.splines[new_o]? = some n) (h4 : s.scene.splines[old_o]? = some o)
    (hv : ∀ nx, n.next = some nx ∨ o.next = some nx → nx < s.scene.splines.length) :
    ∃ s2, undo_join_split E w s = some s2 ∧
      s2.scene.splines = (s.scene.splines.set old_o n).set new_o o := by
  have hl := (List.getElem?_eq_some.1 hr).1
  have ln := (List.getElem?_eq_some.1 h3).1
  have lo := (List.getElem?_eq_some.1 h4).1
  have ht : s.top w = some r := by simp [State.top, ha, hr]
  by_cases hne : new_o = old_o
  · subst hne
    rw [h3] at h4
    cases h4
    have g : ((s.scene.splines.set new_o n).set new_o n)[new_o]? = some n :=
      List.getElem?_set_self (by simpa using ln)
    obtain ⟨s3, j1, j2, j3⟩ := join_split_depth_eval (E := E) (k := O_SPLINE)
      (D := F_spline.depth) (H := Scene.splines)
      (s := s.mapScene fun sc => { sc with splines := (s.scene.splines.set new_o n).set new_o n })
      (p := new_o) (q := new_o) hE g g (by simpa [State.mapScene] using hv)
    unfold undo_join_split
    simp only [ht, hk, h1, h2, memswap_eq h3 h3, if_false, Option.bind_eq_bind,
      Option.some_bind, j1]
    apply setTop_then (a := a) ((stk_congr j2.2.1 j2.2.2.1 w).trans ha) (by rw [j2.1]; exact hl)
    intro s4 a4 l4 c4 _
    apply swap_then (a := a) (by simpa using a4) (by simpa using l4)
    intro s2 c2 _
    rw [c2, show (ext E .redisplay_splines [.ptr (some new_o), .ptr (some new_o)] s4).scene.splines
      = s4.scene.splines from congrArg (fun t => t.2.1) (hE.ext .redisplay_splines _ _ rfl), c4,
      show s3.scene.splines = _ from congrArg (fun t => t.2.1) j3]
    rfl
  · have g1 : ((s.scene.splines.set old_o n).set new_o o)[new_o]? = some o :=
      List.getElem?_set_self (by simpa using ln)
    have g2 : ((s.scene.splines.set old_o n).set new_o o)[old_o]? = some n := by
      rw [List.getElem?_set_ne hne]
      exact List.getElem?_set_self lo
    obtain ⟨s3, j1, j2, j3⟩ := join_split_depth_eval (E := E) (k := O_SPLINE)
      (D := F_spline.depth) (H := Scene.splines)
      (s := s.mapScene fun sc => { sc with splines := (s.scene.splines.set old_o n).set new_o o })
      (p := new_o) (q := old_o) hE g1 g2
      (by intro nx h; simpa [State.mapScene] using hv nx h.symm)
    unfold undo_join_split
    simp only [ht, hk, h1, h2, memswap_eq h4 h3, if_false, Option.bind_eq_bind,
      Option.some_bind, j1]
    apply setTop_then (a := a) ((stk_congr j2.2.1 j2.2.2.1 w).trans ha) (by rw [j2.1]; exact hl)
    intro s4 a4 l4 c4 _
    apply swap_then (a := a) (by simpa using a4) (by simpa using l4)
    intro s2 c2 _
    rw [c2, show (ext E .redisplay_splines [.ptr (some new_o), .ptr (some old_o)] s4).scene.splines
      = s4.scene.splines from congrArg (fun t => t.2.1) (hE.ext .redisplay_splines _ _ rfl), c4,
      show s3.scene.splines = _ from congrArg (fun t => t.2.1) j3]
    rfl

/-- C14 as stated fails: in `chained_state` the original line (address 0) has
the successor 2 and the latest line (address 1) has none; after
`undo_join_split`, and after `undo()`, the line at address 0 has no successor
and the one at address 1 has the successor 2: the `next` links have gone with
the contents. -/
theorem join_split_moves_next :
    chained_state.scene.lines.map F_line.next = [some 2, none, none] ∧
    (undo_join_split sampleExt .undo chained_state).map
        (fun s => s.scene.lines.map F_line.next) = some [none, some 2, none] ∧
    (undo sampleExt chained_state).map
        (fun s => (s.scene.lines.map F_line.next, s.msgs)) =
      some ([none, some 2, none], ["Undo complete"]) := by
  decide

/-- C14 (amended): `undo_join_split` exchanges the two objects whole.  Let the
depth and display functions write to no object and let the successors of the
two objects exist.  If the file-static `last_object` is `O_POLYLINE`, the
record's saved line is at `new_o` and its latest line at `old_o`, holding `n`
and `o`, then `undo_join_split` returns and the line at `new_o` is `o` and the
line at `old_o` is `n`, each with every field of the other, the `next` link
included; every other line is as before.  Otherwise the same holds of the
record's saved spline and latest spline. -/
theorem join_split_exchanges_whole (E : Ext) (w : StackRef) (s : State) (a : Nat)
    (r : F_history) (new_o old_o : Nat) (hE : KeepsObjects E) (ha : s.stk w = some a)
    (hr : s.hist[a]? = some r) :
    (∀ n o : F_line, s.staging.last_object = O_POLYLINE →
      r.saved_objects.lines = some new_o → r.latest_line = some old_o →
      s.scene.lines[new_o]? = some n → s.scene.lines[old_o]? = some o →
      (∀ nx, n.next = some nx ∨ o.next = some nx → nx < s.scene.lines.length) →
      ∃ s2, undo_join_split E w s = some s2 ∧
        s2.scene.lines = (s.scene.lines.set old_o n).set new_o o ∧
        s2.scene.lines[new_o]? = some o ∧ (new_o ≠ old_o → s2.scene.lines[old_o]? = some n)) ∧
    (∀ n o : F_spline, s.staging.last_object ≠ O_POLYLINE →
      r.saved_objects.splines = some new_o → r.latest_spline = some old_o →
      s.scene.splines[new_o]? = some n → s.scene.splines[old_o]? = some o →
      (∀ nx, n.next = some nx ∨ o.next = some nx → nx < s.scene.splines.length) →
      ∃ s2, undo_join_split E w s = some s2 ∧
        s2.scene.splines = (s.scene.splines.set old_o n).set new_o o ∧
        s2.scene.splines[new_o]? = some o ∧
        (new_o ≠ old_o → s2.scene.splines[old_o]? = some n)) := by
  constructor
  · intro n o hk h1 h2 h3 h4 hv
    obtain ⟨s2, c1, c2⟩ := undo_join_split_line hE ha hr hk h1 h2 h3 h4 hv
    have ln := (List.getElem?_eq_some.1 h3).1
    have lo := (List.getElem?_eq_some.1 h4).1
    refine ⟨s2, c1, c2, ?_, ?_⟩
    · rw [c2]
      exact List.getElem?_set_self (by simpa using ln)
    · intro hne
      rw [c2, List.getElem?_set_ne hne]
      exact List.getElem?_set_self lo
  · intro n o hk h1 h2 h3 h4 hv
    obtain ⟨s2, c1, c2⟩ := undo_join_split_spline hE ha hr hk h1 h2 h3 h4 hv
    have ln := (List.getElem?_eq_some.1 h3).1
    have lo := (List.getElem?_eq_some.1 h4).1
    refine ⟨s2, c1, c2, ?_, ?_⟩
    · rw [c2]
      exact List.getElem?_set_self (by simpa using ln)
    · intro hne
      rw [c2, List.getElem?_set_ne hne]
      exact List.getElem?_set_self lo

/-- The hypotheses of `join_split_exchanges_whole` hold for the JOIN record of
`chained_state`: the lines at addresses 0 and 1 change places, successor
included. -/
theorem join_split_exchanges_whole_witness :
    (KeepsObjects sampleExt ∧ chained_state.stk .undo = some 0 ∧
      chained_state.staging.last_object = O_POLYLINE ∧
      (chained_state.hist[0]?).map (fun r => (r.saved_objects.lines, r.latest_line)) =
        some (some 0, some 1)) ∧
    ∃ s2, undo_join_split sampleExt .undo chained_state = some s2 ∧
      s2.scene.lines = (chained_state.scene.lines.set 1 { moved_line with next := some 2 }).set 0
        { moved_line with points := [⟨0, 0⟩, ⟨5, -3⟩] } ∧
      s2.scene.lines[0]? = some { moved_line with points := [⟨0, 0⟩, ⟨5, -3⟩] } ∧
      ((0 : Nat) ≠ 1 → s2.scene.lines[1]? = some { moved_line with next := some 2 }) :=
  ⟨⟨sampleExt_keeps, rfl, rfl, rfl⟩,
    (join_split_exchanges_whole sampleExt .undo chained_state 0
      ((chained_state.hist[0]?).getD null_history) 0 1 sampleExt_keeps rfl (by decide)).1 _ _ rfl
      (by decide) (by decide) rfl rfl
      (by
        intro nx h
        rcases h with h | h
        · cases h
          decide
        · simp [moved_line] at h)⟩

/-! ## ADD_POINT and DELETE_POINT: the manual pop -/

theorem point_stack_fix_eq {w : StackRef} {s : State} (hd : StacksDisjoint s) :
    point_stack_fix w s = (swap_stack w s).bind (pop_stack .undo) := by
  unfold point_stack_fix
  cases w with
  | undo => simp [State.stk]
  | redo =>
    by_cases e : s.redo_stack = s.undo_stack
    · obtain ⟨us, rs, hu, hr, hdis⟩ := hd
      cases rs with
      | nil =>
        have e1 : s.redo_stack = none := hr
        have e2 : s.undo_stack = none := e.symm.trans e1
        have e3 : swap_stack .redo s = some s := swap_stack_empty e1
        simp [State.stk, e, e3, pop_stack, e1, e2, State.setStk]
      | cons b rs =>
        exfalso
        have e1 : s.redo_stack = some b := hr.1
        cases us with
        | nil =>
          have e2 : s.undo_stack = none := hu
          rw [e1, e2] at e
          cases e
        | cons c us =>
          have e2 : s.undo_stack = some c := hu.1
          rw [e1, e2] at e
          cases e
          exact hdis b (List.mem_cons_self _ _) (List.mem_cons_self _ _)
    · simp [State.stk, e]

theorem pop_undo_result {s s2 : State} (h : pop_stack .undo s = some s2) :
    s2.redo_stack = s.redo_stack ∧ s2.hist = s.hist ∧
      ((s.undo_stack = none ∧ s2.undo_stack = none) ∨
        ∃ b rb, s.undo_stack = some b ∧ s.hist[b]? = some rb ∧ s2.undo_stack = rb.next) := by
  unfold pop_stack at h
  cases hu : s.undo_stack with
  | none =>
    simp only [State.stk, hu, Option.some.injEq] at h
    subst h
    exact ⟨rfl, rfl, Or.inl ⟨rfl, hu⟩⟩
  | some b =>
    simp only [State.stk, hu] at h
    cases hr : s.hist[b]? with
    | none => rw [hr] at h; cases h
    | some rb =>
      rw [hr] at h
      simp only [Option.some.injEq] at h
      subst h
      exact ⟨rfl, rfl, Or.inr ⟨b, rb, rfl, hr, rfl⟩⟩

/-- C15 (amended): the manual pop of `undo_addpoint` and `undo_deletepoint` is
always on the undo stack.  In a state whose two stacks are chains sharing no
record, whichever stack the handler was dispatched from, it ends by
`swap_stack` on that stack followed by `pop_stack(&undo_stack)`, both on the
state `s0` that the editing command it called has left: the redo stack is as
`swap_stack` left it, and the undo stack has lost its top record if it had
one. -/
theorem point_handlers_pop_undo (E : Ext) (w : StackRef) (s s2 : State)
    (hd : StacksDisjoint s)
    (h : undo_addpoint E w s = some s2 ∨ undo_deletepoint E w s = some s2) :
    ∃ s0 s1 s3, StacksDisjoint s0 ∧ swap_stack w s0 = some s1 ∧
      pop_stack .undo s1 = some s3 ∧ s2 = s3.setFreezeRedo false ∧
      s2.redo_stack = s1.redo_stack ∧
      ((s1.undo_stack = none ∧ s2.undo_stack = none) ∨
        ∃ b rb, s1.undo_stack = some b ∧ s1.hist[b]? = some rb ∧ s2.undo_stack = rb.next) := by
  have key : ∀ s0, StacksDisjoint s0 → ∀ s3, point_stack_fix w s0 = some s3 →
      s2 = s3.setFreezeRedo false →
      ∃ s0 s1 s3, StacksDisjoint s0 ∧ swap_stack w s0 = some s1 ∧
        pop_stack .undo s1 = some s3 ∧ s2 = s3.setFreezeRedo false ∧
        s2.redo_stack = s1.redo_stack ∧
        ((s1.undo_stack = none ∧ s2.undo_stack = none) ∨
          ∃ b rb, s1.undo_stack = some b ∧ s1.hist[b]? = some rb ∧
            s2.undo_stack = rb.next) := by
    intro s0 d0 s3 h3 e
    rw [point_stack_fix_eq d0] at h3
    obtain ⟨s1, h1, h2⟩ := Option.bind_eq_some.1 h3
    obtain ⟨p1, -, p3⟩ := pop_undo_result h2
    subst e
    exact ⟨s0, s1, s3, d0, h1, h2, rfl, p1, p3⟩
  rcases h with h | h
  · unfold undo_addpoint at h
    simp only [Option.bind_eq_bind, Option.bind_eq_some, Option.pure_def,
      Option.some.injEq] at h
    obtain ⟨r, -, s3, h3, e⟩ := h
    refine key _ ?_ s3 h3 e.symm
    split
    · exact cmd_pres ((StacksDisjoint_setFreezeRedo _ _).2 hd)
    · exact cmd_pres ((StacksDisjoint_setFreezeRedo _ _).2 hd)
  · unfold undo_deletepoint at h
    simp only [Option.bind_eq_bind, Option.bind_eq_some, Option.pure_def,
      Option.some.injEq] at h
    obtain ⟨r, -, s1, h1, s4, h4, s3, h3, e⟩ := h
    have d1 := deletepoint_switch_pres ((StacksDisjoint_setFreezeRedo _ _).2 hd) h1
    exact key _ (setTop_pres d1 h4 (fun _ => rfl)) s3 h3 e.symm

theorem point_state_disjoint : StacksDisjoint point_state :=
  ⟨[1, 0], [2], ⟨rfl, _, rfl, rfl, _, rfl, rfl⟩, ⟨rfl, _, rfl, rfl⟩, by decide⟩

/-- The hypotheses of `point_handlers_pop_undo` hold in `point_state` for
`undo_addpoint(&undo_stack)`, which returns `point_undone`. -/
theorem point_handlers_pop_undo_witness :
    (StacksDisjoint point_state ∧
      undo_addpoint sampleExt .undo point_state = some point_undone) ∧
    ∃ s0 s1 s3, StacksDisjoint s0 ∧ swap_stack .undo s0 = some s1 ∧
      pop_stack .undo s1 = some s3 ∧ point_undone = s3.setFreezeRedo false ∧
      point_undone.redo_stack = s1.redo_stack ∧
      ((s1.undo_stack = none ∧ point_undone.undo_stack = none) ∨
        ∃ b rb, s1.undo_stack = some b ∧ s1.hist[b]? = some rb ∧
          point_undone.undo_stack = rb.next) :=
  ⟨⟨point_state_disjoint, by decide⟩,
    point_handlers_pop_undo sampleExt .undo point_state point_undone point_state_disjoint
      (Or.inl (by decide))⟩

/-- C15 as stated fails for a handler dispatched from the undo stack.  In
`point_state` the undo stack is the ADD_POINT record 1 on top of record 0 and
the redo stack is record 2.  After `undo()` the redo stack is record 1 on top
of record 2, so nothing has been popped from it, and the undo stack is empty:
`swap_stack` has moved record 1 and the manual pop has removed record 0 from
the undo stack. -/
theorem point_pop_not_on_redo :
    (point_state.undo_stack = some 1 ∧ point_state.redo_stack = some 2 ∧
      point_state.hist.map (fun r => (r.last_action, r.next)) =
        [(F_ADD, none), (F_ADD_POINT, some 0), (F_DELETE, none)]) ∧
    (undo sampleExt point_state).map
        (fun s => (s.undo_stack, s.redo_stack, s.hist.map F_history.next, s.msgs)) =
      some (none, some 1, [none, some 2, none], ["Undo complete", "Undo complete"]) := by
  decide

/-! ## CONVERT -/

/-- What the staging calls of an editing command can do to the two roots: the
redo stack is kept or emptied, the undo stack is kept or gets a new record on
top. -/
theorem runApi_roots (E : Ext) : ∀ (l : List ApiCall) (s : State),
    s.hist.length ≤ (runApi E l s).hist.length ∧
    ((runApi E l s).redo_stack = s.redo_stack ∨ (runApi E l s).redo_stack = none) ∧
    ((runApi E l s).undo_stack = s.undo_stack ∨
      ∃ n, s.hist.length ≤ n ∧ (runApi E l s).undo_stack = some n)
  | [], _ => ⟨Nat.le_refl _, Or.inl rfl, Or.inl rfl⟩
  | .stage f :: cs, s => runApi_roots E cs { s with staging := f s.staging }
  | .set_freeze_undo_additions v :: cs, s =>
    runApi_roots E cs { s with freeze_undo_additions := v }
  | .undo_update_history :: cs, s => by
    have e : runApi E (.undo_update_history :: cs) s = runApi E cs (undo_update_history E s) :=
      rfl
    rw [e]
    obtain ⟨i1, i2, i3⟩ := runApi_roots E cs (undo_update_history E s)
    have base : s.hist.length ≤ (undo_update_history E s).hist.length ∧
        ((undo_update_history E s).redo_stack = s.redo_stack ∨
          (undo_update_history E s).redo_stack = none) ∧
        ((undo_update_history E s).undo_stack = s.undo_stack ∨
          (undo_update_history E s).undo_stack = some s.hist.length ∧
            s.hist.length < (undo_update_history E s).hist.length) := by
      unfold undo_update_history
      split
      · exact ⟨Nat.le_refl _, Or.inl rfl, Or.inl rfl⟩
      · split
        · exact ⟨by simp [push_history, free_history, State.setStk], Or.inr rfl,
            Or.inr ⟨rfl, by simp [push_history, free_history, State.setStk]⟩⟩
        · exact ⟨by simp [push_history], Or.inl rfl, Or.inr ⟨rfl, by simp [push_history]⟩⟩
    obtain ⟨b1, b2, b3⟩ := base
    refine ⟨Nat.le_trans b1 i1, ?_, ?_⟩
    · rcases i2 with i2 | i2
      · rcases b2 with b2 | b2
        · exact Or.inl (i2.trans b2)
        · exact Or.inr (i2.trans b2)
      · exact Or.inr i2
    · rcases i3 with i3 | ⟨n, hn, i3⟩
      · rcases b3 with b3 | ⟨b3, -⟩
        · exact Or.inl (i3.trans b3)
        · exact Or.inr ⟨_, Nat.le_refl _, i3.trans b3⟩
      · exact Or.inr ⟨n, Nat.le_trans b1 hn, i3⟩

theorem convert_switch_roots {E : Ext} {r : F_history} {s s3 : State}
    (h : convert_switch E r s = some s3) :
    s.hist.length ≤ s3.hist.length ∧
    (s3.redo_stack = s.redo_stack ∨ s3.redo_stack = none) ∧
    (s3.undo_stack = s.undo_stack ∨ ∃ n, s.hist.length ≤ n ∧ s3.undo_stack = some n) := by
  have c : ∀ fn args, s.hist.length ≤ (cmd E fn args s).hist.length ∧
      ((cmd E fn args s).redo_stack = s.redo_stack ∨ (cmd E fn args s).redo_stack = none) ∧
      ((cmd E fn args s).undo_stack = s.undo_stack ∨
        ∃ n, s.hist.length ≤ n ∧ (cmd E fn args s).undo_stack = some n) :=
    fun fn args => runApi_roots E (E.command ⟨fn, args⟩ s.scene)
      { s with scene := E.effect ⟨fn, args⟩ s.scene, trace := s.trace ++ [⟨fn, args⟩] }
  unfold convert_switch at h
  split at h
  · simp only [Option.bind_eq_bind, Option.bind_eq_some] at h
    obtain ⟨_, _, _, _, h⟩ := h
    split at h <;> simp only [Option.pure_def, Option.some.injEq] at h <;> subst h <;>
      exact c _ _
  · simp only [Option.bind_eq_bind, Option.bind_eq_some, Option.pure_def, Option.some.injEq] at h
    obtain ⟨_, _, _, _, _, _, _, _, rfl⟩ := h
    exact c _ _
  · simp only [Option.pure_def, Option.some.injEq] at h
    subst h
    exact ⟨Nat.le_refl _, Or.inl rfl, Or.inl rfl⟩

theorem relink_redo {s s2 : State} (h : relink_saved_line s = some s2) :
    s2.redo_stack = s.redo_stack ∧ s.redo_stack ≠ none ∧ s.undo_stack ≠ none ∧
      s2.undo_stack = s.undo_stack := by
  unfold relink_saved_line at h
  simp only [Option.bind_eq_bind, Option.bind_eq_some] at h
  obtain ⟨u, hu, h⟩ := h
  obtain ⟨b, hb, -⟩ := top_eq_some hu
  obtain ⟨c, rc, hc, -, rfl⟩ := setTop_eq_some h
  refine ⟨rfl, ?_, ?_, rfl⟩
  · intro e
    have hc2 : s.redo_stack = some c := hc
    rw [e] at hc2
    cases hc2
  · intro e
    have hb2 : s.undo_stack = some b := hb
    rw [e] at hb2
    cases hb2

/-- Whatever the collaborators do, a CONVERT record dispatched by `redo()` is
still on top of the redo stack when `redo()` returns: the `else` branch of
`undo_convert` (lines 427-433) has no `swap_stack`. -/
theorem convert_redo_stays {E : Ext} {s s2 : State} {a : Nat} {r : F_history}
    (ha : s.redo_stack = some a) (hr : s.hist[a]? = some r) (hk : r.last_action = F_CONVERT)
    (hne : s.undo_stack ≠ some a) (h : redo E s = some s2) : s2.redo_stack = some a := by
  have hl := (List.getElem?_eq_some.1 hr).1
  rcases redo_cases h with ⟨hn, -⟩ | ⟨b, rb, hb, hrb, ⟨hd, -⟩ | ⟨g, s1, hd, hh, rfl⟩⟩
  · rw [ha] at hn; cases hn
  · rw [ha] at hb; cases hb
    rw [hr] at hrb; cases hrb
    rw [hk] at hd; cases hd
  · rw [ha] at hb; cases hb
    rw [hr] at hrb; cases hrb
    rw [hk] at hd
    cases hd
    show s1.redo_stack = some a
    unfold undo_convert at hh
    simp only [Option.bind_eq_bind, Option.bind_eq_some] at hh
    obtain ⟨r0, -, s3, h3, h4⟩ := hh
    obtain ⟨k1, k2, k3⟩ := convert_switch_roots h3
    have k2 : s3.redo_stack = some a ∨ s3.redo_stack = none := by
      rcases k2 with k2 | k2
      · exact Or.inl (k2.trans ha)
      · exact Or.inr k2
    have k3 : s3.undo_stack ≠ some a := by
      rcases k3 with k3 | ⟨n, hn, k3⟩
      · rw [k3]; exact hne
      · rw [k3]
        intro e
        cases e
        have hl2 : a < (setCompLED 0 s).hist.length := hl
        omega
    unfold convert_stack_fix at h4
    split at h4 <;> simp only [Option.bind_eq_bind, Option.bind_eq_some] at h4
    · rename_i c
      have c2 : s3.redo_stack = s3.undo_stack := c
      rcases k2 with k2 | k2
      · exact absurd (c2.symm.trans k2) k3
      · obtain ⟨s4, h5, s5, h6, s6, h7, h8⟩ := h4
        have e4 : swap_stack .redo s3 = some s3 := swap_stack_empty k2
        rw [e4] at h5
        cases h5
        obtain ⟨-, -, p⟩ := pop_undo_result h6
        have u5 : s5.undo_stack = none := by
          rcases p with ⟨-, p⟩ | ⟨b, rb, p, -⟩
          · exact p
          · rw [← c2, k2] at p; cases p
        obtain ⟨-, -, p2⟩ := pop_undo_result h7
        have u6 : s6.undo_stack = none := by
          rcases p2 with ⟨-, p2⟩ | ⟨b, rb, p2, -⟩
          · exact p2
          · rw [u5] at p2; cases p2
        exact absurd u6 (relink_redo h8).2.2.1
    · obtain ⟨s5, h6, s6, h7, h8⟩ := h4
      obtain ⟨p1, -, -⟩ := pop_undo_result h6
      obtain ⟨p2, -, -⟩ := pop_undo_result h7
      obtain ⟨q1, q2, -, -⟩ := relink_redo h8
      rw [q1, p2, p1]
      rcases k2 with k2 | k2
      · exact k2
      · exact absurd ((p2.trans p1).trans k2) q2

/-- C16 (a defect of the code): a CONVERT record dispatched by `redo()` never
reaches the undo stack.  Whatever the collaborators do, if `redo()` returns on
a CONVERT record that is on top of the redo stack and not on top of the undo
stack, the record is still on top of the redo stack.  In `convert_undone`,
where the redo stack is the CONVERT record 6 and the undo stack is record 3 on
top of 2, 1 and 0, `redo()` reports "Redo complete" with record 6 still the
redo stack and records 3 and 2 popped off the undo stack. -/
theorem convert_redo_keeps_record :
    (∀ (E : Ext) (s s2 : State) (a : Nat) (r : F_history),
      s.redo_stack = some a → s.hist[a]? = some r → r.last_action = F_CONVERT →
      s.undo_stack ≠ some a → redo E s = some s2 → s2.redo_stack = some a) ∧
    (convert_undone.undo_stack = some 3 ∧ convert_undone.redo_stack = some 6 ∧
      convert_undone.hist.map (fun r => (r.last_action, r.next)) =
        [(F_ADD, none), (F_ADD, some 0), (F_ADD, some 1), (F_ADD, some 2), (F_ADD, some 3),
          (F_ADD, some 4), (F_CONVERT, none)]) ∧
    (redo sampleExt convert_undone).map (fun s => (s.undo_stack, s.redo_stack, s.msgs)) =
      some (some 1, some 6, ["Undo complete", "Redo complete"]) :=
  ⟨fun _ _ _ _ _ ha hr hk hne h => convert_redo_stays ha hr hk hne h, by decide, by decide⟩

/-! ## SCALE -/

theorem relink_scaled_eval {α : Type} [Linked α] [LawfulLinked α] {h : List α} {old new : Nat}
    {o n : α} (ho : h[old]? = some o) (hn : h[new]? = some n) :
    ∃ h2, relink_scaled h old new = some h2 ∧ payloads h2 = payloads h ∧
      (h2[old]?).map Linked.next = some (some new) := by
  have lo := (List.getElem?_eq_some.1 ho).1
  have ln := (List.getElem?_eq_some.1 hn).1
  have lo2 : old < (h.set new (Linked.setNext n (Linked.next o))).length := by simpa using lo
  obtain ⟨o1, ho1⟩ : ∃ o1, (h.set new (Linked.setNext n (Linked.next o)))[old]? = some o1 :=
    ⟨_, List.getElem?_eq_getElem lo2⟩
  unfold relink_scaled
  simp only [ho, hn, ho1, Option.bind_eq_bind, Option.some_bind, Option.pure_def]
  refine ⟨_, rfl, ?_, ?_⟩
  · rw [payloads_set ho1, payloads_set hn]
  · rw [List.getElem?_set_self lo2]
    simp [LawfulLinked.next_setNext]

theorem setTop_then2 {w : StackRef} {a : Nat} {X : State} {r : F_history}
    {f : F_history → F_history} {k : State → Option State} {Q : State → Prop}
    (ha : X.stk w = some a) (hr : X.hist[a]? = some r)
    (hk : ∀ s1 : State, s1.stk w = some a → s1.hist[a]? = some (f r) → s1.scene = X.scene →
      s1.trace = X.trace → ∃ s2, k s1 = some s2 ∧ Q s2) :
    ∃ s2, (X.setTop w f).bind k = some s2 ∧ Q s2 := by
  have hl := (List.getElem?_eq_some.1 hr).1
  unfold State.setTop
  rw [ha]
  simp only [hr, Option.some_bind]
  apply hk
  · cases w <;> exact ha
  · exact List.getElem?_set_self hl
  · rfl
  · rfl

theorem swap_then2 {w : StackRef} {a : Nat} {X : State} {r : F_history} {Q : State → Prop}
    (ha : X.stk w = some a) (hr : X.hist[a]? = some r)
    (hq : ∀ s2 : State, s2.scene = X.scene → s2.trace = X.trace →
      (∃ p, s2.hist[a]? = some (r.withNext p)) → Q s2) :
    ∃ s2, swap_stack w X = some s2 ∧ Q s2 := by
  have hl := (List.getElem?_eq_some.1 hr).1
  unfold swap_stack
  rw [ha]
  simp only
  cases other_stack w X with
  | none => exact ⟨_, rfl, hq _ rfl rfl ⟨r.next, hr⟩⟩
  | some o =>
    simp only [pop_stack, ha, hr]
    have e1 : (X.setStk w r.next).hist = X.hist := by cases w <;> rfl
    rw [e1, hr]
    refine ⟨_, rfl, hq _ ?_ ?_ ⟨(X.setStk w r.next).stk o, ?_⟩⟩
    · cases w <;> cases o <;> rfl
    · cases w <;> cases o <;> rfl
    · have e2 : ∀ Y : State, (Y.setStk o (some a)).hist = Y.hist := fun Y => by
        cases o <;> rfl
      rw [e2]
      exact List.getElem?_set_self (by simpa [e1] using hl)

theorem scale_objects_eval {α : Type} [Linked α] {E : Ext} {k : ObjKind} {D : α → Int}
    {H : Scene → List α} {f g : Fn} {head : Ptr} {s : State} {new_o old_o : Nat}
    {n o : α}
    (hp : ∀ fn args (x : State), relinking fn = true →
      payloads (H (ext E fn args x).scene) = payloads (H x.scene))
    (hf : relinking f = true) (hg : relinking g = true)
    (hd : ∀ x y : α, Linked.setNext x none = Linked.setNext y none → D x = D y)
    (h1 : head = some new_o) (h2 : (H s.scene)[new_o]? = some n)
    (h3 : Linked.next n = some old_o) (h4 : (H s.scene)[old_o]? = some o) :
    ∃ s3, scale_objects E k D H f g head s = some (s3, new_o, old_o) ∧
      SameHist s s3 ∧ payloads (H s3.scene) = payloads (H s.scene) ∧
      s3.trace = s.trace ++
        [⟨.remove_depth, [.kind k, .int (D o)]⟩, ⟨.add_depth, [.kind k, .int (D n)]⟩,
          ⟨f, [.ptr (some old_o)]⟩, ⟨g, [.ptr (some new_o)]⟩] := by
  obtain ⟨n1, hn1, en⟩ := payloads_get (hp .remove_depth [.kind k, .int (D o)] s rfl) h2
  have ed := hd _ _ en
  unfold scale_objects
  simp only [h1, h2, h3, h4, hn1, ed, Option.bind_eq_bind, Option.some_bind, Option.pure_def]
  refine ⟨_, rfl, by simp [SameHist], ?_, by simp [ext]⟩
  rw [hp g _ _ hg, hp f _ _ hf, hp .add_depth _ _ rfl, hp .remove_depth _ _ rfl]

theorem KeepsPayloads.call {E : Ext} (hE : KeepsPayloads E) (fn : Fn) (args : List Arg)
    (s : State) (hb : relinking fn = true) :
    (XfigUndo.ext E fn args s).scene.payloads = s.scene.payloads :=
  hE ⟨fn, args⟩ s.scene hb

theorem undo_scale_line {E : Ext} {w : StackRef} {s : State} {a : Nat} {r : F_history}
    {new_o old_o : Nat} {n o : F_line} (hO : KeepsObjects E) (hE : KeepsPayloads E)
    (ha : s.stk w = some a) (hr : s.hist[a]? = some r) (hk : r.last_object = O_POLYLINE)
    (h1 : r.saved_objects.lines = some new_o) (h2 : s.scene.lines[new_o]? = some n)
    (h3 : n.next = some old_o) (h4 : s.scene.lines[old_o]? = some o) :
    ∃ s2, undo_scale E w s = some s2 ∧
      ScaleOutcome Scene.lines
        [⟨.remove_depth, [.kind O_POLYLINE, .int o.depth]⟩,
          ⟨.add_depth, [.kind O_POLYLINE, .int n.depth]⟩,
          ⟨.list_delete_line, [.ptr (some old_o)]⟩, ⟨.list_add_line, [.ptr (some new_o)]⟩,
          ⟨.redisplay_lines, [.ptr (some new_o), .ptr (some old_o)]⟩] s s2 new_o old_o ∧
      (s2.hist[a]?).map (fun x => x.saved_objects.lines) = some (some old_o) := by
  have hp : ∀ fn args (x : State), relinking fn = true →
      payloads (ext E fn args x).scene.lines = payloads x.scene.lines :=
    fun fn args x hb => congrArg (fun t => t.1) (hE.call fn args x hb)
  have ht : s.top w = some r := by simp [State.top, ha, hr]
  obtain ⟨s3, j1, j2, j3, j4⟩ := scale_objects_eval (E := E) (k := O_POLYLINE)
    (D := F_line.depth) (H := Scene.lines) (f := .list_delete_line)
    (g := .list_add_line) hp rfl rfl
    (fun x y e => (congrArg F_line.depth e : _)) h1 h2 h3 h4
  obtain ⟨n3, hn3, -⟩ := payloads_get j3 h2
  obtain ⟨o3, ho3, -⟩ := payloads_get j3 h4
  obtain ⟨g, g1, g2, g3⟩ := relink_scaled_eval ho3 hn3
  unfold undo_scale
  simp only [ht, hk, j1, Option.bind_eq_bind, Option.some_bind, Option.pure_def]
  apply setTop_then2 (a := a) (r := r) ((stk_congr j2.2.1 j2.2.2.1 w).trans ha)
    (by rw [j2.1]; exact hr)
  intro s4 a4 r4 c4 t4
  simp only [c4, g1, Option.some_bind]
  apply swap_then2 (a := a) (by simpa using a4) (by simpa using r4)
  intro s2 c2 t2 ⟨p, hp2⟩
  have e2 : s2.scene.lines = g := by
    rw [c2]
    exact congrArg (fun t => t.1) (hO.ext .redisplay_lines
      [.ptr (some new_o), .ptr (some old_o)] (s4.mapScene fun sc => { sc with lines := g }) rfl)
  refine ⟨⟨?_, ?_, ?_⟩, ?_⟩
  · show payloads s2.scene.lines = _
    rw [e2, g2, j3]
  · show (s2.scene.lines[old_o]?).map _ = _
    rw [e2]
    exact g3
  · rw [t2]
    simp [ext, State.mapScene, t4, j4]
  · rw [hp2]
    rfl

theorem undo_scale_ellipse {E : Ext} {w : StackRef} {s : State} {a : Nat} {r : F_history}
    {new_o old_o : Nat} {n o : F_ellipse} (hO : KeepsObjects E) (hE : KeepsPayloads E)
    (ha : s.stk w = some a) (hr : s.hist[a]? = some r) (hk : r.last_object = O_ELLIPSE)
    (h1 : r.saved_objects.ellipses = some new_o) (h2 : s.scene.ellipses[new_o]? = some n)
    (h3 : n.next = some old_o) (h4 : s.scene.ellipses[old_o]? = some o) :
    ∃ s2, undo_scale E w s = some s2 ∧
      ScaleOutcome Scene.ellipses
        [⟨.remove_depth, [.kind O_ELLIPSE, .int o.depth]⟩,
          ⟨.add_depth, [.kind O_ELLIPSE, .int n.depth]⟩,
          ⟨.list_delete_ellipse, [.ptr (some old_o)]⟩, ⟨.list_add_ellipse, [.ptr (some new_o)]⟩,
          ⟨.redisplay_ellipses, [.ptr (some new_o), .ptr (some old_o)]⟩] s s2 new_o old_o ∧
      (s2.hist[a]?).map (fun x => x.saved_objects.ellipses) = some (some old_o) := by
  have hp : ∀ fn args (x : State), relinking fn = true →
      payloads (ext E fn args x).scene.ellipses = payloads x.scene.ellipses :=
    fun fn args x hb => congrArg (fun t => t.2.2.1) (hE.call fn args x hb)
  have ht : s.top w = some r := by simp [State.top, ha, hr]
  obtain ⟨s3, j1, j2, j3, j4⟩ := scale_objects_eval (E := E) (k := O_ELLIPSE)
    (D := F_ellipse.depth) (H := Scene.ellipses) (f := .list_delete_ellipse)
    (g := .list_add_ellipse) hp rfl rfl
    (fun x y e => (congrArg F_ellipse.depth e : _)) h1 h2 h3 h4
  obtain ⟨n3, hn3, -⟩ := payloads_get j3 h2
  obtain ⟨o3, ho3, -⟩ := payloads_get j3 h4
  obtain ⟨g, g1, g2, g3⟩ := relink_scaled_eval ho3 hn3
  unfold undo_scale
  simp only [ht, hk, j1, Option.bind_eq_bind, Option.some_bind, Option.pure_def]
  apply setTop_then2 (a := a) (r := r) ((stk_congr j2.2.1 j2.2.2.1 w).trans ha)
    (by rw [j2.1]; exact hr)
  intro s4 a4 r4 c4 t4
  simp only [c4, g1, Option.some_bind]
  apply swap_then2 (a := a) (by simpa using a4) (by simpa using r4)
  intro s2 c2 t2 ⟨p, hp2⟩
  have e2 : s2.scene.ellipses = g := by
    rw [c2]
    exact congrArg (fun t => t.2.2.1) (hO.ext .redisplay_ellipses
      [.ptr (some new_o), .ptr (some old_o)] (s4.mapScene fun sc => { sc with ellipses := g }) rfl)
  refine ⟨⟨?_, ?_, ?_⟩, ?_⟩
  · show payloads s2.scene.ellipses = _
    rw [e2, g2, j3]
  · show (s2.scene.ellipses[old_o]?).map _ = _
    rw [e2]
    exact g3
  · rw [t2]
    simp [ext, State.mapScene, t4, j4]
  · rw [hp2]
    rfl

theorem undo_scale_text {E : Ext} {w : StackRef} {s : State} {a : Nat} {r : F_history}
    {new_o old_o : Nat} {n o : F_text} (hO : KeepsObjects E) (hE : KeepsPayloads E)
    (ha : s.stk w = some a) (hr : s.hist[a]? = some r) (hk : r.last_object = O_TXT)
    (h1 : r.saved_objects.texts = some new_o) (h2 : s.scene.texts[new_o]? = some n)
    (h3 : n.next = some old_o) (h4 : s.scene.texts[old_o]? = some o) :
    ∃ s2, undo_scale E w s = some s2 ∧
      ScaleOutcome Scene.texts
        [⟨.remove_depth, [.kind O_TXT, .int o.depth]⟩,
          ⟨.add_depth, [.kind O_TXT, .int n.depth]⟩,
          ⟨.list_delete_text, [.ptr (some old_o)]⟩, ⟨.list_add_text, [.ptr (some new_o)]⟩,
          ⟨.redisplay_texts, [.ptr (some new_o), .ptr (some old_o)]⟩] s s2 new_o old_o ∧
      (s2.hist[a]?).map (fun x => x.saved_objects.texts) = some (some old_o) := by
  have hp : ∀ fn args (x : State), relinking fn = true →
      payloads (ext E fn args x).scene.texts = payloads x.scene.texts :=
    fun fn args x hb => congrArg (fun t => t.2.2.2.1) (hE.call fn args x hb)
  have ht : s.top w = some r := by simp [State.top, ha, hr]
  obtain ⟨s3, j1, j2, j3, j4⟩ := scale_objects_eval (E := E) (k := O_TXT)
    (D := F_text.depth) (H := Scene.texts) (f := .list_delete_text)
    (g := .list_add_text) hp rfl rfl
    (fun x y e => (congrArg F_text.depth e : _)) h1 h2 h3 h4
  obtain ⟨n3, hn3, -⟩ := payloads_get j3 h2
  obtain ⟨o3, ho3, -⟩ := payloads_get j3 h4
  obtain ⟨g, g1, g2, g3⟩ := relink_scaled_eval ho3 hn3
  unfold undo_scale
  simp only [ht, hk, j1, Option.bind_eq_bind, Option.some_bind, Option.pure_def]
  apply setTop_then2 (a := a) (r := r) ((stk_congr j2.2.1 j2.2.2.1 w).trans ha)
    (by rw [j2.1]; exact hr)
  intro s4 a4 r4 c4 t4
  simp only [c4, g1, Option.some_bind]
  apply swap_then2 (a := a) (by simpa using a4) (by simpa using r4)
  intro s2 c2 t2 ⟨p, hp2⟩
  have e2 : s2.scene.texts = g := by
    rw [c2]
    exact congrArg (fun t => t.2.2.2.1) (hO.ext .redisplay_texts
      [.ptr (some new_o), .ptr (some old_o)] (s4.mapScene fun sc => { sc with texts := g }) rfl)
  refine ⟨⟨?_, ?_, ?_⟩, ?_⟩
  · show payloads s2.scene.texts = _
    rw [e2, g2, j3]
  · show (s2.scene.texts[old_o]?).map _ = _
    rw [e2]
    exact g3
  · rw [t2]
    simp [ext, State.mapScene, t4, j4]
  · rw [hp2]
    rfl

theorem undo_scale_spline {E : Ext} {w : StackRef} {s : State} {a : Nat} {r : F_history}
    {new_o old_o : Nat} {n o : F_spline} (hO : KeepsObjects E) (hE : KeepsPayloads E)
    (ha : s.stk w = some a) (hr : s.hist[a]? = some r) (hk : r.last_object = O_SPLINE)
    (h1 : r.saved_objects.splines = some new_o) (h2 : s.scene.splines[new_o]? = some n)
    (h3 : n.next = some old_o) (h4 : s.scene.splines[old_o]? = some o) :
    ∃ s2, undo_scale E w s = some s2 ∧
      ScaleOutcome Scene.splines
        [⟨.remove_depth, [.kind O_SPLINE, .int o.depth]⟩,
          ⟨.add_depth, [.kind O_SPLINE, .int n.depth]⟩,
          ⟨.list_delete_spline, [.ptr (some old_o)]⟩, ⟨.list_add_spline, [.ptr (some new_o)]⟩,
          ⟨.redisplay_splines, [.ptr (some new_o), .ptr (some old_o)]⟩] s s2 new_o old_o ∧
      (s2.hist[a]?).map (fun x => x.saved_objects.splines) = some (some old_o) := by
  have hp : ∀ fn args (x : State), relinking fn = true →
      payloads (ext E fn args x).scene.splines = payloads x.scene.splines :=
    fun fn args x hb => congrArg (fun t => t.2.1) (hE.call fn args x hb)
  have ht : s.top w = some r := by simp [State.top, ha, hr]
  obtain ⟨s3, j1, j2, j3, j4⟩ := scale_objects_eval (E := E) (k := O_SPLINE)
    (D := F_spline.depth) (H := Scene.splines) (f := .list_delete_spline)
    (g := .list_add_spline) hp rfl rfl
    (fun x y e => (congrArg F_spline.depth e : _)) h1 h2 h3 h4
  obtain ⟨n3, hn3, -⟩ := payloads_get j3 h2
  obtain ⟨o3, ho3, -⟩ := payloads_get j3 h4
  obtain ⟨g, g1, g2, g3⟩ := relink_scaled_eval ho3 hn3
  unfold undo_scale
  simp only [ht, hk, j1, Option.bind_eq_bind, Option.some_bind, Option.pure_def]
  apply setTop_then2 (a := a) (r := r) ((stk_congr j2.2.1 j2.2.2.1 w).trans ha)
    (by rw [j2.1]; exact hr)
  intro s4 a4 r4 c4 t4
  simp only [c4, g1, Option.some_bind]
  apply swap_then2 (a := a) (by simpa using a4) (by simpa using r4)
  intro s2 c2 t2 ⟨p, hp2⟩
  have e2 : s2.scene.splines = g := by
    rw [c2]
    exact congrArg (fun t => t.2.1) (hO.ext .redisplay_splines
      [.ptr (some new_o), .ptr (some old_o)] (s4.mapScene fun sc => { sc with splines := g }) rfl)
  refine ⟨⟨?_, ?_, ?_⟩, ?_⟩
  · show payloads s2.scene.splines = _
    rw [e2, g2, j3]
  · show (s2.scene.splines[old_o]?).map _ = _
    rw [e2]
    exact g3
  · rw [t2]
    simp [ext, State.mapScene, t4, j4]
  · rw [hp2]
    rfl

theorem undo_scale_arc {E : Ext} {w : StackRef} {s : State} {a : Nat} {r : F_history}
    {new_o old_o : Nat} {n o : F_arc} (hO : KeepsObjects E) (hE : KeepsPayloads E)
    (ha : s.stk w = some a) (hr : s.hist[a]? = some r) (hk : r.last_object = O_ARC)
    (h1 : r.saved_objects.arcs = some new_o) (h2 : s.scene.arcs[new_o]? = some n)
    (h3 : n.next = some old_o) (h4 : s.scene.arcs[old_o]? = some o) :
    ∃ s2, undo_scale E w s = some s2 ∧
      ScaleOutcome Scene.arcs
        [⟨.remove_depth, [.kind O_ARC, .int o.depth]⟩,
          ⟨.add_depth, [.kind O_ARC, .int n.depth]⟩,
          ⟨.list_delete_arc, [.ptr (some old_o)]⟩, ⟨.list_add_arc, [.ptr (some new_o)]⟩,
          ⟨.redisplay_arcs, [.ptr (some new_o), .ptr (some old_o)]⟩] s s2 new_o old_o ∧
      (s2.hist[a]?).map (fun x => x.saved_objects.arcs) = some (some old_o) := by
  have hp : ∀ fn args (x : State), relinking fn = true →
      payloads (ext E fn args x).scene.arcs = payloads x.scene.arcs :=
    fun fn args x hb => congrArg (fun t => t.2.2.2.2.1) (hE.call fn args x hb)
  have ht : s.top w = some r := by simp [State.top, ha, hr]
  obtain ⟨s3, j1, j2, j3, j4⟩ := scale_objects_eval (E := E) (k := O_ARC)
    (D := F_arc.depth) (H := Scene.arcs) (f := .list_delete_arc)
    (g := .list_add_arc) hp rfl rfl
    (fun x y e => (congrArg F_arc.depth e : _)) h1 h2 h3 h4
  obtain ⟨n3, hn3, -⟩ := payloads_get j3 h2
  obtain ⟨o3, ho3, -⟩ := payloads_get j3 h4
  obtain ⟨g, g1, g2, g3⟩ := relink_scaled_eval ho3 hn3
  unfold undo_scale
  simp only [ht, hk, j1, Option.bind_eq_bind, Option.some_bind, Option.pure_def]
  apply setTop_then2 (a := a) (r := r) ((stk_congr j2.2.1 j2.2.2.1 w).trans ha)
    (by rw [j2.1]; exact hr)
  intro s4 a4 r4 c4 t4
  simp only [c4, g1, Option.some_bind]
  apply swap_then2 (a := a) (by simpa using a4) (by simpa using r4)
  intro s2 c2 t2 ⟨p, hp2⟩
  have e2 : s2.scene.arcs = g := by
    rw [c2]
    exact congrArg (fun t => t.2.2.2.2.1) (hO.ext .redisplay_arcs
      [.ptr (some new_o), .ptr (some old_o)] (s4.mapScene fun sc => { sc with arcs := g }) rfl)
  refine ⟨⟨?_, ?_, ?_⟩, ?_⟩
  · show payloads s2.scene.arcs = _
    rw [e2, g2, j3]
  · show (s2.scene.arcs[old_o]?).map _ = _
    rw [e2]
    exact g3
  · rw [t2]
    simp [ext, State.mapScene, t4, j4]
  · rw [hp2]
    rfl

theorem undo_scale_compound {E : Ext} {w : StackRef} {s : State} {a : Nat} {r : F_history}
    {new_o old_o : Nat} {n o : F_compound} (hO : KeepsObjects E) (hE : KeepsPayloads E)
    (ha : s.stk w = some a) (hr : s.hist[a]? = some r) (hk : r.last_object = O_COMPOUND)
    (h1 : r.saved_objects.compounds = some new_o) (h2 : s.scene.compounds[new_o]? = some n)
    (h3 : n.next = some old_o) (h4 : s.scene.compounds[old_o]? = some o) :
    ∃ s2, undo_scale E w s = some s2 ∧
      ScaleOutcome Scene.compounds
        [⟨.remove_compound_depth, [.ptr (some old_o)]⟩,
          ⟨.add_compound_depth, [.ptr (some new_o)]⟩,
          ⟨.list_delete_compound, [.ptr (some old_o)]⟩,
          ⟨.list_add_compound, [.ptr (some new_o)]⟩,
          ⟨.redisplay_compounds, [.ptr (some new_o), .ptr (some old_o)]⟩] s s2 new_o old_o ∧
      (s2.hist[a]?).map (fun x => x.saved_objects.compounds) = some (some old_o) := by
  have hp : ∀ fn args (x : State), relinking fn = true →
      payloads (ext E fn args x).scene.compounds = payloads x.scene.compounds :=
    fun fn args x hb => congrArg (fun t => t.2.2.2.2.2) (hE.call fn args x hb)
  have ht : s.top w = some r := by simp [State.top, ha, hr]
  obtain ⟨S, hS⟩ : ∃ S, S = ext E .list_add_compound [.ptr (some new_o)]
      (ext E .list_delete_compound [.ptr (some old_o)]
        (ext E .add_compound_depth [.ptr (some new_o)]
          (ext E .remove_compound_depth [.ptr (some old_o)] s))) := ⟨_, rfl⟩
  have j3 : payloads S.scene.compounds = payloads s.scene.compounds := by
    rw [hS, hp .list_add_compound _ _ rfl, hp .list_delete_compound _ _ rfl,
      hp .add_compound_depth _ _ rfl, hp .remove_compound_depth _ _ rfl]
  have j4 : S.trace = s.trace ++
      [⟨.remove_compound_depth, [.ptr (some old_o)]⟩,
        ⟨.add_compound_depth, [.ptr (some new_o)]⟩,
        ⟨.list_delete_compound, [.ptr (some old_o)]⟩,
        ⟨.list_add_compound, [.ptr (some new_o)]⟩] := by
    rw [hS]
    simp [ext]
  have j5 : S.stk w = some a := by
    rw [hS]
    simpa using ha
  have j6 : S.hist[a]? = some r := by
    rw [hS]
    simpa using hr
  obtain ⟨n3, hn3, -⟩ := payloads_get j3 h2
  obtain ⟨o3, ho3, -⟩ := payloads_get j3 h4
  obtain ⟨g, g1, g2, g3⟩ := relink_scaled_eval ho3 hn3
  unfold undo_scale
  simp only [ht, hk, h1, h2, h3, h4, Option.bind_eq_bind, Option.some_bind, Option.pure_def,
    ← hS]
  apply setTop_then2 (a := a) (r := r) j5 j6
  intro s4 a4 r4 c4 t4
  simp only [c4, g1, Option.some_bind]
  apply swap_then2 (a := a) (by simpa using a4) (by simpa using r4)
  intro s2 c2 t2 ⟨p, hp2⟩
  have e2 : s2.scene.compounds = g := by
    rw [c2]
    exact congrArg (fun t => t.2.2.2.2.2) (hO.ext .redisplay_compounds
      [.ptr (some new_o), .ptr (some old_o)]
      (s4.mapScene fun sc => { sc with compounds := g }) rfl)
  refine ⟨⟨?_, ?_, ?_⟩, ?_⟩
  · show payloads s2.scene.compounds = _
    rw [e2, g2, j3]
  · show (s2.scene.compounds[old_o]?).map _ = _
    rw [e2]
    exact g3
  · rw [t2]
    simp [ext, State.mapScene, t4, j4]
  · rw [hp2]
    rfl

theorem sampleExt_keeps_payloads : KeepsPayloads sampleExt := by
  intro c sc h
  obtain ⟨fn, args⟩ := c
  cases fn <;> simp [relinking, bookkeeping] at h <;> rfl

/-- C17, as the code has it: let the record on top of the dispatched stack be
a SCALE of a line, ellipse, text, spline, arc or compound, its saved list
holding the object `n` at `new_o` followed by the object `o` at `old_o`, let
the depth and display functions write to no object and the list functions to
no field but `next`.  Then `undo_scale` returns; no object of that type has
changed in a field other than `next`, so nothing has been exchanged between
the two; the calls made are the depth accounting of `undo_change`
(`remove_depth` at the depth of `o` and `add_depth` at the depth of `n`, for a
compound `remove_compound_depth` of `old_o` and `add_compound_depth` of
`new_o`), then `list_delete` of the object at `old_o` and `list_add` of the
object at `new_o` on the live list, then the redisplay; the object at `old_o`
has the one at `new_o` as its successor, and the record's saved list starts at
`old_o`. -/
theorem scale_relinks_objects (E : Ext) (w : StackRef) (s : State) (a : Nat) (r : F_history)
    (new_o old_o : Nat) (hO : KeepsObjects E) (hE : KeepsPayloads E) (ha : s.stk w = some a)
    (hr : s.hist[a]? = some r) :
    (∀ n o, r.last_object = O_POLYLINE → r.saved_objects.lines = some new_o →
      s.scene.lines[new_o]? = some n → n.next = some old_o → s.scene.lines[old_o]? = some o →
      ∃ s2, undo_scale E w s = some s2 ∧
        ScaleOutcome Scene.lines
          [⟨.remove_depth, [.kind O_POLYLINE, .int o.depth]⟩,
            ⟨.add_depth, [.kind O_POLYLINE, .int n.depth]⟩,
            ⟨.list_delete_line, [.ptr (some old_o)]⟩, ⟨.list_add_line, [.ptr (some new_o)]⟩,
            ⟨.redisplay_lines, [.ptr (some new_o), .ptr (some old_o)]⟩] s s2 new_o old_o ∧
        (s2.hist[a]?).map (fun x => x.saved_objects.lines) = some (some old_o)) ∧
    (∀ n o, r.last_object = O_ELLIPSE → r.saved_objects.ellipses = some new_o →
      s.scene.ellipses[new_o]? = some n → n.next = some old_o →
      s.scene.ellipses[old_o]? = some o →
      ∃ s2, undo_scale E w s = some s2 ∧
        ScaleOutcome Scene.ellipses
          [⟨.remove_depth, [.kind O_ELLIPSE, .int o.depth]⟩,
            ⟨.add_depth, [.kind O_ELLIPSE, .int n.depth]⟩,
            ⟨.list_delete_ellipse, [.ptr (some old_o)]⟩,
            ⟨.list_add_ellipse, [.ptr (some new_o)]⟩,
            ⟨.redisplay_ellipses, [.ptr (some new_o), .ptr (some old_o)]⟩] s s2 new_o old_o ∧
        (s2.hist[a]?).map (fun x => x.saved_objects.ellipses) = some (some old_o)) ∧
    (∀ n o, r.last_object = O_TXT → r.saved_objects.texts = some new_o →
      s.scene.texts[new_o]? = some n → n.next = some old_o → s.scene.texts[old_o]? = some o →
      ∃ s2, undo_scale E w s = some s2 ∧
        ScaleOutcome Scene.texts
          [⟨.remove_depth, [.kind O_TXT, .int o.depth]⟩,
            ⟨.add_depth, [.kind O_TXT, .int n.depth]⟩,
            ⟨.list_delete_text, [.ptr (some old_o)]⟩, ⟨.list_add_text, [.ptr (some new_o)]⟩,
            ⟨.redisplay_texts, [.ptr (some new_o), .ptr (some old_o)]⟩] s s2 new_o old_o ∧
        (s2.hist[a]?).map (fun x => x.saved_objects.texts) = some (some old_o)) ∧
    (∀ n o, r.last_object = O_SPLINE → r.saved_objects.splines = some new_o →
      s.scene.splines[new_o]? = some n → n.next = some old_o →
      s.scene.splines[old_o]? = some o →
      ∃ s2, undo_scale E w s = some s2 ∧
        ScaleOutcome Scene.splines
          [⟨.remove_depth, [.kind O_SPLINE, .int o.depth]⟩,
            ⟨.add_depth, [.kind O_SPLINE, .int n.depth]⟩,
            ⟨.list_delete_spline, [.ptr (some old_o)]⟩,
            ⟨.list_add_spline, [.ptr (some new_o)]⟩,
            ⟨.redisplay_splines, [.ptr (some new_o), .ptr (some old_o)]⟩] s s2 new_o old_o ∧
        (s2.hist[a]?).map (fun x => x.saved_objects.splines) = some (some old_o)) ∧
    (∀ n o, r.last_object = O_ARC → r.saved_objects.arcs = some new_o →
      s.scene.arcs[new_o]? = some n → n.next = some old_o → s.scene.arcs[old_o]? = some o →
      ∃ s2, undo_scale E w s = some s2 ∧
        ScaleOutcome Scene.arcs
          [⟨.remove_depth, [.kind O_ARC, .int o.depth]⟩,
            ⟨.add_depth, [.kind O_ARC, .int n.depth]⟩,
            ⟨.list_delete_arc, [.ptr (some old_o)]⟩, ⟨.list_add_arc, [.ptr (some new_o)]⟩,
            ⟨.redisplay_arcs, [.ptr (some new_o), .ptr (some old_o)]⟩] s s2 new_o old_o ∧
        (s2.hist[a]?).map (fun x => x.saved_objects.arcs) = some (some old_o)) ∧
    (∀ n o, r.last_object = O_COMPOUND → r.saved_objects.compounds = some new_o →
      s.scene.compounds[new_o]? = some n → n.next = some old_o →
      s.scene.compounds[old_o]? = some o →
      ∃ s2, undo_scale E w s = some s2 ∧
        ScaleOutcome Scene.compounds
          [⟨.remove_compound_depth, [.ptr (some old_o)]⟩,
            ⟨.add_compound_depth, [.ptr (some new_o)]⟩,
            ⟨.list_delete_compound, [.ptr (some old_o)]⟩,
            ⟨.list_add_compound, [.ptr (some new_o)]⟩,
            ⟨.redisplay_compounds, [.ptr (some new_o), .ptr (some old_o)]⟩] s s2 new_o old_o ∧
        (s2.hist[a]?).map (fun x => x.saved_objects.compounds) = some (some old_o)) :=
  ⟨fun _ _ hk h1 h2 h3 h4 => undo_scale_line hO hE ha hr hk h1 h2 h3 h4,
    fun _ _ hk h1 h2 h3 h4 => undo_scale_ellipse hO hE ha hr hk h1 h2 h3 h4,
    fun _ _ hk h1 h2 h3 h4 => undo_scale_text hO hE ha hr hk h1 h2 h3 h4,
    fun _ _ hk h1 h2 h3 h4 => undo_scale_spline hO hE ha hr hk h1 h2 h3 h4,
    fun _ _ hk h1 h2 h3 h4 => undo_scale_arc hO hE ha hr hk h1 h2 h3 h4,
    fun _ _ hk h1 h2 h3 h4 => undo_scale_compound hO hE ha hr hk h1 h2 h3 h4⟩

/-- The hypotheses of `scale_relinks_objects` hold for the polyline of
`scaled_state`: after `undo()` the two lines have the points they had, the
line at address 1 has the one at address 0 as its successor, and the record's
saved list starts at address 1. -/
theorem scale_relinks_objects_witness :
    (KeepsObjects sampleExt ∧ KeepsPayloads sampleExt ∧ scaled_state.stk .undo = some 0) ∧
    (∃ s2, undo_scale sampleExt .undo scaled_state = some s2 ∧
      ScaleOutcome Scene.lines
        [⟨.remove_depth, [.kind O_POLYLINE, .int 50]⟩,
          ⟨.add_depth, [.kind O_POLYLINE, .int 50]⟩,
          ⟨.list_delete_line, [.ptr (some 1)]⟩, ⟨.list_add_line, [.ptr (some 0)]⟩,
          ⟨.redisplay_lines, [.ptr (some 0), .ptr (some 1)]⟩] scaled_state s2 0 1 ∧
      (s2.hist[0]?).map (fun x => x.saved_objects.lines) = some (some 1)) ∧
    (undo sampleExt scaled_state).map
        (fun s => (s.scene.lines.map F_line.points, s.scene.lines.map F_line.next, s.msgs)) =
      some ([[⟨0, 0⟩, ⟨10, 10⟩], [⟨0, 0⟩, ⟨20, 20⟩]], [none, some 0], ["Undo complete"]) :=
  ⟨⟨sampleExt_keeps, sampleExt_keeps_payloads, rfl⟩,
    (scale_relinks_objects sampleExt .undo scaled_state 0 _ 0 1 sampleExt_keeps
      sampleExt_keeps_payloads rfl rfl).1 _ _ rfl rfl rfl rfl rfl,
    by decide⟩

/-- C17 as stated fails: on the SCALE record of `scaled_state`, `undo_scale`
leaves the points of both polylines where they were, whereas `undo_change` on
the same record exchanges them. -/
theorem scale_exchanges_nothing :
    (undo_scale sampleExt .undo scaled_state).map
        (fun s => s.scene.lines.map F_line.points) =
      some [[⟨0, 0⟩, ⟨10, 10⟩], [⟨0, 0⟩, ⟨20, 20⟩]] ∧
    (undo_change sampleExt .undo scaled_state).map
        (fun s => s.scene.lines.map F_line.points) =
      some [[⟨0, 0⟩, ⟨20, 20⟩], [⟨0, 0⟩, ⟨10, 10⟩]] ∧
    scaled_state.scene.lines.map F_line.points = [[⟨0, 0⟩, ⟨10, 10⟩], [⟨0, 0⟩, ⟨20, 20⟩]] := by
  decide

/-! ## The redo-cleanup guard -/

theorem add_arrowhead_default {E : Ext} {w : StackRef} {s : State} {a : Nat} {r : F_history}
    (ha : s.stk w = some a) (hr : s.hist[a]? = some r) (h1 : r.last_object ≠ O_POLYLINE)
    (h2 : r.last_object ≠ O_SPLINE) (h3 : r.last_object ≠ O_ARC) :
    undo_add_arrowhead E w s = some (s.setFreezeRedo true) := by
  have ht : (s.setFreezeRedo true).top w = some r := by
    simp [State.top, ha, hr]
  unfold undo_add_arrowhead
  simp only [ht, Option.bind_eq_bind, Option.some_bind]
  rfl

@[simp] theorem ext_guard (E : Ext) (fn : Fn) (args : List Arg) (s : State) :
    (ext E fn args s).freeze_redo_cleanup = s.freeze_redo_cleanup := rfl

@[simp] theorem mapScene_guard (s : State) (f : Scene → Scene) :
    (s.mapScene f).freeze_redo_cleanup = s.freeze_redo_cleanup := rfl

@[simp] theorem mapStaging_guard (s : State) (f : Staging → Staging) :
    (s.mapStaging f).freeze_redo_cleanup = s.freeze_redo_cleanup := rfl

@[simp] theorem setCompLED_guard (v : Int) (s : State) :
    (setCompLED v s).freeze_redo_cleanup = s.freeze_redo_cleanup := rfl

@[simp] theorem put_msg_guard (m : String) (s : State) :
    (put_msg m s).freeze_redo_cleanup = s.freeze_redo_cleanup := rfl

@[simp] theorem setFreezeRedo_guard (s : State) (b : Bool) :
    (s.setFreezeRedo b).freeze_redo_cleanup = b := rfl

@[simp] theorem setStk_guard (s : State) (w : StackRef) (p : Ptr) :
    (s.setStk w p).freeze_redo_cleanup = s.freeze_redo_cleanup := by cases w <;> rfl

theorem setTop_guard {w : StackRef} {s s2 : State} {f : F_history → F_history}
    (h : s.setTop w f = some s2) : s2.freeze_redo_cleanup = s.freeze_redo_cleanup := by
  unfold State.setTop at h
  split at h
  · cases h
  · split at h
    · cases h
    · cases h
      rfl

theorem pop_stack_guard {w : StackRef} {s s2 : State} (h : pop_stack w s = some s2) :
    s2.freeze_redo_cleanup = s.freeze_redo_cleanup := by
  unfold pop_stack at h
  split at h
  · cases h
    rfl
  · split at h
    · cases h
    · cases h
      exact setStk_guard _ _ _

theorem swap_stack_guard {w : StackRef} {s s2 : State} (h : swap_stack w s = some s2) :
    s2.freeze_redo_cleanup = s.freeze_redo_cleanup := by
  unfold swap_stack at h
  split at h
  · cases h
    rfl
  · split at h
    · cases h
      rfl
    · split at h
      · cases h
      · rename_i s1 hp
        split at h
        · cases h
        · cases h
          rw [setStk_guard]
          exact (pop_stack_guard hp : s1.freeze_redo_cleanup = _)

@[simp] theorem undo_update_history_guard (E : Ext) (s : State) :
    (undo_update_history E s).freeze_redo_cleanup = s.freeze_redo_cleanup := by
  unfold undo_update_history
  split
  · rfl
  · split
    · show (free_history .redo s).freeze_redo_cleanup = _
      rfl
    · rfl

@[simp] theorem runApi_guard (E : Ext) : ∀ (l : List ApiCall) (s : State),
    (runApi E l s).freeze_redo_cleanup = s.freeze_redo_cleanup
  | [], _ => rfl
  | .stage f :: cs, s => runApi_guard E cs { s with staging := f s.staging }
  | .undo_update_history :: cs, s =>
    (runApi_guard E cs (undo_update_history E s)).trans (undo_update_history_guard E s)
  | .set_freeze_undo_additions v :: cs, s =>
    runApi_guard E cs { s with freeze_undo_additions := v }

@[simp] theorem cmd_guard (E : Ext) (fn : Fn) (args : List Arg) (s : State) :
    (cmd E fn args s).freeze_redo_cleanup = s.freeze_redo_cleanup :=
  runApi_guard E _ _

theorem undo_add_guard {E : Ext} {w : StackRef} {s s2 : State} (h : undo_add E w s = some s2) :
    s2.freeze_redo_cleanup = s.freeze_redo_cleanup := by
  simp only [undo_add, Option.bind_eq_bind, Option.bind_eq_some] at h
  obtain ⟨r, hr, s1, h1, h2⟩ := h
  rw [swap_stack_guard h2, setTop_guard h1]
  cases r.last_object <;> rfl

theorem undo_delete_guard {E : Ext} {w : StackRef} {s s2 : State}
    (h : undo_delete E w s = some s2) : s2.freeze_redo_cleanup = s.freeze_redo_cleanup := by
  simp only [undo_delete, Option.bind_eq_bind, Option.bind_eq_some] at h
  obtain ⟨r, hr, h⟩ := h
  split at h <;>
    simp only [Option.bind_eq_bind, Option.bind_eq_some, Option.pure_def, Option.some.injEq,
      exists_eq_left'] at h
  · obtain ⟨s1, h1, hsw⟩ := h
    simp [swap_stack_guard hsw, setTop_guard h1]
  · obtain ⟨s1, h1, hsw⟩ := h
    simp [swap_stack_guard hsw, setTop_guard h1]
  · obtain ⟨s1, h1, hsw⟩ := h
    simp [swap_stack_guard hsw, setTop_guard h1]
  · obtain ⟨s1, h1, hsw⟩ := h
    simp [swap_stack_guard hsw, setTop_guard h1]
  · obtain ⟨s1, h1, hsw⟩ := h
    simp [swap_stack_guard hsw, setTop_guard h1]
  · obtain ⟨s1, h1, hsw⟩ := h
    simp [swap_stack_guard hsw, setTop_guard h1]
  · obtain ⟨s1, h1, s3, h3, hsw⟩ := h
    simp [swap_stack_guard hsw, setTop_guard h3, setTop_guard h1]
  · obtain ⟨s1, h1, s3, h3, hsw⟩ := h
    simp [swap_stack_guard hsw, setTop_guard h3, setTop_guard h1]
  · obtain ⟨s1, h1, hsw⟩ := h
    simp [swap_stack_guard hsw, setTop_guard h1]

theorem change_objects_guard {α : Type} [Linked α] {E : Ext} {k : ObjKind} {D : α → Int}
    {H : Scene → List α} {head : Ptr} {s : State} {d : State × List α × Nat × Nat}
    (h : change_objects E k D H head s = some d) :
    d.1.freeze_redo_cleanup = s.freeze_redo_cleanup := by
  simp only [change_objects, Option.bind_eq_bind, Option.bind_eq_some, Option.pure_def,
    Option.some.injEq] at h
  obtain ⟨_, _, _, _, _, _, _, _, _, _, _, _, rfl⟩ := h
  rfl

theorem scale_objects_guard {α : Type} [Linked α] {E : Ext} {k : ObjKind} {D : α → Int}
    {H : Scene → List α} {f g : Fn} {head : Ptr} {s : State} {d : State × Nat × Nat}
    (h : scale_objects E k D H f g head s = some d) :
    d.1.freeze_redo_cleanup = s.freeze_redo_cleanup := by
  simp only [scale_objects, Option.bind_eq_bind, Option.bind_eq_some, Option.pure_def,
    Option.some.injEq] at h
  obtain ⟨_, _, _, _, _, _, _, _, _, _, rfl⟩ := h
  rfl

theorem undo_change_guard {E : Ext} {w : StackRef} {s s2 : State}
    (h : undo_change E w s = some s2) : s2.freeze_redo_cleanup = s.freeze_redo_cleanup := by
  simp only [undo_change, Option.bind_eq_bind, Option.bind_eq_some] at h
  obtain ⟨r, hr, h⟩ := h
  split at h <;>
    simp only [Option.bind_eq_bind, Option.bind_eq_some, Option.pure_def, Option.some.injEq,
      exists_eq_left'] at h
  · obtain ⟨d, hd, hsw⟩ := h
    simp [swap_stack_guard hsw, change_objects_guard hd]
  · obtain ⟨d, hd, hsw⟩ := h
    simp [swap_stack_guard hsw, change_objects_guard hd]
  · obtain ⟨d, hd, hsw⟩ := h
    simp [swap_stack_guard hsw, change_objects_guard hd]
  · obtain ⟨d, hd, hsw⟩ := h
    simp [swap_stack_guard hsw, change_objects_guard hd]
  · obtain ⟨d, hd, hsw⟩ := h
    simp [swap_stack_guard hsw, change_objects_guard hd]
  · obtain ⟨_, _, _, _, _, _, _, _, _, _, hsw⟩ := h
    simp [swap_stack_guard hsw]
  · obtain ⟨s1, h1, hsw⟩ := h
    simp [swap_stack_guard hsw, setTop_guard h1]
  · obtain ⟨s1, h1, hsw⟩ := h
    simp [swap_stack_guard hsw, setTop_guard h1]
  · exact swap_stack_guard h

theorem move_switch_guard (E : Ext) (r : F_history) (dx dy : Int) (s : State) :
    (move_switch E r dx dy s).freeze_redo_cleanup = s.freeze_redo_cleanup := by
  unfold move_switch
  cases r.last_object <;> rfl

theorem undo_move_guard {E : Ext} {w : StackRef} {s s2 : State}
    (h : undo_move E w s = some s2) : s2.freeze_redo_cleanup = s.freeze_redo_cleanup := by
  unfold undo_move at h
  simp only [Option.bind_eq_bind, Option.bind_eq_some] at h
  obtain ⟨r, hr, s1, h1, hsw⟩ := h
  unfold swap_newp_lastp at h1
  rw [swap_stack_guard hsw, setTop_guard h1, move_switch_guard]

theorem undo_glue_guard {E : Ext} {w : StackRef} {s s2 : State}
    (h : undo_glue E w s = some s2) : s2.freeze_redo_cleanup = s.freeze_redo_cleanup := by
  simp only [undo_glue, Option.bind_eq_bind, Option.bind_eq_some] at h
  obtain ⟨r, hr, s1, h1, hsw⟩ := h
  rw [swap_stack_guard hsw]
  split <;> simp [setTop_guard h1]

theorem undo_break_guard {E : Ext} {w : StackRef} {s s2 : State}
    (h : undo_break E w s = some s2) : s2.freeze_redo_cleanup = s.freeze_redo_cleanup := by
  simp only [undo_break, Option.bind_eq_bind, Option.bind_eq_some] at h
  obtain ⟨r, hr, s1, h1, hsw⟩ := h
  simp [swap_stack_guard hsw, setTop_guard h1]

theorem undo_load_guard {E : Ext} {w : StackRef} {s s2 : State}
    (h : undo_load E w s = some s2) : s2.freeze_redo_cleanup = s.freeze_redo_cleanup := by
  unfold undo_load at h
  simp only [Option.bind_eq_bind, Option.bind_eq_some] at h
  obtain ⟨r, hr, s1, h1, s3, h3, hsw⟩ := h
  simp [swap_stack_guard hsw, setTop_guard h3, setTop_guard h1]

theorem undo_scale_guard {E : Ext} {w : StackRef} {s s2 : State}
    (h : undo_scale E w s = some s2) : s2.freeze_redo_cleanup = s.freeze_redo_cleanup := by
  unfold undo_scale at h
  simp only [Option.bind_eq_bind, Option.bind_eq_some] at h
  obtain ⟨r, hr, h⟩ := h
  split at h <;>
    simp only [Option.bind_eq_bind, Option.bind_eq_some, Option.pure_def, Option.some.injEq,
      exists_eq_left'] at h
  · obtain ⟨d, hd, s1, h1, _, _, hsw⟩ := h
    simp [swap_stack_guard hsw, setTop_guard h1, scale_objects_guard hd]
  · obtain ⟨d, hd, s1, h1, _, _, hsw⟩ := h
    simp [swap_stack_guard hsw, setTop_guard h1, scale_objects_guard hd]
  · obtain ⟨d, hd, s1, h1, _, _, hsw⟩ := h
    simp [swap_stack_guard hsw, setTop_guard h1, scale_objects_guard hd]
  · obtain ⟨d, hd, s1, h1, _, _, hsw⟩ := h
    simp [swap_stack_guard hsw, setTop_guard h1, scale_objects_guard hd]
  · obtain ⟨d, hd, s1, h1, _, _, hsw⟩ := h
    simp [swap_stack_guard hsw, setTop_guard h1, scale_objects_guard hd]
  · obtain ⟨_, _, _, _, _, _, _, _, s1, h1, _, _, hsw⟩ := h
    simp [swap_stack_guard hsw, setTop_guard h1]
  · obtain ⟨s1, h1, hsw⟩ := h
    simp [swap_stack_guard hsw, setTop_guard h1]
  · obtain ⟨s1, h1, hsw⟩ := h
    simp [swap_stack_guard hsw, setTop_guard h1]
  · exact swap_stack_guard h

theorem join_split_depth_guard {α : Type} [Linked α] {E : Ext} {k : ObjKind} {D : α → Int}
    {H : Scene → List α} {p q : Nat} {s s1 : State}
    (h : join_split_depth E k D H p q s = some s1) :
    s1.freeze_redo_cleanup = s.freeze_redo_cleanup := by
  unfold join_split_depth at h
  simp only [Option.bind_eq_bind, Option.bind_eq_some] at h
  obtain ⟨_, _, _, _, h⟩ := h
  split at h
  · simp only [Option.bind_eq_bind, Option.bind_eq_some, Option.pure_def, Option.some.injEq] at h
    obtain ⟨_, _, _, _, rfl⟩ := h
    rfl
  · split at h
    · simp only [Option.bind_eq_bind, Option.bind_eq_some, Option.pure_def,
        Option.some.injEq] at h
      obtain ⟨_, _, _, _, rfl⟩ := h
      rfl
    · simp only [Option.pure_def, Option.some.injEq] at h
      subst h
      rfl

theorem undo_join_split_guard {E : Ext} {w : StackRef} {s s2 : State}
    (h : undo_join_split E w s = some s2) :
    s2.freeze_redo_cleanup = s.freeze_redo_cleanup := by
  unfold undo_join_split at h
  simp only [Option.bind_eq_bind, Option.bind_eq_some] at h
  obtain ⟨r, hr, h⟩ := h
  split at h <;>
    simp only [Option.bind_eq_bind, Option.bind_eq_some, Option.pure_def, Option.some.injEq,
      exists_eq_left'] at h
  · obtain ⟨_, _, _, _, _, _, s3, h3, s4, h4, hsw⟩ := h
    simp [swap_stack_guard hsw, setTop_guard h4, join_split_depth_guard h3]
  · obtain ⟨_, _, _, _, _, _, s3, h3, s4, h4, hsw⟩ := h
    simp [swap_stack_guard hsw, setTop_guard h4, join_split_depth_guard h3]

theorem undo_delete_arrowhead_guard {E : Ext} {w : StackRef} {s s2 : State}
    (h : undo_delete_arrowhead E w s = some s2) :
    s2.freeze_redo_cleanup = s.freeze_redo_cleanup := by
  unfold undo_delete_arrowhead at h
  simp only [Option.bind_eq_bind, Option.bind_eq_some] at h
  obtain ⟨r, hr, h⟩ := h
  split at h <;>
    simp only [delete_arrowhead_tail, Option.bind_eq_bind, Option.bind_eq_some, Option.pure_def,
      Option.some.injEq, exists_eq_left'] at h
  · obtain ⟨_, _, s1, h1, hsw⟩ := h
    simp [swap_stack_guard hsw, setTop_guard h1]
  · obtain ⟨_, _, s1, h1, hsw⟩ := h
    simp [swap_stack_guard hsw, setTop_guard h1]
  · obtain ⟨_, _, s1, h1, hsw⟩ := h
    simp [swap_stack_guard hsw, setTop_guard h1]
  · rw [← h]

theorem open_close_line_guard {E : Ext} {w : StackRef} {r : F_history} {s s2 : State}
    (h : open_close_line E w r s = some s2) :
    s2.freeze_redo_cleanup = s.freeze_redo_cleanup := by
  unfold open_close_line at h
  simp only [Option.bind_eq_bind, Option.bind_eq_some] at h
  obtain ⟨_, _, _, _, h⟩ := h
  split at h <;> simp only [Option.bind_eq_bind, Option.bind_eq_some, Option.pure_def,
    Option.some.injEq, exists_eq_left'] at h
  · obtain ⟨s1, h1, rfl⟩ := h
    simp [setTop_guard h1]
  · subst h
    simp

theorem open_close_spline_guard {E : Ext} {w : StackRef} {r : F_history} {s s2 : State}
    (h : open_close_spline E w r s = some s2) :
    s2.freeze_redo_cleanup = s.freeze_redo_cleanup := by
  unfold open_close_spline at h
  simp only [Option.bind_eq_bind, Option.bind_eq_some] at h
  obtain ⟨_, _, _, _, h⟩ := h
  split at h
  · simp only [Option.bind_eq_bind, Option.bind_eq_some, Option.pure_def,
      Option.some.injEq] at h
    obtain ⟨_, _, _, _, _, _, h⟩ := h
    subst h
    simp
  · split at h <;> simp only [Option.bind_eq_bind, Option.bind_eq_some, Option.pure_def,
      Option.some.injEq, exists_eq_left'] at h
    · obtain ⟨s1, h1, rfl⟩ := h
      simp [setTop_guard h1]
    · subst h
      simp

theorem undo_open_close_guard {E : Ext} {w : StackRef} {s s2 : State}
    (h : undo_open_close E w s = some s2) :
    s2.freeze_redo_cleanup = s.freeze_redo_cleanup := by
  unfold undo_open_close at h
  simp only [Option.bind_eq_bind, Option.bind_eq_some] at h
  obtain ⟨r, -, h⟩ := h
  split at h <;> simp only [Option.bind_eq_bind, Option.bind_eq_some, Option.pure_def,
    Option.some.injEq, exists_eq_left'] at h
  · obtain ⟨s1, h1, h2⟩ := h
    rw [swap_stack_guard h2, open_close_line_guard h1]
  · obtain ⟨s1, h1, h2⟩ := h
    rw [swap_stack_guard h2, open_close_spline_guard h1]
  · exact swap_stack_guard h

theorem convert_switch_guard {E : Ext} {r : F_history} {s s2 : State}
    (h : convert_switch E r s = some s2) :
    s2.freeze_redo_cleanup = s.freeze_redo_cleanup := by
  unfold convert_switch at h
  split at h
  · simp only [Option.bind_eq_bind, Option.bind_eq_some] at h
    obtain ⟨_, _, _, _, h⟩ := h
    split at h <;> simp only [Option.pure_def, Option.some.injEq] at h <;> subst h <;> simp
  · simp only [Option.bind_eq_bind, Option.bind_eq_some, Option.pure_def, Option.some.injEq] at h
    obtain ⟨_, _, _, _, _, _, _, _, rfl⟩ := h
    simp
  · simp only [Option.pure_def, Option.some.injEq] at h
    subst h
    rfl

theorem relink_saved_line_guard {s s2 : State} (h : relink_saved_line s = some s2) :
    s2.freeze_redo_cleanup = s.freeze_redo_cleanup := by
  unfold relink_saved_line at h
  simp only [Option.bind_eq_bind, Option.bind_eq_some] at h
  obtain ⟨_, _, h⟩ := h
  exact setTop_guard h

theorem convert_stack_fix_guard {w : StackRef} {s s2 : State}
    (h : convert_stack_fix w s = some s2) :
    s2.freeze_redo_cleanup = s.freeze_redo_cleanup := by
  unfold convert_stack_fix at h
  split at h <;> simp only [Option.bind_eq_bind, Option.bind_eq_some] at h
  · obtain ⟨s1, h1, s3, h3, s4, h4, h5⟩ := h
    rw [relink_saved_line_guard h5, pop_stack_guard h4, pop_stack_guard h3, swap_stack_guard h1]
  · obtain ⟨s3, h3, s4, h4, h5⟩ := h
    rw [relink_saved_line_guard h5, pop_stack_guard h4, pop_stack_guard h3]

theorem undo_convert_guard {E : Ext} {w : StackRef} {s s2 : State}
    (h : undo_convert E w s = some s2) : s2.freeze_redo_cleanup = s.freeze_redo_cleanup := by
  unfold undo_convert at h
  simp only [Option.bind_eq_bind, Option.bind_eq_some] at h
  obtain ⟨r, -, s1, h1, h2⟩ := h
  rw [convert_stack_fix_guard h2, convert_switch_guard h1]

theorem undo_addpoint_guard {E : Ext} {w : StackRef} {s s2 : State}
    (h : undo_addpoint E w s = some s2) : s2.freeze_redo_cleanup = false := by
  unfold undo_addpoint at h
  simp only [Option.bind_eq_bind, Option.bind_eq_some, Option.pure_def, Option.some.injEq] at h
  obtain ⟨r, -, s1, h1, rfl⟩ := h
  rfl

theorem undo_deletepoint_guard {E : Ext} {w : StackRef} {s s2 : State}
    (h : undo_deletepoint E w s = some s2) : s2.freeze_redo_cleanup = false := by
  unfold undo_deletepoint at h
  simp only [Option.bind_eq_bind, Option.bind_eq_some, Option.pure_def, Option.some.injEq] at h
  obtain ⟨r, -, s1, h1, s3, h3, s4, h4, rfl⟩ := h
  rfl

theorem add_arrowhead_tail_guard {w : StackRef} {s s2 : State}
    (h : add_arrowhead_tail w s = some s2) : s2.freeze_redo_cleanup = false := by
  unfold add_arrowhead_tail at h
  simp only [Option.bind_eq_bind, Option.bind_eq_some] at h
  obtain ⟨t, -, s1, h1, s3, h3, h4⟩ := h
  rw [swap_stack_guard h4, setTop_guard h3, pop_stack_guard h1]
  rfl

theorem undo_add_arrowhead_guard {E : Ext} {w : StackRef} {s s2 : State}
    (h : undo_add_arrowhead E w s = some s2) (hg : s2.freeze_redo_cleanup = true) :
    ∃ r, s.top w = some r ∧ r.last_object ≠ O_POLYLINE ∧ r.last_object ≠ O_SPLINE ∧
      r.last_object ≠ O_ARC := by
  unfold undo_add_arrowhead at h
  simp only [Option.bind_eq_bind, Option.bind_eq_some] at h
  obtain ⟨r, hr, h⟩ := h
  split at h
  · rw [add_arrowhead_tail_guard h] at hg
    cases hg
  · rw [add_arrowhead_tail_guard h] at hg
    cases hg
  · rw [add_arrowhead_tail_guard h] at hg
    cases hg
  · rename_i h1 h2 h3
    exact ⟨r, hr, h1, h2, h3⟩

theorem dispatch_guard {E : Ext} {w : StackRef} {k : Action} {handler : State → Option State}
    {s s2 : State} (hk : dispatch E w k = some handler) (h : handler s = some s2)
    (hs : s.freeze_redo_cleanup = false) :
    s2.freeze_redo_cleanup = false ∨
      (k = F_ADD_ARROW_HEAD ∧ ∃ r, s.top w = some r ∧ r.last_object ≠ O_POLYLINE ∧
        r.last_object ≠ O_SPLINE ∧ r.last_object ≠ O_ARC) := by
  cases k <;> simp [dispatch] at hk <;> subst hk
  · exact Or.inl ((undo_add_guard h).trans hs)
  · exact Or.inl ((undo_delete_guard h).trans hs)
  · exact Or.inl ((undo_move_guard h).trans hs)
  · exact Or.inl ((undo_change_guard h).trans hs)
  · exact Or.inl ((undo_glue_guard h).trans hs)
  · exact Or.inl ((undo_break_guard h).trans hs)
  · exact Or.inl ((undo_load_guard h).trans hs)
  · exact Or.inl ((undo_scale_guard h).trans hs)
  · exact Or.inl (undo_addpoint_guard h)
  · exact Or.inl (undo_deletepoint_guard h)
  · cases hg : s2.freeze_redo_cleanup with
    | false => exact Or.inl rfl
    | true => exact Or.inr ⟨rfl, undo_add_arrowhead_guard h hg⟩
  · exact Or.inl ((undo_delete_arrowhead_guard h).trans hs)
  · exact Or.inl ((undo_convert_guard h).trans hs)
  · exact Or.inl ((undo_open_close_guard h).trans hs)
  · exact Or.inl ((undo_join_split_guard h).trans hs)
  · exact Or.inl ((undo_join_split_guard h).trans hs)

theorem undo_guard {E : Ext} {s s2 : State} (h : undo E s = some s2)
    (hs : s.freeze_redo_cleanup = false) :
    s2.freeze_redo_cleanup = false ∨
      ∃ a r, s.undo_stack = some a ∧ s.hist[a]? = some r ∧
        r.last_action = F_ADD_ARROW_HEAD ∧ r.last_object ≠ O_POLYLINE ∧
        r.last_object ≠ O_SPLINE ∧ r.last_object ≠ O_ARC := by
  rcases undo_cases h with ⟨-, rfl⟩ | ⟨a, r, ha, hr, ⟨-, rfl⟩ | ⟨handler, s1, hk, hh, rfl⟩⟩
  · exact Or.inl hs
  · exact Or.inl hs
  · rcases dispatch_guard hk hh hs with g | ⟨g, r1, ht, g1, g2, g3⟩
    · exact Or.inl g
    · have e : (setCompLED 0 s).top .undo = some r := by
        simp [State.top, State.stk, ha, hr]
      rw [e] at ht
      cases ht
      exact Or.inr ⟨a, r, ha, hr, g, g1, g2, g3⟩

theorem redo_guard {E : Ext} {s s2 : State} (h : redo E s = some s2)
    (hs : s.freeze_redo_cleanup = false) :
    s2.freeze_redo_cleanup = false ∨
      ∃ a r, s.redo_stack = some a ∧ s.hist[a]? = some r ∧
        r.last_action = F_ADD_ARROW_HEAD ∧ r.last_object ≠ O_POLYLINE ∧
        r.last_object ≠ O_SPLINE ∧ r.last_object ≠ O_ARC := by
  rcases redo_cases h with ⟨-, rfl⟩ | ⟨a, r, ha, hr, ⟨-, rfl⟩ | ⟨handler, s1, hk, hh, rfl⟩⟩
  · exact Or.inl hs
  · exact Or.inl hs
  · rcases dispatch_guard hk hh hs with g | ⟨g, r1, ht, g1, g2, g3⟩
    · exact Or.inl g
    · have e : (setCompLED 0 s).top .redo = some r := by
        simp [State.top, State.stk, ha, hr]
      rw [e] at ht
      cases ht
      exact Or.inr ⟨a, r, ha, hr, g, g1, g2, g3⟩

/-- C18 holds for every record but those of one kind, where the code leaves
the guard set.  Whatever the collaborators, when `undo()` or `redo()` returns
from a state in which the redo-cleanup guard is false, the guard is false
again unless the dispatched record is an ADD_ARROW_HEAD whose object is
neither a line, a spline nor an arc.  On such a record, whatever the stack and
state, `undo_add_arrowhead` returns the state it was given with the guard set
(`default: return` at line 452 skips line 456).  So after such a record has
been committed on an empty history, with the guard false, `undo()` reports
"Undo complete" and returns with the guard true.  In `arrow_state`, two calls
of `undo()` leave the last ADD on the redo stack and the guard set, and the
edit committed next does not clear the redo stack, which it does when it is
committed after the first `undo()` alone. -/
theorem arrowhead_default_keeps_guard :
    (∀ (E : Ext) (s s2 : State), s.freeze_redo_cleanup = false →
      (undo E s = some s2 →
        s2.freeze_redo_cleanup = false ∨
          ∃ a r, s.undo_stack = some a ∧ s.hist[a]? = some r ∧
            r.last_action = F_ADD_ARROW_HEAD ∧ r.last_object ≠ O_POLYLINE ∧
            r.last_object ≠ O_SPLINE ∧ r.last_object ≠ O_ARC) ∧
      (redo E s = some s2 →
        s2.freeze_redo_cleanup = false ∨
          ∃ a r, s.redo_stack = some a ∧ s.hist[a]? = some r ∧
            r.last_action = F_ADD_ARROW_HEAD ∧ r.last_object ≠ O_POLYLINE ∧
            r.last_object ≠ O_SPLINE ∧ r.last_object ≠ O_ARC)) ∧
    (∀ (E : Ext) (w : StackRef) (s : State) (a : Nat) (r : F_history),
      s.stk w = some a → s.hist[a]? = some r → r.last_action = F_ADD_ARROW_HEAD →
      r.last_object ≠ O_POLYLINE → r.last_object ≠ O_SPLINE → r.last_object ≠ O_ARC →
      undo_add_arrowhead E w s = some (s.setFreezeRedo true)) ∧
    (∀ E : Ext, (do_edits E [staged_arrow] init_state).freeze_redo_cleanup = false ∧
      (do_edits E [staged_arrow] init_state).undo_stack = some 0 ∧
      (undo E (do_edits E [staged_arrow] init_state)).map
          (fun s => (s.freeze_redo_cleanup, s.undo_stack, s.redo_stack, s.msgs)) =
        some (true, some 0, none, ["Undo complete"])) ∧
    (arrow_state.freeze_redo_cleanup = false ∧
      ((undo sampleExt arrow_state).bind (undo sampleExt)).map
          (fun s => (s.freeze_redo_cleanup, s.undo_stack, s.redo_stack)) =
        some (true, some 1, some 2) ∧
      (((undo sampleExt arrow_state).bind (undo sampleExt)).map
          (commit_edit sampleExt
            (set_latestline (some 0) (set_action_object F_ADD O_POLYLINE null_staging)))).map
          (fun s => (s.undo_stack, s.redo_stack)) =
        some (some 3, some 2) ∧
      ((undo sampleExt arrow_state).map
          (commit_edit sampleExt
            (set_latestline (some 0) (set_action_object F_ADD O_POLYLINE null_staging)))).map
          (fun s => (s.undo_stack, s.redo_stack)) =
        some (some 3, none)) :=
  ⟨fun _ _ _ hs => ⟨fun h => undo_guard h hs, fun h => redo_guard h hs⟩,
    fun _ _ _ _ _ ha hr _ h1 h2 h3 => add_arrowhead_default ha hr h1 h2 h3,
    fun _ => ⟨rfl, rfl, rfl⟩, by decide⟩

/-! ## The Staging Area read by the handlers -/

theorem join_split_static_branch {E : Ext} {w : StackRef} {s : State} {r : F_history}
    (ht : s.top w = some r) (hs : s.staging.last_object ≠ O_POLYLINE)
    (hn : r.saved_objects.splines = none) : undo_join_split E w s = none := by
  unfold undo_join_split
  simp [ht, hs, hn]

@[simp] theorem mapStaging_scene (s : State) (f : Staging → Staging) :
    (s.mapStaging f).scene = s.scene := rfl

@[simp] theorem top_mapStaging (s : State) (f : Staging → Staging) (w : StackRef) :
    (s.mapStaging f).top w = s.top w := by
  cases w <;> rfl

theorem setTop_mapStaging (s : State) (f : Staging → Staging) (w : StackRef)
    (g : F_history → F_history) :
    (s.mapStaging f).setTop w g = (s.setTop w g).map (fun x => x.mapStaging f) := by
  unfold State.setTop
  cases w <;> simp only [State.stk, State.mapStaging] <;> split <;> try rfl
  all_goals split <;> rfl

theorem pop_stack_mapStaging (s : State) (f : Staging → Staging) (w : StackRef) :
    pop_stack w (s.mapStaging f) = (pop_stack w s).map (fun x => x.mapStaging f) := by
  unfold pop_stack
  cases w <;> simp only [State.stk, State.mapStaging] <;> split <;> try rfl
  all_goals split <;> rfl

theorem swap_stack_mapStaging (s : State) (f : Staging → Staging) (w : StackRef) :
    swap_stack w (s.mapStaging f) = (swap_stack w s).map (fun x => x.mapStaging f) := by
  unfold swap_stack
  have e1 : (s.mapStaging f).stk w = s.stk w := by cases w <;> rfl
  have e2 : other_stack w (s.mapStaging f) = other_stack w s := by
    cases w <;> rfl
  rw [e1, e2, pop_stack_mapStaging]
  cases s.stk w with
  | none => rfl
  | some a =>
    simp only
    cases other_stack w s with
    | none => rfl
    | some o =>
      simp only
      cases pop_stack w s with
      | none => rfl
      | some s1 =>
        simp only [Option.map_some']
        have e3 : (s1.mapStaging f).hist = s1.hist := rfl
        rw [e3]
        cases s1.hist[a]? with
        | none => rfl
        | some r => cases o <;> cases w <;> rfl

theorem ext_mapStaging (E : Ext) (fn : Fn) (args : List Arg) (s : State) (f : Staging → Staging) :
    ext E fn args (s.mapStaging f) = (ext E fn args s).mapStaging f := rfl

theorem undo_add_mapStaging (E : Ext) (w : StackRef) (s : State) (f : Staging → Staging) :
    undo_add E w (s.mapStaging f) = (undo_add E w s).map (fun x => x.mapStaging f) := by
  unfold undo_add
  simp only [top_mapStaging, Option.bind_eq_bind]
  cases s.top w with
  | none => rfl
  | some r =>
    simp only [Option.some_bind]
    cases r.last_object <;>
      simp [ext_mapStaging, setTop_mapStaging, swap_stack_mapStaging, Option.map_bind,
        Option.bind_map, Function.comp_def]

theorem mapScene_mapStaging (s : State) (g : Scene → Scene) (f : Staging → Staging) :
    (s.mapStaging f).mapScene g = (s.mapScene g).mapStaging f := rfl

theorem change_objects_mapStaging {α : Type} [Linked α] (E : Ext) (k : ObjKind) (D : α → Int)
    (H : Scene → List α) (head : Ptr) (s : State) (f : Staging → Staging) :
    change_objects E k D H head (s.mapStaging f) =
      (change_objects E k D H head s).map (fun d => (d.1.mapStaging f, d.2)) := by
  unfold change_objects
  simp only [Option.bind_eq_bind, Option.pure_def]
  have e0 : (s.mapStaging f).scene = s.scene := rfl
  rw [e0]
  cases head with
  | none => rfl
  | some new_o =>
    simp only [Option.some_bind]
    cases (H s.scene)[new_o]? with
    | none => rfl
    | some n =>
      simp only [Option.some_bind]
      cases Linked.next n with
      | none => rfl
      | some old_o =>
        simp only [Option.some_bind]
        cases (H s.scene)[old_o]? with
        | none => rfl
        | some o =>
          simp only [Option.some_bind, ext_mapStaging]
          have e1 : ∀ x : State, (x.mapStaging f).scene = x.scene := fun _ => rfl
          rw [e1]
          cases (H (ext E .remove_depth [.kind k, .int (D o)] s).scene)[new_o]? with
          | none => rfl
          | some n1 =>
            simp only [Option.some_bind, e1]
            cases swap_payload (H (ext E .add_depth [.kind k, .int (D n1)]
              (ext E .remove_depth [.kind k, .int (D o)] s)).scene) old_o new_o <;> rfl

theorem undo_change_mapStaging (E : Ext) (w : StackRef) (s : State) (f : Staging → Staging) :
    undo_change E w (s.mapStaging f) = (undo_change E w s).map (fun x => x.mapStaging f) := by
  unfold undo_change
  simp only [top_mapStaging, Option.bind_eq_bind]
  cases s.top w with
  | none => rfl
  | some r =>
    simp only [Option.some_bind]
    cases r.last_object <;>
      simp [ext_mapStaging, setTop_mapStaging, swap_stack_mapStaging, Option.map_bind,
        Option.bind_map, Function.comp_def, change_objects_mapStaging, mapScene_mapStaging]

theorem scale_objects_mapStaging {α : Type} [Linked α] (E : Ext) (k : ObjKind) (D : α → Int)
    (H : Scene → List α) (g h : Fn) (head : Ptr) (s : State) (f : Staging → Staging) :
    scale_objects E k D H g h head (s.mapStaging f) =
      (scale_objects E k D H g h head s).map (fun d => (d.1.mapStaging f, d.2)) := by
  unfold scale_objects
  simp only [Option.bind_eq_bind, Option.pure_def, mapStaging_scene]
  cases head with
  | none => rfl
  | some new_o =>
    simp only [Option.some_bind]
    cases (H s.scene)[new_o]? with
    | none => rfl
    | some n =>
      simp only [Option.some_bind]
      cases Linked.next n with
      | none => rfl
      | some old_o =>
        simp only [Option.some_bind]
        cases (H s.scene)[old_o]? with
        | none => rfl
        | some o =>
          simp only [Option.some_bind, ext_mapStaging, mapStaging_scene]
          cases (H (ext E .remove_depth [.kind k, .int (D o)] s).scene)[new_o]? <;> rfl

theorem undo_delete_mapStaging (E : Ext) (w : StackRef) (s : State) (f : Staging → Staging)
    (r : F_history) (ht : s.top w = some r) (hk : r.last_object ≠ O_FIGURE) :
    undo_delete E w (s.mapStaging f) = (undo_delete E w s).map (fun x => x.mapStaging f) := by
  unfold undo_delete
  simp only [top_mapStaging, Option.bind_eq_bind, ht, Option.some_bind]
  cases hc : r.last_object <;>
    first
    | exact absurd hc hk
    | simp [ext_mapStaging, setTop_mapStaging, swap_stack_mapStaging, Option.map_bind,
        Option.bind_map, Function.comp_def, mapScene_mapStaging]

theorem undo_move_mapStaging (E : Ext) (w : StackRef) (s : State) (f : Staging → Staging)
    (r : F_history) (ht : s.top w = some r) (h1 : r.last_object ≠ O_POLYLINE)
    (h2 : r.last_object ≠ O_TXT) (h3 : r.last_object ≠ O_COMPOUND) :
    undo_move E w (s.mapStaging f) = (undo_move E w s).map (fun x => x.mapStaging f) := by
  unfold undo_move
  simp only [top_mapStaging, Option.bind_eq_bind, ht, Option.some_bind]
  have e : move_switch E r (int_sub r.last_x r.new_x) (int_sub r.last_y r.new_y)
      (s.mapStaging f) =
      (move_switch E r (int_sub r.last_x r.new_x) (int_sub r.last_y r.new_y) s).mapStaging f := by
    unfold move_switch
    cases hc : r.last_object <;>
      first
      | exact absurd hc h1
      | exact absurd hc h2
      | exact absurd hc h3
      | rfl
  rw [e]
  simp [swap_newp_lastp, setTop_mapStaging, swap_stack_mapStaging, Option.map_bind,
    Option.bind_map, Function.comp_def]

theorem undo_glue_mapStaging (E : Ext) (w : StackRef) (s : State) (f : Staging → Staging) :
    undo_glue E w (s.mapStaging f) = (undo_glue E w s).map (fun x => x.mapStaging f) := by
  unfold undo_glue
  simp only [top_mapStaging, Option.bind_eq_bind]
  cases s.top w with
  | none => rfl
  | some r =>
    simp only [Option.some_bind, ext_mapStaging, setTop_mapStaging, Option.map_bind,
      Option.bind_map, Function.comp_def]
    congr 1
    funext s1
    simp only [ext_mapStaging, mapStaging_scene]
    split <;> simp [swap_stack_mapStaging, ext_mapStaging]

theorem undo_break_mapStaging (E : Ext) (w : StackRef) (s : State) (f : Staging → Staging) :
    undo_break E w (s.mapStaging f) = (undo_break E w s).map (fun x => x.mapStaging f) := by
  unfold undo_break
  simp only [top_mapStaging, Option.bind_eq_bind]
  cases s.top w with
  | none => rfl
  | some r =>
    simp [ext_mapStaging, setTop_mapStaging, swap_stack_mapStaging, Option.map_bind,
      Option.bind_map, Function.comp_def]

theorem undo_load_mapStaging (E : Ext) (w : StackRef) (s : State) (f : Staging → Staging) :
    undo_load E w (s.mapStaging f) = (undo_load E w s).map (fun x => x.mapStaging f) := by
  unfold undo_load
  simp only [top_mapStaging, Option.bind_eq_bind]
  cases s.top w with
  | none => rfl
  | some r =>
    simp only [Option.some_bind, mapStaging_scene, mapScene_mapStaging, setTop_mapStaging]
    cases (s.mapScene fun sc => { sc with objects := r.saved_objects }).setTop w
        (fun r => { r with saved_objects := s.scene.objects }) with
    | none => rfl
    | some s1 =>
      simp only [Option.map_some', Option.some_bind, mapStaging_scene]
      rw [ext_mapStaging, mapScene_mapStaging, ext_mapStaging, ext_mapStaging, ext_mapStaging,
        mapScene_mapStaging, mapScene_mapStaging, ext_mapStaging, ext_mapStaging, ext_mapStaging,
        setTop_mapStaging]
      generalize State.setTop _ w _ = X
      cases X with
      | none => rfl
      | some s3 => exact swap_stack_mapStaging s3 f w

theorem undo_scale_mapStaging (E : Ext) (w : StackRef) (s : State) (f : Staging → Staging) :
    undo_scale E w (s.mapStaging f) = (undo_scale E w s).map (fun x => x.mapStaging f) := by
  unfold undo_scale
  simp only [top_mapStaging, Option.bind_eq_bind]
  cases s.top w with
  | none => rfl
  | some r =>
    simp only [Option.some_bind]
    cases r.last_object <;>
      simp [ext_mapStaging, setTop_mapStaging, swap_stack_mapStaging, Option.map_bind,
        Option.bind_map, Function.comp_def, scale_objects_mapStaging, mapScene_mapStaging]

theorem undo_delete_arrowhead_mapStaging (E : Ext) (w : StackRef) (s : State)
    (f : Staging → Staging) :
    undo_delete_arrowhead E w (s.mapStaging f) =
      (undo_delete_arrowhead E w s).map (fun x => x.mapStaging f) := by
  unfold undo_delete_arrowhead
  simp only [top_mapStaging, Option.bind_eq_bind]
  cases s.top w with
  | none => rfl
  | some r =>
    simp only [Option.some_bind]
    cases r.last_object <;>
      simp [delete_arrowhead_tail, ext_mapStaging, setTop_mapStaging, swap_stack_mapStaging,
        Option.map_bind, Option.bind_map, Function.comp_def, mapScene_mapStaging]

theorem dispatch_mapStaging {E : Ext} {w : StackRef} {s : State} {r : F_history}
    {handler : State → Option State} (f : Staging → Staging) (ht : s.top w = some r)
    (h : record_only r = true) (hk : dispatch E w r.last_action = some handler) :
    handler (s.mapStaging f) = (handler s).map (fun x => x.mapStaging f) := by
  unfold record_only at h
  cases hc : r.last_action <;> rw [hc] at h hk <;> simp [dispatch] at h hk <;> subst hk
  · exact undo_add_mapStaging E w s f
  · refine undo_delete_mapStaging E w s f r ht ?_
    intro e
    rw [e] at h
    simp at h
  · refine undo_move_mapStaging E w s f r ht ?_ ?_ ?_ <;>
      (intro e; rw [e] at h; simp at h)
  · exact undo_change_mapStaging E w s f
  · exact undo_glue_mapStaging E w s f
  · exact undo_break_mapStaging E w s f
  · exact undo_load_mapStaging E w s f
  · exact undo_scale_mapStaging E w s f
  · exact undo_delete_arrowhead_mapStaging E w s f

theorem undo_mapStaging {E : Ext} {s : State} {a : Nat} {r : F_history}
    (f : Staging → Staging) (ha : s.undo_stack = some a) (hr : s.hist[a]? = some r)
    (h : record_only r = true) :
    undo E (s.mapStaging f) = (undo E s).map (fun x => x.mapStaging f) := by
  have ht : (setCompLED 0 s).top .undo = some r := by
    simp [State.top, State.stk, ha, hr]
  have e0 : setCompLED 0 (s.mapStaging f) = (setCompLED 0 s).mapStaging f := rfl
  unfold undo
  simp only [e0, mapStaging_undo_stack, mapStaging_hist, setCompLED_undo_stack,
    setCompLED_hist, ha, hr]
  cases hk : dispatch E .undo r.last_action with
  | none => rfl
  | some handler =>
    simp only [dispatch_mapStaging f ht h hk]
    cases handler (setCompLED 0 s) <;> rfl

theorem redo_mapStaging {E : Ext} {s : State} {a : Nat} {r : F_history}
    (f : Staging → Staging) (ha : s.redo_stack = some a) (hr : s.hist[a]? = some r)
    (h : record_only r = true) :
    redo E (s.mapStaging f) = (redo E s).map (fun x => x.mapStaging f) := by
  have ht : (setCompLED 0 s).top .redo = some r := by
    simp [State.top, State.stk, ha, hr]
  have e0 : setCompLED 0 (s.mapStaging f) = (setCompLED 0 s).mapStaging f := rfl
  unfold redo
  simp only [e0, mapStaging_redo_stack, mapStaging_hist, setCompLED_redo_stack,
    setCompLED_hist, ha, hr]
  cases hk : dispatch E .redo r.last_action with
  | none => rfl
  | some handler =>
    simp only [dispatch_mapStaging f ht h hk]
    cases handler (setCompLED 0 s) <;> rfl

/-- C19 fails for JOIN/SPLIT and MOVE, and holds for the handlers that read
only the record.  Changing the Staging Area of a state changes neither its
scene, its records, its stacks nor its guards.  Whatever the collaborators,
on an ADD, EDIT, GLUE, BREAK, LOAD, SCALE or DELETE_ARROW_HEAD record, a
DELETE other than of a whole figure and a MOVE other than of a line, a text or
a compound, `undo()` and `redo()` in the changed state do what they do in the
original one and leave the changed Staging Area as it is.  Yet
`undo_join_split` chooses its branch by the staged `last_object` (line 256):
whatever the collaborators, when that is not a polyline and the dispatched
record saves no spline, the handler follows the null `saved_objects->splines`.
So `undo()` on the committed JOIN of two polylines exchanges them and moves
the record to the redo stack, and faults once an object kind other than
polyline has been staged, for instance when an ADD of a spline was committed
after the JOIN and then undone.  And `undo_move` hands the staged link mode
and link pointer to `adjust_links` (lines 767, 803): on the committed MOVE of
`moved_state` the call gets `1` and the pointer `9`, and after other link
information has been staged it gets `0` and the null pointer. -/
theorem handlers_read_staging :
    (∀ (f : Staging → Staging) (s : State),
      (s.mapStaging f).scene = s.scene ∧ (s.mapStaging f).hist = s.hist ∧
      (s.mapStaging f).undo_stack = s.undo_stack ∧ (s.mapStaging f).redo_stack = s.redo_stack ∧
      (s.mapStaging f).freeze_redo_cleanup = s.freeze_redo_cleanup ∧
      (s.mapStaging f).freeze_undo_additions = s.freeze_undo_additions) ∧
    (∀ (E : Ext) (f : Staging → Staging) (s : State) (a : Nat) (r : F_history),
      s.hist[a]? = some r → record_only r = true →
      (s.undo_stack = some a →
        undo E (s.mapStaging f) = (undo E s).map (fun x => x.mapStaging f)) ∧
      (s.redo_stack = some a →
        redo E (s.mapStaging f) = (redo E s).map (fun x => x.mapStaging f))) ∧
    (∀ (E : Ext) (w : StackRef) (s : State) (r : F_history), s.top w = some r →
      s.staging.last_object ≠ O_POLYLINE → r.saved_objects.splines = none →
      undo_join_split E w s = none) ∧
    ((undo sampleExt joined_state).map (fun s => (s.trace, s.undo_stack, s.redo_stack)) =
        some ([⟨.redisplay_lines, [.ptr (some 0), .ptr (some 1)]⟩], none, some 0) ∧
      undo sampleExt (joined_state.mapStaging (set_action_object F_ADD O_SPLINE)) = none) ∧
    ((undo_n sampleExt 2
          (join_then (set_latestline (some 0)
            (set_action_object F_ADD O_POLYLINE null_staging)))).map
          (fun s => (s.undo_stack, s.redo_stack)) = some (none, some 0) ∧
      undo_n sampleExt 2
          (join_then (set_latestspline (some 0)
            (set_action_object F_ADD O_SPLINE null_staging))) = none) ∧
    ((undo sampleExt moved_state).map (fun s => s.trace) =
        some [⟨.line_bound, [.ptr (some 0)]⟩,
          ⟨.translate_line, [.ptr (some 0), .int (-5), .int 3]⟩,
          ⟨.line_bound, [.ptr (some 0)]⟩,
          ⟨.adjust_links, [.int 1, .ptr (some 9), .int (-5), .int 3]⟩,
          ⟨.redisplay_regions, []⟩] ∧
      (undo sampleExt (moved_state.mapStaging (set_lastlinkinfo 0 none))).map
          (fun s => s.trace) =
        some [⟨.line_bound, [.ptr (some 0)]⟩,
          ⟨.translate_line, [.ptr (some 0), .int (-5), .int 3]⟩,
          ⟨.line_bound, [.ptr (some 0)]⟩,
          ⟨.adjust_links, [.int 0, .ptr none, .int (-5), .int 3]⟩,
          ⟨.redisplay_regions, []⟩]) :=
  ⟨fun _ _ => ⟨rfl, rfl, rfl, rfl, rfl, rfl⟩,
    fun _ f _ _ _ hr h =>
      ⟨fun ha => undo_mapStaging f ha hr h, fun ha => redo_mapStaging f ha hr h⟩,
    fun _ _ _ _ ht hs hn => join_split_static_branch ht hs hn,
    by decide, by decide, by decide⟩

end XfigUndo
